import Mathlib

/-!
# Reduction operator of the MACE runtime (`mace/ops/reduce.cc`)

A shallow embedding of the CPU reduction operator: axis validation, the shape
simplifier that collapses an N-dimensional reduction into at most four groups,
the rank-specialised kernels and the `Run` entry point, followed by theorems
about them. Further sections embed the `uint8_t` specialisation, the local work
sizes and the kernel cache of the OpenCL 1x1 and 3x3 convolutions,
`LSTMCellKernel::Compute`, the device placement of `Reduce` and the life cycle
of `ApuWrapper`.

Conventions of the embedding
* dimension sizes, loop counters and buffer positions are natural numbers
  (sizes and element counts are taken to fit `int` and `index_t`);
* the elements of the generic kernels are mathematical integers. The kernels
  of the embedding return what an instantiation for `float`, `bfloat16` or
  `int` returns whenever every sum, product and quotient it forms is an integer
  the element type represents exactly; the theorems whose conclusion depends on
  such arithmetic assume this of every cell (`cellFits`);
* the `uint32_t`, `int32_t` and `float` arithmetic of the `uint8_t` kernels is
  the machine arithmetic: remainders modulo `2^32`, two's complement (`toI32`)
  and rounding to binary32 (`f32`);
* a counted `for` loop is `forRange lo hi body`, the fold of `body` over
  `lo, lo+1, ..., hi-1`;
* a failed `MACE_CHECK` / `MACE_NOT_IMPLEMENTED` is `Except.error` with the
  message of the check;
* buffers are lists; a read outside a buffer yields 0 and a write outside it is
  dropped (both are undefined behaviour in the source and are not reached on
  the inputs the theorems speak about).
-/

namespace Mace

/-! ## Data model -/

/-- Modelled from the spec: the reduce-type enum `MEAN|MIN|MAX|SUM|PROD` of
`mace/ops/common/reduce_type.h`, which is not part of the sources at hand.
`OTHER` stands for any integer argument that `static_cast<ReduceType>` turns
into a value outside the five enumerators. -/
inductive ReduceType where
  | MEAN
  | MIN
  | MAX
  | PROD
  | SUM
  | OTHER
  deriving DecidableEq, Repr

/-- Modelled from the spec: the `TensorView` of the data model (class `Tensor`
of `mace/core/tensor.h`, not part of the sources at hand): dimension sizes, a
flat row-major element buffer, and the quantisation parameters. -/
structure Tensor where
  shape : List Nat
  data : List Int
  scale : Rat
  zero_point : Int
  deriving DecidableEq, Repr

/-- Operator state: the members of `ReduceOpBase` (`reduce_type_`, `axis_`,
`keep_dims_`), the argument `has_data_format` and the element-type test
`DataTypeToEnum<T>::v() == DT_UINT8` read by `Simplify`, and the private plan
members of `ReduceOp<RT_CPU, T>`. -/
structure ReduceOp where
  reduce_type_ : ReduceType
  axis_ : List Int
  keep_dims_ : Bool
  has_data_format : Int
  is_uint8 : Bool
  reduce_first_axis_ : Bool
  data_reshape_ : List Nat
  out_shape_ : List Nat
  deriving DecidableEq, Repr

/-- Counted loop `for (i = lo; i < hi; ++i) s = body i s`. -/
def forRange {σ : Type} (lo hi : Nat) (body : Nat → σ → σ) (s : σ) : σ :=
  (List.range' lo (hi - lo)).foldl (fun st i => body i st) s

/-- Product of the entries of a shape (the element count). -/
def shapeProd (shape : List Nat) : Nat := shape.prod

/-! ## `ReduceOpBase::Validate` -/

/-- The loop of `Validate`: `MACE_CHECK(axis_[i] > left && axis_[i] < right)`
for each entry in turn. -/
def checkAxes (left right : Int) : List Int → Except String Unit
  | [] => Except.ok ()
  | a :: rest =>
    if a > left ∧ a < right then checkAxes left right rest
    else Except.error "Axis is over range."

/-- `ReduceOpBase::Validate` for an input of rank `dim_size`. -/
def Validate (op : ReduceOp) (dim_size : Nat) : Except String Unit :=
  let left : Int := (dim_size : Int) * -1
  let right : Int := (dim_size : Int)
  if op.axis_.length ≠ 0 then checkAxes left right op.axis_ else Except.ok ()

/-! ## `ReduceOp<RT_CPU, T>::Simplify` -/

/-- The bitmap index computed for one axis entry: negative axes count from the
end, and a format-aware non-uint8 rank-4 input remaps 1→2, 2→3, 3→1. -/
def axisIndex (has_df : Int) (is_uint8 : Bool) (dim_size : Nat) (a : Int) : Int :=
  let index : Int := if a ≥ 0 then a else a + (dim_size : Int)
  if has_df ≠ 0 ∧ is_uint8 = false ∧ dim_size = 4 then
    if index = 1 ∨ index = 2 then index + 1
    else if index = 3 then 1
    else index
  else index

/-- The write `bitmap[index] = true`. An index outside the bitmap is undefined
behaviour in the source (never reached after `Validate`); the embedding leaves
the bitmap as it is there. -/
def setBit (bitmap : List Bool) (index : Int) : List Bool :=
  if 0 ≤ index then bitmap.set index.toNat true else bitmap

/-- First part of `Simplify`: the is-reduced bitmap. -/
def markAxes (op : ReduceOp) (dim_size : Nat) (bitmap : List Bool) : List Bool :=
  if op.axis_.isEmpty then
    forRange 0 dim_size (fun i bm => bm.set i true) bitmap
  else
    op.axis_.foldl
      (fun bm a => setBit bm (axisIndex op.has_data_format op.is_uint8 dim_size a)) bitmap

/-- Second part of `Simplify`: the loop that fills `out_shape_`. -/
def outShapeLoop (shape : List Nat) (bitmap : List Bool) (keep_dims : Bool) : List Nat :=
  forRange 0 shape.length
    (fun i out =>
      if !(bitmap.getD i false) then out ++ [shape.getD i 0]
      else if keep_dims then out ++ [1]
      else out) []

/-- The scan `for (; dim_index < dim_size; ++dim_index) if (dim != 1) break;`,
with the number of remaining iterations as the recursion argument; the result
is the value of `dim_index` after the loop. -/
def scanUnitDims (shape : List Nat) : Nat → Nat → Nat
  | 0, dim_index => dim_index
  | n + 1, dim_index =>
    if shape.getD dim_index 0 ≠ 1 then dim_index
    else scanUnitDims shape n (dim_index + 1)

/-- The statement `data_reshape_.back() *= n`. -/
def mulBack (data_reshape : List Nat) (n : Nat) : List Nat :=
  data_reshape.set (data_reshape.length - 1)
    (data_reshape.getD (data_reshape.length - 1) 0 * n)

/-- Body of the collapsing loop of `Simplify` on the state
`(bitmap, data_reshape_)`. -/
def collapseStep (shape : List Nat) (dim_index : Nat)
    (st : List Bool × List Nat) : List Bool × List Nat :=
  let n := shape.getD dim_index 0
  let bitmap :=
    if n = 1 then st.1.set dim_index (st.1.getD (dim_index - 1) false) else st.1
  if bitmap.getD (dim_index - 1) false ≠ bitmap.getD dim_index false then
    (bitmap, st.2 ++ [n])
  else
    (bitmap, mulBack st.2 n)

/-- `ReduceOp<RT_CPU, T>::Simplify` on an input of the given shape: the new
operator state, with `out_shape_`, `reduce_first_axis_` and `data_reshape_`
recomputed. -/
def Simplify (op : ReduceOp) (shape : List Nat) : ReduceOp :=
  let dim_size := shape.length
  let bitmap := markAxes op dim_size (List.replicate dim_size false)
  let out_shape := outShapeLoop shape bitmap op.keep_dims_
  let dim_index := scanUnitDims shape dim_size 0
  if dim_index ≥ dim_size then
    { op with out_shape_ := out_shape, reduce_first_axis_ := true, data_reshape_ := [1] }
  else
    let st := forRange (dim_index + 1) dim_size (collapseStep shape)
      (bitmap, [shape.getD dim_index 0])
    { op with
      out_shape_ := out_shape
      reduce_first_axis_ := bitmap.getD dim_index false
      data_reshape_ := st.2 }

/-- An operator instance with the given configuration and an empty plan. -/
def mkOp (type : ReduceType) (axis : List Int) (keep_dims : Bool)
    (has_df : Int) (is_uint8 : Bool) : ReduceOp :=
  { reduce_type_ := type, axis_ := axis, keep_dims_ := keep_dims,
    has_data_format := has_df, is_uint8 := is_uint8,
    reduce_first_axis_ := false, data_reshape_ := [], out_shape_ := [] }

/-! ## The generic kernels `Reduce1Dims` .. `Reduce4Dims`

Buffers are lists of integers; `input[i]` is `input.getD i 0`, `output[i] = v`
is `output.set i v`. Each lambda handed to the thread pool is a definition of
its own, taking the range it is called on. The accumulator `T tmp` and the
elements `output[i]` hold mathematical integers and `+`, `*`, `/` are the exact
operations (`/` truncating): for the element types `float`, `bfloat16` and `int`
this is the arithmetic of the source on the cells that satisfy `cellFits`, and
only there. -/

deriving instance DecidableEq for Except

/-- Partition loop `for (index_t i = start; i < end; i += step)`. The thread
pool calls the kernels with `step = 1`; for `step = 0` the loop of the
embedding does not iterate. -/
def forStep {σ : Type} (start end_ step : Nat) (body : Nat → σ → σ) (s : σ) : σ :=
  (List.range' start ((end_ - start + step - 1) / step) step).foldl
    (fun st i => body i st) s

/-- The statement `output[idx] += v`, exact (see the head of the section). -/
def addAt (output : List Int) (idx : Nat) (v : Int) : List Int :=
  output.set idx (output.getD idx 0 + v)

/-- The statement `output[idx] /= c` on integers (truncating division). -/
def divAt (output : List Int) (idx : Nat) (c : Nat) : List Int :=
  output.set idx ((output.getD idx 0).tdiv (c : Int))

/-- The call `memcpy(output, input, n * sizeof(T))`. -/
def memcpy (output input : List Int) (n : Nat) : List Int :=
  input.take n ++ output.drop n

/-- `MACE_NOT_IMPLEMENTED` -/
def notImplemented {α : Type} : Except String α := Except.error "not implemented"

/-- `ReduceOp<RT_CPU, T>::Reduce1Dims` -/
def Reduce1Dims (op : ReduceOp) (input : List Int) (type : ReduceType)
    (output : List Int) : Except String (List Int) :=
  let d0 := op.data_reshape_.getD 0 0
  if op.reduce_first_axis_ then
    match type with
    | ReduceType.MEAN =>
      let tmp := forRange 0 d0 (fun i tmp => tmp + input.getD i 0) 0
      Except.ok (output.set 0 (tmp.tdiv (d0 : Int)))
    | ReduceType.MIN =>
      let tmp := forRange 1 d0 (fun i tmp => min tmp (input.getD i 0)) (input.getD 0 0)
      Except.ok (output.set 0 tmp)
    | ReduceType.MAX =>
      let tmp := forRange 1 d0 (fun i tmp => max tmp (input.getD i 0)) (input.getD 0 0)
      Except.ok (output.set 0 tmp)
    | ReduceType.PROD =>
      let tmp := forRange 1 d0 (fun i tmp => tmp * input.getD i 0) (input.getD 0 0)
      Except.ok (output.set 0 tmp)
    | ReduceType.SUM =>
      let tmp := forRange 0 d0 (fun i tmp => tmp + input.getD i 0) 0
      Except.ok (output.set 0 tmp)
    | ReduceType.OTHER => notImplemented
  else
    Except.ok (memcpy output input d0)

/-- The lambda of `Reduce2Dims` in the branch `reduce_first_axis_`. -/
def Reduce2DimsFirstFn (op : ReduceOp) (input : List Int) (type : ReduceType)
    (start end_ step : Nat) (output : List Int) : Except String (List Int) :=
  let d0 := op.data_reshape_.getD 0 0
  let d1 := op.data_reshape_.getD 1 0
  match type with
  | ReduceType.MEAN =>
    Except.ok (forStep start end_ step (fun i output =>
      let tmp := forRange 0 d0 (fun j tmp => tmp + input.getD (j * d1 + i) 0) 0
      output.set i (tmp.tdiv (d0 : Int))) output)
  | ReduceType.MIN =>
    Except.ok (forStep start end_ step (fun i output =>
      let tmp := forRange 1 d0 (fun j tmp => min tmp (input.getD (j * d1 + i) 0))
        (input.getD i 0)
      output.set i tmp) output)
  | ReduceType.MAX =>
    Except.ok (forStep start end_ step (fun i output =>
      let tmp := forRange 1 d0 (fun j tmp => max tmp (input.getD (j * d1 + i) 0))
        (input.getD i 0)
      output.set i tmp) output)
  | ReduceType.PROD =>
    Except.ok (forStep start end_ step (fun i output =>
      let tmp := forRange 1 d0 (fun j tmp => tmp * input.getD (j * d1 + i) 0)
        (input.getD i 0)
      output.set i tmp) output)
  | ReduceType.SUM =>
    Except.ok (forStep start end_ step (fun i output =>
      let tmp := forRange 0 d0 (fun j tmp => tmp + input.getD (j * d1 + i) 0) 0
      output.set i tmp) output)
  | ReduceType.OTHER => notImplemented

/-- The lambda of `Reduce2Dims` in the branch `!reduce_first_axis_`. -/
def Reduce2DimsSecondFn (op : ReduceOp) (input : List Int) (type : ReduceType)
    (start end_ step : Nat) (output : List Int) : Except String (List Int) :=
  let d1 := op.data_reshape_.getD 1 0
  match type with
  | ReduceType.MEAN =>
    Except.ok (forStep start end_ step (fun i output =>
      let tmp := forRange 0 d1 (fun j tmp => tmp + input.getD (i * d1 + j) 0) 0
      output.set i (tmp.tdiv (d1 : Int))) output)
  | ReduceType.MIN =>
    Except.ok (forStep start end_ step (fun i output =>
      let tmp := forRange 1 d1 (fun j tmp => min tmp (input.getD (i * d1 + j) 0))
        (input.getD (i * d1) 0)
      output.set i tmp) output)
  | ReduceType.MAX =>
    Except.ok (forStep start end_ step (fun i output =>
      let tmp := forRange 1 d1 (fun j tmp => max tmp (input.getD (i * d1 + j) 0))
        (input.getD (i * d1) 0)
      output.set i tmp) output)
  | ReduceType.PROD =>
    Except.ok (forStep start end_ step (fun i output =>
      let tmp := forRange 1 d1 (fun j tmp => tmp * input.getD (i * d1 + j) 0)
        (input.getD (i * d1) 0)
      output.set i tmp) output)
  | ReduceType.SUM =>
    Except.ok (forStep start end_ step (fun i output =>
      let tmp := forRange 0 d1 (fun j tmp => tmp + input.getD (i * d1 + j) 0) 0
      output.set i tmp) output)
  | ReduceType.OTHER => notImplemented

/-- Modelled from the spec: `ThreadPool::Compute1D(partitionFn, start, end,
step)` of the thread pool, which is not part of the sources at hand: it calls
`partitionFn` on non-overlapping, collectively exhaustive ranges and blocks
until all have completed. This is the schedule with a single range. -/
def Compute1D (partitionFn : Nat → Nat → Nat → List Int → Except String (List Int))
    (start end_ step : Nat) (output : List Int) : Except String (List Int) :=
  partitionFn start end_ step output

/-- Modelled from the spec: `ThreadPool::Compute2D(partitionFn, start0, end0,
step0, start1, end1, step1)` of the thread pool, which is not part of the
sources at hand; the schedule with a single tile. -/
def Compute2D
    (partitionFn : Nat → Nat → Nat → Nat → Nat → Nat → List Int → Except String (List Int))
    (start0 end0 step0 start1 end1 step1 : Nat) (output : List Int) :
    Except String (List Int) :=
  partitionFn start0 end0 step0 start1 end1 step1 output

/-- `ReduceOp<RT_CPU, T>::Reduce2Dims` -/
def Reduce2Dims (op : ReduceOp) (input : List Int) (type : ReduceType)
    (output : List Int) : Except String (List Int) :=
  if op.reduce_first_axis_ then
    Compute1D (Reduce2DimsFirstFn op input type) 0 (op.data_reshape_.getD 1 0) 1 output
  else
    Compute1D (Reduce2DimsSecondFn op input type) 0 (op.data_reshape_.getD 0 0) 1 output

/-- The lambda of `Reduce3Dims` in the branch `reduce_first_axis_`. -/
def Reduce3DimsFirstFn (op : ReduceOp) (input : List Int) (type : ReduceType)
    (start end_ step : Nat) (output : List Int) : Except String (List Int) :=
  let d0 := op.data_reshape_.getD 0 0
  let d1 := op.data_reshape_.getD 1 0
  let d2 := op.data_reshape_.getD 2 0
  match type with
  | ReduceType.MEAN =>
    Except.ok (forStep start end_ step (fun i output =>
      let output := forRange 0 d2 (fun j output =>
        forRange 0 d0 (fun k output =>
          addAt output i (input.getD ((k * d1 + i) * d2 + j) 0)) output) output
      divAt output i (d0 * d2)) output)
  | ReduceType.MIN =>
    Except.ok (forStep start end_ step (fun i output =>
      let tmp := forRange 0 d2 (fun j tmp =>
        forRange 0 d0 (fun k tmp =>
          min tmp (input.getD ((k * d1 + i) * d2 + j) 0)) tmp) (input.getD (i * d2) 0)
      output.set i tmp) output)
  | ReduceType.MAX =>
    Except.ok (forStep start end_ step (fun i output =>
      let tmp := forRange 0 d2 (fun j tmp =>
        forRange 0 d0 (fun k tmp =>
          max tmp (input.getD ((k * d1 + i) * d2 + j) 0)) tmp) (input.getD (i * d2) 0)
      output.set i tmp) output)
  | ReduceType.PROD =>
    Except.ok (forStep start end_ step (fun i output =>
      let tmp := forRange 0 d2 (fun j tmp =>
        forRange 0 d0 (fun k tmp =>
          tmp * input.getD ((k * d1 + i) * d2 + j) 0) tmp) 1
      output.set i tmp) output)
  | ReduceType.SUM =>
    Except.ok (forStep start end_ step (fun i output =>
      forRange 0 d2 (fun j output =>
        forRange 0 d0 (fun k output =>
          addAt output i (input.getD ((k * d1 + i) * d2 + j) 0)) output) output) output)
  | ReduceType.OTHER => notImplemented

/-- The lambda of `Reduce3Dims` in the branch `!reduce_first_axis_`. -/
def Reduce3DimsSecondFn (op : ReduceOp) (input : List Int) (type : ReduceType)
    (start end_ step : Nat) (output : List Int) : Except String (List Int) :=
  let d1 := op.data_reshape_.getD 1 0
  let d2 := op.data_reshape_.getD 2 0
  match type with
  | ReduceType.MEAN =>
    Except.ok (forStep start end_ step (fun i output =>
      forRange 0 d2 (fun j output =>
        let output := forRange 0 d1 (fun k output =>
          addAt output (i * d2 + j) (input.getD ((i * d1 + k) * d2 + j) 0)) output
        divAt output (i * d2 + j) d1) output) output)
  | ReduceType.MIN =>
    Except.ok (forStep start end_ step (fun i output =>
      forRange 0 d2 (fun j output =>
        let tmp := forRange 1 d1 (fun k tmp =>
          min tmp (input.getD ((i * d1 + k) * d2 + j) 0)) (input.getD (i * d1 * d2 + j) 0)
        output.set (i * d2 + j) tmp) output) output)
  | ReduceType.MAX =>
    Except.ok (forStep start end_ step (fun i output =>
      forRange 0 d2 (fun j output =>
        let tmp := forRange 1 d1 (fun k tmp =>
          max tmp (input.getD ((i * d1 + k) * d2 + j) 0)) (input.getD (i * d1 * d2 + j) 0)
        output.set (i * d2 + j) tmp) output) output)
  | ReduceType.PROD =>
    Except.ok (forStep start end_ step (fun i output =>
      forRange 0 d2 (fun j output =>
        let tmp := forRange 1 d1 (fun k tmp =>
          tmp * input.getD ((i * d1 + k) * d2 + j) 0) (input.getD (i * d1 * d2 + j) 0)
        output.set (i * d2 + j) tmp) output) output)
  | ReduceType.SUM =>
    Except.ok (forStep start end_ step (fun i output =>
      forRange 0 d2 (fun j output =>
        forRange 0 d1 (fun k output =>
          addAt output (i * d2 + j) (input.getD ((i * d1 + k) * d2 + j) 0)) output)
        output) output)
  | ReduceType.OTHER => notImplemented

/-- `ReduceOp<RT_CPU, T>::Reduce3Dims` -/
def Reduce3Dims (op : ReduceOp) (input : List Int) (type : ReduceType)
    (output : List Int) : Except String (List Int) :=
  if op.reduce_first_axis_ then
    Compute1D (Reduce3DimsFirstFn op input type) 0 (op.data_reshape_.getD 1 0) 1 output
  else
    Compute1D (Reduce3DimsSecondFn op input type) 0 (op.data_reshape_.getD 0 0) 1 output

/-- The lambda of `Reduce4Dims` in the branch `reduce_first_axis_`. -/
def Reduce4DimsFirstFn (op : ReduceOp) (input : List Int) (type : ReduceType)
    (start0 end0 step0 start1 end1 step1 : Nat) (output : List Int) :
    Except String (List Int) :=
  let d0 := op.data_reshape_.getD 0 0
  let d1 := op.data_reshape_.getD 1 0
  let d2 := op.data_reshape_.getD 2 0
  let d3 := op.data_reshape_.getD 3 0
  match type with
  | ReduceType.MEAN =>
    Except.ok (forStep start0 end0 step0 (fun i output =>
      forStep start1 end1 step1 (fun j output =>
        let output := forRange 0 d2 (fun k output =>
          forRange 0 d0 (fun t output =>
            addAt output (i * d3 + j)
              (input.getD (((t * d1 + i) * d2 + k) * d3 + j) 0)) output) output
        divAt output (i * d3 + j) (d0 * d2)) output) output)
  | ReduceType.MIN =>
    Except.ok (forStep start0 end0 step0 (fun i output =>
      forStep start1 end1 step1 (fun j output =>
        let tmp := forRange 0 d2 (fun k tmp =>
          forRange 0 d0 (fun t tmp =>
            min tmp (input.getD (((t * d1 + i) * d2 + k) * d3 + j) 0)) tmp)
          (input.getD (i * d2 * d3 + j) 0)
        output.set (i * d3 + j) tmp) output) output)
  | ReduceType.MAX =>
    Except.ok (forStep start0 end0 step0 (fun i output =>
      forStep start1 end1 step1 (fun j output =>
        let tmp := forRange 0 d2 (fun k tmp =>
          forRange 0 d0 (fun t tmp =>
            max tmp (input.getD (((t * d1 + i) * d2 + k) * d3 + j) 0)) tmp)
          (input.getD (i * d2 * d3 + j) 0)
        output.set (i * d3 + j) tmp) output) output)
  | ReduceType.PROD =>
    Except.ok (forStep start0 end0 step0 (fun i output =>
      forStep start1 end1 step1 (fun j output =>
        let tmp := forRange 0 d2 (fun k tmp =>
          forRange 0 d0 (fun t tmp =>
            tmp * input.getD (((t * d1 + i) * d2 + k) * d3 + j) 0) tmp) 1
        output.set (i * d3 + j) tmp) output) output)
  | ReduceType.SUM =>
    Except.ok (forStep start0 end0 step0 (fun i output =>
      forStep start1 end1 step1 (fun j output =>
        forRange 0 d2 (fun k output =>
          forRange 0 d0 (fun t output =>
            addAt output (i * d3 + j)
              (input.getD (((t * d1 + i) * d2 + k) * d3 + j) 0)) output) output)
        output) output)
  | ReduceType.OTHER => notImplemented

/-- The lambda of `Reduce4Dims` in the branch `!reduce_first_axis_`. -/
def Reduce4DimsSecondFn (op : ReduceOp) (input : List Int) (type : ReduceType)
    (start0 end0 step0 start1 end1 step1 : Nat) (output : List Int) :
    Except String (List Int) :=
  let d1 := op.data_reshape_.getD 1 0
  let d2 := op.data_reshape_.getD 2 0
  let d3 := op.data_reshape_.getD 3 0
  match type with
  | ReduceType.MEAN =>
    Except.ok (forStep start0 end0 step0 (fun i output =>
      forStep start1 end1 step1 (fun j output =>
        let output := forRange 0 d1 (fun k output =>
          forRange 0 d3 (fun t output =>
            addAt output (i * d2 + j)
              (input.getD (((i * d1 + k) * d2 + j) * d3 + t) 0)) output) output
        divAt output (i * d2 + j) (d1 * d3)) output) output)
  | ReduceType.MIN =>
    Except.ok (forStep start0 end0 step0 (fun i output =>
      forStep start1 end1 step1 (fun j output =>
        let tmp := forRange 0 d1 (fun k tmp =>
          forRange 0 d3 (fun t tmp =>
            min tmp (input.getD (((i * d1 + k) * d2 + j) * d3 + t) 0)) tmp)
          (input.getD ((i * d1 * d2 + j) * d3) 0)
        output.set (i * d2 + j) tmp) output) output)
  | ReduceType.MAX =>
    Except.ok (forStep start0 end0 step0 (fun i output =>
      forStep start1 end1 step1 (fun j output =>
        let tmp := forRange 0 d1 (fun k tmp =>
          forRange 0 d3 (fun t tmp =>
            max tmp (input.getD (((i * d1 + k) * d2 + j) * d3 + t) 0)) tmp)
          (input.getD ((i * d1 * d2 + j) * d3) 0)
        output.set (i * d2 + j) tmp) output) output)
  | ReduceType.PROD =>
    Except.ok (forStep start0 end0 step0 (fun i output =>
      forStep start1 end1 step1 (fun j output =>
        let tmp := forRange 0 d1 (fun k tmp =>
          forRange 0 d3 (fun t tmp =>
            tmp * input.getD (((i * d1 + k) * d2 + j) * d3 + t) 0) tmp) 1
        output.set (i * d2 + j) tmp) output) output)
  | ReduceType.SUM =>
    Except.ok (forStep start0 end0 step0 (fun i output =>
      forStep start1 end1 step1 (fun j output =>
        forRange 0 d1 (fun k output =>
          forRange 0 d3 (fun t output =>
            addAt output (i * d2 + j)
              (input.getD (((i * d1 + k) * d2 + j) * d3 + t) 0)) output) output)
        output) output)
  | ReduceType.OTHER => notImplemented

/-- `ReduceOp<RT_CPU, T>::Reduce4Dims` -/
def Reduce4Dims (op : ReduceOp) (input : List Int) (type : ReduceType)
    (output : List Int) : Except String (List Int) :=
  if op.reduce_first_axis_ then
    Compute2D (Reduce4DimsFirstFn op input type)
      0 (op.data_reshape_.getD 1 0) 1 0 (op.data_reshape_.getD 3 0) 1 output
  else
    Compute2D (Reduce4DimsSecondFn op input type)
      0 (op.data_reshape_.getD 0 0) 1 0 (op.data_reshape_.getD 2 0) 1 output

/-! ## `Compute` and `Run` -/

/-- `Tensor::Resize`: the tensor takes the new shape and its buffer the
matching number of elements (the existing prefix is kept, new cells are 0;
`Compute` clears the buffer before any kernel reads it). -/
def Tensor.Resize (t : Tensor) (shape : List Nat) : Tensor :=
  { t with
    shape := shape
    data := t.data.take (shapeProd shape)
      ++ List.replicate (shapeProd shape - t.data.length) 0 }

/-- `ReduceOp<RT_CPU, T>::Compute` for an element type `T` other than `uint8_t`
(the generic kernels above): clear the output buffer, then dispatch on the
number of collapsed groups. -/
def Compute (op : ReduceOp) (input output : Tensor) : Except String Tensor :=
  let output_ptr : List Int := List.replicate output.data.length 0
  match op.data_reshape_.length with
  | 1 => (Reduce1Dims op input.data op.reduce_type_ output_ptr).map
      (fun d => { output with data := d })
  | 2 => (Reduce2Dims op input.data op.reduce_type_ output_ptr).map
      (fun d => { output with data := d })
  | 3 => (Reduce3Dims op input.data op.reduce_type_ output_ptr).map
      (fun d => { output with data := d })
  | 4 => (Reduce4Dims op input.data op.reduce_type_ output_ptr).map
      (fun d => { output with data := d })
  | _ => Except.error "not implemented in mace"

/-- `ReduceOp<RT_CPU, T>::Run` for an element type `T` other than `uint8_t`:
the operator state and the output tensor after a successful run, or the
message of the failed check. -/
def Run (op : ReduceOp) (input output : Tensor) : Except String (ReduceOp × Tensor) :=
  match Validate op input.shape.length with
  | Except.error e => Except.error e
  | Except.ok _ =>
    let op := Simplify op input.shape
    let output :=
      if op.reduce_type_ ≠ ReduceType.SUM then
        { output with scale := input.scale, zero_point := input.zero_point }
      else output
    let output := output.Resize op.out_shape_
    match Compute op input output with
    | Except.error e => Except.error e
    | Except.ok output => Except.ok (op, output)

/-! ## Reference definitions

The positions an axis list reduces, the products of maximal runs of equal
status, and the direct reduction of the uncollapsed N-dimensional tensor. The
definitions below follow the wording of the specification; the theorems
compare them with the code above. -/

/-- Whether position `i` of an input of rank `dim_size` is marked as reduced:
every position for an empty axis list, otherwise the positions some axis entry
is mapped to by `axisIndex`. -/
def isReduced (op : ReduceOp) (dim_size : Nat) (i : Nat) : Bool :=
  op.axis_.isEmpty ||
    op.axis_.any (fun a => axisIndex op.has_data_format op.is_uint8 dim_size a == (i : Int))

/-- The reduced/non-reduced status of every position of the input. -/
def reducedMask (op : ReduceOp) (dim_size : Nat) : List Bool :=
  (List.range dim_size).map (isReduced op dim_size)

/-- The reduced/non-reduced status of every position when the axis entries are
taken as they are (negative entries counting from the end), without the
data-format remap. -/
def normalizedMask (axes : List Int) (dim_size : Nat) : List Bool :=
  (List.range dim_size).map
    (fun (i : Nat) => axes.isEmpty ||
      axes.any (fun a => (if a ≥ 0 then a else a + (dim_size : Int)) == (i : Int)))

/-- The entries of `xs` at the non-reduced positions, in their original
order. -/
def keptEntries (mask : List Bool) (xs : List Nat) : List Nat :=
  ((xs.zip mask).filter (fun x => !x.2)).map Prod.fst

/-- The distinct bitmap positions named by an axis list. -/
def distinctAxes (op : ReduceOp) (dim_size : Nat) : List Int :=
  (op.axis_.map (axisIndex op.has_data_format op.is_uint8 dim_size)).dedup

/-- Statuses after "a size-1 dimension takes the status of its predecessor",
applied left to right (so a run of size-1 dimensions takes the status of the
dimension before the run), `prev` being the status of the dimension before the
list. -/
def inheritStatus (prev : Bool) : List (Nat × Bool) → List (Nat × Bool)
  | [] => []
  | (n, b) :: rest =>
    let b1 := if n = 1 then prev else b
    (n, b1) :: inheritStatus b1 rest

/-- The dimensions from the first non-unit one onward, each with its status
after inheritance. -/
def statusFromFirstNonUnit (shape : List Nat) (mask : List Bool) : List (Nat × Bool) :=
  match (shape.zip mask).dropWhile (fun x => x.1 == 1) with
  | [] => []
  | (n, b) :: rest => (n, b) :: inheritStatus b rest

/-- The maximal runs of consecutive dimensions of constant status, from the
first non-unit dimension onward. -/
def statusRuns (shape : List Nat) (mask : List Bool) : List (List (Nat × Bool)) :=
  List.splitBy (fun x y => x.2 == y.2) (statusFromFirstNonUnit shape mask)

/-- The products of the sizes of the maximal runs. -/
def runProducts (shape : List Nat) (mask : List Bool) : List Nat :=
  (statusRuns shape mask).map (fun g => (g.map Prod.fst).prod)

/-- Row-major coordinates of the flat position `p` in a tensor of the given
shape. -/
def unravel : List Nat → Nat → List Nat
  | [], _ => []
  | _ :: rest, p => (p / rest.prod) :: unravel rest (p % rest.prod)

/-- Row-major flat position of the coordinates `coords` in a tensor of the
given shape. -/
def ravel : List Nat → List Nat → Nat
  | _ :: rest, c :: cs => c * rest.prod + ravel rest cs
  | _, _ => 0

/-- The flat output position an input position reduces into: drop the reduced
coordinates and flatten the remaining ones in the shape of the non-reduced
dimensions. -/
def outPos (shape : List Nat) (mask : List Bool) (p : Nat) : Nat :=
  ravel (keptEntries mask shape) (keptEntries mask (unravel shape p))

/-- The input positions that reduce into output position `o`, in increasing
(row-major) order. -/
def cellOf (shape : List Nat) (mask : List Bool) (o : Nat) : List Nat :=
  (List.range (shapeProd shape)).filter (fun p => outPos shape mask p == o)

/-- The fold of one reduce type over the elements of a cell; MEAN is the sum
divided by the number of elements, truncating. -/
def foldCell (type : ReduceType) (cell : List Int) : Int :=
  match type with
  | ReduceType.SUM => cell.sum
  | ReduceType.MEAN => cell.sum.tdiv (cell.length : Int)
  | ReduceType.PROD => cell.prod
  | ReduceType.MIN =>
    match cell with
    | [] => 0
    | x :: xs => xs.foldl min x
  | ReduceType.MAX =>
    match cell with
    | [] => 0
    | x :: xs => xs.foldl max x
  | ReduceType.OTHER => 0

/-- The direct reduction of the N-dimensional tensor `data` of the given shape
over the positions marked in `mask`: one element per output position, in
row-major order of the non-reduced dimensions. -/
def naiveReduce (type : ReduceType) (shape : List Nat) (mask : List Bool)
    (data : List Int) : List Int :=
  (List.range (shapeProd (keptEntries mask shape))).map
    (fun o => foldCell type ((cellOf shape mask o).map (fun p => data.getD p 0)))

/-! ## Auxiliary definitions

Recursive forms of the collapsing loop and of the reference definitions, over
dimensions paired with their statuses; the proofs go through them. -/

/-- Structural form of the collapsing loop of `Simplify`, used to reason about
it: `prev` is the status of the group being assembled, `acc` its size so far,
and the list holds the remaining dimensions with their bitmap entries. The
result lists the groups with their statuses. -/
def collapseFrom (prev : Bool) (acc : Nat) : List (Nat × Bool) → List (Nat × Bool)
  | [] => [(acc, prev)]
  | (n, b) :: rest =>
    if prev ≠ (if n = 1 then prev else b) then
      (acc, prev) :: collapseFrom (if n = 1 then prev else b) n rest
    else collapseFrom prev (acc * n) rest

/-- Element count of a list of dimensions paired with their statuses. -/
def prodZ (dims : List (Nat × Bool)) : Nat := (dims.map Prod.fst).prod

/-- Number of output elements of a list of dimensions paired with their
statuses: the product of the non-reduced sizes. -/
def keptProdZ (dims : List (Nat × Bool)) : Nat :=
  ((dims.filter (fun x => !x.2)).map Prod.fst).prod

/-- Recursive form of `outPos` on dimensions paired with their statuses, used
to reason about it. -/
def outPosZ : List (Nat × Bool) → Nat → Nat
  | [], _ => 0
  | (_, b) :: rest, p =>
    if b then outPosZ rest (p % prodZ rest)
    else (p / prodZ rest) * keptProdZ rest + outPosZ rest (p % prodZ rest)

/-- The input positions reducing into output position `o`, enumerated in
row-major order of the reduced coordinates. -/
def cellZ : List (Nat × Bool) → Nat → List Nat
  | [], _ => [0]
  | (d, b) :: rest, o =>
    if b then (List.range d).flatMap (fun c => (cellZ rest o).map (fun q => c * prodZ rest + q))
    else (cellZ rest (o % keptProdZ rest)).map (fun q => (o / keptProdZ rest) * prodZ rest + q)


/-! ## The element types of the generic kernels

The generic kernels are instantiated for the element types `float`, `bfloat16`
and `int`. The embedding computes with mathematical integers: it gives the
values an instantiation computes as long as every value the kernel forms is an
integer that the element type represents exactly, so that no `int` operation
overflows and no floating-point operation rounds. Theorems about the values of
a reduction carry this as a hypothesis on the cells, `cellFits`. -/

/-- Modelled from the spec: the element types `T` for which `RegisterReduce`
registers the generic `ReduceOp<RT_CPU, T>`: `float`, `bfloat16` and `int`
(the enumeration `DataType` is not part of the sources at hand). -/
inductive DataType where
  | DT_FLOAT
  | DT_BFLOAT16
  | DT_INT32
  deriving DecidableEq, Repr

/-- The magnitude below which the arithmetic of an element type is exact on
integers. Every integer of smaller magnitude is a value of the type, and an
operation on values of the type whose exact result is such an integer returns
it: `2^31` for `int` (a 32-bit two's complement integer, no overflow), `2^24`
for `float` (24 significant bits) and `2^8` for `bfloat16` (8 significant
bits), whose operations round only results that are not values of the type. -/
def exactRange : DataType → Nat
  | DataType.DT_FLOAT => 16777216
  | DataType.DT_BFLOAT16 => 256
  | DataType.DT_INT32 => 2147483648

/-- The elements of a cell can be reduced in the element type `T` without
overflow and without rounding, in whatever order the kernel visits them: for
SUM and MEAN the magnitudes of the elements add up to less than `exactRange T`,
which bounds every partial sum; for PROD the magnitudes, each taken as at least
1, multiply to less than `exactRange T`, which bounds every partial product; for
MIN and MAX every element is below `exactRange T` in magnitude. The quotient of
MEAN is the truncating division of `int`; a floating-point type returns the
same value when the number of elements divides the sum. -/
def cellFits (T : DataType) (type : ReduceType) (cell : List Int) : Prop :=
  match type with
  | ReduceType.SUM => (cell.map Int.natAbs).sum < exactRange T
  | ReduceType.MEAN =>
    (cell.map Int.natAbs).sum < exactRange T ∧
      (T = DataType.DT_INT32 ∨ (cell.length : Int) ∣ cell.sum)
  | ReduceType.PROD => (cell.map (fun x => max x.natAbs 1)).prod < exactRange T
  | ReduceType.MIN => ∀ x ∈ cell, x.natAbs < exactRange T
  | ReduceType.MAX => ∀ x ∈ cell, x.natAbs < exactRange T
  | ReduceType.OTHER => True

instance (T : DataType) (type : ReduceType) (cell : List Int) :
    Decidable (cellFits T type cell) := by
  cases type <;> unfold cellFits <;> infer_instance


/-! ## The kernels of the `uint8_t` specialisation

The codes of a quantised tensor are integers in `[0, 255]`. The accumulator
`uint32_t tmp` of the MEAN branches wraps around modulo `2^32`, and so does an
addition or division whose other operand is an `int` (it is converted to
`unsigned`); with an `index_t` operand the arithmetic is 64-bit and is taken
without wrap-around. The accumulator `int32_t sum` of the SUM branches and the
`int` expression `sum - in_zero_point * count` wrap around in two's complement
(signed overflow is undefined in the source; the theorems about SUM assume that
none occurs). The `float` arithmetic of the SUM branches is the arithmetic of
IEEE 754 binary32: a `float` is the rational it denotes, and the result of
every conversion, quotient, product and sum is rounded to the nearest `float`,
ties to even (`f32`). -/

/-- Conversion to `uint32_t`. -/
def u32 (x : Int) : Int := x % 4294967296

/-- The cast `static_cast<uint8_t>`. -/
def u8 (x : Int) : Int := x % 256

/-- Conversion to `int32_t` (two's complement). -/
def toI32 (x : Int) : Int := (x + 2147483648) % 4294967296 - 2147483648

/-- The position of the leading bit of `n`: the largest `k` with `2^k <= n`,
`0` for `n < 2`; `fuel` bounds the number of halvings. -/
def log2s : Nat → Nat → Nat
  | 0, _ => 0
  | fuel + 1, n => if n < 2 then 0 else log2s fuel (n / 2) + 1

/-- The binary exponent of a non-zero rational `x`: the integer `e` with
`2^e <= |x| < 2^(e+1)`. -/
def ilog2 (x : Rat) : Int :=
  let e0 : Int := (log2s x.num.natAbs x.num.natAbs : Int) - (log2s x.den x.den : Int)
  if (2 : Rat) ^ e0 ≤ |x| then e0 else e0 - 1

/-- Rounding to the nearest integer, ties to the even one. -/
def roundEven (q : Rat) : Int :=
  let f := Rat.floor q
  let r := q - (f : Rat)
  if r < 1 / 2 then f
  else if 1 / 2 < r then f + 1
  else if f % 2 = 0 then f else f + 1

/-- The value of type `float` (IEEE 754 binary32) nearest to the rational `x`,
ties to even: 24 significant bits, the unit in the last place never below
`2^-149`. Infinities and NaN are not modelled: a result of magnitude `2^128` or
more stands for itself. -/
def f32 (x : Rat) : Rat :=
  if x = 0 then 0
  else
    let e := max (ilog2 x) (-126)
    let ulp : Rat := 2 ^ (e - 23)
    (roundEven (x / ulp) : Rat) * ulp

/-- `std::roundf`: the integer nearest to the `float` `x`, halfway cases away
from zero (an integer of that magnitude is a `float`). -/
def roundf (x : Rat) : Int :=
  if 0 ≤ x then Rat.floor (x + 1 / 2) else -Rat.floor (-x + 1 / 2)

/-- Modelled from the spec: `Saturate<uint8_t>` of `mace/core/quantize.h`,
which is not part of the sources at hand: the value is saturated to the
representable range `[0, 255]` of the output code. -/
def Saturate (v : Int) : Int :=
  if v ≤ 0 then 0 else if v ≥ 255 then 255 else v

/-- The statements of every SUM branch after the loops, for the value `sum`
of the accumulator: `f = (sum - in_zero_point * count) * scale` and
`Saturate<uint8_t>(std::roundf(f + out_zero_point))`, with
`scale = input_tensor->scale() / output_tensor->scale()`. The zero points and
`count` are `int`s and the scales `float`s: the difference is formed in `int`
arithmetic and converted to `float`, and the quotient of the scales, the
product with `scale`, the conversion of `out_zero_point` and the sum with it are
`float` operations. -/
def requantizeSum (input_tensor output_tensor : Tensor) (sum : Int) (count : Nat) : Int :=
  let in_zero_point := input_tensor.zero_point
  let out_zero_point := output_tensor.zero_point
  let scale : Rat := f32 (input_tensor.scale / output_tensor.scale)
  let f : Rat := f32 (f32 ((toI32 (sum - toI32 (in_zero_point * (count : Int))) : Int) : Rat)
    * scale)
  Saturate (roundf (f32 (f + f32 (out_zero_point : Rat))))

/-- The output code of a quantised SUM in the words of the spec:
`round_half_away_from_zero((sum - zero_point_in * count) * (scale_in /
scale_out)) + zero_point_out`, saturated to `[0, 255]`, over exact
rationals. -/
def specRequantize (zero_point_in zero_point_out : Int) (scale_in scale_out : Rat)
    (sum : Int) (count : Nat) : Int :=
  Saturate (roundf (((sum - zero_point_in * (count : Int) : Int) : Rat)
    * (scale_in / scale_out)) + zero_point_out)

/-- `ReduceOp<RT_CPU, uint8_t>::Reduce1Dims` -/
def Reduce1DimsUint8 (op : ReduceOp) (input_tensor : Tensor) (type : ReduceType)
    (output_tensor : Tensor) (output : List Int) : Except String (List Int) :=
  let input := input_tensor.data
  let d0 := op.data_reshape_.getD 0 0
  if op.reduce_first_axis_ then
    match type with
    | ReduceType.MEAN =>
      let tmp := forRange 0 d0 (fun i tmp => u32 (tmp + input.getD i 0)) 0
      Except.ok (output.set 0 (u8 (u32 (tmp + (d0 : Int) / 2) / (d0 : Int))))
    | ReduceType.MIN =>
      let tmp := forRange 1 d0 (fun i tmp => min tmp (input.getD i 0)) (input.getD 0 0)
      Except.ok (output.set 0 tmp)
    | ReduceType.MAX =>
      let tmp := forRange 1 d0 (fun i tmp => max tmp (input.getD i 0)) (input.getD 0 0)
      Except.ok (output.set 0 tmp)
    | ReduceType.SUM =>
      let sum := forRange 0 d0 (fun i sum => toI32 (sum + input.getD i 0)) 0
      Except.ok (output.set 0 (requantizeSum input_tensor output_tensor sum d0))
    | _ => notImplemented
  else
    Except.ok (memcpy output input d0)

/-- The lambda of the `uint8_t` `Reduce2Dims` in the branch
`reduce_first_axis_`. -/
def Reduce2DimsUint8FirstFn (op : ReduceOp) (input_tensor : Tensor) (type : ReduceType)
    (output_tensor : Tensor) (start end_ step : Nat) (output : List Int) :
    Except String (List Int) :=
  let input := input_tensor.data
  let d0 := op.data_reshape_.getD 0 0
  let d1 := op.data_reshape_.getD 1 0
  match type with
  | ReduceType.MEAN =>
    Except.ok (forStep start end_ step (fun i output =>
      let tmp := forRange 0 d0 (fun j tmp => u32 (tmp + input.getD (j * d1 + i) 0)) 0
      output.set i (u8 (u32 (tmp + (d0 : Int) / 2) / (d0 : Int)))) output)
  | ReduceType.MIN =>
    Except.ok (forStep start end_ step (fun i output =>
      let tmp := forRange 1 d0 (fun j tmp => min tmp (input.getD (j * d1 + i) 0))
        (input.getD i 0)
      output.set i tmp) output)
  | ReduceType.MAX =>
    Except.ok (forStep start end_ step (fun i output =>
      let tmp := forRange 1 d0 (fun j tmp => max tmp (input.getD (j * d1 + i) 0))
        (input.getD i 0)
      output.set i tmp) output)
  | ReduceType.SUM =>
    Except.ok (forStep start end_ step (fun i output =>
      let sum := forRange 0 d0 (fun j sum => toI32 (sum + input.getD (j * d1 + i) 0)) 0
      output.set i (requantizeSum input_tensor output_tensor sum d0)) output)
  | _ => notImplemented

/-- The lambda of the `uint8_t` `Reduce2Dims` in the branch
`!reduce_first_axis_`. -/
def Reduce2DimsUint8SecondFn (op : ReduceOp) (input_tensor : Tensor) (type : ReduceType)
    (output_tensor : Tensor) (start end_ step : Nat) (output : List Int) :
    Except String (List Int) :=
  let input := input_tensor.data
  let d1 := op.data_reshape_.getD 1 0
  match type with
  | ReduceType.MEAN =>
    Except.ok (forStep start end_ step (fun i output =>
      let tmp := forRange 0 d1 (fun j tmp => u32 (tmp + input.getD (i * d1 + j) 0)) 0
      output.set i (u8 (u32 (tmp + (d1 : Int) / 2) / (d1 : Int)))) output)
  | ReduceType.MIN =>
    Except.ok (forStep start end_ step (fun i output =>
      let tmp := forRange 1 d1 (fun j tmp => min tmp (input.getD (i * d1 + j) 0))
        (input.getD (i * d1) 0)
      output.set i tmp) output)
  | ReduceType.MAX =>
    Except.ok (forStep start end_ step (fun i output =>
      let tmp := forRange 1 d1 (fun j tmp => max tmp (input.getD (i * d1 + j) 0))
        (input.getD (i * d1) 0)
      output.set i tmp) output)
  | ReduceType.SUM =>
    Except.ok (forStep start end_ step (fun i output =>
      let sum := forRange 0 d1 (fun j sum => toI32 (sum + input.getD (i * d1 + j) 0)) 0
      output.set i (requantizeSum input_tensor output_tensor sum d1)) output)
  | _ => notImplemented

/-- `ReduceOp<RT_CPU, uint8_t>::Reduce2Dims` -/
def Reduce2DimsUint8 (op : ReduceOp) (input_tensor : Tensor) (type : ReduceType)
    (output_tensor : Tensor) (output : List Int) : Except String (List Int) :=
  if op.reduce_first_axis_ then
    Compute1D (Reduce2DimsUint8FirstFn op input_tensor type output_tensor)
      0 (op.data_reshape_.getD 1 0) 1 output
  else
    Compute1D (Reduce2DimsUint8SecondFn op input_tensor type output_tensor)
      0 (op.data_reshape_.getD 0 0) 1 output

/-- The lambda of the `uint8_t` `Reduce3Dims` in the branch
`reduce_first_axis_`. -/
def Reduce3DimsUint8FirstFn (op : ReduceOp) (input_tensor : Tensor) (type : ReduceType)
    (output_tensor : Tensor) (start end_ step : Nat) (output : List Int) :
    Except String (List Int) :=
  let input := input_tensor.data
  let d0 := op.data_reshape_.getD 0 0
  let d1 := op.data_reshape_.getD 1 0
  let d2 := op.data_reshape_.getD 2 0
  match type with
  | ReduceType.MEAN =>
    Except.ok (forStep start end_ step (fun i output =>
      let tmp := forRange 0 d2 (fun j tmp =>
        forRange 0 d0 (fun k tmp =>
          u32 (tmp + input.getD ((k * d1 + i) * d2 + j) 0)) tmp) 0
      let dim : Int := ((d0 * d2 : Nat) : Int)
      output.set i (u8 ((tmp + dim / 2) / dim))) output)
  | ReduceType.MIN =>
    Except.ok (forStep start end_ step (fun i output =>
      let tmp := forRange 0 d2 (fun j tmp =>
        forRange 0 d0 (fun k tmp =>
          min tmp (input.getD ((k * d1 + i) * d2 + j) 0)) tmp) (input.getD (i * d2) 0)
      output.set i tmp) output)
  | ReduceType.MAX =>
    Except.ok (forStep start end_ step (fun i output =>
      let tmp := forRange 0 d2 (fun j tmp =>
        forRange 0 d0 (fun k tmp =>
          max tmp (input.getD ((k * d1 + i) * d2 + j) 0)) tmp) (input.getD (i * d2) 0)
      output.set i tmp) output)
  | ReduceType.SUM =>
    Except.ok (forStep start end_ step (fun i output =>
      let sum := forRange 0 d2 (fun j sum =>
        forRange 0 d0 (fun k sum =>
          toI32 (sum + input.getD ((k * d1 + i) * d2 + j) 0)) sum) 0
      let count := d2 * d0
      output.set i (requantizeSum input_tensor output_tensor sum count)) output)
  | _ => notImplemented

/-- The lambda of the `uint8_t` `Reduce3Dims` in the branch
`!reduce_first_axis_` (a 2-D partition, unlike the generic kernel). -/
def Reduce3DimsUint8SecondFn (op : ReduceOp) (input_tensor : Tensor) (type : ReduceType)
    (output_tensor : Tensor) (start0 end0 step0 start1 end1 step1 : Nat)
    (output : List Int) : Except String (List Int) :=
  let input := input_tensor.data
  let d1 := op.data_reshape_.getD 1 0
  let d2 := op.data_reshape_.getD 2 0
  match type with
  | ReduceType.MEAN =>
    Except.ok (forStep start0 end0 step0 (fun i output =>
      forStep start1 end1 step1 (fun j output =>
        let tmp := forRange 0 d1 (fun k tmp =>
          u32 (tmp + input.getD ((i * d1 + k) * d2 + j) 0)) 0
        output.set (i * d2 + j) (u8 (u32 (tmp + (d1 : Int) / 2) / (d1 : Int))))
        output) output)
  | ReduceType.MIN =>
    Except.ok (forStep start0 end0 step0 (fun i output =>
      forStep start1 end1 step1 (fun j output =>
        let tmp := forRange 1 d1 (fun k tmp =>
          min tmp (input.getD ((i * d1 + k) * d2 + j) 0)) (input.getD (i * d1 * d2 + j) 0)
        output.set (i * d2 + j) tmp) output) output)
  | ReduceType.MAX =>
    Except.ok (forStep start0 end0 step0 (fun i output =>
      forStep start1 end1 step1 (fun j output =>
        let tmp := forRange 1 d1 (fun k tmp =>
          max tmp (input.getD ((i * d1 + k) * d2 + j) 0)) (input.getD (i * d1 * d2 + j) 0)
        output.set (i * d2 + j) tmp) output) output)
  | ReduceType.SUM =>
    Except.ok (forStep start0 end0 step0 (fun i output =>
      forStep start1 end1 step1 (fun j output =>
        let sum := forRange 0 d1 (fun k sum =>
          toI32 (sum + input.getD ((i * d1 + k) * d2 + j) 0)) 0
        output.set (i * d2 + j) (requantizeSum input_tensor output_tensor sum d1))
        output) output)
  | _ => notImplemented

/-- `ReduceOp<RT_CPU, uint8_t>::Reduce3Dims` -/
def Reduce3DimsUint8 (op : ReduceOp) (input_tensor : Tensor) (type : ReduceType)
    (output_tensor : Tensor) (output : List Int) : Except String (List Int) :=
  if op.reduce_first_axis_ then
    Compute1D (Reduce3DimsUint8FirstFn op input_tensor type output_tensor)
      0 (op.data_reshape_.getD 1 0) 1 output
  else
    Compute2D (Reduce3DimsUint8SecondFn op input_tensor type output_tensor)
      0 (op.data_reshape_.getD 0 0) 1 0 (op.data_reshape_.getD 2 0) 1 output

/-- The lambda of the `uint8_t` `Reduce4Dims` in the branch
`reduce_first_axis_`. -/
def Reduce4DimsUint8FirstFn (op : ReduceOp) (input_tensor : Tensor) (type : ReduceType)
    (output_tensor : Tensor) (start0 end0 step0 start1 end1 step1 : Nat)
    (output : List Int) : Except String (List Int) :=
  let input := input_tensor.data
  let d0 := op.data_reshape_.getD 0 0
  let d1 := op.data_reshape_.getD 1 0
  let d2 := op.data_reshape_.getD 2 0
  let d3 := op.data_reshape_.getD 3 0
  match type with
  | ReduceType.MEAN =>
    Except.ok (forStep start0 end0 step0 (fun i output =>
      forStep start1 end1 step1 (fun j output =>
        let tmp := forRange 0 d2 (fun k tmp =>
          forRange 0 d0 (fun t tmp =>
            u32 (tmp + input.getD (((t * d1 + i) * d2 + k) * d3 + j) 0)) tmp) 0
        let dim : Int := ((d0 * d2 : Nat) : Int)
        output.set (i * d3 + j) (u8 ((tmp + dim / 2) / dim))) output) output)
  | ReduceType.MIN =>
    Except.ok (forStep start0 end0 step0 (fun i output =>
      forStep start1 end1 step1 (fun j output =>
        let tmp := forRange 0 d2 (fun k tmp =>
          forRange 0 d0 (fun t tmp =>
            min tmp (input.getD (((t * d1 + i) * d2 + k) * d3 + j) 0)) tmp)
          (input.getD (i * d2 * d3 + j) 0)
        output.set (i * d3 + j) tmp) output) output)
  | ReduceType.MAX =>
    Except.ok (forStep start0 end0 step0 (fun i output =>
      forStep start1 end1 step1 (fun j output =>
        let tmp := forRange 0 d2 (fun k tmp =>
          forRange 0 d0 (fun t tmp =>
            max tmp (input.getD (((t * d1 + i) * d2 + k) * d3 + j) 0)) tmp)
          (input.getD (i * d2 * d3 + j) 0)
        output.set (i * d3 + j) tmp) output) output)
  | ReduceType.SUM =>
    Except.ok (forStep start0 end0 step0 (fun i output =>
      forStep start1 end1 step1 (fun j output =>
        let sum := forRange 0 d2 (fun k sum =>
          forRange 0 d0 (fun t sum =>
            toI32 (sum + input.getD (((t * d1 + i) * d2 + k) * d3 + j) 0)) sum) 0
        let count := d2 * d0
        output.set (i * d3 + j) (requantizeSum input_tensor output_tensor sum count))
        output) output)
  | _ => notImplemented

/-- The lambda of the `uint8_t` `Reduce4Dims` in the branch
`!reduce_first_axis_`. -/
def Reduce4DimsUint8SecondFn (op : ReduceOp) (input_tensor : Tensor) (type : ReduceType)
    (output_tensor : Tensor) (start0 end0 step0 start1 end1 step1 : Nat)
    (output : List Int) : Except String (List Int) :=
  let input := input_tensor.data
  let d1 := op.data_reshape_.getD 1 0
  let d2 := op.data_reshape_.getD 2 0
  let d3 := op.data_reshape_.getD 3 0
  match type with
  | ReduceType.MEAN =>
    Except.ok (forStep start0 end0 step0 (fun i output =>
      forStep start1 end1 step1 (fun j output =>
        let tmp := forRange 0 d1 (fun k tmp =>
          forRange 0 d3 (fun t tmp =>
            u32 (tmp + input.getD (((i * d1 + k) * d2 + j) * d3 + t) 0)) tmp) 0
        let dim : Int := ((d1 * d3 : Nat) : Int)
        output.set (i * d2 + j) (u8 ((tmp + dim / 2) / dim))) output) output)
  | ReduceType.MIN =>
    Except.ok (forStep start0 end0 step0 (fun i output =>
      forStep start1 end1 step1 (fun j output =>
        let tmp := forRange 0 d1 (fun k tmp =>
          forRange 0 d3 (fun t tmp =>
            min tmp (input.getD (((i * d1 + k) * d2 + j) * d3 + t) 0)) tmp)
          (input.getD ((i * d1 * d2 + j) * d3) 0)
        output.set (i * d2 + j) tmp) output) output)
  | ReduceType.MAX =>
    Except.ok (forStep start0 end0 step0 (fun i output =>
      forStep start1 end1 step1 (fun j output =>
        let tmp := forRange 0 d1 (fun k tmp =>
          forRange 0 d3 (fun t tmp =>
            max tmp (input.getD (((i * d1 + k) * d2 + j) * d3 + t) 0)) tmp)
          (input.getD ((i * d1 * d2 + j) * d3) 0)
        output.set (i * d2 + j) tmp) output) output)
  | ReduceType.SUM =>
    Except.ok (forStep start0 end0 step0 (fun i output =>
      forStep start1 end1 step1 (fun j output =>
        let sum := forRange 0 d1 (fun k sum =>
          forRange 0 d3 (fun t sum =>
            toI32 (sum + input.getD (((i * d1 + k) * d2 + j) * d3 + t) 0)) sum) 0
        let count := d1 * d3
        output.set (i * d2 + j) (requantizeSum input_tensor output_tensor sum count))
        output) output)
  | _ => notImplemented

/-- `ReduceOp<RT_CPU, uint8_t>::Reduce4Dims` -/
def Reduce4DimsUint8 (op : ReduceOp) (input_tensor : Tensor) (type : ReduceType)
    (output_tensor : Tensor) (output : List Int) : Except String (List Int) :=
  if op.reduce_first_axis_ then
    Compute2D (Reduce4DimsUint8FirstFn op input_tensor type output_tensor)
      0 (op.data_reshape_.getD 1 0) 1 0 (op.data_reshape_.getD 3 0) 1 output
  else
    Compute2D (Reduce4DimsUint8SecondFn op input_tensor type output_tensor)
      0 (op.data_reshape_.getD 0 0) 1 0 (op.data_reshape_.getD 2 0) 1 output

/-- `ReduceOp<RT_CPU, uint8_t>::Compute`: the method `Compute` of the class
template instantiated at `uint8_t`, where the four kernels are the
specialisations above. -/
def ComputeUint8 (op : ReduceOp) (input output : Tensor) : Except String Tensor :=
  let output_ptr : List Int := List.replicate output.data.length 0
  match op.data_reshape_.length with
  | 1 => (Reduce1DimsUint8 op input op.reduce_type_ output output_ptr).map
      (fun d => { output with data := d })
  | 2 => (Reduce2DimsUint8 op input op.reduce_type_ output output_ptr).map
      (fun d => { output with data := d })
  | 3 => (Reduce3DimsUint8 op input op.reduce_type_ output output_ptr).map
      (fun d => { output with data := d })
  | 4 => (Reduce4DimsUint8 op input op.reduce_type_ output output_ptr).map
      (fun d => { output with data := d })
  | _ => Except.error "not implemented in mace"

/-- `ReduceOp<RT_CPU, uint8_t>::Run`: the method `Run` of the class template
instantiated at `uint8_t`. -/
def RunUint8 (op : ReduceOp) (input output : Tensor) : Except String (ReduceOp × Tensor) :=
  match Validate op input.shape.length with
  | Except.error e => Except.error e
  | Except.ok _ =>
    let op := Simplify op input.shape
    let output :=
      if op.reduce_type_ ≠ ReduceType.SUM then
        { output with scale := input.scale, zero_point := input.zero_point }
      else output
    let output := output.Resize op.out_shape_
    match ComputeUint8 op input output with
    | Except.error e => Except.error e
    | Except.ok output => Except.ok (op, output)


/-! ## Local work sizes of the OpenCL convolution kernels

`uint32_t` and `uint64_t` values are natural numbers; a conversion to the type
is written out as a remainder. A division whose divisor is zero is undefined in
the source and makes the embedded function return `none`. -/

/-- Conversion to `uint32_t`. -/
def toU32 (x : Nat) : Nat := x % 4294967296

/-- Conversion to `uint64_t`. -/
def toU64 (x : Nat) : Nat := x % 18446744073709551616

/-- Unsigned division, undefined for a zero divisor. -/
def udiv (a b : Nat) : Option Nat := if b = 0 then none else some (a / b)

/-- The two queries `LocalWS` makes of the `OpenclExecutor`:
`device_global_mem_cache_size()` (a `uint64_t`) and `device_compute_units()`
(a `uint32_t`). -/
structure OpenclExecutor where
  device_global_mem_cache_size : Nat
  device_compute_units : Nat
  deriving DecidableEq, Repr

namespace Conv2dK1x1

/-- `kernel_cache_size` of `conv_2d_1x1.cc` -/
def kernel_cache_size : Nat := (4 + 4 + 4) * 4 * 4

/-- `lws_limit` of `conv_2d_1x1.cc` -/
def lws_limit : Nat := 128

/-- `LocalWS` of `conv_2d_1x1.cc`. The constant `kBaseGPUMemCacheSize` comes
from a header outside the sources at hand and is a parameter. -/
def LocalWS (kBaseGPUMemCacheSize : Nat) (executor : OpenclExecutor) (gws : List Nat)
    (kwg_size : Nat) : Option (List Nat) :=
  if kwg_size = 0 then
    some [1, 1, 1, 0]
  else do
    let cache_size := executor.device_global_mem_cache_size
    let compute_units := executor.device_compute_units
    let q ← udiv cache_size kBaseGPUMemCacheSize
    let base := max (toU32 q) 1
    let lws1 := min (gws.getD 1 0) kwg_size
    let lws0 :=
      if lws1 ≥ base then
        min (gws.getD 0 0) base
      else if (1 < lws1 ∧ lws1 < base) ∧ gws.getD 0 0 ≥ lws_limit then
        min (gws.getD 0 0) base
      else
        let lws0 := gws.getD 0 0 / 8
        if lws0 < base then max (gws.getD 0 0 / 4) base else lws0
    let r ← udiv kwg_size lws1
    let lws0 := min lws0 r
    let lws_size := toU32 (lws0 * lws1)
    let a ← udiv cache_size kernel_cache_size
    let b ← udiv a lws_size
    let c ← udiv b compute_units
    let lws2 := min (toU32 (toU64 (c * 8))) (gws.getD 2 0)
    let lws2 := if lws2 = 0 then min (gws.getD 2 0) base else lws2
    let r2 ← udiv kwg_size lws_size
    let lws2 := max (min lws2 r2) 1
    some [lws0, lws1, lws2, 0]

end Conv2dK1x1


/-! ## Auxiliary definitions for the `uint8_t` kernels -/

/-- The code a MEAN branch of a `uint8_t` kernel stores for a cell with code
sum `S` and `c` codes: the accumulator holds `S` modulo `2^32`; the rounding
term is added and the division carried out in 64-bit arithmetic (`wide`, the
divisor is an `index_t`) or in `uint32_t` arithmetic (the divisor is an `int`),
and the quotient is cast to `uint8_t`. -/
def meanCode (wide : Bool) (S : Int) (c : Nat) : Int :=
  if wide then u8 ((u32 S + (c : Int) / 2) / (c : Int))
  else u8 (u32 (u32 S + (c : Int) / 2) / (c : Int))

/-- The code a `uint8_t` kernel stores for a cell under MEAN and SUM. -/
def cellCode (type : ReduceType) (input_tensor output_tensor : Tensor) (wide : Bool)
    (cell : List Int) : Int :=
  match type with
  | ReduceType.MEAN => meanCode wide cell.sum cell.length
  | ReduceType.SUM => requantizeSum input_tensor output_tensor (toI32 cell.sum) cell.length
  | _ => 0

/-- The MEAN branches dividing by an `index_t`: both rank-4 branches and the
rank-3 branch with `reduce_first_axis_`. -/
def widePlan (first : Bool) (groups : Nat) : Bool :=
  groups == 4 || (groups == 3 && first)


/-! ## Partitioned execution of the kernel callbacks -/

/-- Modelled from the spec: the thread pool of `mace/utils/thread_pool.h` is
not part of the sources at hand. A 1-D schedule is a list of ranges
`(start, end)`; the callback is executed once per range, with step 1, one
execution after the other in list order. -/
def runRanges (partitionFn : Nat → Nat → Nat → List Int → Except String (List Int)) :
    List (Nat × Nat) → List Int → Except String (List Int)
  | [], output => Except.ok output
  | r :: rest, output =>
    match partitionFn r.1 r.2 1 output with
    | Except.error e => Except.error e
    | Except.ok out => runRanges partitionFn rest out

/-- Modelled from the spec: a 2-D schedule of the thread pool is a list of
tiles `((start0, end0), (start1, end1))`; the callback is executed once per
tile, with steps 1, one execution after the other in list order. -/
def runTiles
    (partitionFn : Nat → Nat → Nat → Nat → Nat → Nat → List Int → Except String (List Int)) :
    List ((Nat × Nat) × (Nat × Nat)) → List Int → Except String (List Int)
  | [], output => Except.ok output
  | t :: rest, output =>
    match partitionFn t.1.1 t.1.2 1 t.2.1 t.2.2 1 output with
    | Except.error e => Except.error e
    | Except.ok out => runTiles partitionFn rest out

/-- The ranges `[start, end)` of the list lie in `[0, extent)` and every index
below `extent` belongs to exactly one of them. -/
def IsPartition1D (extent : Nat) (ranges : List (Nat × Nat)) : Prop :=
  (∀ r ∈ ranges, r.2 ≤ extent) ∧
    ∀ i, i < extent → (ranges.filter (fun r => decide (r.1 ≤ i ∧ i < r.2))).length = 1

/-- The tiles `[start0, end0) x [start1, end1)` of the list lie in
`[0, extent0) x [0, extent1)` and every index pair of that rectangle belongs to
exactly one of them. -/
def IsPartition2D (extent0 extent1 : Nat) (tiles : List ((Nat × Nat) × (Nat × Nat))) : Prop :=
  (∀ t ∈ tiles, t.1.2 ≤ extent0 ∧ t.2.2 ≤ extent1) ∧
    ∀ i, i < extent0 → ∀ j, j < extent1 →
      (tiles.filter (fun t =>
        decide ((t.1.1 ≤ i ∧ i < t.1.2) ∧ (t.2.1 ≤ j ∧ j < t.2.2)))).length = 1

/-- The buffer update `c` rewrites the element at `idx` as a function of its
previous value and leaves every other element as it is. -/
def IsCellUpdate (idx : Nat) (c : List Int → List Int) : Prop :=
  ∃ f : Int → Int, ∀ out, c out = out.set idx (f (out.getD idx 0))


/-- Modelled from the spec: `RoundUp<uint32_t>(i, factor)` of
`mace/utils/math.h`, which is not part of the sources at hand: `i` rounded up
to a multiple of `factor`, computed as `(i + factor - 1) / factor * factor` in
`uint32_t` arithmetic. -/
def RoundUp (i factor : Nat) : Option Nat := do
  let q ← udiv (toU32 (i + factor - 1)) factor
  some (toU32 (q * factor))

namespace Conv2dK3x3

/-- `kernel_cache_size` of `conv_2d_3x3.cc` -/
def kernel_cache_size : Nat := (5 + 4 + 5) * 4 * 4

/-- `LocalWS` of `conv_2d_3x3.cc`. The constant `kBaseGPUMemCacheSize` comes
from a header outside the sources at hand and is a parameter. -/
def LocalWS (kBaseGPUMemCacheSize : Nat) (executor : OpenclExecutor) (gws : List Nat)
    (kwg_size : Nat) : Option (List Nat) :=
  if kwg_size = 0 then
    some [1, 1, 1, 0]
  else do
    let cache_size := executor.device_global_mem_cache_size
    let compute_units := max (executor.device_compute_units / 2) 1
    let q ← udiv cache_size kBaseGPUMemCacheSize
    let base := max (min (toU32 q) 4) 1
    let lws1 := min (gws.getD 1 0) kwg_size
    let r ← udiv kwg_size lws1
    let lws0 := min (min (gws.getD 0 0) base) r
    let lws_size := toU32 (lws0 * lws1)
    let a ← udiv cache_size kernel_cache_size
    let b ← udiv a lws_size
    let c ← udiv b compute_units
    let ru ← RoundUp (toU32 c) base
    let lws2 := min ru (gws.getD 2 0)
    let lws2 := if lws2 = 0 then min (gws.getD 2 0) base else lws2
    let r2 ← udiv kwg_size lws_size
    let lws2 := max (min lws2 r2) 1
    some [lws0, lws1, lws2, 0]

end Conv2dK3x3


/-! ## The axis mapping in the words of the spec -/

/-- The normalisation of an axis as the spec words it: a negative axis counts
from the end, `axis + rank`. -/
def normalizedAxis (rank : Nat) (axis : Int) : Int :=
  if axis < 0 then axis + (rank : Int) else axis

/-- The data-format remap as the spec words it: index 1→2, 2→3, 3→1, every
other index (0 in particular) unchanged. -/
def remapNHWC (index : Int) : Int :=
  if index = 1 then 2 else if index = 2 then 3 else if index = 3 then 1 else index


/-! ## `Run` with the objects it mutates -/

/-- `ReduceOp<RT_CPU, T>::Run` as a transformer of the two objects it mutates,
the operator (its plan) and the output tensor, which are returned also when
the run fails: a failed `MACE_CHECK` of `Validate` ends the run before any
other statement, and a failure inside `Compute` comes after `Simplify`, the
scale and zero point, `Resize` and the `memset` of the output buffer. -/
def RunInPlace (op : ReduceOp) (input output : Tensor) :
    Except String Unit × ReduceOp × Tensor :=
  match Validate op input.shape.length with
  | Except.error e => (Except.error e, op, output)
  | Except.ok _ =>
    let op := Simplify op input.shape
    let output :=
      if op.reduce_type_ ≠ ReduceType.SUM then
        { output with scale := input.scale, zero_point := input.zero_point }
      else output
    let output := output.Resize op.out_shape_
    match Compute op input output with
    | Except.error e =>
      (Except.error e, op, { output with data := List.replicate output.data.length 0 })
    | Except.ok output => (Except.ok (), op, output)


/-- The result `r` of a callback started on the buffer `out` is a buffer of
the same size that differs from `out` at most at the positions satisfying
`S`. -/
def WritesOnly (S : Nat → Prop) (out : List Int) (r : Except String (List Int)) : Prop :=
  ∃ out2, r = Except.ok out2 ∧ out2.length = out.length ∧
    ∀ o, ¬ S o → out2.getD o 0 = out.getD o 0


/-! ## The kernel cache of the OpenCL convolutions

`Conv2dK1x1` and `Conv2dK3x3` receive by pointer the three objects the
operator instance keeps between invocations: the kernel handle, the previous
input shape and the maximum work-group size. An invocation is embedded as a
function of that state; it returns the status, the new state and the calls it
made to the device, in order. The answers of the executor during one invocation
are part of its arguments. An invocation whose `LocalWS` divides by zero is
undefined in the source and returns `none`. The out-of-range check macros,
which are not part of the sources at hand, are taken with the check disabled. -/

/-- Modelled from the spec: the `GpuKernelState` of the data model, the objects
behind `cl::Kernel *kernel` (`none` for the null handle),
`std::vector<index_t> *prev_input_shape` and `uint32_t *kwg_size`. -/
structure GpuKernelState where
  kernel : Option Nat
  prev_input_shape : List Nat
  kwg_size : Nat
  deriving DecidableEq, Repr

/-- The calls of one invocation that reach the device: the build of the kernel
(program name, whether `-DBIAS` is among the options), the query of the
maximum work-group size, the block of `setArg` calls (the global work size and
the integer arguments, in order; image and float arguments are left out) and
the launch (the output dimensions of the tuning key, `gws`, `lws`). -/
inductive GpuCall where
  | BuildKernel (program : String) (bias : Bool)
  | GetKernelMaxWorkGroupSize
  | SetArgs (gws : List Nat) (args : List Int)
  | TuningOrRun3DKernel (key : List Nat) (gws lws : List Nat)
  deriving DecidableEq, Repr

/-- Modelled from the spec: the answers of the device executor during one
invocation (the executor is not part of the sources at hand): the two
capability hints, the status and handle of `BuildKernel`, the value of
`GetKernelMaxWorkGroupSize` and the status of `TuningOrRun3DKernel`. -/
structure GpuDevice where
  executor : OpenclExecutor
  BuildKernel : Except String Nat
  GetKernelMaxWorkGroupSize : Nat
  TuningOrRun3DKernel : Except String Unit
  deriving DecidableEq, Repr

/-- The arguments of one invocation that the embedding follows: the device, the
shapes of `input` and `output`, whether `bias` is non-null, and the strides,
paddings and dilations. -/
structure ConvArgs where
  device : GpuDevice
  input_shape : List Nat
  output_shape : List Nat
  bias : Bool
  stride_h : Int
  stride_w : Int
  padding : List Int
  dilations : List Int
  deriving DecidableEq, Repr

/-- Modelled from the spec: `IsResetArgsNeeded(context, prev_shape, cur_shape)`
of the OpenCL helpers, which is not part of the sources at hand: arguments are
rebound whenever the current input shape differs from the cached previous
input shape. -/
def IsResetArgsNeeded (prev_input_shape input_shape : List Nat) : Bool :=
  decide (prev_input_shape ≠ input_shape)

/-- Modelled from the spec: `RoundUpDiv4` of `mace/utils/math.h`, which is not
part of the sources at hand: the number of blocks of 4. -/
def RoundUpDiv4 (x : Nat) : Nat := (x + 3) / 4

/-- Modelled from the spec: `RoundUpDiv<index_t, 5>` of `mace/utils/math.h`,
which is not part of the sources at hand: the number of blocks of 5. -/
def RoundUpDiv5 (x : Nat) : Nat := (x + 4) / 5

/-- `Conv2dK1x1` of `conv_2d_1x1.cc`. -/
def Conv2dK1x1 (kBaseGPUMemCacheSize : Nat) (a : ConvArgs) (st : GpuKernelState) :
    Option (Except String Unit × GpuKernelState × List GpuCall) :=
  let batch := a.output_shape.getD 0 0
  let height := a.output_shape.getD 1 0
  let width := a.output_shape.getD 2 0
  let channels := a.output_shape.getD 3 0
  let input_batch := a.input_shape.getD 0 0
  let input_height := a.input_shape.getD 1 0
  let input_width := a.input_shape.getD 2 0
  let input_channels := a.input_shape.getD 3 0
  let channel_blocks := RoundUpDiv4 channels
  let width_blocks := RoundUpDiv4 width
  let input_channel_blocks := RoundUpDiv4 input_channels
  if st.kernel = none ∧ input_batch ≠ batch then
    some (Except.error "Check failed: input_batch == batch", st, [])
  else
    let built : Except String Unit × GpuKernelState × List GpuCall :=
      if st.kernel = none then
        match a.device.BuildKernel with
        | Except.error e => (Except.error e, st, [GpuCall.BuildKernel "conv_2d_1x1" a.bias])
        | Except.ok handle =>
          (Except.ok (),
            { st with kernel := some handle,
                      kwg_size := toU32 a.device.GetKernelMaxWorkGroupSize },
            [GpuCall.BuildKernel "conv_2d_1x1" a.bias, GpuCall.GetKernelMaxWorkGroupSize])
      else (Except.ok (), st, [])
    match built with
    | (Except.error e, st1, calls1) => some (Except.error e, st1, calls1)
    | (Except.ok _, st1, calls1) =>
      let gws := [toU32 channel_blocks, toU32 width_blocks, toU32 (height * batch)]
      let bound : GpuKernelState × List GpuCall :=
        if IsResetArgsNeeded st1.prev_input_shape a.input_shape then
          ({ st1 with prev_input_shape := a.input_shape },
            calls1 ++ [GpuCall.SetArgs gws
              [(input_height : Int), (input_width : Int), (input_channel_blocks : Int),
                (height : Int), (width : Int), a.stride_h, a.stride_w]])
        else (st1, calls1)
      match Conv2dK1x1.LocalWS kBaseGPUMemCacheSize a.device.executor gws bound.1.kwg_size with
      | none => none
      | some lws =>
        match a.device.TuningOrRun3DKernel with
        | Except.error e =>
          some (Except.error e, bound.1,
            bound.2 ++ [GpuCall.TuningOrRun3DKernel a.output_shape gws lws])
        | Except.ok _ =>
          some (Except.ok (), bound.1,
            bound.2 ++ [GpuCall.TuningOrRun3DKernel a.output_shape gws lws])

/-- `Conv2dK3x3` of `conv_2d_3x3.cc`. -/
def Conv2dK3x3 (kBaseGPUMemCacheSize : Nat) (a : ConvArgs) (st : GpuKernelState) :
    Option (Except String Unit × GpuKernelState × List GpuCall) :=
  let batch := a.output_shape.getD 0 0
  let height := a.output_shape.getD 1 0
  let width := a.output_shape.getD 2 0
  let channels := a.output_shape.getD 3 0
  let input_channels := a.input_shape.getD 3 0
  let channel_blocks := RoundUpDiv4 channels
  let input_channel_blocks := RoundUpDiv4 input_channels
  let width_blocks := RoundUpDiv5 width
  let built : Except String Unit × GpuKernelState × List GpuCall :=
    if st.kernel = none then
      match a.device.BuildKernel with
      | Except.error e => (Except.error e, st, [GpuCall.BuildKernel "conv_2d_3x3" a.bias])
      | Except.ok handle =>
        (Except.ok (),
          { st with kernel := some handle,
                    kwg_size := toU32 a.device.GetKernelMaxWorkGroupSize },
          [GpuCall.BuildKernel "conv_2d_3x3" a.bias, GpuCall.GetKernelMaxWorkGroupSize])
    else (Except.ok (), st, [])
  match built with
  | (Except.error e, st1, calls1) => some (Except.error e, st1, calls1)
  | (Except.ok _, st1, calls1) =>
    let gws := [toU32 channel_blocks, toU32 width_blocks, toU32 (height * batch)]
    let bound : GpuKernelState × List GpuCall :=
      if IsResetArgsNeeded st1.prev_input_shape a.input_shape then
        ({ st1 with prev_input_shape := a.input_shape },
          calls1 ++ [GpuCall.SetArgs gws
            [(a.input_shape.getD 1 0 : Int), (a.input_shape.getD 2 0 : Int),
              (input_channel_blocks : Int), (height : Int), (width : Int),
              a.stride_h, a.stride_w, (a.padding.getD 0 0).tdiv 2, (a.padding.getD 1 0).tdiv 2,
              a.dilations.getD 0 0, a.dilations.getD 1 0]])
      else (st1, calls1)
    match Conv2dK3x3.LocalWS kBaseGPUMemCacheSize a.device.executor gws bound.1.kwg_size with
    | none => none
    | some lws =>
      match a.device.TuningOrRun3DKernel with
      | Except.error e =>
        some (Except.error e, bound.1,
          bound.2 ++ [GpuCall.TuningOrRun3DKernel a.output_shape gws lws])
      | Except.ok _ =>
        some (Except.ok (), bound.1,
          bound.2 ++ [GpuCall.TuningOrRun3DKernel a.output_shape gws lws])

/-- Successive invocations on one operator instance: each invocation starts
from the state the previous one left; the result lists, per invocation, the
status, the state left and the calls made. -/
def invokeAll
    (invoke : ConvArgs → GpuKernelState →
      Option (Except String Unit × GpuKernelState × List GpuCall)) :
    List ConvArgs → GpuKernelState →
      Option (List (Except String Unit × GpuKernelState × List GpuCall))
  | [], _ => some []
  | a :: rest, st =>
    match invoke a st with
    | none => none
    | some r =>
      match invokeAll invoke rest r.2.1 with
      | none => none
      | some rs => some (r :: rs)

/-- The number of argument-binding blocks among the calls. -/
def bindCount (calls : List GpuCall) : Nat :=
  calls.countP (fun c => match c with | GpuCall.SetArgs _ _ => true | _ => false)

/-- The number of `BuildKernel` calls among the calls. -/
def buildCount (calls : List GpuCall) : Nat :=
  calls.countP (fun c => match c with | GpuCall.BuildKernel _ _ => true | _ => false)

/-- The number of queries of the maximum work-group size, each followed by the
write of `*kwg_size`, among the calls. -/
def kwgWriteCount (calls : List GpuCall) : Nat :=
  calls.countP (fun c => match c with | GpuCall.GetKernelMaxWorkGroupSize => true | _ => false)


/-! ## Auxiliary definitions for the kernel cache

The two phases `Conv2dK1x1` and `Conv2dK3x3` have in common, as functions of
their own; the proofs go through them. -/

/-- The phase `if (kernel->get() == nullptr) { ... }` without the check of the
1x1 variant: the status, the state and the calls after it. -/
def buildIfNull (program : String) (a : ConvArgs) (st : GpuKernelState) :
    Except String Unit × GpuKernelState × List GpuCall :=
  if st.kernel = none then
    match a.device.BuildKernel with
    | Except.error e => (Except.error e, st, [GpuCall.BuildKernel program a.bias])
    | Except.ok handle =>
      (Except.ok (),
        { st with kernel := some handle,
                  kwg_size := toU32 a.device.GetKernelMaxWorkGroupSize },
        [GpuCall.BuildKernel program a.bias, GpuCall.GetKernelMaxWorkGroupSize])
  else (Except.ok (), st, [])

/-- The phase after the build: the binding block, the local work size (given
as a function of `*kwg_size`) and the launch. -/
def bindAndLaunch (lwsOf : Nat → Option (List Nat)) (a : ConvArgs) (gws : List Nat)
    (args : List Int) (st1 : GpuKernelState) (calls1 : List GpuCall) :
    Option (Except String Unit × GpuKernelState × List GpuCall) :=
  let bound : GpuKernelState × List GpuCall :=
    if IsResetArgsNeeded st1.prev_input_shape a.input_shape then
      ({ st1 with prev_input_shape := a.input_shape },
        calls1 ++ [GpuCall.SetArgs gws args])
    else (st1, calls1)
  match lwsOf bound.1.kwg_size with
  | none => none
  | some lws =>
    match a.device.TuningOrRun3DKernel with
    | Except.error e =>
      some (Except.error e, bound.1,
        bound.2 ++ [GpuCall.TuningOrRun3DKernel a.output_shape gws lws])
    | Except.ok _ =>
      some (Except.ok (), bound.1,
        bound.2 ++ [GpuCall.TuningOrRun3DKernel a.output_shape gws lws])


/-! ## The non-reduced groups of a plan in the words of the spec -/

/-- The sizes of the non-reduced groups of a plan as the spec words it: the
groups `k` of `data_reshape` for which `reduce_first_axis XOR (k odd)` is
false, in order. -/
def nonReducedGroups (reduce_first_axis : Bool) (data_reshape : List Nat) : List Nat :=
  (List.range data_reshape.length).filterMap
    (fun k =>
      if xor reduce_first_axis (decide (k % 2 = 1)) then none
      else some (data_reshape.getD k 0))


/-! ## `LSTMCellKernel::Compute` of the OpenCL image kernels

The kernel object keeps the kernel handle, the maximum work-group size and the
previous input shape between invocations. As for the convolutions, an
invocation is a function of that state and returns the status, the new state
and the calls it made, in order; calls on the `output` and `cell` tensors are
part of the list. The answers of the executor and of `Tensor::Resize` are part
of the arguments. The out-of-range check macros are taken with the check
disabled. -/

/-- The members of `LSTMCellKernel` that `Compute` reads and writes: `kernel_`
(`none` for the null handle), `kwg_size_` and `input_shape_`. -/
structure LSTMCellKernel where
  kernel_ : Option Nat
  kwg_size_ : Nat
  input_shape_ : List Nat
  deriving DecidableEq, Repr

/-- The calls of one invocation of `LSTMCellKernel::Compute`: the build of the
kernel (program name), the query of the maximum work-group size, `Resize` and
`Reshape` on `output` and on `cell`, the block of `setArg` calls (the global
work size and the `int32_t` arguments, in order; image and float arguments are
left out) and the launch (the two output dimensions of the tuning key, `gws`,
`lws`). -/
inductive LSTMCall where
  | BuildKernel (program : String)
  | GetKernelMaxWorkGroupSize
  | OutputResize (shape : List Nat)
  | OutputReshape (shape : List Nat)
  | CellResize (shape : List Nat)
  | CellReshape (shape : List Nat)
  | SetArgs (gws : List Nat) (args : List Int)
  | TuningOrRun2DKernel (key : List Nat) (gws lws : List Nat)
  deriving DecidableEq, Repr

/-- Modelled from the spec: the answers of the device executor and of the
tensor allocator during one invocation (neither is part of the sources at
hand): the status and handle of `BuildKernel`, the value of
`GetKernelMaxWorkGroupSize`, the statuses of `output->Resize` and
`cell->Resize` and the status of `TuningOrRun2DKernel`. -/
structure LSTMDevice where
  BuildKernel : Except String Nat
  GetKernelMaxWorkGroupSize : Nat
  OutputResize : Except String Unit
  CellResize : Except String Unit
  TuningOrRun2DKernel : Except String Unit
  deriving DecidableEq, Repr

/-- The arguments of one invocation that the embedding follows: the device and
the shapes of `input`, `pre_output`, `pre_cell` and, on entry, `output`. -/
structure LSTMArgs where
  device : LSTMDevice
  input_shape : List Nat
  pre_output_shape : List Nat
  pre_cell_shape : List Nat
  output_shape : List Nat
  deriving DecidableEq, Repr

/-- `LSTMCellKernel::Compute` of `lstm_cell.cc`. -/
def LSTMCellKernel.Compute (self : LSTMCellKernel) (a : LSTMArgs) :
    Except String Unit × LSTMCellKernel × List LSTMCall :=
  if ¬ (a.pre_output_shape.length = 2 ∧ a.pre_output_shape.getD 1 0 % 4 = 0) then
    (Except.error "LSTM hidden units should be a multiple of 4", self, [])
  else
    let height := a.input_shape.getD 0 0
    let width := a.input_shape.getD 1 0
    let hidden_units := a.pre_output_shape.getD 1 0
    let w_blocks := hidden_units / 4
    let built : Except String Unit × LSTMCellKernel × List LSTMCall :=
      if self.kernel_ = none then
        match a.device.BuildKernel with
        | Except.error e => (Except.error e, self, [LSTMCall.BuildKernel "lstmcell"])
        | Except.ok handle =>
          (Except.ok (),
            { self with kernel_ := some handle,
                        kwg_size_ := toU32 a.device.GetKernelMaxWorkGroupSize },
            [LSTMCall.BuildKernel "lstmcell", LSTMCall.GetKernelMaxWorkGroupSize])
      else (Except.ok (), self, [])
    match built with
    | (Except.error e, self1, calls1) => (Except.error e, self1, calls1)
    | (Except.ok _, self1, calls1) =>
      let gws := [toU32 w_blocks, toU32 height]
      let bound : Except String Unit × LSTMCellKernel × List LSTMCall × List Nat :=
        if IsResetArgsNeeded self1.input_shape_ a.input_shape then
          let output_shape_padded := [height, 1, 1, hidden_units]
          match a.device.OutputResize with
          | Except.error e =>
            (Except.error e, self1, calls1 ++ [LSTMCall.OutputResize output_shape_padded],
              a.output_shape)
          | Except.ok _ =>
            match a.device.CellResize with
            | Except.error e =>
              (Except.error e, self1,
                calls1 ++ [LSTMCall.OutputResize output_shape_padded,
                  LSTMCall.OutputReshape a.pre_output_shape,
                  LSTMCall.CellResize output_shape_padded],
                a.pre_output_shape)
            | Except.ok _ =>
              (Except.ok (), { self1 with input_shape_ := a.input_shape },
                calls1 ++ [LSTMCall.OutputResize output_shape_padded,
                  LSTMCall.OutputReshape a.pre_output_shape,
                  LSTMCall.CellResize output_shape_padded,
                  LSTMCall.CellReshape a.pre_cell_shape,
                  LSTMCall.SetArgs gws
                    [toI32 (width : Int), toI32 (hidden_units : Int),
                      toI32 (RoundUpDiv4 width : Int)]],
                a.pre_output_shape)
        else (Except.ok (), self1, calls1, a.output_shape)
      match bound with
      | (Except.error e, self2, calls2, _) => (Except.error e, self2, calls2)
      | (Except.ok _, self2, calls2, output_shape) =>
        let lws := [self2.kwg_size_ / 16, 16, 0]
        let launch := LSTMCall.TuningOrRun2DKernel
          [output_shape.getD 0 0, output_shape.getD 1 0] gws lws
        match a.device.TuningOrRun2DKernel with
        | Except.error e => (Except.error e, self2, calls2 ++ [launch])
        | Except.ok _ => (Except.ok (), self2, calls2 ++ [launch])


/-! ## The device placement of `Reduce` -/

/-- Modelled from the spec: the two runtimes the placement function of
`Reduce` names (the enumeration `RuntimeType` is not part of the sources at
hand). -/
inductive RuntimeType where
  | RT_CPU
  | RT_OPENCL
  deriving DecidableEq, Repr

/-- Modelled from the spec: what the placement function reads of the
`OperatorDef` (the protobuf message is not part of the sources at hand):
`output_shape_size()`, `output_size()`, the optional argument `keepdims`
(`none` when absent), the repeated argument `axis` and the input names. -/
structure OperatorDef where
  output_shape_size : Nat
  output_size : Nat
  keepdims : Option Bool
  axis : List Int
  input : List String
  deriving DecidableEq, Repr

/-- The function handed to `SetDevicePlacerFunc` in `RegisterReduce`, as a
function of the operator definition and of `tensor_shape_info` (a map from
tensor names to shapes, here an association list). The set it returns is the
list of its members. `op->input(0)` of an operator without inputs is
undefined; the function returns `none` there. -/
def RegisterReduce.DevicePlacerFunc (op : OperatorDef)
    (tensor_shape_info : List (String × List Nat)) : Option (List RuntimeType) :=
  if op.output_shape_size ≠ op.output_size then
    some [RuntimeType.RT_CPU, RuntimeType.RT_OPENCL]
  else
    let keep_dims := op.keepdims.getD false
    if !keep_dims then some [RuntimeType.RT_CPU]
    else
      let axis := op.axis
      let reduce_hw := axis.length = 2 ∧ axis.getD 0 0 = 1 ∧ axis.getD 1 0 = 2
      let reduce_c := axis.length = 1 ∧ axis.getD 0 0 = 3
      if ¬ (reduce_hw ∨ reduce_c) then some [RuntimeType.RT_CPU]
      else
        match op.input with
        | [] => none
        | input0 :: _ =>
          match tensor_shape_info.lookup input0 with
          | none => some [RuntimeType.RT_CPU]
          | some shape =>
            if shape.length ≠ 4 then some [RuntimeType.RT_CPU]
            else some [RuntimeType.RT_CPU, RuntimeType.RT_OPENCL]


/-! ## `ApuWrapper`

The wrapper keeps the flag `initialised_` and the pointer `frontend` to the
delegate. A method is a function of that state and of the answer of the
delegate; it returns the value returned, the new state and the calls made on
the delegate, in order. -/

/-- The members of `ApuWrapper` that `Init`, `Run` and `Uninit` read and write:
`initialised_` and whether `frontend` points to a delegate. -/
structure ApuWrapper where
  initialised_ : Bool
  frontend : Bool
  deriving DecidableEq, Repr

/-- The calls on the delegate: its construction, `Init`, `Eval` and its
deletion. -/
inductive ApuCall where
  | New
  | Init
  | Eval
  | Delete
  deriving DecidableEq, Repr

/-- `ApuWrapper::Init` of `apu_wrapper.cc`; `ret` is the value the delegate's
`Init` returns. -/
def ApuWrapper.Init (self : ApuWrapper) (ret : Bool) : Bool × ApuWrapper × List ApuCall :=
  if self.initialised_ then (false, self, [])
  else
    (ret, { initialised_ := true, frontend := true }, [ApuCall.New, ApuCall.Init])

/-- `ApuWrapper::Run` of `apu_wrapper.cc`; `ret` is the value the delegate's
`Eval` returns. A call through a null `frontend` is undefined and gives
`none`. -/
def ApuWrapper.Run (self : ApuWrapper) (ret : Bool) :
    Option (Bool × ApuWrapper × List ApuCall) :=
  if !self.initialised_ then some (false, self, [])
  else if self.frontend then some (ret, self, [ApuCall.Eval])
  else none

/-- `ApuWrapper::Uninit` of `apu_wrapper.cc`; `delete` of a null `frontend`
does nothing. -/
def ApuWrapper.Uninit (self : ApuWrapper) : Bool × ApuWrapper × List ApuCall :=
  (true, { initialised_ := false, frontend := false },
    if self.frontend then [ApuCall.Delete] else [])


/-! # Theorems -/

/-! ### Counted loops and the scan over leading unit dimensions -/

theorem forRange_of_ge {σ : Type} (lo hi : Nat) (body : Nat → σ → σ) (s : σ) (h : hi ≤ lo) :
    forRange lo hi body s = s := by
  simp [forRange, Nat.sub_eq_zero_of_le h]

theorem forRange_succ_right {σ : Type} (lo hi : Nat) (body : Nat → σ → σ) (s : σ)
    (h : lo ≤ hi) : forRange lo (hi + 1) body s = body hi (forRange lo hi body s) := by
  unfold forRange
  have e : hi + 1 - lo = (hi - lo) + 1 := by omega
  rw [e, List.range'_concat, List.foldl_append]
  have e2 : lo + (hi - lo) = hi := by omega
  simp [e2]

theorem forRange_succ_left {σ : Type} (lo hi : Nat) (body : Nat → σ → σ) (s : σ)
    (h : lo < hi) : forRange lo hi body s = forRange (lo + 1) hi body (body lo s) := by
  unfold forRange
  have e : hi - lo = (hi - (lo + 1)) + 1 := by omega
  rw [e, List.range'_succ]
  simp

/-- Invariant rule for counted loops. -/
theorem forRange_induction {σ : Type} (P : Nat → σ → Prop) (lo hi : Nat)
    (body : Nat → σ → σ) (s : σ) (hle : lo ≤ hi) (h0 : P lo s)
    (hstep : ∀ i st, lo ≤ i → i < hi → P i st → P (i + 1) (body i st)) :
    P hi (forRange lo hi body s) := by
  induction hi with
  | zero =>
    have : lo = 0 := by omega
    subst this
    simpa [forRange] using h0
  | succ n ih =>
    rcases Nat.eq_or_lt_of_le hle with h | h
    · subst h
      rw [forRange_of_ge _ _ _ _ (le_refl _)]
      exact h0
    · have hle2 : lo ≤ n := by omega
      rw [forRange_succ_right _ _ _ _ hle2]
      apply hstep n _ hle2 (by omega)
      exact ih hle2 (fun i st h1 h2 hp => hstep i st h1 (by omega) hp)

theorem scanUnitDims_bounds (shape : List Nat) (n i : Nat) :
    i ≤ scanUnitDims shape n i ∧ scanUnitDims shape n i ≤ i + n := by
  induction n generalizing i with
  | zero => simp [scanUnitDims]
  | succ n ih =>
    unfold scanUnitDims
    split
    · omega
    · have := ih (i + 1)
      omega

theorem scanUnitDims_ones (shape : List Nat) (n i j : Nat)
    (h1 : i ≤ j) (h2 : j < scanUnitDims shape n i) : shape.getD j 0 = 1 := by
  induction n generalizing i with
  | zero => simp [scanUnitDims] at h2; omega
  | succ n ih =>
    unfold scanUnitDims at h2
    split at h2
    · omega
    · rename_i hne
      rcases Nat.eq_or_lt_of_le h1 with h | h
      · subst h; simpa using hne
      · exact ih (i + 1) (by omega) h2

theorem scanUnitDims_stop (shape : List Nat) (n i : Nat)
    (h : scanUnitDims shape n i < i + n) : shape.getD (scanUnitDims shape n i) 0 ≠ 1 := by
  induction n generalizing i with
  | zero => simp [scanUnitDims] at h
  | succ n ih =>
    unfold scanUnitDims at h ⊢
    split
    · assumption
    · rename_i hne
      rw [if_neg hne] at h
      exact ih (i + 1) (by omega)

theorem scanUnitDims_all_ones (shape : List Nat) (h : ∀ d ∈ shape, d = 1) (n i : Nat)
    (hn : i + n ≤ shape.length) : scanUnitDims shape n i = i + n := by
  induction n generalizing i with
  | zero => simp [scanUnitDims]
  | succ n ih =>
    unfold scanUnitDims
    have hi : i < shape.length := by omega
    have h1 : shape.getD i 0 = 1 := by
      rw [List.getD_eq_getElem _ _ hi]
      exact h _ (List.getElem_mem _)
    rw [if_neg (not_not.mpr h1), ih (i + 1) (by omega)]
    omega

theorem Simplify_unit_plan (op : ReduceOp) (shape : List Nat) (h : ∀ d ∈ shape, d = 1) :
    (Simplify op shape).data_reshape_ = [1] ∧ (Simplify op shape).reduce_first_axis_ = true := by
  have hs : scanUnitDims shape shape.length 0 = shape.length := by
    simpa using scanUnitDims_all_ones shape h shape.length 0 (by omega)
  simp [Simplify, hs]

/-- C9: when every input dimension has size 1 (any rank), for every axis list
accepted by `Validate`, lists that reduce only some of the axes included,
`Simplify` yields `data_reshape_ = [1]` and `reduce_first_axis_ = true`. -/
theorem Simplify_all_unit (op : ReduceOp) (shape : List Nat)
    (_hv : Validate op shape.length = Except.ok ()) (h : ∀ d ∈ shape, d = 1) :
    (Simplify op shape).data_reshape_ = [1] ∧ (Simplify op shape).reduce_first_axis_ = true :=
  Simplify_unit_plan op shape h

theorem Simplify_all_unit_witness :
    (∀ d ∈ [1, 1, 1], d = 1) ∧
    (Simplify (mkOp ReduceType.MAX [0, -1] true 0 false) [1, 1, 1]).data_reshape_ = [1] ∧
    (Simplify (mkOp ReduceType.MAX [0, -1] true 0 false) [1, 1, 1]).reduce_first_axis_ = true :=
  ⟨by decide,
    Simplify_all_unit (mkOp ReduceType.MAX [0, -1] true 0 false) [1, 1, 1]
      (by decide) (by decide)⟩

/-! ### `Validate` -/

theorem checkAxes_ok_iff (left right : Int) (axes : List Int) :
    checkAxes left right axes = Except.ok () ↔ ∀ a ∈ axes, left < a ∧ a < right := by
  induction axes with
  | nil => simp [checkAxes]
  | cons a rest ih =>
    unfold checkAxes
    by_cases h : a > left ∧ a < right
    · rw [if_pos h, ih]
      simp only [List.mem_cons, forall_eq_or_imp]
      exact ⟨fun hr => ⟨h, hr⟩, fun hr => hr.2⟩
    · rw [if_neg h]
      simp only [List.mem_cons, forall_eq_or_imp]
      constructor
      · intro hc; cases hc
      · intro hc; exact absurd hc.1 h

theorem checkAxes_cases (left right : Int) (axes : List Int) :
    checkAxes left right axes = Except.ok () ∨
      checkAxes left right axes = Except.error "Axis is over range." := by
  induction axes with
  | nil => simp [checkAxes]
  | cons a rest ih =>
    unfold checkAxes
    split
    · exact ih
    · exact Or.inr rfl

theorem Validate_ok_iff (op : ReduceOp) (dim_size : Nat) :
    Validate op dim_size = Except.ok () ↔
      ∀ a ∈ op.axis_, -(dim_size : Int) < a ∧ a < (dim_size : Int) := by
  unfold Validate
  by_cases h : op.axis_.length ≠ 0
  · rw [if_pos h, checkAxes_ok_iff]
    simp
  · have : op.axis_ = [] := by
      simpa using h
    simp [this]

/-- C3 (as amended): for an input of rank `r`, `Validate` accepts the axis
list exactly when every axis `a` in it satisfies `-r < a < r` (strictly on both
sides); otherwise it fails with "Axis is over range."; an empty axis list is
always accepted. -/
theorem Validate_accepts_iff (op : ReduceOp) (r : Nat) :
    (Validate op r = Except.ok () ↔ ∀ a ∈ op.axis_, -(r : Int) < a ∧ a < (r : Int)) ∧
    (Validate op r ≠ Except.ok () → Validate op r = Except.error "Axis is over range.") ∧
    (op.axis_ = [] → Validate op r = Except.ok ()) := by
  refine ⟨Validate_ok_iff op r, ?_, ?_⟩
  · intro hne
    unfold Validate at hne ⊢
    by_cases h : op.axis_.length ≠ 0
    · rw [if_pos h] at hne ⊢
      rcases checkAxes_cases (↑r * -1) (↑r) op.axis_ with h1 | h1
      · exact absurd h1 hne
      · exact h1
    · simp [h] at hne
  · intro h
    simp [Validate, h]

/-- C3, counterexample: on rank 2 the axis `-2` satisfies `-r ≤ a < r` and is
rejected by `Validate` with "Axis is over range.". -/
theorem Validate_rejects_minus_rank :
    (∀ a ∈ ([-2] : List Int), -((2 : Nat) : Int) ≤ a ∧ a < ((2 : Nat) : Int)) ∧
    Validate (mkOp ReduceType.SUM [-2] false 0 false) 2
      = Except.error "Axis is over range." := by
  decide


/-! ### Length and product of `data_reshape_` -/

theorem mulBack_concat (l : List Nat) (x n : Nat) : mulBack (l ++ [x]) n = l ++ [x * n] := by
  simp [mulBack, List.getD_eq_getElem?_getD, List.getElem?_append_right, List.set_append_right]

theorem mulBack_length (l : List Nat) (n : Nat) : (mulBack l n).length = l.length := by
  simp [mulBack]

theorem mulBack_prod (l : List Nat) (n : Nat) (h : l ≠ []) :
    (mulBack l n).prod = l.prod * n := by
  rcases List.eq_nil_or_concat l with h1 | ⟨l1, x, h1⟩
  · exact absurd h1 h
  · subst h1
    rw [List.concat_eq_append, mulBack_concat]
    simp [List.prod_append, Nat.mul_assoc]

theorem mulBack_ne_nil (l : List Nat) (n : Nat) (h : l ≠ []) : mulBack l n ≠ [] := by
  intro hc
  have := mulBack_length l n
  rw [hc] at this
  exact h (List.length_eq_zero.mp this.symm)

theorem collapseStep_snd (shape : List Nat) (i : Nat) (st : List Bool × List Nat) :
    (collapseStep shape i st).2 = st.2 ++ [shape.getD i 0] ∨
      (collapseStep shape i st).2 = mulBack st.2 (shape.getD i 0) := by
  unfold collapseStep
  dsimp only
  split_ifs <;> simp

/-- Length and product of `data_reshape_` along the collapsing loop. -/
theorem collapse_loop_invariant (shape : List Nat) (lo hi : Nat) (bitmap : List Bool)
    (h : lo + 1 ≤ hi) (hhi : hi ≤ shape.length) :
    let st := forRange (lo + 1) hi (collapseStep shape) (bitmap, [shape.getD lo 0])
    1 ≤ st.2.length ∧ st.2.length ≤ hi - lo ∧
      st.2.prod = ((shape.take hi).drop lo).prod := by
  refine forRange_induction
    (fun (i : Nat) (st : List Bool × List Nat) => 1 ≤ st.2.length ∧ st.2.length ≤ i - lo ∧
      st.2.prod = ((shape.take i).drop lo).prod) (lo + 1) hi _ _ h ?_ ?_
  · refine ⟨by simp, by simp, ?_⟩
    have hlo : lo < shape.length := by omega
    rw [List.take_succ, List.drop_append_of_le_length (by simp; omega)]
    simp [List.getD_eq_getElem?_getD, List.getElem?_eq_getElem hlo, List.drop_take]
  · intro i st h1 h2 ⟨ha, hb, hc⟩
    have hi2 : i < shape.length := by omega
    have hne : st.2 ≠ [] := by
      intro hc; rw [hc] at ha; simp at ha
    have hprod : ((shape.take (i + 1)).drop lo).prod
        = ((shape.take i).drop lo).prod * shape.getD i 0 := by
      rw [List.take_succ, List.drop_append_of_le_length (by simp; omega)]
      simp [List.getD_eq_getElem?_getD, List.getElem?_eq_getElem hi2, List.prod_append]
    rcases collapseStep_snd shape i st with e | e
    · rw [e]
      refine ⟨by simp, by simp; omega, ?_⟩
      rw [hprod, List.prod_append, hc]; simp
    · rw [e]
      refine ⟨by rw [mulBack_length]; exact ha, by rw [mulBack_length]; omega, ?_⟩
      rw [hprod, mulBack_prod _ _ hne, hc]


theorem take_prod_of_ones (shape : List Nat) (d : Nat)
    (h : ∀ j, j < d → shape.getD j 0 = 1) : (shape.take d).prod = 1 := by
  apply List.prod_eq_one
  intro x hx
  obtain ⟨j, hj, rfl⟩ := List.mem_iff_getElem.mp hx
  rw [List.getElem_take]
  have hj2 : j < d ∧ j < shape.length := by
    simpa [List.length_take] using hj
  have := h j hj2.1
  rwa [List.getD_eq_getElem _ _ hj2.2] at this

theorem Simplify_data_reshape_cases (op : ReduceOp) (shape : List Nat) :
    (scanUnitDims shape shape.length 0 = shape.length ∧
      (Simplify op shape).data_reshape_ = [1] ∧
      (Simplify op shape).reduce_first_axis_ = true) ∨
    (scanUnitDims shape shape.length 0 < shape.length ∧
      (Simplify op shape).data_reshape_ =
        (forRange (scanUnitDims shape shape.length 0 + 1) shape.length (collapseStep shape)
          (markAxes op shape.length (List.replicate shape.length false),
            [shape.getD (scanUnitDims shape shape.length 0) 0])).2 ∧
      (Simplify op shape).reduce_first_axis_ =
        (markAxes op shape.length (List.replicate shape.length false)).getD
          (scanUnitDims shape shape.length 0) false) := by
  have hb := scanUnitDims_bounds shape shape.length 0
  by_cases h : scanUnitDims shape shape.length 0 ≥ shape.length
  · left
    refine ⟨by omega, ?_, ?_⟩ <;> simp [Simplify, h]
  · right
    refine ⟨by omega, ?_, ?_⟩ <;> simp [Simplify, h]

/-- C1: for every input shape (any rank, any dimension sizes) and every axis
list, the product of the `data_reshape_` computed by `Simplify` equals the
product of the input shape. -/
theorem Simplify_data_reshape_prod (op : ReduceOp) (shape : List Nat) :
    shapeProd (Simplify op shape).data_reshape_ = shapeProd shape := by
  unfold shapeProd
  have hones := scanUnitDims_ones shape shape.length 0
  rcases Simplify_data_reshape_cases op shape with ⟨h1, h2, _⟩ | ⟨h1, h2, _⟩
  · rw [h2]
    have := take_prod_of_ones shape shape.length
      (fun j hj => hones j (Nat.zero_le _) (by omega))
    simpa using this.symm
  · rw [h2]
    have hinv := collapse_loop_invariant shape (scanUnitDims shape shape.length 0)
      shape.length (markAxes op shape.length (List.replicate shape.length false))
      (by omega) (le_refl _)
    rw [hinv.2.2]
    have h3 := take_prod_of_ones shape (scanUnitDims shape shape.length 0)
      (fun j hj => hones j (Nat.zero_le _) hj)
    conv_rhs => rw [← List.take_append_drop (scanUnitDims shape shape.length 0) shape]
    rw [List.prod_append, h3]
    simp

/-- C7: for every input shape of rank `r` and every axis list, `data_reshape_`
has at least 1 and at most `max 1 r` entries; for rank 1 to 4 the number of
entries is one of 1, 2, 3, 4. -/
theorem Simplify_data_reshape_length (op : ReduceOp) (shape : List Nat) :
    1 ≤ (Simplify op shape).data_reshape_.length ∧
    (Simplify op shape).data_reshape_.length ≤ max 1 shape.length ∧
    (1 ≤ shape.length → shape.length ≤ 4 →
      (Simplify op shape).data_reshape_.length ∈ [1, 2, 3, 4]) := by
  have key : 1 ≤ (Simplify op shape).data_reshape_.length ∧
      (Simplify op shape).data_reshape_.length ≤ max 1 shape.length := by
    rcases Simplify_data_reshape_cases op shape with ⟨h1, h2, _⟩ | ⟨h1, h2, _⟩
    · rw [h2]; simp
    · rw [h2]
      have hinv := collapse_loop_invariant shape (scanUnitDims shape shape.length 0)
        shape.length (markAxes op shape.length (List.replicate shape.length false))
        (by omega) (le_refl _)
      refine ⟨hinv.1, ?_⟩
      have := hinv.2.1
      have hm : shape.length ≤ max 1 shape.length := le_max_right _ _
      omega
  refine ⟨key.1, key.2, ?_⟩
  intro h1 h4
  have hm : max 1 shape.length = shape.length := max_eq_right h1
  have hle : (Simplify op shape).data_reshape_.length ≤ 4 := by
    have := key.2
    omega
  have hge := key.1
  simp only [List.mem_cons, List.mem_singleton, List.not_mem_nil, or_false]
  omega

theorem Simplify_data_reshape_length_witness :
    (1 ≤ (Simplify (mkOp ReduceType.SUM [0, 2] false 0 false) [2, 3, 4, 5]).data_reshape_.length ∧
    (Simplify (mkOp ReduceType.SUM [0, 2] false 0 false) [2, 3, 4, 5]).data_reshape_.length
      ≤ max 1 4) ∧
    (Simplify (mkOp ReduceType.SUM [0, 2] false 0 false) [2, 3, 4, 5]).data_reshape_.length
      ∈ [1, 2, 3, 4] :=
  ⟨⟨(Simplify_data_reshape_length (mkOp ReduceType.SUM [0, 2] false 0 false) [2, 3, 4, 5]).1,
    (Simplify_data_reshape_length (mkOp ReduceType.SUM [0, 2] false 0 false) [2, 3, 4, 5]).2.1⟩,
   (Simplify_data_reshape_length (mkOp ReduceType.SUM [0, 2] false 0 false) [2, 3, 4, 5]).2.2
    (by decide) (by decide)⟩


/-! ### The bitmap and `out_shape_` -/

theorem setBit_length (bm : List Bool) (idx : Int) : (setBit bm idx).length = bm.length := by
  unfold setBit; split <;> simp

theorem setBit_getD (bm : List Bool) (idx : Int) (j : Nat) (hj : j < bm.length) :
    (setBit bm idx).getD j false = (bm.getD j false || (idx == (j : Int))) := by
  unfold setBit
  by_cases h : 0 ≤ idx
  · rw [if_pos h]
    by_cases e : idx.toNat = j
    · have e2 : idx = (j : Int) := by omega
      subst e2
      simp [List.getD_eq_getElem?_getD, hj]
    · have e2 : idx ≠ (j : Int) := by omega
      simp [List.getD_eq_getElem?_getD, List.getElem?_set, e, e2]
  · rw [if_neg h]
    have e2 : idx ≠ (j : Int) := by omega
    simp [e2]

theorem foldl_setBit (f : Int → Int) (axes : List Int) (bm : List Bool) :
    (axes.foldl (fun bm a => setBit bm (f a)) bm).length = bm.length ∧
    ∀ j, j < bm.length →
      (axes.foldl (fun bm a => setBit bm (f a)) bm).getD j false
        = (bm.getD j false || axes.any (fun a => f a == (j : Int))) := by
  induction axes generalizing bm with
  | nil => simp
  | cons a rest ih =>
    simp only [List.foldl_cons, List.any_cons]
    obtain ⟨h1, h2⟩ := ih (setBit bm (f a))
    refine ⟨by rw [h1, setBit_length], ?_⟩
    intro j hj
    rw [h2 j (by rw [setBit_length]; exact hj), setBit_getD _ _ _ hj, Bool.or_assoc]

theorem markAll_loop (r : Nat) :
    forRange 0 r (fun i (bm : List Bool) => bm.set i true) (List.replicate r false)
      = List.replicate r true := by
  have key := forRange_induction
    (fun (i : Nat) (bm : List Bool) => bm.length = r ∧
      ∀ j, j < r → bm.getD j false = decide (j < i)) 0 r
    (fun i (bm : List Bool) => bm.set i true) (List.replicate r false) (Nat.zero_le _)
    (by
      refine ⟨by simp, ?_⟩
      intro j hj
      simp [List.getD_eq_getElem?_getD, List.getElem?_replicate, hj])
    (by
      intro i st _ hi ⟨h1, h2⟩
      refine ⟨by simp [h1], ?_⟩
      intro j hj
      by_cases e : i = j
      · subst e
        simp [List.getD_eq_getElem?_getD, h1, hj]
      · have := h2 j hj
        simp only [List.getD_eq_getElem?_getD, List.getElem?_set, e, if_false] at this ⊢
        rw [this]
        have : (j < i + 1) = (j < i) := by
          apply propext; constructor <;> intro h <;> omega
        simp [this])
  obtain ⟨h1, h2⟩ := key
  apply List.ext_getElem (by simp [h1])
  intro j hj1 hj2
  have hj : j < r := by simpa using hj2
  have := h2 j hj
  rw [List.getD_eq_getElem _ _ hj1] at this
  simp [this, hj]

theorem reducedMask_length (op : ReduceOp) (r : Nat) : (reducedMask op r).length = r := by
  simp [reducedMask]

theorem reducedMask_getD (op : ReduceOp) (r j : Nat) (hj : j < r) :
    (reducedMask op r).getD j false = isReduced op r j := by
  simp [reducedMask, List.getD_eq_getElem?_getD, hj]

/-- The bitmap built by the first part of `Simplify` marks exactly the reduced
positions. -/
theorem markAxes_eq (op : ReduceOp) (r : Nat) :
    markAxes op r (List.replicate r false) = reducedMask op r := by
  unfold markAxes
  by_cases he : op.axis_.isEmpty = true
  · rw [if_pos he, markAll_loop]
    apply List.ext_getElem (by simp [reducedMask])
    intro j hj1 hj2
    have hj : j < r := by simpa using hj1
    simp [reducedMask, isReduced, he]
  · rw [if_neg he]
    obtain ⟨h1, h2⟩ := foldl_setBit (axisIndex op.has_data_format op.is_uint8 r)
      op.axis_ (List.replicate r false)
    apply List.ext_getElem (by simp [h1, reducedMask])
    intro j hj1 hj2
    have hj : j < r := by simpa [h1] using hj1
    have := h2 j (by simpa using hj)
    rw [List.getD_eq_getElem _ _ hj1] at this
    rw [this]
    simp [reducedMask, isReduced, he, List.getD_eq_getElem?_getD, hj]


theorem outShapeLoop_eq (shape : List Nat) (bitmap : List Bool) (keep : Bool)
    (hlen : bitmap.length = shape.length) :
    outShapeLoop shape bitmap keep =
      (shape.zip bitmap).filterMap
        (fun x => if !x.2 then some x.1 else if keep then some 1 else none) := by
  unfold outShapeLoop
  have key := forRange_induction
    (fun (i : Nat) (out : List Nat) => out = ((shape.zip bitmap).take i).filterMap
        (fun x => if !x.2 then some x.1 else if keep then some 1 else none))
    0 shape.length
    (fun i out =>
      if !(bitmap.getD i false) then out ++ [shape.getD i 0]
      else if keep then out ++ [1]
      else out) [] (Nat.zero_le _) (by simp)
    (by
      intro i out _ hi hP
      have hi2 : i < bitmap.length := by omega
      have hz : (shape.zip bitmap)[i]? = some (shape[i], bitmap[i]) := by
        rw [List.getElem?_eq_getElem (by simp; omega)]
        simp
      rw [List.take_succ, hz, List.filterMap_append, ← hP]
      simp only [List.getD_eq_getElem?_getD, List.getElem?_eq_getElem hi,
        List.getElem?_eq_getElem hi2, Option.getD_some, Option.toList_some]
      cases hb : bitmap[i] <;> cases keep <;> simp)
  rw [key]
  congr 1
  apply List.take_of_length_le
  simp [hlen]

theorem filterMap_keep (l : List (Nat × Bool)) :
    l.filterMap (fun x => if !x.2 then some x.1 else if true then some 1 else none)
      = l.map (fun x => if x.2 then 1 else x.1) := by
  induction l with
  | nil => rfl
  | cons x rest ih =>
    rcases x with ⟨d, b⟩
    cases b <;> simp_all [List.filterMap_cons]

theorem filterMap_no_keep (l : List (Nat × Bool)) :
    l.filterMap (fun x => if !x.2 then some x.1 else if false then some 1 else none)
      = (l.filter (fun x => !x.2)).map Prod.fst := by
  induction l with
  | nil => rfl
  | cons x rest ih =>
    rcases x with ⟨d, b⟩
    cases b <;> simp_all [List.filterMap_cons]

theorem Simplify_out_shape (op : ReduceOp) (shape : List Nat) :
    (Simplify op shape).out_shape_ =
      outShapeLoop shape (reducedMask op shape.length) op.keep_dims_ := by
  unfold Simplify
  simp only [markAxes_eq]
  split <;> rfl

theorem isReduced_iff (op : ReduceOp) (r i : Nat) :
    isReduced op r i = true ↔
      (op.axis_ = [] ∨
        ∃ a ∈ op.axis_, axisIndex op.has_data_format op.is_uint8 r a = (i : Int)) := by
  simp [isReduced, List.isEmpty_iff]

/-- C4: for an input of rank `r` and an axis list accepted by `Validate`, with
`keep_dims_` set the `out_shape_` computed by `Simplify` has exactly `r`
entries, holds 1 at every position marked as reduced (every position when the
axis list is empty, otherwise the positions `axisIndex` maps an axis entry to)
and holds the input dimension size at every other position. -/
theorem Simplify_out_shape_keep_dims (op : ReduceOp) (shape : List Nat)
    (_hv : Validate op shape.length = Except.ok ()) (hk : op.keep_dims_ = true) :
    (Simplify op shape).out_shape_.length = shape.length ∧
    (∀ i, i < shape.length →
      (op.axis_ = [] ∨
        ∃ a ∈ op.axis_, axisIndex op.has_data_format op.is_uint8 shape.length a = (i : Int)) →
      (Simplify op shape).out_shape_.getD i 0 = 1) ∧
    (∀ i, i < shape.length →
      ¬ (op.axis_ = [] ∨
        ∃ a ∈ op.axis_, axisIndex op.has_data_format op.is_uint8 shape.length a = (i : Int)) →
      (Simplify op shape).out_shape_.getD i 0 = shape.getD i 0) ∧
    (op.axis_ = [] → (Simplify op shape).out_shape_ = List.replicate shape.length 1) := by
  have hout : (Simplify op shape).out_shape_ =
      (shape.zip (reducedMask op shape.length)).map (fun x => if x.2 then 1 else x.1) := by
    rw [Simplify_out_shape, outShapeLoop_eq _ _ _ (reducedMask_length _ _), hk, filterMap_keep]
  have hget : ∀ i, i < shape.length → (Simplify op shape).out_shape_.getD i 0 =
      if isReduced op shape.length i then 1 else shape.getD i 0 := by
    intro i hi
    rw [hout]
    simp [List.getD_eq_getElem?_getD, List.getElem?_zip_eq_some, reducedMask, hi]
  refine ⟨by rw [hout]; simp [reducedMask_length], ?_, ?_, ?_⟩
  · intro i hi hr
    rw [hget i hi, if_pos ((isReduced_iff op _ i).mpr hr)]
  · intro i hi hr
    have : isReduced op shape.length i = false := by
      rw [← Bool.not_eq_true, isReduced_iff]; exact hr
    rw [hget i hi, this]; simp
  · intro he
    apply List.ext_getElem (by rw [hout]; simp [reducedMask_length])
    intro i h1 h2
    have hi : i < shape.length := by simpa using h2
    have := hget i hi
    rw [List.getD_eq_getElem _ _ h1, if_pos ((isReduced_iff op _ i).mpr (Or.inl he))] at this
    simp [this]

theorem Simplify_out_shape_keep_dims_witness :
    (Simplify (mkOp ReduceType.SUM [1, -1] true 0 false) [2, 3, 4]).out_shape_.length = 3 ∧
    (Simplify (mkOp ReduceType.SUM [1, -1] true 0 false) [2, 3, 4]).out_shape_.getD 2 0 = 1 ∧
    (Simplify (mkOp ReduceType.SUM [1, -1] true 0 false) [2, 3, 4]).out_shape_.getD 0 0 = 2 :=
  ⟨(Simplify_out_shape_keep_dims (mkOp ReduceType.SUM [1, -1] true 0 false) [2, 3, 4]
      (by decide) rfl).1,
   (Simplify_out_shape_keep_dims (mkOp ReduceType.SUM [1, -1] true 0 false) [2, 3, 4]
      (by decide) rfl).2.1 2 (by decide) (Or.inr ⟨-1, by decide, by decide⟩),
   (Simplify_out_shape_keep_dims (mkOp ReduceType.SUM [1, -1] true 0 false) [2, 3, 4]
      (by decide) rfl).2.2.1 0 (by decide) (by decide)⟩


/-- Every bitmap index computed for an axis accepted by `Validate` lies inside
the bitmap. -/
theorem axisIndex_range (has_df : Int) (is_uint8 : Bool) (r : Nat) (a : Int)
    (h : -(r : Int) < a ∧ a < (r : Int)) :
    0 ≤ axisIndex has_df is_uint8 r a ∧ axisIndex has_df is_uint8 r a < (r : Int) := by
  unfold axisIndex
  dsimp only
  split_ifs <;> omega

theorem zip_filter_length (mask : List Bool) (xs : List Nat) (h : mask.length = xs.length) :
    ((xs.zip mask).filter (fun x => !x.2)).length + (mask.filter id).length = xs.length := by
  induction xs generalizing mask with
  | nil => cases mask <;> simp_all
  | cons x rest ih =>
    cases mask with
    | nil => simp at h
    | cons b bs =>
      have := ih bs (by simpa using h)
      cases b <;> simp [List.filter_cons] <;> omega

theorem keptEntries_length (mask : List Bool) (xs : List Nat) (h : mask.length = xs.length) :
    (keptEntries mask xs).length = xs.length - (mask.filter id).length := by
  have := zip_filter_length mask xs h
  simp only [keptEntries, List.length_map]
  omega

theorem reducedMask_count (op : ReduceOp) (r : Nat) (hne : op.axis_ ≠ [])
    (hv : Validate op r = Except.ok ()) :
    ((reducedMask op r).filter id).length = (distinctAxes op r).length := by
  have hv2 := (Validate_ok_iff op r).mp hv
  have h1 : ((reducedMask op r).filter id).length
      = (((List.range r).filter (isReduced op r)).map (fun (i : Nat) => (i : Int))).length := by
    simp only [reducedMask, List.filter_map, List.length_map]
    rfl
  rw [h1]
  apply List.Perm.length_eq
  rw [List.perm_ext_iff_of_nodup]
  · intro x
    simp only [distinctAxes, List.mem_dedup, List.mem_map, List.mem_filter, List.mem_range]
    constructor
    · rintro ⟨i, ⟨hi, hr⟩, rfl⟩
      rcases (isReduced_iff op r i).mp hr with h | ⟨a, ha, e⟩
      · exact absurd h hne
      · exact ⟨a, ha, e⟩
    · rintro ⟨a, ha, rfl⟩
      have hrange := axisIndex_range op.has_data_format op.is_uint8 r a (hv2 a ha)
      refine ⟨(axisIndex op.has_data_format op.is_uint8 r a).toNat, ⟨by omega, ?_⟩, by omega⟩
      apply (isReduced_iff op r _).mpr
      exact Or.inr ⟨a, ha, by omega⟩
  · apply List.Nodup.map
    · intro a b hab
      exact Int.ofNat_inj.mp hab
    · exact List.Nodup.filter _ (List.nodup_range r)
  · exact List.nodup_dedup _

/-- C5 (as amended): for an input of rank `r` and an axis list accepted by
`Validate`, with `keep_dims_` off the `out_shape_` computed by `Simplify` lists
the sizes of the non-reduced dimensions in their original order; for a
non-empty axis list its length is `r` minus the number of distinct positions
the axis entries name, which is `r - |axes|` when the entries name pairwise
distinct positions; for an empty axis list it is the empty shape. -/
theorem Simplify_out_shape_no_keep_dims (op : ReduceOp) (shape : List Nat)
    (hv : Validate op shape.length = Except.ok ()) (hk : op.keep_dims_ = false) :
    (Simplify op shape).out_shape_ = keptEntries (reducedMask op shape.length) shape ∧
    (op.axis_ ≠ [] →
      (Simplify op shape).out_shape_.length
        = shape.length - (distinctAxes op shape.length).length) ∧
    (op.axis_ ≠ [] →
      (op.axis_.map (axisIndex op.has_data_format op.is_uint8 shape.length)).Nodup →
      (Simplify op shape).out_shape_.length = shape.length - op.axis_.length) ∧
    (op.axis_ = [] → (Simplify op shape).out_shape_ = []) := by
  have hout : (Simplify op shape).out_shape_ = keptEntries (reducedMask op shape.length) shape := by
    rw [Simplify_out_shape, outShapeLoop_eq _ _ _ (reducedMask_length _ _), hk,
      filterMap_no_keep]
    rfl
  have hlen : op.axis_ ≠ [] → (Simplify op shape).out_shape_.length
        = shape.length - (distinctAxes op shape.length).length := by
    intro hne
    rw [hout, keptEntries_length _ _ (reducedMask_length _ _), reducedMask_count op _ hne hv]
  refine ⟨hout, hlen, ?_, ?_⟩
  · intro hne hnd
    rw [hlen hne, distinctAxes, List.Nodup.dedup hnd, List.length_map]
  · intro he
    have hall : ∀ b ∈ reducedMask op shape.length, b = true := by
      intro b hb
      simp only [reducedMask, List.mem_map, List.mem_range] at hb
      obtain ⟨i, _, rfl⟩ := hb
      exact (isReduced_iff op _ i).mpr (Or.inl he)
    have hz : ((reducedMask op shape.length).filter id).length = shape.length := by
      rw [List.filter_eq_self.mpr (by intro b hb; simpa using hall b hb), reducedMask_length]
    have := keptEntries_length _ shape (reducedMask_length op shape.length)
    rw [hz, Nat.sub_self] at this
    rw [hout]
    exact List.length_eq_zero.mp this

theorem Simplify_out_shape_no_keep_dims_witness :
    (Simplify (mkOp ReduceType.SUM [1, -1] false 0 false) [2, 3, 4]).out_shape_ = [2] ∧
    (Simplify (mkOp ReduceType.SUM [1, -1] false 0 false) [2, 3, 4]).out_shape_.length
      = 3 - 2 := by
  have h := Simplify_out_shape_no_keep_dims (mkOp ReduceType.SUM [1, -1] false 0 false)
    [2, 3, 4] (by decide) rfl
  exact ⟨h.1.trans (by decide), h.2.2.1 (by decide) (by decide)⟩

/-- C5, counterexample: on shape `[2, 3]` the valid axis list `[1, -1]` names
position 1 twice; without `keep_dims_` the `out_shape_` is `[2]`, of length 1,
not `r - |axes| = 0`. -/
theorem Simplify_out_shape_duplicate_axes :
    Validate (mkOp ReduceType.SUM [1, -1] false 0 false) 2 = Except.ok () ∧
    (Simplify (mkOp ReduceType.SUM [1, -1] false 0 false) [2, 3]).out_shape_ = [2] ∧
    (Simplify (mkOp ReduceType.SUM [1, -1] false 0 false) [2, 3]).out_shape_.length
      ≠ [2, 3].length - ([1, -1] : List Int).length := by
  decide


/-! ### `Run` on plans without a kernel and on unit tensors -/

theorem Simplify_reduce_type (op : ReduceOp) (shape : List Nat) :
    (Simplify op shape).reduce_type_ = op.reduce_type_ := by
  unfold Simplify
  dsimp only
  split <;> rfl

theorem Resize_data_length (t : Tensor) (shape : List Nat) :
    (t.Resize shape).data.length = shapeProd shape := by
  simp only [Tensor.Resize, List.length_append, List.length_take, List.length_replicate]
  omega

/-- C8: when the collapsed plan of a validated input has more than 4 groups,
`Run` fails with the check "not implemented in mace" of `Compute`; `Compute`
on that plan fails for every output tensor, so no result of `Reduce1Dims` ..
`Reduce4Dims` is produced. -/
theorem Run_not_implemented (op : ReduceOp) (input output : Tensor)
    (hv : Validate op input.shape.length = Except.ok ())
    (h : 4 < (Simplify op input.shape).data_reshape_.length) :
    Run op input output = Except.error "not implemented in mace" ∧
    ∀ out : Tensor,
      Compute (Simplify op input.shape) input out = Except.error "not implemented in mace" := by
  have hc : ∀ out : Tensor,
      Compute (Simplify op input.shape) input out
        = Except.error "not implemented in mace" := by
    intro out
    unfold Compute
    dsimp only
    split <;> first | rfl | (rename_i e; rw [e] at h; omega)
  refine ⟨?_, hc⟩
  unfold Run
  rw [hv]
  dsimp only
  rw [hc]

theorem Run_not_implemented_witness :
    Run (mkOp ReduceType.SUM [0, 2, 4] false 0 false)
      ⟨[2, 2, 2, 2, 2], List.replicate 32 1, 1, 0⟩ ⟨[], [], 1, 0⟩
      = Except.error "not implemented in mace" :=
  (Run_not_implemented (mkOp ReduceType.SUM [0, 2, 4] false 0 false)
    ⟨[2, 2, 2, 2, 2], List.replicate 32 1, 1, 0⟩ ⟨[], [], 1, 0⟩ (by decide) (by decide)).1

theorem out_shape_all_unit (op : ReduceOp) (shape : List Nat) (h : ∀ d ∈ shape, d = 1) :
    shapeProd (Simplify op shape).out_shape_ = 1 := by
  rw [Simplify_out_shape, outShapeLoop_eq _ _ _ (reducedMask_length _ _)]
  unfold shapeProd
  apply List.prod_eq_one
  intro x hx
  simp only [List.mem_filterMap] at hx
  obtain ⟨⟨d, b⟩, hmem, hval⟩ := hx
  have hd : d = 1 := h d (List.of_mem_zip hmem).1
  dsimp only at hval
  split_ifs at hval <;> simp_all

/-- C10: for the generic kernels over integer elements, on a tensor whose
dimensions all have size 1 (any rank), for every axis list accepted by
`Validate` (so in particular when all axes are reduced), either `keep_dims_`
value and every reduce type among MEAN, MIN, MAX, PROD, SUM, `Run` succeeds
and the output buffer holds exactly the single input element, unchanged. -/
theorem Run_all_unit (op : ReduceOp) (input output : Tensor)
    (hshape : ∀ d ∈ input.shape, d = 1)
    (hv : Validate op input.shape.length = Except.ok ()) (_hT : op.is_uint8 = false)
    (ht : op.reduce_type_ ≠ ReduceType.OTHER) :
    ∃ res, Run op input output = Except.ok res ∧ res.2.data = [input.data.getD 0 0] := by
  obtain ⟨h1, h2⟩ := Simplify_unit_plan op input.shape hshape
  have h3 := out_shape_all_unit op input.shape hshape
  have h4 := Simplify_reduce_type op input.shape
  have hrep : ∀ t : Tensor,
      List.replicate (t.Resize (Simplify op input.shape).out_shape_).data.length (0 : Int)
        = [0] := by
    intro t
    rw [Resize_data_length, h3]
    rfl
  unfold Run
  rw [hv]
  dsimp only
  unfold Compute
  dsimp only
  rw [h1, hrep]
  dsimp only [List.length_singleton]
  unfold Reduce1Dims
  rw [h1, h2, h4]
  cases hty : op.reduce_type_ <;>
    first
    | exact absurd hty ht
    | (refine ⟨_, rfl, ?_⟩
       simp [forRange, Except.map])

theorem Run_all_unit_witness :
    ∃ res, Run (mkOp ReduceType.PROD [0, 1, 2] false 0 false)
        ⟨[1, 1, 1], [-7], 1, 0⟩ ⟨[], [], 1, 0⟩ = Except.ok res ∧
      res.2.data = [(⟨[1, 1, 1], [-7], 1, 0⟩ : Tensor).data.getD 0 0] :=
  Run_all_unit (mkOp ReduceType.PROD [0, 1, 2] false 0 false)
    ⟨[1, 1, 1], [-7], 1, 0⟩ ⟨[], [], 1, 0⟩ (by decide) (by decide) rfl (by decide)


/-! ### `data_reshape_` as the products of the runs of constant status -/

/-- The collapsing loop computes `collapseFrom`. -/
theorem collapse_loop_eq (shape : List Nat) (mask : List Bool)
    (hlen : mask.length = shape.length) :
    ∀ (k i : Nat) (bm : List Bool) (done : List Nat) (acc : Nat),
      i + k = shape.length → 1 ≤ i → bm.length = shape.length →
      (∀ j, i ≤ j → bm.getD j false = mask.getD j false) →
      (forRange i shape.length (collapseStep shape) (bm, done ++ [acc])).2
        = done ++ (collapseFrom (bm.getD (i - 1) false) acc
            ((shape.drop i).zip (mask.drop i))).map Prod.fst := by
  intro k
  induction k with
  | zero =>
    intro i bm done acc hi _ _ _
    have hi2 : shape.length ≤ i := by omega
    rw [forRange_of_ge _ _ _ _ hi2, List.drop_of_length_le hi2]
    simp [collapseFrom]
  | succ k ih =>
    intro i bm done acc hi h1 hbm hmask
    have hi2 : i < shape.length := by omega
    have hi3 : i < mask.length := by omega
    have hi4 : i < bm.length := by omega
    rw [forRange_succ_left _ _ _ _ hi2]
    have hs : shape.drop i = shape[i] :: shape.drop (i + 1) := by
      rw [List.drop_eq_getElem_cons hi2]
    have hm : mask.drop i = mask[i] :: mask.drop (i + 1) := by
      rw [List.drop_eq_getElem_cons hi3]
    rw [hs, hm, List.zip_cons_cons]
    have hmi : bm.getD i false = mask[i] := by
      rw [hmask i (le_refl _), List.getD_eq_getElem _ _ hi3]
    have hsi : shape.getD i 0 = shape[i] := List.getD_eq_getElem _ _ hi2
    have hprev : ∀ v : Bool, (bm.set i v).getD (i - 1) false = bm.getD (i - 1) false := by
      intro v
      have : i ≠ i - 1 := by omega
      simp [List.getD_eq_getElem?_getD, List.getElem?_set, this]
    have hcur : ∀ v : Bool, (bm.set i v).getD i false = v := by
      intro v
      simp [List.getD_eq_getElem?_getD, hi4]
    have hrest : ∀ v : Bool, ∀ j, i + 1 ≤ j →
        (bm.set i v).getD j false = mask.getD j false := by
      intro v j hj
      have : i ≠ j := by omega
      rw [← hmask j (by omega)]
      simp [List.getD_eq_getElem?_getD, List.getElem?_set, this]
    unfold collapseFrom
    by_cases hn : shape[i] = 1
    · have hstep : collapseStep shape i (bm, done ++ [acc])
          = (bm.set i (bm.getD (i - 1) false), done ++ [acc * 1]) := by
        unfold collapseStep
        dsimp only
        rw [hsi, if_pos hn, hprev, hcur, mulBack_concat, hn]
        simp
      rw [hstep, ih (i + 1) (bm.set i (bm.getD (i - 1) false)) done (acc * 1)
        (by omega) (by omega) (by simp [hbm]) (hrest _)]
      rw [Nat.add_sub_cancel, hcur]
      simp only [hn, if_true, ne_eq, not_true_eq_false, if_false]
    · by_cases hb : bm.getD (i - 1) false = mask[i]
      · have hstep : collapseStep shape i (bm, done ++ [acc])
            = (bm, done ++ [acc * shape[i]]) := by
          unfold collapseStep
          dsimp only
          rw [hsi, if_neg hn, hmi, if_neg (not_not.mpr hb), mulBack_concat]
        rw [hstep, ih (i + 1) bm done (acc * shape[i]) (by omega) (by omega) hbm
          (fun j hj => hmask j (by omega))]
        rw [Nat.add_sub_cancel, hmi]
        simp only [hn, if_false, hb, ne_eq, not_true_eq_false]
      · have hstep : collapseStep shape i (bm, done ++ [acc])
            = (bm, (done ++ [acc]) ++ [shape[i]]) := by
          unfold collapseStep
          dsimp only
          rw [hsi, if_neg hn, hmi, if_pos hb]
        rw [hstep, ih (i + 1) bm (done ++ [acc]) shape[i] (by omega) (by omega) hbm
          (fun j hj => hmask j (by omega))]
        rw [Nat.add_sub_cancel, hmi]
        simp only [hn, if_false, ne_eq, hb, not_false_eq_true, if_true, List.map_cons,
          List.append_assoc, List.singleton_append]


theorem splitBy_loop_append {α : Type} (R : α → α → Bool) (l : List α) (a : α)
    (g : List α) (gs : List (List α)) :
    List.splitBy.loop R l a g gs = gs.reverse ++ List.splitBy.loop R l a g [] := by
  induction l generalizing a g gs with
  | nil => simp [List.splitBy.loop]
  | cons x xs ih =>
    unfold List.splitBy.loop
    cases R a x
    · dsimp only
      rw [ih x [] ((a :: g).reverse :: gs), ih x [] [(a :: g).reverse]]
      simp
    · dsimp only
      exact ih x (a :: g) gs

/-- The runs cut by `List.splitBy` on the inherited statuses are the groups of
`collapseFrom`: same products, and every member of a run has the status of its
group. -/
theorem runs_collapseFrom (rest : List (Nat × Bool)) :
    ∀ (ag : Nat × Bool) (g : List (Nat × Bool)), (∀ x ∈ g, x.2 = ag.2) →
      List.Forall₂ (fun grp c => (grp.map Prod.fst).prod = c.1 ∧ ∀ x ∈ grp, x.2 = c.2)
        (List.splitBy.loop (fun x y => x.2 == y.2) (inheritStatus ag.2 rest) ag g [])
        (collapseFrom ag.2 (((ag :: g).map Prod.fst).prod) rest) := by
  induction rest with
  | nil =>
    intro ag g hg
    simp only [inheritStatus, List.splitBy.loop, collapseFrom, List.reverse_cons,
      List.reverse_nil, List.nil_append]
    refine List.Forall₂.cons ⟨?_, ?_⟩ List.Forall₂.nil
    · rw [← List.reverse_cons, List.map_reverse, List.prod_reverse]
    · intro x hx
      simp only [List.mem_append, List.mem_reverse, List.mem_singleton] at hx
      rcases hx with hx | hx
      · exact hg x hx
      · rw [hx]
  | cons nb rest ih =>
    intro ag g hg
    rcases nb with ⟨n, b⟩
    unfold inheritStatus collapseFrom List.splitBy.loop
    dsimp only
    by_cases hb : ag.2 = (if n = 1 then ag.2 else b)
    · have hR : (ag.2 == if n = 1 then ag.2 else b) = true := by
        rw [beq_iff_eq]; exact hb
      rw [hR, if_neg (not_not.mpr hb)]
      dsimp only
      have := ih (n, if n = 1 then ag.2 else b) (ag :: g) (by
        intro x hx
        rcases List.mem_cons.mp hx with hx | hx
        · rw [hx]; exact hb
        · rw [hg x hx]; exact hb)
      dsimp only at this
      rw [← hb] at this
      have e : (((n, ag.2) :: ag :: g).map Prod.fst).prod
          = ((ag :: g).map Prod.fst).prod * n := by
        simp only [List.map_cons, List.prod_cons]
        ring
      rw [e] at this
      rw [← hb]
      exact this
    · have hR : (ag.2 == if n = 1 then ag.2 else b) = false := by
        rw [beq_eq_false_iff_ne]; exact hb
      rw [hR, if_pos hb]
      dsimp only
      rw [splitBy_loop_append]
      simp only [List.reverse_cons, List.reverse_nil, List.nil_append, List.singleton_append]
      refine List.Forall₂.cons ⟨?_, ?_⟩ ?_
      · rw [← List.reverse_cons, List.map_reverse, List.prod_reverse]
      · intro x hx
        simp only [List.mem_append, List.mem_reverse, List.mem_singleton] at hx
        rcases hx with hx | hx
        · exact hg x hx
        · rw [hx]
      · have := ih (n, if n = 1 then ag.2 else b) [] (by simp)
        simpa using this

theorem collapseFrom_status (rest : List (Nat × Bool)) :
    ∀ (prev : Bool) (acc : Nat) (k : Nat) (hk : k < (collapseFrom prev acc rest).length),
      ((collapseFrom prev acc rest)[k]).2 = xor prev (decide (k % 2 = 1)) := by
  induction rest with
  | nil =>
    intro prev acc k hk
    simp only [collapseFrom, List.length_singleton] at hk
    have : k = 0 := by omega
    subst this
    simp [collapseFrom]
  | cons nb rest ih =>
    intro prev acc k hk
    rcases nb with ⟨n, b⟩
    unfold collapseFrom at hk ⊢
    by_cases hb : prev = (if n = 1 then prev else b)
    · simp only [if_neg (not_not.mpr hb)] at hk ⊢
      exact ih prev (acc * n) k hk
    · simp only [if_pos hb] at hk ⊢
      cases k with
      | zero => simp
      | succ k =>
        simp only [List.getElem_cons_succ]
        rw [ih _ n k (by simpa using hk)]
        have e : (if n = 1 then prev else b) = !prev := by
          cases prev <;> cases hv : (if n = 1 then _ else b) <;> simp_all
        rw [e]
        have h2 : (k + 1) % 2 = 1 ↔ ¬ (k % 2 = 1) := by omega
        by_cases hk2 : k % 2 = 1 <;> simp [hk2, h2]

theorem dropWhile_eq_drop {α : Type} (p : α → Bool) (l : List α) (d : Nat)
    (h1 : ∀ j (hj : j < l.length), j < d → p l[j] = true)
    (h2 : ∀ (hd : d < l.length), p l[d] = false) : l.dropWhile p = l.drop d := by
  induction l generalizing d with
  | nil => simp
  | cons x xs ih =>
    cases d with
    | zero =>
      have := h2 (by simp)
      simp only [List.getElem_cons_zero] at this
      simp [List.dropWhile_cons, this]
    | succ d =>
      have hx := h1 0 (by simp) (by omega)
      simp only [List.getElem_cons_zero] at hx
      rw [List.dropWhile_cons, if_pos hx, List.drop_succ_cons]
      apply ih
      · intro j hj hjd
        have := h1 (j + 1) (by simpa using hj) (by omega)
        simpa using this
      · intro hd
        have := h2 (by simpa using hd)
        simpa using this


theorem forall₂_map_eq {α β γ : Type} (P : α → β → Prop) (f : α → γ) (g : β → γ)
    (l₁ : List α) (l₂ : List β) (h : List.Forall₂ P l₁ l₂)
    (hP : ∀ a b, P a b → f a = g b) : l₁.map f = l₂.map g := by
  induction h with
  | nil => rfl
  | cons hab _ ih => simp [hP _ _ hab, ih]

/-- Shape of the state of `Simplify` when some dimension differs from 1: the
first non-unit position `d`, and the runs and groups from `d` onward. -/
theorem Simplify_non_unit (op : ReduceOp) (shape : List Nat) (hnu : ∃ d ∈ shape, d ≠ 1) :
    ∃ (d : Nat) (hd : d < shape.length) (hdm : d < (reducedMask op shape.length).length),
      (∀ j, j < d → shape.getD j 0 = 1) ∧ shape[d] ≠ 1 ∧
      (Simplify op shape).reduce_first_axis_ = (reducedMask op shape.length)[d] ∧
      (Simplify op shape).data_reshape_ =
        (collapseFrom (reducedMask op shape.length)[d] shape[d]
          ((shape.drop (d + 1)).zip ((reducedMask op shape.length).drop (d + 1)))).map
          Prod.fst ∧
      statusRuns shape (reducedMask op shape.length) =
        List.splitBy.loop (fun x y => x.2 == y.2)
          (inheritStatus (reducedMask op shape.length)[d]
            ((shape.drop (d + 1)).zip ((reducedMask op shape.length).drop (d + 1))))
          (shape[d], (reducedMask op shape.length)[d]) [] [] := by
  have hml := reducedMask_length op shape.length
  have hb := scanUnitDims_bounds shape shape.length 0
  have hones := scanUnitDims_ones shape shape.length 0
  have hd : scanUnitDims shape shape.length 0 < shape.length := by
    by_contra hc
    obtain ⟨x, hx, hx1⟩ := hnu
    obtain ⟨j, hj, rfl⟩ := List.mem_iff_getElem.mp hx
    have := hones j (Nat.zero_le _) (by omega)
    rw [List.getD_eq_getElem _ _ hj] at this
    exact hx1 this
  have hstop := scanUnitDims_stop shape shape.length 0 (by omega)
  have hcases := Simplify_data_reshape_cases op shape
  rw [markAxes_eq] at hcases
  generalize scanUnitDims shape shape.length 0 = d at hb hones hd hstop hcases
  rw [List.getD_eq_getElem _ _ hd] at hstop
  rcases hcases with ⟨hc, _⟩ | ⟨_, hdr, hrf⟩
  · omega
  have hdm : d < (reducedMask op shape.length).length := by omega
  refine ⟨d, hd, hdm, fun j hj => hones j (Nat.zero_le _) hj, hstop, ?_, ?_, ?_⟩
  · rw [hrf, List.getD_eq_getElem _ _ hdm]
  · rw [hdr]
    have := collapse_loop_eq shape (reducedMask op shape.length) hml
      (shape.length - (d + 1)) (d + 1) (reducedMask op shape.length) [] (shape.getD d 0)
      (by omega) (by omega) hml (fun _ _ => rfl)
    rw [List.nil_append] at this
    rw [this, Nat.add_sub_cancel, List.getD_eq_getElem _ _ hdm, List.getD_eq_getElem _ _ hd,
      List.nil_append]
  · unfold statusRuns statusFromFirstNonUnit
    have hdw : (shape.zip (reducedMask op shape.length)).dropWhile (fun x => x.1 == 1)
        = (shape.zip (reducedMask op shape.length)).drop d := by
      apply dropWhile_eq_drop
      · intro j hj hjd
        have hj2 : j < shape.length := by
          simp only [List.length_zip] at hj; omega
        have := hones j (Nat.zero_le _) hjd
        rw [List.getD_eq_getElem _ _ hj2] at this
        simp [this]
      · intro _
        simp [hstop]
    rw [hdw]
    have hz : (shape.zip (reducedMask op shape.length)).drop d
        = (shape[d], (reducedMask op shape.length)[d]) ::
          (shape.drop (d + 1)).zip ((reducedMask op shape.length).drop (d + 1)) := by
      rw [List.zip, List.drop_zipWith, List.drop_eq_getElem_cons hd,
        List.drop_eq_getElem_cons hdm]
      rfl
    rw [hz]
    rfl

/-- C6: for an input with some dimension different from 1 and an axis list
accepted by `Validate`, `data_reshape_` is the list of products of the maximal
runs of constant status (cut by `List.splitBy` from the first non-unit
dimension onward, a size-1 dimension taking the status its predecessor has
after this rule was applied to it),
`reduce_first_axis_` is the status of the first non-unit dimension, and every
dimension of run `k` has status `reduce_first_axis_ XOR (k odd)`. -/
theorem Simplify_data_reshape_runs (op : ReduceOp) (shape : List Nat)
    (_hv : Validate op shape.length = Except.ok ()) (hnu : ∃ d ∈ shape, d ≠ 1) :
    (Simplify op shape).data_reshape_ = runProducts shape (reducedMask op shape.length) ∧
    (∀ i, i < shape.length → (∀ j, j < i → shape.getD j 0 = 1) → shape.getD i 0 ≠ 1 →
      (Simplify op shape).reduce_first_axis_ = isReduced op shape.length i) ∧
    (∀ k (hk : k < (statusRuns shape (reducedMask op shape.length)).length),
      ∀ x ∈ (statusRuns shape (reducedMask op shape.length))[k],
        x.2 = xor (Simplify op shape).reduce_first_axis_ (decide (k % 2 = 1))) := by
  obtain ⟨d, hd, hdm, hones, hstop, hrf, hdr, hruns⟩ := Simplify_non_unit op shape hnu
  have hF := runs_collapseFrom
    ((shape.drop (d + 1)).zip ((reducedMask op shape.length).drop (d + 1)))
    (shape[d], (reducedMask op shape.length)[d]) [] (by simp)
  simp only [List.map_cons, List.map_nil, List.prod_cons, List.prod_nil, mul_one] at hF
  rw [← hruns] at hF
  refine ⟨?_, ?_, ?_⟩
  · rw [hdr, runProducts]
    exact (forall₂_map_eq _ _ _ _ _ hF (fun a b h => h.1)).symm
  · intro i hi h1 h2
    have hid : i = d := by
      rcases Nat.lt_trichotomy i d with h | h | h
      · exact absurd (hones i h) h2
      · exact h
      · have := h1 d h
        rw [List.getD_eq_getElem _ _ hd] at this
        exact absurd this hstop
    subst hid
    rw [hrf, ← reducedMask_getD op shape.length i hi, List.getD_eq_getElem _ _ hdm]
  · intro k hk x hx
    have hk2 : k < (collapseFrom (reducedMask op shape.length)[d] shape[d]
        ((shape.drop (d + 1)).zip ((reducedMask op shape.length).drop (d + 1)))).length := by
      rw [← hF.length_eq]; exact hk
    have := hF.get hk hk2
    rw [hrf, (this.2 x (by simpa using hx))]
    exact collapseFrom_status _ _ _ k hk2

theorem Simplify_data_reshape_runs_witness :
    (Simplify (mkOp ReduceType.SUM [0, 3] false 0 false) [1, 2, 1, 3, 4, 5]).data_reshape_
      = runProducts [1, 2, 1, 3, 4, 5]
          (reducedMask (mkOp ReduceType.SUM [0, 3] false 0 false) 6) ∧
    runProducts [1, 2, 1, 3, 4, 5] (reducedMask (mkOp ReduceType.SUM [0, 3] false 0 false) 6)
      = [2, 3, 20] :=
  ⟨(Simplify_data_reshape_runs (mkOp ReduceType.SUM [0, 3] false 0 false) [1, 2, 1, 3, 4, 5]
    (by decide) ⟨2, by decide, by decide⟩).1, by decide⟩


/-! ### The collapsed plan reduces the same cells -/

theorem prodZ_cons (d : Nat) (b : Bool) (rest : List (Nat × Bool)) :
    prodZ ((d, b) :: rest) = d * prodZ rest := by
  simp [prodZ]

theorem keptProdZ_cons_true (d : Nat) (rest : List (Nat × Bool)) :
    keptProdZ ((d, true) :: rest) = keptProdZ rest := by
  simp [keptProdZ]

theorem keptProdZ_cons_false (d : Nat) (rest : List (Nat × Bool)) :
    keptProdZ ((d, false) :: rest) = d * keptProdZ rest := by
  simp [keptProdZ]

theorem outPosZ_cons_true (d : Nat) (rest : List (Nat × Bool)) (p : Nat) :
    outPosZ ((d, true) :: rest) p = outPosZ rest (p % prodZ rest) := by
  simp [outPosZ]

theorem outPosZ_cons_false (d : Nat) (rest : List (Nat × Bool)) (p : Nat) :
    outPosZ ((d, false) :: rest) p
      = (p / prodZ rest) * keptProdZ rest + outPosZ rest (p % prodZ rest) := by
  simp [outPosZ]

theorem outPosZ_lt (dims : List (Nat × Bool)) :
    ∀ p, p < prodZ dims → outPosZ dims p < keptProdZ dims := by
  induction dims with
  | nil => intro p _; simp [outPosZ, keptProdZ]
  | cons x rest ih =>
    intro p hp
    rcases x with ⟨d, b⟩
    rw [prodZ_cons] at hp
    have hS : 0 < prodZ rest := by
      rcases Nat.eq_zero_or_pos (prodZ rest) with h | h
      · rw [h] at hp; simp at hp
      · exact h
    have hq := ih (p % prodZ rest) (Nat.mod_lt _ hS)
    cases b
    · rw [outPosZ_cons_false, keptProdZ_cons_false]
      have hc : p / prodZ rest < d := by
        rw [Nat.div_lt_iff_lt_mul hS]; exact hp
      calc p / prodZ rest * keptProdZ rest + outPosZ rest (p % prodZ rest)
          < p / prodZ rest * keptProdZ rest + keptProdZ rest := by omega
        _ = (p / prodZ rest + 1) * keptProdZ rest := by ring
        _ ≤ d * keptProdZ rest := Nat.mul_le_mul_right _ hc
    · rw [outPosZ_cons_true, keptProdZ_cons_true]
      exact hq

/-- A dimension of size 1 does not change the output position. -/
theorem outPosZ_unit (b : Bool) (rest : List (Nat × Bool)) (p : Nat) (hp : p < prodZ rest) :
    outPosZ ((1, b) :: rest) p = outPosZ rest p := by
  cases b
  · rw [outPosZ_cons_false, Nat.div_eq_of_lt hp, Nat.mod_eq_of_lt hp]
    simp
  · rw [outPosZ_cons_true, Nat.mod_eq_of_lt hp]

theorem keptProdZ_unit (b : Bool) (rest : List (Nat × Bool)) :
    keptProdZ ((1, b) :: rest) = keptProdZ rest := by
  cases b <;> simp [keptProdZ]

/-- Two adjacent dimensions of equal status merge into one. -/
theorem outPosZ_merge (a n : Nat) (s : Bool) (rest : List (Nat × Bool)) (p : Nat) :
    outPosZ ((a, s) :: (n, s) :: rest) p = outPosZ ((a * n, s) :: rest) p := by
  cases s
  · simp only [outPosZ_cons_false, keptProdZ_cons_false, prodZ_cons]
    have h1 : p % (n * prodZ rest) % prodZ rest = p % prodZ rest :=
      Nat.mod_mul_left_mod _ _ _
    have h2 : p / (n * prodZ rest) * n + p % (n * prodZ rest) / prodZ rest
        = p / prodZ rest := by
      rcases Nat.eq_zero_or_pos (prodZ rest) with h | h
      · simp [h]
      · rw [Nat.mul_comm n (prodZ rest), ← Nat.div_div_eq_div_mul, Nat.mod_mul_right_div_self]
        exact Nat.div_add_mod' _ _
    rw [h1, ← h2]
    ring
  · simp only [outPosZ_cons_true, prodZ_cons]
    rw [Nat.mod_mul_left_mod]

theorem keptProdZ_merge (a n : Nat) (s : Bool) (rest : List (Nat × Bool)) :
    keptProdZ ((a, s) :: (n, s) :: rest) = keptProdZ ((a * n, s) :: rest) := by
  cases s <;> simp [keptProdZ, Nat.mul_assoc]


theorem collapseFrom_prodZ (rest : List (Nat × Bool)) :
    ∀ (s : Bool) (acc : Nat), prodZ (collapseFrom s acc rest) = acc * prodZ rest := by
  induction rest with
  | nil => intro s acc; simp [collapseFrom, prodZ]
  | cons x rest ih =>
    intro s acc
    rcases x with ⟨n, b⟩
    unfold collapseFrom
    by_cases h : s ≠ (if n = 1 then s else b)
    · rw [if_pos h, prodZ_cons, ih, prodZ_cons]
    · rw [if_neg h, ih, prodZ_cons, Nat.mul_assoc]

theorem collapseFrom_keptProdZ (rest : List (Nat × Bool)) :
    ∀ (s : Bool) (acc : Nat),
      keptProdZ (collapseFrom s acc rest) = keptProdZ ((acc, s) :: rest) := by
  induction rest with
  | nil => intro s acc; simp [collapseFrom]
  | cons x rest ih =>
    intro s acc
    rcases x with ⟨n, b⟩
    unfold collapseFrom
    by_cases hn : n = 1
    · subst hn
      simp only [if_true, ne_eq, not_true_eq_false, if_false]
      rw [ih, Nat.mul_one]
      cases s <;> simp [keptProdZ_cons_false, keptProdZ_cons_true, keptProdZ_unit]
    · simp only [hn, if_false]
      by_cases hb : s = b
      · subst hb
        simp only [ne_eq, not_true_eq_false, if_false]
        rw [ih, keptProdZ_merge]
      · simp only [ne_eq, hb, not_false_eq_true, if_true]
        cases s
        · rw [keptProdZ_cons_false, ih, keptProdZ_cons_false]
        · rw [keptProdZ_cons_true, ih, keptProdZ_cons_true]

/-- The groups of `collapseFrom` send every input position to the same output
position as the uncollapsed dimensions. -/
theorem collapseFrom_outPosZ (rest : List (Nat × Bool)) :
    ∀ (s : Bool) (acc : Nat) (p : Nat), p < acc * prodZ rest →
      outPosZ (collapseFrom s acc rest) p = outPosZ ((acc, s) :: rest) p := by
  induction rest with
  | nil => intro s acc p _; simp [collapseFrom]
  | cons x rest ih =>
    intro s acc p hp
    rcases x with ⟨n, b⟩
    rw [prodZ_cons] at hp
    have hS : 0 < prodZ rest := by
      rcases Nat.eq_zero_or_pos (prodZ rest) with h | h
      · rw [h] at hp; simp at hp
      · exact h
    unfold collapseFrom
    by_cases hn : n = 1
    · subst hn
      simp only [if_true, ne_eq, not_true_eq_false, if_false]
      rw [ih s (acc * 1) p (by simpa using hp), Nat.mul_one]
      have hr : p % prodZ rest < prodZ rest := Nat.mod_lt _ hS
      cases s
      · simp only [outPosZ_cons_false, prodZ_cons, Nat.one_mul, keptProdZ_unit]
        rw [outPosZ_unit b rest _ hr]
      · simp only [outPosZ_cons_true, prodZ_cons, Nat.one_mul]
        rw [outPosZ_unit b rest _ hr]
    · simp only [hn, if_false]
      by_cases hb : s = b
      · subst hb
        simp only [ne_eq, not_true_eq_false, if_false]
        rw [ih s (acc * n) p (by rw [Nat.mul_assoc]; exact hp), outPosZ_merge]
      · simp only [ne_eq, hb, not_false_eq_true, if_true]
        have hmod : p % (n * prodZ rest) < n * prodZ rest := by
          apply Nat.mod_lt
          rcases Nat.eq_zero_or_pos (n * prodZ rest) with h | h
          · rw [h] at hp; simp at hp
          · exact h
        have e1 := collapseFrom_prodZ rest b n
        have e2 := collapseFrom_keptProdZ rest b n
        have e3 := ih b n (p % (n * prodZ rest)) hmod
        cases s
        · rw [outPosZ_cons_false, outPosZ_cons_false, e1, e2, e3, prodZ_cons]
        · rw [outPosZ_cons_true, outPosZ_cons_true, e1, e3, prodZ_cons]

theorem outPosZ_drop_units (dims : List (Nat × Bool)) (d : Nat)
    (h : ∀ j (hj : j < dims.length), j < d → dims[j].1 = 1) :
    (∀ p, p < prodZ dims → outPosZ dims p = outPosZ (dims.drop d) p) ∧
    keptProdZ dims = keptProdZ (dims.drop d) ∧ prodZ dims = prodZ (dims.drop d) := by
  induction d generalizing dims with
  | zero => simp
  | succ d ih =>
    cases dims with
    | nil => simp
    | cons x rest =>
      rcases x with ⟨n, b⟩
      have hn : n = 1 := h 0 (by simp) (by omega)
      subst hn
      have := ih rest (by
        intro j hj hjd
        exact h (j + 1) (by simpa using hj) (by omega))
      simp only [List.drop_succ_cons]
      refine ⟨?_, ?_, ?_⟩
      · intro p hp
        rw [prodZ_cons, Nat.one_mul] at hp
        rw [outPosZ_unit b rest p hp]
        exact this.1 p hp
      · rw [keptProdZ_unit]; exact this.2.1
      · rw [prodZ_cons, Nat.one_mul]; exact this.2.2

theorem keptEntries_cons (b : Bool) (bs : List Bool) (x : Nat) (xs : List Nat) :
    keptEntries (b :: bs) (x :: xs)
      = if b then keptEntries bs xs else x :: keptEntries bs xs := by
  cases b <;> simp [keptEntries]

/-- The output position of the reference definition in recursive form. -/
theorem outPos_eq_outPosZ (shape : List Nat) :
    ∀ (mask : List Bool) (p : Nat), mask.length = shape.length →
      outPos shape mask p = outPosZ (shape.zip mask) p := by
  induction shape with
  | nil => intro mask p _; simp [outPos, keptEntries, ravel, outPosZ]
  | cons d ds ih =>
    intro mask p hlen
    cases mask with
    | nil => simp at hlen
    | cons b bs =>
      have hl : bs.length = ds.length := by simpa using hlen
      have := ih bs (p % ds.prod) hl
      unfold outPos at this ⊢
      rw [List.zip_cons_cons, unravel, keptEntries_cons, keptEntries_cons]
      have hS : prodZ (ds.zip bs) = ds.prod := by
        simp [prodZ, List.map_fst_zip _ _ (le_of_eq hl.symm)]
      have hK : keptProdZ (ds.zip bs) = (keptEntries bs ds).prod := rfl
      cases b
      · simp only [Bool.false_eq_true, if_false, ravel]
        rw [outPosZ_cons_false, hS, hK, this]
      · simp only [if_true]
        rw [outPosZ_cons_true, hS, this]


/-! ### Row-major enumeration of a cell -/

theorem range_mul_blocks (d S : Nat) :
    List.range (d * S)
      = (List.range d).flatMap (fun c => (List.range S).map (fun q => c * S + q)) := by
  induction d with
  | zero => simp
  | succ d ih =>
    rw [Nat.succ_mul, List.range_add, ih, List.range_succ, List.flatMap_append,
      List.flatMap_singleton]

theorem flatMap_single {α : Type} (d c0 : Nat) (hc : c0 < d) (f : Nat → List α) :
    (List.range d).flatMap (fun c => if c = c0 then f c else []) = f c0 := by
  induction d with
  | zero => omega
  | succ d ih =>
    rw [List.range_succ, List.flatMap_append, List.flatMap_singleton]
    by_cases h : c0 = d
    · subst h
      have : (List.range c0).flatMap (fun c => if c = c0 then f c else []) = [] := by
        rw [List.flatMap_eq_nil_iff]
        intro c hcm
        have : c ≠ c0 := by
          have := List.mem_range.mp hcm
          omega
        simp [this]
      simp [this]
    · rw [ih (by omega)]
      have : d ≠ c0 := fun e => h e.symm
      simp [this]

/-- The cell of output position `o` is exactly `cellZ`, in increasing
order. -/
theorem cellZ_eq_filter (dims : List (Nat × Bool)) :
    ∀ o, o < keptProdZ dims →
      (List.range (prodZ dims)).filter (fun p => outPosZ dims p == o) = cellZ dims o := by
  induction dims with
  | nil =>
    intro o ho
    have : o = 0 := by simpa [keptProdZ] using ho
    subst this
    have hr : List.range 1 = [0] := rfl
    simp [prodZ, outPosZ, cellZ, hr]
  | cons x rest ih =>
    intro o ho
    rcases x with ⟨d, b⟩
    rw [prodZ_cons, range_mul_blocks, List.filter_flatMap]
    cases b
    · rw [keptProdZ_cons_false] at ho
      have hK : 0 < keptProdZ rest := by
        rcases Nat.eq_zero_or_pos (keptProdZ rest) with h | h
        · rw [h] at ho; simp at ho
        · exact h
      have hc0 : o / keptProdZ rest < d := by
        rw [Nat.div_lt_iff_lt_mul hK]; exact ho
      have hblock : ∀ c, List.filter (fun p => outPosZ ((d, false) :: rest) p == o)
            ((List.range (prodZ rest)).map (fun q => c * prodZ rest + q))
          = if c = o / keptProdZ rest then
              (cellZ rest (o % keptProdZ rest)).map (fun q => c * prodZ rest + q)
            else [] := by
        intro c
        rw [List.filter_map]
        have hpred : ∀ q ∈ List.range (prodZ rest),
            ((fun p => outPosZ ((d, false) :: rest) p == o) ∘ (fun q => c * prodZ rest + q)) q
              = (decide (c = o / keptProdZ rest) && (outPosZ rest q == o % keptProdZ rest)) := by
          intro q hq
          have hq2 : q < prodZ rest := List.mem_range.mp hq
          have hS : 0 < prodZ rest := by omega
          have hlt := outPosZ_lt rest q hq2
          simp only [Function.comp, outPosZ_cons_false]
          rw [Nat.mul_comm c, Nat.mul_add_div hS, Nat.mul_add_mod, Nat.div_eq_of_lt hq2,
            Nat.mod_eq_of_lt hq2, Nat.add_zero]
          have hdm := Nat.div_add_mod o (keptProdZ rest)
          have hml := Nat.mod_lt o hK
          rw [Bool.eq_iff_iff]
          simp only [beq_iff_eq, Bool.and_eq_true, decide_eq_true_eq]
          constructor
          · intro h
            have h1 : c = o / keptProdZ rest := by
              rw [← h, Nat.mul_comm, Nat.mul_add_div hK, Nat.div_eq_of_lt hlt, Nat.add_zero]
            refine ⟨h1, ?_⟩
            rw [← h, Nat.mul_comm, Nat.mul_add_mod, Nat.mod_eq_of_lt hlt]
          · rintro ⟨h1, h2⟩
            rw [h1, h2, Nat.mul_comm]
            exact hdm
        rw [List.filter_congr hpred]
        by_cases hc : c = o / keptProdZ rest
        · simp only [hc, decide_True, Bool.true_and, if_true]
          rw [ih (o % keptProdZ rest) (Nat.mod_lt _ hK)]
        · simp [hc]
      simp only [hblock]
      rw [flatMap_single d _ hc0]
      simp [cellZ]
    · rw [keptProdZ_cons_true] at ho
      have hblock : ∀ c, List.filter (fun p => outPosZ ((d, true) :: rest) p == o)
            ((List.range (prodZ rest)).map (fun q => c * prodZ rest + q))
          = (cellZ rest o).map (fun q => c * prodZ rest + q) := by
        intro c
        rw [List.filter_map]
        have hpred : ∀ q ∈ List.range (prodZ rest),
            ((fun p => outPosZ ((d, true) :: rest) p == o) ∘ (fun q => c * prodZ rest + q)) q
              = (outPosZ rest q == o) := by
          intro q hq
          have hq2 : q < prodZ rest := List.mem_range.mp hq
          simp only [Function.comp, outPosZ_cons_true]
          rw [Nat.mul_comm c, Nat.mul_add_mod, Nat.mod_eq_of_lt hq2]
        rw [List.filter_congr hpred, ih o ho]
      simp only [hblock]
      simp [cellZ]


/-! ### Loops as folds over index lists -/

theorem forStep_one {σ : Type} (n : Nat) (body : Nat → σ → σ) (s : σ) :
    forStep 0 n 1 body s = forRange 0 n body s := by
  simp [forStep, forRange]

theorem forRange_zero_eq {σ : Type} (n : Nat) (body : Nat → σ → σ) (s : σ) :
    forRange 0 n body s = (List.range n).foldl (fun st i => body i st) s := by
  simp [forRange, List.range_eq_range']

theorem forRange_congr {σ : Type} (lo hi : Nat) (f g : Nat → σ → σ) (s : σ)
    (h : ∀ i st, lo ≤ i → i < hi → f i st = g i st) :
    forRange lo hi f s = forRange lo hi g s := by
  rcases Nat.lt_or_ge hi lo with hlt | hge
  · rw [forRange_of_ge _ _ _ _ (by omega), forRange_of_ge _ _ _ _ (by omega)]
  · exact forRange_induction (fun i st => forRange lo i f s = st) lo hi g s hge
      (forRange_of_ge _ _ _ _ (le_refl _))
      (by
        intro i st h1 h2 hP
        rw [forRange_succ_right _ _ _ _ h1, hP, h _ _ h1 h2])

theorem forRange_fold {α : Type} (lo hi : Nat) (op : α → α → α) (g : Nat → α) (t0 : α) :
    forRange lo hi (fun j t => op t (g j)) t0
      = ((List.range' lo (hi - lo)).map g).foldl op t0 := by
  simp [forRange, List.foldl_map]

theorem forRange_fold_zero {α : Type} (n : Nat) (op : α → α → α) (g : Nat → α) (t0 : α) :
    forRange 0 n (fun j t => op t (g j)) t0 = ((List.range n).map g).foldl op t0 := by
  simp [forRange, List.foldl_map, List.range_eq_range']

theorem foldl_flatMap_eq {α β γ : Type} (f : γ → β → γ) (g : α → List β) (l : List α)
    (c : γ) : (l.flatMap g).foldl f c = l.foldl (fun acc x => (g x).foldl f acc) c := by
  induction l generalizing c with
  | nil => rfl
  | cons x xs ih => simp [List.flatMap_cons, List.foldl_append, ih]

theorem forRange_fold_nested {α : Type} (n m : Nat) (op : α → α → α) (g : Nat → Nat → α)
    (t0 : α) :
    forRange 0 n (fun j t => forRange 0 m (fun k t => op t (g j k)) t) t0
      = ((List.range n).flatMap (fun j => (List.range m).map (g j))).foldl op t0 := by
  rw [foldl_flatMap_eq, forRange_zero_eq]
  congr 1
  funext t j
  exact forRange_fold_zero m op (g j) t

theorem forRange_shift {σ : Type} (a b : Nat) (body : Nat → σ → σ) (s : σ) :
    forRange a (a + b) body s = forRange 0 b (fun j => body (a + j)) s := by
  induction b with
  | zero => simp [forRange]
  | succ b ih =>
    rw [← Nat.add_assoc, forRange_succ_right _ _ _ _ (by omega),
      forRange_succ_right _ _ _ _ (by omega), ih]

theorem forRange_split {σ : Type} (a b : Nat) (body : Nat → σ → σ) (s : σ) :
    forRange 0 (a + b) body s = forRange a (a + b) body (forRange 0 a body s) := by
  induction b with
  | zero => simp [forRange_of_ge]
  | succ b ih =>
    rw [← Nat.add_assoc, forRange_succ_right _ _ _ _ (by omega),
      forRange_succ_right _ _ _ _ (by omega), ih]

/-- A loop nest over `i < A`, `j < B` is one loop over the flat index
`o = i * B + j`. -/
theorem forRange_flatten {σ : Type} (A B : Nat) (f : Nat → Nat → σ → σ) (s : σ) :
    forRange 0 A (fun i st => forRange 0 B (fun j st => f i j st) st) s
      = forRange 0 (A * B) (fun o st => f (o / B) (o % B) st) s := by
  induction A with
  | zero => simp [forRange]
  | succ A ih =>
    rw [forRange_succ_right _ _ _ _ (Nat.zero_le _), ih, Nat.succ_mul, forRange_split,
      forRange_shift]
    apply forRange_congr
    intro j st _ hj
    have hB : 0 < B := by omega
    rw [Nat.mul_comm A B, Nat.mul_add_div hB, Nat.mul_add_mod, Nat.div_eq_of_lt hj,
      Nat.mod_eq_of_lt hj, Nat.add_zero]

/-! ### Writes to the output buffer -/

theorem set_getD_self (out : List Int) (o : Nat) : out.set o (out.getD o 0) = out := by
  apply List.ext_getElem (by simp)
  intro i h1 h2
  by_cases e : o = i
  · subst e
    simp [List.getD_eq_getElem?_getD, List.getElem?_eq_getElem h2]
  · simp [List.getElem_set, e]

theorem addAt_zero (out : List Int) (o : Nat) : addAt out o 0 = out := by
  unfold addAt
  rw [Int.add_zero, set_getD_self]

theorem getD_set_self (out : List Int) (o : Nat) (v : Int) (h : o < out.length) :
    (out.set o v).getD o 0 = v := by
  simp [List.getD_eq_getElem?_getD, h]

theorem addAt_addAt (out : List Int) (o : Nat) (a b : Int) :
    addAt (addAt out o a) o b = addAt out o (a + b) := by
  unfold addAt
  by_cases h : o < out.length
  · rw [getD_set_self _ _ _ h, List.set_set, Int.add_assoc]
  · have h2 : out.length ≤ o := by omega
    rw [List.set_eq_of_length_le h2, List.set_eq_of_length_le h2,
      List.set_eq_of_length_le h2]

theorem forRange_addAt (n : Nat) (o : Nat) (g : Nat → Int) (out : List Int) :
    forRange 0 n (fun k out => addAt out o (g k)) out
      = addAt out o ((List.range n).map g).sum := by
  induction n with
  | zero => simp [forRange, addAt_zero]
  | succ n ih =>
    rw [forRange_succ_right _ _ _ _ (Nat.zero_le _), ih, addAt_addAt, List.range_succ]
    simp

theorem sum_flatMap_range (n m : Nat) (g : Nat → Nat → Int) :
    ((List.range n).flatMap (fun j => (List.range m).map (g j))).sum
      = ((List.range n).map (fun j => ((List.range m).map (g j)).sum)).sum := by
  induction n with
  | zero => simp
  | succ n ih =>
    rw [List.range_succ, List.flatMap_append, List.sum_append, ih]
    simp

theorem forRange_addAt_nested (n m : Nat) (o : Nat) (g : Nat → Nat → Int) (out : List Int) :
    forRange 0 n (fun j out => forRange 0 m (fun k out => addAt out o (g j k)) out) out
      = addAt out o ((List.range n).flatMap (fun j => (List.range m).map (g j))).sum := by
  have : (fun j (out : List Int) => forRange 0 m (fun k out => addAt out o (g j k)) out)
      = (fun j out => addAt out o ((List.range m).map (g j)).sum) := by
    funext j out
    exact forRange_addAt m o (g j) out
  rw [this, forRange_addAt n o (fun j => ((List.range m).map (g j)).sum), sum_flatMap_range]

theorem divAt_addAt (out : List Int) (o : Nat) (v : Int) (c : Nat) :
    divAt (addAt out o v) o c = out.set o ((out.getD o 0 + v).tdiv (c : Int)) := by
  unfold divAt addAt
  by_cases h : o < out.length
  · rw [getD_set_self _ _ _ h, List.set_set]
  · have h2 : out.length ≤ o := by omega
    rw [List.set_eq_of_length_le h2, List.set_eq_of_length_le h2,
      List.set_eq_of_length_le h2]

/-- An outer loop whose iteration `o` rewrites cell `o` of a buffer that holds
`z` everywhere produces the list of the rewritten values. -/
theorem forRange_set_all (M : Nat) (z : Int) (F : Nat → Int → Int)
    (body : Nat → List Int → List Int)
    (hbody : ∀ o out, body o out = out.set o (F o (out.getD o 0))) :
    forRange 0 M body (List.replicate M z) = (List.range M).map (fun o => F o z) := by
  have key := forRange_induction
    (fun (i : Nat) (out : List Int) =>
      out = (List.range i).map (fun o => F o z) ++ List.replicate (M - i) z)
    0 M body (List.replicate M z) (Nat.zero_le _) (by simp)
    (by
      intro i out _ hi hP
      rw [hbody, hP]
      have hlen : ((List.range i).map (fun o => F o z)).length = i := by simp
      have hrep : List.replicate (M - i) z = z :: List.replicate (M - (i + 1)) z := by
        have : M - i = (M - (i + 1)) + 1 := by omega
        rw [this, List.replicate_succ]
      rw [hrep, List.getD_eq_getElem?_getD,
        List.getElem?_append_right (by rw [hlen]), hlen, Nat.sub_self]
      simp only [List.getElem?_cons_zero, Option.getD_some]
      rw [List.set_append_right _ _ (by rw [hlen]), hlen, Nat.sub_self, List.set_cons_zero,
        List.range_succ, List.map_append]
      simp)
  rw [key]
  simp


/-! ### Folds over a cell do not depend on the order of enumeration -/

theorem foldl_add_eq (L : List Int) (a : Int) :
    L.foldl (fun t x => t + x) a = a + L.sum := by
  induction L generalizing a with
  | nil => simp
  | cons x xs ih => simp [ih, Int.add_assoc]

theorem foldl_mul_eq (L : List Int) (a : Int) :
    L.foldl (fun t x => t * x) a = a * L.prod := by
  induction L generalizing a with
  | nil => simp
  | cons x xs ih => simp [ih, Int.mul_assoc]

theorem foldl_min_le (L : List Int) (a : Int) :
    L.foldl (fun t x => min t x) a ≤ a ∧ ∀ x ∈ L, L.foldl (fun t x => min t x) a ≤ x := by
  induction L generalizing a with
  | nil => simp
  | cons y ys ih =>
    obtain ⟨h1, h2⟩ := ih (min a y)
    refine ⟨le_trans h1 (min_le_left _ _), ?_⟩
    intro x hx
    rcases List.mem_cons.mp hx with e | e
    · rw [e]; exact le_trans h1 (min_le_right _ _)
    · exact h2 x e

theorem foldl_min_mem (L : List Int) (a : Int) :
    L.foldl (fun t x => min t x) a ∈ a :: L := by
  induction L generalizing a with
  | nil => simp
  | cons y ys ih =>
    have := ih (min a y)
    simp only [List.foldl_cons, List.mem_cons] at this ⊢
    rcases this with e | e
    · rcases min_choice a y with h | h
      · left; rw [e, h]
      · right; left; rw [e, h]
    · right; right; exact e

theorem foldl_min_ext (L L2 : List Int) (a b : Int)
    (h : ∀ x, x ∈ a :: L ↔ x ∈ b :: L2) :
    L.foldl (fun t x => min t x) a = L2.foldl (fun t x => min t x) b := by
  have low : ∀ (L : List Int) (a x : Int), x ∈ a :: L → L.foldl (fun t x => min t x) a ≤ x := by
    intro L a x hx
    rcases List.mem_cons.mp hx with e | e
    · rw [e]; exact (foldl_min_le L a).1
    · exact (foldl_min_le L a).2 x e
  apply le_antisymm
  · exact low L a _ ((h _).mpr (foldl_min_mem L2 b))
  · exact low L2 b _ ((h _).mp (foldl_min_mem L a))

theorem foldl_max_le (L : List Int) (a : Int) :
    a ≤ L.foldl (fun t x => max t x) a ∧ ∀ x ∈ L, x ≤ L.foldl (fun t x => max t x) a := by
  induction L generalizing a with
  | nil => simp
  | cons y ys ih =>
    obtain ⟨h1, h2⟩ := ih (max a y)
    refine ⟨le_trans (le_max_left _ _) h1, ?_⟩
    intro x hx
    rcases List.mem_cons.mp hx with e | e
    · rw [e]; exact le_trans (le_max_right _ _) h1
    · exact h2 x e

theorem foldl_max_mem (L : List Int) (a : Int) :
    L.foldl (fun t x => max t x) a ∈ a :: L := by
  induction L generalizing a with
  | nil => simp
  | cons y ys ih =>
    have := ih (max a y)
    simp only [List.foldl_cons, List.mem_cons] at this ⊢
    rcases this with e | e
    · rcases max_choice a y with h | h
      · left; rw [e, h]
      · right; left; rw [e, h]
    · right; right; exact e

theorem foldl_max_ext (L L2 : List Int) (a b : Int)
    (h : ∀ x, x ∈ a :: L ↔ x ∈ b :: L2) :
    L.foldl (fun t x => max t x) a = L2.foldl (fun t x => max t x) b := by
  have up : ∀ (L : List Int) (a x : Int), x ∈ a :: L → x ≤ L.foldl (fun t x => max t x) a := by
    intro L a x hx
    rcases List.mem_cons.mp hx with e | e
    · rw [e]; exact (foldl_max_le L a).1
    · exact (foldl_max_le L a).2 x e
  apply le_antisymm
  · exact up L2 b _ ((h _).mp (foldl_max_mem L a))
  · exact up L a _ ((h _).mpr (foldl_max_mem L2 b))

theorem cell_sum (rd : Nat → Int) (V W : List Nat) (h : V.Perm W) :
    (V.map rd).foldl (fun t x => t + x) 0 = foldCell ReduceType.SUM (W.map rd) := by
  rw [foldl_add_eq, Int.zero_add]
  exact ((h.map rd).sum_eq)

theorem cell_mean (rd : Nat → Int) (V W : List Nat) (c : Nat) (h : V.Perm W)
    (hc : c = V.length) :
    ((V.map rd).foldl (fun t x => t + x) 0).tdiv (c : Int)
      = foldCell ReduceType.MEAN (W.map rd) := by
  rw [foldl_add_eq, Int.zero_add, hc, h.length_eq]
  simp only [foldCell, List.length_map]
  rw [(h.map rd).sum_eq]

theorem cell_prod_one (rd : Nat → Int) (V W : List Nat) (h : V.Perm W) :
    (V.map rd).foldl (fun t x => t * x) 1 = foldCell ReduceType.PROD (W.map rd) := by
  rw [foldl_mul_eq, Int.one_mul]
  exact ((h.map rd).prod_eq)

theorem cell_prod_seed (rd : Nat → Int) (s : Nat) (V W : List Nat) (h : (s :: V).Perm W) :
    (V.map rd).foldl (fun t x => t * x) (rd s) = foldCell ReduceType.PROD (W.map rd) := by
  rw [foldl_mul_eq]
  have := (h.map rd).prod_eq
  simpa using this

theorem cell_min (rd : Nat → Int) (s : Nat) (V W : List Nat)
    (h : ∀ p, p ∈ s :: V ↔ p ∈ W) :
    (V.map rd).foldl (fun t x => min t x) (rd s) = foldCell ReduceType.MIN (W.map rd) := by
  cases W with
  | nil => exact absurd ((h s).mp (List.mem_cons_self _ _)) (List.not_mem_nil _)
  | cons w ws =>
    simp only [foldCell, List.map_cons]
    apply foldl_min_ext
    intro x
    rw [← List.map_cons, ← List.map_cons, List.mem_map, List.mem_map]
    constructor
    · rintro ⟨p, hp, rfl⟩; exact ⟨p, (h p).mp hp, rfl⟩
    · rintro ⟨p, hp, rfl⟩; exact ⟨p, (h p).mpr hp, rfl⟩

theorem cell_max (rd : Nat → Int) (s : Nat) (V W : List Nat)
    (h : ∀ p, p ∈ s :: V ↔ p ∈ W) :
    (V.map rd).foldl (fun t x => max t x) (rd s) = foldCell ReduceType.MAX (W.map rd) := by
  cases W with
  | nil => exact absurd ((h s).mp (List.mem_cons_self _ _)) (List.not_mem_nil _)
  | cons w ws =>
    simp only [foldCell, List.map_cons]
    apply foldl_max_ext
    intro x
    rw [← List.map_cons, ← List.map_cons, List.mem_map, List.mem_map]
    constructor
    · rintro ⟨p, hp, rfl⟩; exact ⟨p, (h p).mp hp, rfl⟩
    · rintro ⟨p, hp, rfl⟩; exact ⟨p, (h p).mpr hp, rfl⟩

theorem flatMap_cons_perm {α β : Type} (l : List α) (g : α → β) (h : α → List β) :
    (l.flatMap (fun b => g b :: h b)).Perm (l.map g ++ l.flatMap h) := by
  induction l with
  | nil => simp
  | cons x xs ih =>
    simp only [List.flatMap_cons, List.map_cons, List.cons_append]
    apply List.Perm.cons
    calc h x ++ xs.flatMap (fun b => g b :: h b)
        |>.Perm (h x ++ (xs.map g ++ xs.flatMap h)) := List.Perm.append_left _ ih
      _ |>.Perm (xs.map g ++ (h x ++ xs.flatMap h)) := by
          rw [← List.append_assoc, ← List.append_assoc]
          exact List.Perm.append_right _ List.perm_append_comm

/-- Exchanging two nested enumerations permutes the enumerated list. -/
theorem flatMap_map_swap {α β γ : Type} (l1 : List α) (l2 : List β) (f : α → β → γ) :
    (l1.flatMap (fun a => l2.map (f a))).Perm
      (l2.flatMap (fun b => l1.map (fun a => f a b))) := by
  induction l1 with
  | nil => simp
  | cons a l1 ih =>
    simp only [List.flatMap_cons, List.map_cons]
    exact (List.Perm.append_left _ ih).trans (flatMap_cons_perm l2 (f a) _).symm


/-! ### The cells of the collapsed plans of one to four groups -/

theorem flatMap_singleton_map {α β : Type} (l : List α) (f : α → β) :
    l.flatMap (fun a => [f a]) = l.map f := by
  induction l with
  | nil => rfl
  | cons x xs ih => simp [List.flatMap_cons, ih]

theorem cellZ_one_true (d0 o : Nat) : cellZ [(d0, true)] o = List.range d0 := by
  simp [cellZ, prodZ, flatMap_singleton_map]

theorem cellZ_one_false (d0 o : Nat) : cellZ [(d0, false)] o = [o] := by
  simp [cellZ, prodZ, keptProdZ]

theorem cellZ_two_true (d0 d1 o : Nat) :
    cellZ [(d0, true), (d1, false)] o = (List.range d0).map (fun j => j * d1 + o) := by
  rw [cellZ]
  simp only [if_true, cellZ_one_false, List.map_cons, List.map_nil, flatMap_singleton_map]
  simp [prodZ]

theorem cellZ_two_false (d0 d1 o : Nat) :
    cellZ [(d0, false), (d1, true)] o = (List.range d1).map (fun j => o * d1 + j) := by
  rw [cellZ]
  simp only [Bool.false_eq_true, if_false, cellZ_one_true]
  simp [prodZ, keptProdZ]

theorem cellZ_three_true (d0 d1 d2 o : Nat) :
    cellZ [(d0, true), (d1, false), (d2, true)] o
      = (List.range d0).flatMap
          (fun k => (List.range d2).map (fun j => (k * d1 + o) * d2 + j)) := by
  rw [cellZ]
  simp only [if_true, cellZ_two_false, List.map_map]
  congr 1
  funext k
  apply List.map_congr_left
  intro j _
  simp only [Function.comp, prodZ, List.map_cons, List.map_nil, List.prod_cons, List.prod_nil]
  ring

theorem cellZ_three_false (d0 d1 d2 o : Nat) :
    cellZ [(d0, false), (d1, true), (d2, false)] o
      = (List.range d1).map (fun k => ((o / d2) * d1 + k) * d2 + o % d2) := by
  rw [cellZ]
  simp only [Bool.false_eq_true, if_false, cellZ_two_true, List.map_map]
  apply List.map_congr_left
  intro k _
  simp only [Function.comp, prodZ, keptProdZ, List.map_cons, List.map_nil, List.prod_cons,
    List.prod_nil, List.filter_cons, Bool.not_true, Bool.not_false, if_true,
    Bool.false_eq_true, if_false, List.filter_nil, Nat.mul_one]
  ring

theorem cellZ_four_true (d0 d1 d2 d3 o : Nat) :
    cellZ [(d0, true), (d1, false), (d2, true), (d3, false)] o
      = (List.range d0).flatMap (fun t => (List.range d2).map
          (fun k => ((t * d1 + o / d3) * d2 + k) * d3 + o % d3)) := by
  rw [cellZ]
  simp only [if_true, cellZ_three_false, List.map_map]
  congr 1
  funext t
  apply List.map_congr_left
  intro k _
  simp only [Function.comp, prodZ, List.map_cons, List.map_nil, List.prod_cons, List.prod_nil]
  ring

theorem cellZ_four_false (d0 d1 d2 d3 o : Nat) :
    cellZ [(d0, false), (d1, true), (d2, false), (d3, true)] o
      = (List.range d1).flatMap (fun k => (List.range d3).map
          (fun t => (((o / d2) * d1 + k) * d2 + o % d2) * d3 + t)) := by
  rw [cellZ]
  simp only [Bool.false_eq_true, if_false, cellZ_three_true, List.map_flatMap, List.map_map]
  congr 1
  funext k
  apply List.map_congr_left
  intro t _
  simp only [Function.comp, prodZ, keptProdZ, List.map_cons, List.map_nil, List.prod_cons,
    List.prod_nil, List.filter_cons, Bool.not_true, Bool.not_false, if_true,
    Bool.false_eq_true, if_false, List.filter_nil, Nat.mul_one]
  ring


/-! ### The inner loops of the kernels as folds over index lists -/

theorem loop_add (data : List Int) (lo hi : Nat) (e : Nat → Nat) (t0 : Int) :
    forRange lo hi (fun j t => t + data.getD (e j) 0) t0
      = (((List.range' lo (hi - lo)).map e).map (fun p => data.getD p 0)).foldl
          (fun t x => t + x) t0 := by
  simp [forRange, List.foldl_map]

theorem loop_mul (data : List Int) (lo hi : Nat) (e : Nat → Nat) (t0 : Int) :
    forRange lo hi (fun j t => t * data.getD (e j) 0) t0
      = (((List.range' lo (hi - lo)).map e).map (fun p => data.getD p 0)).foldl
          (fun t x => t * x) t0 := by
  simp [forRange, List.foldl_map]

theorem loop_min (data : List Int) (lo hi : Nat) (e : Nat → Nat) (t0 : Int) :
    forRange lo hi (fun j t => min t (data.getD (e j) 0)) t0
      = (((List.range' lo (hi - lo)).map e).map (fun p => data.getD p 0)).foldl
          (fun t x => min t x) t0 := by
  simp [forRange, List.foldl_map]

theorem loop_max (data : List Int) (lo hi : Nat) (e : Nat → Nat) (t0 : Int) :
    forRange lo hi (fun j t => max t (data.getD (e j) 0)) t0
      = (((List.range' lo (hi - lo)).map e).map (fun p => data.getD p 0)).foldl
          (fun t x => max t x) t0 := by
  simp [forRange, List.foldl_map]

theorem range_eq_cons (d : Nat) (h : 1 ≤ d) : List.range d = 0 :: List.range' 1 (d - 1) := by
  have : d = (d - 1) + 1 := by omega
  conv_lhs => rw [this, List.range_eq_range', List.range'_succ]

theorem range'_zero (d : Nat) : List.range' 0 (d - 0) = List.range d := by
  simp [List.range_eq_range']

/-- `Reduce1Dims` with `reduce_first_axis_`: the single output element is the
fold of the whole input. -/
theorem Reduce1Dims_first (op : ReduceOp) (data : List Int) (type : ReduceType) (d0 : Nat)
    (hD : op.data_reshape_ = [d0]) (hf : op.reduce_first_axis_ = true) (h0 : 1 ≤ d0)
    (ht : type ≠ ReduceType.OTHER) :
    Reduce1Dims op data type (List.replicate (keptProdZ [(d0, true)]) 0)
      = Except.ok ((List.range (keptProdZ [(d0, true)])).map
          (fun o => foldCell type ((cellZ [(d0, true)] o).map (fun p => data.getD p 0)))) := by
  have hK : keptProdZ [(d0, true)] = 1 := by simp [keptProdZ]
  have hr1 : List.range 1 = [0] := rfl
  rw [hK, hr1]
  simp only [List.map_cons, List.map_nil, cellZ_one_true]
  unfold Reduce1Dims
  rw [hD, hf]
  simp only [List.getD_cons_zero, if_true, List.replicate_one, List.set_cons_zero]
  have hid : ∀ l : List Nat, l.map (fun i => i) = l := fun l => List.map_id' l
  cases type with
  | OTHER => exact absurd rfl ht
  | MEAN =>
    dsimp only
    rw [loop_add data 0 d0 (fun i => i) 0, range'_zero, hid,
      cell_mean _ (List.range d0) (List.range d0) d0 (List.Perm.refl _) (by simp)]
  | SUM =>
    dsimp only
    rw [loop_add data 0 d0 (fun i => i) 0, range'_zero, hid,
      cell_sum _ (List.range d0) (List.range d0) (List.Perm.refl _)]
  | MIN =>
    dsimp only
    rw [loop_min data 1 d0 (fun i => i) (data.getD 0 0), hid,
      cell_min (fun p => data.getD p 0) 0 (List.range' 1 (d0 - 1)) (List.range d0)
        (by intro p; rw [range_eq_cons d0 h0])]
  | MAX =>
    dsimp only
    rw [loop_max data 1 d0 (fun i => i) (data.getD 0 0), hid,
      cell_max (fun p => data.getD p 0) 0 (List.range' 1 (d0 - 1)) (List.range d0)
        (by intro p; rw [range_eq_cons d0 h0])]
  | PROD =>
    dsimp only
    rw [loop_mul data 1 d0 (fun i => i) (data.getD 0 0), hid,
      cell_prod_seed (fun p => data.getD p 0) 0 (List.range' 1 (d0 - 1)) (List.range d0)
        (by rw [range_eq_cons d0 h0])]


theorem forRange_set_val (M : Nat) (z : Int) (val : Nat → Int) :
    forRange 0 M (fun o (out : List Int) => out.set o (val o)) (List.replicate M z)
      = (List.range M).map val :=
  forRange_set_all M z (fun o _ => val o) _ (fun _ _ => rfl)

theorem foldCell_singleton (type : ReduceType) (x : Int) (ht : type ≠ ReduceType.OTHER) :
    foldCell type [x] = x := by
  cases type <;> first | exact absurd rfl ht | simp [foldCell]

/-- `Reduce1Dims` without `reduce_first_axis_`: the output is a copy of the
input. -/
theorem Reduce1Dims_second (op : ReduceOp) (data : List Int) (type : ReduceType) (d0 : Nat)
    (hD : op.data_reshape_ = [d0]) (hf : op.reduce_first_axis_ = false)
    (hlen : data.length = d0) (ht : type ≠ ReduceType.OTHER) :
    Reduce1Dims op data type (List.replicate (keptProdZ [(d0, false)]) 0)
      = Except.ok ((List.range (keptProdZ [(d0, false)])).map
          (fun o => foldCell type ((cellZ [(d0, false)] o).map (fun p => data.getD p 0)))) := by
  have hK : keptProdZ [(d0, false)] = d0 := by simp [keptProdZ]
  rw [hK]
  unfold Reduce1Dims
  rw [hD, hf]
  simp only [List.getD_cons_zero, Bool.false_eq_true, if_false, memcpy]
  congr 1
  simp only [cellZ_one_false, List.map_cons, List.map_nil, foldCell_singleton _ _ ht]
  rw [List.drop_of_length_le (by simp), List.append_nil, List.take_of_length_le (by omega)]
  apply List.ext_getElem (by simp [hlen])
  intro i h1 h2
  simp [List.getD_eq_getElem?_getD, List.getElem?_eq_getElem h1]

/-- `Reduce2Dims` with `reduce_first_axis_` (group 0 reduced, group 1 kept). -/
theorem Reduce2Dims_first (op : ReduceOp) (data : List Int) (type : ReduceType) (d0 d1 : Nat)
    (hD : op.data_reshape_ = [d0, d1]) (hf : op.reduce_first_axis_ = true) (h0 : 1 ≤ d0)
    (ht : type ≠ ReduceType.OTHER) :
    Reduce2Dims op data type (List.replicate (keptProdZ [(d0, true), (d1, false)]) 0)
      = Except.ok ((List.range (keptProdZ [(d0, true), (d1, false)])).map
          (fun o => foldCell type
            ((cellZ [(d0, true), (d1, false)] o).map (fun p => data.getD p 0)))) := by
  have hK : keptProdZ [(d0, true), (d1, false)] = d1 := by simp [keptProdZ]
  rw [hK]
  unfold Reduce2Dims Compute1D Reduce2DimsFirstFn
  rw [hD, hf]
  simp only [List.getD_cons_zero, List.getD_cons_succ, if_true, cellZ_two_true]
  cases type with
  | OTHER => exact absurd rfl ht
  | MEAN =>
    dsimp only
    rw [forStep_one]
    simp only [loop_add data, range'_zero]
    rw [forRange_set_val]
    congr 1
    apply List.map_congr_left
    intro o _
    exact cell_mean _ _ _ d0 (List.Perm.refl _) (by simp)
  | SUM =>
    dsimp only
    rw [forStep_one]
    simp only [loop_add data, range'_zero]
    rw [forRange_set_val]
    congr 1
    apply List.map_congr_left
    intro o _
    exact cell_sum _ _ _ (List.Perm.refl _)
  | MIN =>
    dsimp only
    rw [forStep_one]
    simp only [loop_min data]
    rw [forRange_set_val]
    congr 1
    apply List.map_congr_left
    intro o _
    apply cell_min (fun p => data.getD p 0) o
    intro p
    rw [range_eq_cons d0 h0]
    simp
  | MAX =>
    dsimp only
    rw [forStep_one]
    simp only [loop_max data]
    rw [forRange_set_val]
    congr 1
    apply List.map_congr_left
    intro o _
    apply cell_max (fun p => data.getD p 0) o
    intro p
    rw [range_eq_cons d0 h0]
    simp
  | PROD =>
    dsimp only
    rw [forStep_one]
    simp only [loop_mul data]
    rw [forRange_set_val]
    congr 1
    apply List.map_congr_left
    intro o _
    apply cell_prod_seed (fun p => data.getD p 0) o
    rw [range_eq_cons d0 h0]
    simp

/-- `Reduce2Dims` without `reduce_first_axis_` (group 0 kept, group 1
reduced). -/
theorem Reduce2Dims_second (op : ReduceOp) (data : List Int) (type : ReduceType) (d0 d1 : Nat)
    (hD : op.data_reshape_ = [d0, d1]) (hf : op.reduce_first_axis_ = false) (h1 : 1 ≤ d1)
    (ht : type ≠ ReduceType.OTHER) :
    Reduce2Dims op data type (List.replicate (keptProdZ [(d0, false), (d1, true)]) 0)
      = Except.ok ((List.range (keptProdZ [(d0, false), (d1, true)])).map
          (fun o => foldCell type
            ((cellZ [(d0, false), (d1, true)] o).map (fun p => data.getD p 0)))) := by
  have hK : keptProdZ [(d0, false), (d1, true)] = d0 := by simp [keptProdZ]
  rw [hK]
  unfold Reduce2Dims Compute1D Reduce2DimsSecondFn
  rw [hD, hf]
  simp only [List.getD_cons_zero, List.getD_cons_succ, Bool.false_eq_true, if_false,
    cellZ_two_false]
  cases type with
  | OTHER => exact absurd rfl ht
  | MEAN =>
    dsimp only
    rw [forStep_one]
    simp only [loop_add data, range'_zero]
    rw [forRange_set_val]
    congr 1
    apply List.map_congr_left
    intro o _
    exact cell_mean _ _ _ d1 (List.Perm.refl _) (by simp)
  | SUM =>
    dsimp only
    rw [forStep_one]
    simp only [loop_add data, range'_zero]
    rw [forRange_set_val]
    congr 1
    apply List.map_congr_left
    intro o _
    exact cell_sum _ _ _ (List.Perm.refl _)
  | MIN =>
    dsimp only
    rw [forStep_one]
    simp only [loop_min data]
    rw [forRange_set_val]
    congr 1
    apply List.map_congr_left
    intro o _
    apply cell_min (fun p => data.getD p 0) (o * d1)
    intro p
    rw [range_eq_cons d1 h1]
    simp
  | MAX =>
    dsimp only
    rw [forStep_one]
    simp only [loop_max data]
    rw [forRange_set_val]
    congr 1
    apply List.map_congr_left
    intro o _
    apply cell_max (fun p => data.getD p 0) (o * d1)
    intro p
    rw [range_eq_cons d1 h1]
    simp
  | PROD =>
    dsimp only
    rw [forStep_one]
    simp only [loop_mul data]
    rw [forRange_set_val]
    congr 1
    apply List.map_congr_left
    intro o _
    apply cell_prod_seed (fun p => data.getD p 0) (o * d1)
    rw [range_eq_cons d1 h1]
    simp


theorem loop_add_nested (data : List Int) (n m : Nat) (e : Nat → Nat → Nat) (t0 : Int) :
    forRange 0 n (fun j t => forRange 0 m (fun k t => t + data.getD (e j k) 0) t) t0
      = (((List.range n).flatMap (fun j => (List.range m).map (e j))).map
          (fun p => data.getD p 0)).foldl (fun t x => t + x) t0 := by
  rw [forRange_fold_nested n m (fun t x => t + x) (fun j k => data.getD (e j k) 0) t0,
    List.map_flatMap]
  simp only [List.map_map, Function.comp_def]

theorem loop_mul_nested (data : List Int) (n m : Nat) (e : Nat → Nat → Nat) (t0 : Int) :
    forRange 0 n (fun j t => forRange 0 m (fun k t => t * data.getD (e j k) 0) t) t0
      = (((List.range n).flatMap (fun j => (List.range m).map (e j))).map
          (fun p => data.getD p 0)).foldl (fun t x => t * x) t0 := by
  rw [forRange_fold_nested n m (fun t x => t * x) (fun j k => data.getD (e j k) 0) t0,
    List.map_flatMap]
  simp only [List.map_map, Function.comp_def]

theorem loop_min_nested (data : List Int) (n m : Nat) (e : Nat → Nat → Nat) (t0 : Int) :
    forRange 0 n (fun j t => forRange 0 m (fun k t => min t (data.getD (e j k) 0)) t) t0
      = (((List.range n).flatMap (fun j => (List.range m).map (e j))).map
          (fun p => data.getD p 0)).foldl (fun t x => min t x) t0 := by
  rw [forRange_fold_nested n m (fun t x => min t x) (fun j k => data.getD (e j k) 0) t0,
    List.map_flatMap]
  simp only [List.map_map, Function.comp_def]

theorem loop_max_nested (data : List Int) (n m : Nat) (e : Nat → Nat → Nat) (t0 : Int) :
    forRange 0 n (fun j t => forRange 0 m (fun k t => max t (data.getD (e j k) 0)) t) t0
      = (((List.range n).flatMap (fun j => (List.range m).map (e j))).map
          (fun p => data.getD p 0)).foldl (fun t x => max t x) t0 := by
  rw [forRange_fold_nested n m (fun t x => max t x) (fun j k => data.getD (e j k) 0) t0,
    List.map_flatMap]
  simp only [List.map_map, Function.comp_def]

theorem loop_addAt (data : List Int) (n o : Nat) (e : Nat → Nat) (out : List Int) :
    forRange 0 n (fun k out => addAt out o (data.getD (e k) 0)) out
      = addAt out o (((List.range n).map e).map (fun p => data.getD p 0)).sum := by
  rw [forRange_addAt n o (fun k => data.getD (e k) 0) out, List.map_map]
  rfl

theorem loop_addAt_nested (data : List Int) (n m o : Nat) (e : Nat → Nat → Nat)
    (out : List Int) :
    forRange 0 n (fun j out =>
        forRange 0 m (fun k out => addAt out o (data.getD (e j k) 0)) out) out
      = addAt out o ((((List.range n).flatMap (fun j => (List.range m).map (e j))).map
          (fun p => data.getD p 0)).sum) := by
  rw [forRange_addAt_nested n m o (fun j k => data.getD (e j k) 0) out, List.map_flatMap]
  simp only [List.map_map, Function.comp_def]

theorem forRange_addAt_all (M : Nat) (S : Nat → Int) :
    forRange 0 M (fun o (out : List Int) => addAt out o (S o)) (List.replicate M 0)
      = (List.range M).map S := by
  have := forRange_set_all M 0 (fun o x => x + S o)
    (fun o (out : List Int) => addAt out o (S o)) (fun _ _ => rfl)
  rw [this]
  simp

theorem forRange_divAt_all (M : Nat) (S : Nat → Int) (c : Nat) :
    forRange 0 M (fun o (out : List Int) => divAt (addAt out o (S o)) o c)
        (List.replicate M 0)
      = (List.range M).map (fun o => (S o).tdiv (c : Int)) := by
  have := forRange_set_all M 0 (fun o x => (x + S o).tdiv (c : Int))
    (fun o (out : List Int) => divAt (addAt out o (S o)) o c)
    (fun o out => divAt_addAt out o (S o) c)
  rw [this]
  simp

theorem length_flatMap_range (n m : Nat) (f : Nat → Nat → Nat) :
    ((List.range n).flatMap (fun j => (List.range m).map (f j))).length = n * m := by
  induction n with
  | zero => simp
  | succ n ih =>
    rw [List.range_succ, List.flatMap_append, List.length_append, ih]
    simp [Nat.succ_mul]

theorem cell_sum_list (rd : Nat → Int) (V W : List Nat) (h : V.Perm W) :
    (V.map rd).sum = foldCell ReduceType.SUM (W.map rd) :=
  (h.map rd).sum_eq

theorem cell_mean_list (rd : Nat → Int) (V W : List Nat) (c : Nat) (h : V.Perm W)
    (hc : c = V.length) :
    ((V.map rd).sum).tdiv (c : Int) = foldCell ReduceType.MEAN (W.map rd) := by
  rw [hc, h.length_eq]
  simp only [foldCell, List.length_map]
  rw [(h.map rd).sum_eq]

theorem cell_min_full (rd : Nat → Int) (s : Nat) (V W : List Nat) (h : V.Perm W)
    (hs : s ∈ V) :
    (V.map rd).foldl (fun t x => min t x) (rd s) = foldCell ReduceType.MIN (W.map rd) := by
  apply cell_min
  intro p
  rw [← h.mem_iff]
  constructor
  · intro hp
    rcases List.mem_cons.mp hp with e | e
    · rw [e]; exact hs
    · exact e
  · intro hp; exact List.mem_cons_of_mem _ hp

theorem cell_max_full (rd : Nat → Int) (s : Nat) (V W : List Nat) (h : V.Perm W)
    (hs : s ∈ V) :
    (V.map rd).foldl (fun t x => max t x) (rd s) = foldCell ReduceType.MAX (W.map rd) := by
  apply cell_max
  intro p
  rw [← h.mem_iff]
  constructor
  · intro hp
    rcases List.mem_cons.mp hp with e | e
    · rw [e]; exact hs
    · exact e
  · intro hp; exact List.mem_cons_of_mem _ hp

/-- `Reduce3Dims` with `reduce_first_axis_` (groups 0 and 2 reduced, group 1
kept). -/
theorem Reduce3Dims_first (op : ReduceOp) (data : List Int) (type : ReduceType)
    (d0 d1 d2 : Nat) (hD : op.data_reshape_ = [d0, d1, d2])
    (hf : op.reduce_first_axis_ = true) (h0 : 1 ≤ d0) (h2 : 1 ≤ d2)
    (ht : type ≠ ReduceType.OTHER) :
    Reduce3Dims op data type
        (List.replicate (keptProdZ [(d0, true), (d1, false), (d2, true)]) 0)
      = Except.ok ((List.range (keptProdZ [(d0, true), (d1, false), (d2, true)])).map
          (fun o => foldCell type
            ((cellZ [(d0, true), (d1, false), (d2, true)] o).map
              (fun p => data.getD p 0)))) := by
  have hK : keptProdZ [(d0, true), (d1, false), (d2, true)] = d1 := by simp [keptProdZ]
  have hperm : ∀ o, ((List.range d2).flatMap
      (fun j => (List.range d0).map (fun k => (k * d1 + o) * d2 + j))).Perm
      ((List.range d0).flatMap
        (fun k => (List.range d2).map (fun j => (k * d1 + o) * d2 + j))) :=
    fun o => flatMap_map_swap (List.range d2) (List.range d0)
      (fun j k => (k * d1 + o) * d2 + j)
  have hseed : ∀ o, o * d2 ∈ (List.range d2).flatMap
      (fun j => (List.range d0).map (fun k => (k * d1 + o) * d2 + j)) := by
    intro o
    simp only [List.mem_flatMap, List.mem_map, List.mem_range]
    exact ⟨0, by omega, 0, by omega, by simp⟩
  rw [hK]
  unfold Reduce3Dims Compute1D Reduce3DimsFirstFn
  rw [hD, hf]
  simp only [List.getD_cons_zero, List.getD_cons_succ, if_true, cellZ_three_true]
  cases type with
  | OTHER => exact absurd rfl ht
  | MEAN =>
    dsimp only
    rw [forStep_one]
    simp only [loop_addAt_nested data]
    rw [forRange_divAt_all]
    congr 1
    apply List.map_congr_left
    intro o _
    exact cell_mean_list _ _ _ (d0 * d2) (hperm o)
      (by rw [length_flatMap_range, Nat.mul_comm])
  | SUM =>
    dsimp only
    rw [forStep_one]
    simp only [loop_addAt_nested data]
    rw [forRange_addAt_all]
    congr 1
    apply List.map_congr_left
    intro o _
    exact cell_sum_list _ _ _ (hperm o)
  | MIN =>
    dsimp only
    rw [forStep_one]
    simp only [loop_min_nested data]
    rw [forRange_set_val]
    congr 1
    apply List.map_congr_left
    intro o _
    exact cell_min_full (fun p => data.getD p 0) (o * d2) _ _ (hperm o) (hseed o)
  | MAX =>
    dsimp only
    rw [forStep_one]
    simp only [loop_max_nested data]
    rw [forRange_set_val]
    congr 1
    apply List.map_congr_left
    intro o _
    exact cell_max_full (fun p => data.getD p 0) (o * d2) _ _ (hperm o) (hseed o)
  | PROD =>
    dsimp only
    rw [forStep_one]
    simp only [loop_mul_nested data]
    rw [forRange_set_val]
    congr 1
    apply List.map_congr_left
    intro o _
    exact cell_prod_one (fun p => data.getD p 0) _ _ (hperm o)


/-- `Reduce3Dims` without `reduce_first_axis_` (groups 0 and 2 kept, group 1
reduced). -/
theorem Reduce3Dims_second (op : ReduceOp) (data : List Int) (type : ReduceType)
    (d0 d1 d2 : Nat) (hD : op.data_reshape_ = [d0, d1, d2])
    (hf : op.reduce_first_axis_ = false) (h1 : 1 ≤ d1) (ht : type ≠ ReduceType.OTHER) :
    Reduce3Dims op data type
        (List.replicate (keptProdZ [(d0, false), (d1, true), (d2, false)]) 0)
      = Except.ok ((List.range (keptProdZ [(d0, false), (d1, true), (d2, false)])).map
          (fun o => foldCell type
            ((cellZ [(d0, false), (d1, true), (d2, false)] o).map
              (fun p => data.getD p 0)))) := by
  have hK : keptProdZ [(d0, false), (d1, true), (d2, false)] = d0 * d2 := by
    simp [keptProdZ]
  rw [hK]
  unfold Reduce3Dims Compute1D Reduce3DimsSecondFn
  rw [hD, hf]
  simp only [List.getD_cons_zero, List.getD_cons_succ, Bool.false_eq_true, if_false,
    cellZ_three_false]
  cases type with
  | OTHER => exact absurd rfl ht
  | MEAN =>
    dsimp only
    rw [forStep_one, forRange_flatten]
    simp only [Nat.div_add_mod', loop_addAt data]
    rw [forRange_divAt_all]
    congr 1
    apply List.map_congr_left
    intro o _
    exact cell_mean_list _ _ _ d1 (List.Perm.refl _) (by simp)
  | SUM =>
    dsimp only
    rw [forStep_one, forRange_flatten]
    simp only [Nat.div_add_mod', loop_addAt data]
    rw [forRange_addAt_all]
    rfl
  | MIN =>
    dsimp only
    rw [forStep_one, forRange_flatten]
    simp only [Nat.div_add_mod', loop_min data]
    rw [forRange_set_val]
    congr 1
    apply List.map_congr_left
    intro o _
    apply cell_min (fun p => data.getD p 0) (o / d2 * d1 * d2 + o % d2)
    intro p
    rw [range_eq_cons d1 h1]
    simp
  | MAX =>
    dsimp only
    rw [forStep_one, forRange_flatten]
    simp only [Nat.div_add_mod', loop_max data]
    rw [forRange_set_val]
    congr 1
    apply List.map_congr_left
    intro o _
    apply cell_max (fun p => data.getD p 0) (o / d2 * d1 * d2 + o % d2)
    intro p
    rw [range_eq_cons d1 h1]
    simp
  | PROD =>
    dsimp only
    rw [forStep_one, forRange_flatten]
    simp only [Nat.div_add_mod', loop_mul data]
    rw [forRange_set_val]
    congr 1
    apply List.map_congr_left
    intro o _
    apply cell_prod_seed (fun p => data.getD p 0) (o / d2 * d1 * d2 + o % d2)
    rw [range_eq_cons d1 h1]
    simp

/-- `Reduce4Dims` with `reduce_first_axis_` (groups 0 and 2 reduced, groups 1
and 3 kept). -/
theorem Reduce4Dims_first (op : ReduceOp) (data : List Int) (type : ReduceType)
    (d0 d1 d2 d3 : Nat) (hD : op.data_reshape_ = [d0, d1, d2, d3])
    (hf : op.reduce_first_axis_ = true) (h0 : 1 ≤ d0) (h2 : 1 ≤ d2)
    (ht : type ≠ ReduceType.OTHER) :
    Reduce4Dims op data type
        (List.replicate (keptProdZ [(d0, true), (d1, false), (d2, true), (d3, false)]) 0)
      = Except.ok
          ((List.range (keptProdZ [(d0, true), (d1, false), (d2, true), (d3, false)])).map
            (fun o => foldCell type
              ((cellZ [(d0, true), (d1, false), (d2, true), (d3, false)] o).map
                (fun p => data.getD p 0)))) := by
  have hK : keptProdZ [(d0, true), (d1, false), (d2, true), (d3, false)] = d1 * d3 := by
    simp [keptProdZ]
  have hperm : ∀ o, ((List.range d2).flatMap (fun k => (List.range d0).map
        (fun t => ((t * d1 + o / d3) * d2 + k) * d3 + o % d3))).Perm
      ((List.range d0).flatMap (fun t => (List.range d2).map
        (fun k => ((t * d1 + o / d3) * d2 + k) * d3 + o % d3))) :=
    fun o => flatMap_map_swap (List.range d2) (List.range d0)
      (fun k t => ((t * d1 + o / d3) * d2 + k) * d3 + o % d3)
  have hseed : ∀ o, o / d3 * d2 * d3 + o % d3 ∈ (List.range d2).flatMap
      (fun k => (List.range d0).map
        (fun t => ((t * d1 + o / d3) * d2 + k) * d3 + o % d3)) := by
    intro o
    simp only [List.mem_flatMap, List.mem_map, List.mem_range]
    exact ⟨0, by omega, 0, by omega, by simp⟩
  rw [hK]
  unfold Reduce4Dims Compute2D Reduce4DimsFirstFn
  rw [hD, hf]
  simp only [List.getD_cons_zero, List.getD_cons_succ, if_true, cellZ_four_true]
  cases type with
  | OTHER => exact absurd rfl ht
  | MEAN =>
    dsimp only
    simp only [forStep_one]
    rw [forRange_flatten]
    simp only [Nat.div_add_mod', loop_addAt_nested data]
    rw [forRange_divAt_all]
    congr 1
    apply List.map_congr_left
    intro o _
    exact cell_mean_list _ _ _ (d0 * d2) (hperm o)
      (by rw [length_flatMap_range, Nat.mul_comm])
  | SUM =>
    dsimp only
    simp only [forStep_one]
    rw [forRange_flatten]
    simp only [Nat.div_add_mod', loop_addAt_nested data]
    rw [forRange_addAt_all]
    congr 1
    apply List.map_congr_left
    intro o _
    exact cell_sum_list _ _ _ (hperm o)
  | MIN =>
    dsimp only
    simp only [forStep_one]
    rw [forRange_flatten]
    simp only [Nat.div_add_mod', loop_min_nested data]
    rw [forRange_set_val]
    congr 1
    apply List.map_congr_left
    intro o _
    exact cell_min_full (fun p => data.getD p 0) _ _ _ (hperm o) (hseed o)
  | MAX =>
    dsimp only
    simp only [forStep_one]
    rw [forRange_flatten]
    simp only [Nat.div_add_mod', loop_max_nested data]
    rw [forRange_set_val]
    congr 1
    apply List.map_congr_left
    intro o _
    exact cell_max_full (fun p => data.getD p 0) _ _ _ (hperm o) (hseed o)
  | PROD =>
    dsimp only
    simp only [forStep_one]
    rw [forRange_flatten]
    simp only [Nat.div_add_mod', loop_mul_nested data]
    rw [forRange_set_val]
    congr 1
    apply List.map_congr_left
    intro o _
    exact cell_prod_one (fun p => data.getD p 0) _ _ (hperm o)

/-- `Reduce4Dims` without `reduce_first_axis_` (groups 0 and 2 kept, groups 1
and 3 reduced). -/
theorem Reduce4Dims_second (op : ReduceOp) (data : List Int) (type : ReduceType)
    (d0 d1 d2 d3 : Nat) (hD : op.data_reshape_ = [d0, d1, d2, d3])
    (hf : op.reduce_first_axis_ = false) (h1 : 1 ≤ d1) (h3 : 1 ≤ d3)
    (ht : type ≠ ReduceType.OTHER) :
    Reduce4Dims op data type
        (List.replicate (keptProdZ [(d0, false), (d1, true), (d2, false), (d3, true)]) 0)
      = Except.ok
          ((List.range (keptProdZ [(d0, false), (d1, true), (d2, false), (d3, true)])).map
            (fun o => foldCell type
              ((cellZ [(d0, false), (d1, true), (d2, false), (d3, true)] o).map
                (fun p => data.getD p 0)))) := by
  have hK : keptProdZ [(d0, false), (d1, true), (d2, false), (d3, true)] = d0 * d2 := by
    simp [keptProdZ]
  have hseed : ∀ o, (o / d2 * d1 * d2 + o % d2) * d3 ∈ (List.range d1).flatMap
      (fun k => (List.range d3).map
        (fun t => ((o / d2 * d1 + k) * d2 + o % d2) * d3 + t)) := by
    intro o
    simp only [List.mem_flatMap, List.mem_map, List.mem_range]
    exact ⟨0, by omega, 0, by omega, by simp⟩
  rw [hK]
  unfold Reduce4Dims Compute2D Reduce4DimsSecondFn
  rw [hD, hf]
  simp only [List.getD_cons_zero, List.getD_cons_succ, Bool.false_eq_true, if_false,
    cellZ_four_false]
  cases type with
  | OTHER => exact absurd rfl ht
  | MEAN =>
    dsimp only
    simp only [forStep_one]
    rw [forRange_flatten]
    simp only [Nat.div_add_mod', loop_addAt_nested data]
    rw [forRange_divAt_all]
    congr 1
    apply List.map_congr_left
    intro o _
    exact cell_mean_list _ _ _ (d1 * d3) (List.Perm.refl _)
      (by rw [length_flatMap_range])
  | SUM =>
    dsimp only
    simp only [forStep_one]
    rw [forRange_flatten]
    simp only [Nat.div_add_mod', loop_addAt_nested data]
    rw [forRange_addAt_all]
    rfl
  | MIN =>
    dsimp only
    simp only [forStep_one]
    rw [forRange_flatten]
    simp only [Nat.div_add_mod', loop_min_nested data]
    rw [forRange_set_val]
    congr 1
    apply List.map_congr_left
    intro o _
    exact cell_min_full (fun p => data.getD p 0) _ _ _ (List.Perm.refl _) (hseed o)
  | MAX =>
    dsimp only
    simp only [forStep_one]
    rw [forRange_flatten]
    simp only [Nat.div_add_mod', loop_max_nested data]
    rw [forRange_set_val]
    congr 1
    apply List.map_congr_left
    intro o _
    exact cell_max_full (fun p => data.getD p 0) _ _ _ (List.Perm.refl _) (hseed o)
  | PROD =>
    dsimp only
    simp only [forStep_one]
    rw [forRange_flatten]
    simp only [Nat.div_add_mod', loop_mul_nested data]
    rw [forRange_set_val]
    congr 1
    apply List.map_congr_left
    intro o _
    exact cell_prod_one (fun p => data.getD p 0) _ _ (List.Perm.refl _)


/-! ### From the plan to the reference reduction -/

/-- `Compute` on a plan of one to four groups with alternating statuses writes,
for every output position, the fold of the cell `cellZ` enumerates. -/
theorem Compute_eq_cells (op : ReduceOp) (C : List (Nat × Bool)) (input out : Tensor)
    (hD : op.data_reshape_ = C.map Prod.fst)
    (hst : ∀ k (hk : k < C.length),
      (C[k]).2 = xor op.reduce_first_axis_ (decide (k % 2 = 1)))
    (h1 : 1 ≤ C.length) (h4 : C.length ≤ 4) (hpos : 0 < prodZ C)
    (hdata : input.data.length = prodZ C) (ht : op.reduce_type_ ≠ ReduceType.OTHER)
    (hout : out.data.length = keptProdZ C) :
    Compute op input out = Except.ok
      { out with
        data := (List.range (keptProdZ C)).map
          (fun o => foldCell op.reduce_type_
            ((cellZ C o).map (fun p => input.data.getD p 0))) } := by
  unfold Compute
  rw [hD, hout]
  rcases C with _ | ⟨⟨d0, s0⟩, _ | ⟨⟨d1, s1⟩, _ | ⟨⟨d2, s2⟩, _ | ⟨⟨d3, s3⟩, _ | ⟨x4, rest⟩⟩⟩⟩⟩
  · simp at h1
  · have e0 := hst 0 (by simp)
    simp only [List.getElem_cons_zero, Nat.zero_mod, zero_ne_one, decide_False,
      Bool.xor_false] at e0
    subst e0
    have hp : 0 < d0 := by
      simp only [prodZ, List.map_cons, List.map_nil, List.prod_cons, List.prod_nil,
        Nat.mul_one] at hpos
      exact hpos
    simp only [List.map_cons, List.map_nil, List.length_cons, List.length_nil]
    cases hf : op.reduce_first_axis_
    · rw [Reduce1Dims_second op input.data _ d0 hD hf
        (by rw [hdata]; simp [prodZ]) ht]
      rfl
    · rw [Reduce1Dims_first op input.data _ d0 hD hf hp ht]
      rfl
  · have e0 := hst 0 (by simp)
    have e1 := hst 1 (by simp)
    simp only [List.getElem_cons_zero, List.getElem_cons_succ, Nat.zero_mod, zero_ne_one,
      decide_False, Bool.xor_false, Nat.one_mod, decide_True, Bool.xor_true] at e0 e1
    subst e0 e1
    have hp : 0 < d0 ∧ 0 < d1 := by
      simp only [prodZ, List.map_cons, List.map_nil, List.prod_cons, List.prod_nil,
        Nat.mul_one] at hpos
      exact ⟨Nat.pos_of_mul_pos_right hpos, Nat.pos_of_mul_pos_left hpos⟩
    simp only [List.map_cons, List.map_nil, List.length_cons, List.length_nil]
    cases hf : op.reduce_first_axis_ <;> simp only [Bool.not_false, Bool.not_true]
    · rw [Reduce2Dims_second op input.data _ d0 d1 hD hf hp.2 ht]
      rfl
    · rw [Reduce2Dims_first op input.data _ d0 d1 hD hf hp.1 ht]
      rfl
  · have e0 := hst 0 (by simp)
    have e1 := hst 1 (by simp)
    have e2 := hst 2 (by simp)
    simp only [List.getElem_cons_zero, List.getElem_cons_succ, Nat.zero_mod, zero_ne_one,
      decide_False, Bool.xor_false, Nat.one_mod, decide_True, Bool.xor_true] at e0 e1 e2
    have e2' : s2 = op.reduce_first_axis_ := by simpa using e2
    subst e0 e1 e2'
    have hp : 0 < d0 ∧ 0 < d1 ∧ 0 < d2 := by
      simp only [prodZ, List.map_cons, List.map_nil, List.prod_cons, List.prod_nil,
        Nat.mul_one] at hpos
      have := Nat.pos_of_mul_pos_left hpos
      exact ⟨Nat.pos_of_mul_pos_right hpos, Nat.pos_of_mul_pos_right this,
        Nat.pos_of_mul_pos_left this⟩
    simp only [List.map_cons, List.map_nil, List.length_cons, List.length_nil]
    cases hf : op.reduce_first_axis_ <;> simp only [Bool.not_false, Bool.not_true]
    · rw [Reduce3Dims_second op input.data _ d0 d1 d2 hD hf hp.2.1 ht]
      rfl
    · rw [Reduce3Dims_first op input.data _ d0 d1 d2 hD hf hp.1 hp.2.2 ht]
      rfl
  · have e0 := hst 0 (by simp)
    have e1 := hst 1 (by simp)
    have e2 := hst 2 (by simp)
    have e3 := hst 3 (by simp)
    simp only [List.getElem_cons_zero, List.getElem_cons_succ, Nat.zero_mod, zero_ne_one,
      decide_False, Bool.xor_false, Nat.one_mod, decide_True, Bool.xor_true] at e0 e1 e2 e3
    have e2' : s2 = op.reduce_first_axis_ := by simpa using e2
    have e3' : s3 = !op.reduce_first_axis_ := by simpa using e3
    subst e0 e1 e2' e3'
    have hp : 0 < d0 ∧ 0 < d1 ∧ 0 < d2 ∧ 0 < d3 := by
      simp only [prodZ, List.map_cons, List.map_nil, List.prod_cons, List.prod_nil,
        Nat.mul_one] at hpos
      have h123 := Nat.pos_of_mul_pos_left hpos
      have h23 := Nat.pos_of_mul_pos_left h123
      exact ⟨Nat.pos_of_mul_pos_right hpos, Nat.pos_of_mul_pos_right h123,
        Nat.pos_of_mul_pos_right h23, Nat.pos_of_mul_pos_left h23⟩
    simp only [List.map_cons, List.map_nil, List.length_cons, List.length_nil]
    cases hf : op.reduce_first_axis_ <;> simp only [Bool.not_false, Bool.not_true]
    · rw [Reduce4Dims_second op input.data _ d0 d1 d2 d3 hD hf hp.2.1 hp.2.2.2 ht]
      rfl
    · rw [Reduce4Dims_first op input.data _ d0 d1 d2 d3 hD hf hp.1 hp.2.2.1 ht]
      rfl
  · simp at h4


theorem prodZ_zip (shape : List Nat) (mask : List Bool) (h : mask.length = shape.length) :
    prodZ (shape.zip mask) = shapeProd shape := by
  simp [prodZ, shapeProd, List.map_fst_zip _ _ (le_of_eq h.symm)]

theorem filterMap_prod (keep : Bool) (Z : List (Nat × Bool)) :
    (Z.filterMap
      (fun x => if !x.2 then some x.1 else if keep then some 1 else none)).prod
      = keptProdZ Z := by
  induction Z with
  | nil => simp [keptProdZ]
  | cons x rest ih =>
    rcases x with ⟨d, b⟩
    cases b
    · rw [keptProdZ_cons_false, ← ih]
      simp [List.filterMap_cons]
    · rw [keptProdZ_cons_true, ← ih]
      cases keep <;> simp [List.filterMap_cons]

theorem out_shape_prod (op : ReduceOp) (shape : List Nat) :
    shapeProd (Simplify op shape).out_shape_
      = keptProdZ (shape.zip (reducedMask op shape.length)) := by
  rw [Simplify_out_shape, outShapeLoop_eq _ _ _ (reducedMask_length _ _)]
  exact filterMap_prod _ _

/-- The plan of `Simplify` as a list of groups with statuses: it has the sizes
of `data_reshape_`, alternating statuses starting at `reduce_first_axis_`, and
sends every input position to the output position of the uncollapsed
tensor. -/
theorem Simplify_plan (op : ReduceOp) (shape : List Nat) :
    ∃ C : List (Nat × Bool),
      (Simplify op shape).data_reshape_ = C.map Prod.fst ∧
      (∀ k (hk : k < C.length),
        (C[k]).2 = xor (Simplify op shape).reduce_first_axis_ (decide (k % 2 = 1))) ∧
      prodZ C = shapeProd shape ∧
      keptProdZ C = keptProdZ (shape.zip (reducedMask op shape.length)) ∧
      (∀ p, p < prodZ C →
        outPosZ C p = outPosZ (shape.zip (reducedMask op shape.length)) p) := by
  have hml := reducedMask_length op shape.length
  have hzl : (shape.zip (reducedMask op shape.length)).length = shape.length := by
    simp [hml]
  by_cases hnu : ∃ d ∈ shape, d ≠ 1
  · obtain ⟨d, hd, hdm, hones, hstop, hrf, hdr, _⟩ := Simplify_non_unit op shape hnu
    have hz : (shape.zip (reducedMask op shape.length)).drop d
        = (shape[d], (reducedMask op shape.length)[d]) ::
          (shape.drop (d + 1)).zip ((reducedMask op shape.length).drop (d + 1)) := by
      rw [List.zip, List.drop_zipWith, List.drop_eq_getElem_cons hd,
        List.drop_eq_getElem_cons hdm]
      rfl
    have hunits := outPosZ_drop_units (shape.zip (reducedMask op shape.length)) d (by
      intro j hj hjd
      have hj2 : j < shape.length := by omega
      have := hones j hjd
      rw [List.getD_eq_getElem _ _ hj2] at this
      simp [this])
    rw [hz] at hunits
    have hprod : prodZ (collapseFrom (reducedMask op shape.length)[d] shape[d]
          ((shape.drop (d + 1)).zip ((reducedMask op shape.length).drop (d + 1))))
        = shapeProd shape := by
      rw [collapseFrom_prodZ, ← prodZ_cons shape[d] (reducedMask op shape.length)[d],
        ← hunits.2.2, prodZ_zip _ _ hml]
    refine ⟨_, hdr, ?_, hprod, ?_, ?_⟩
    · intro k hk
      rw [hrf]
      exact collapseFrom_status _ _ _ k hk
    · rw [collapseFrom_keptProdZ, hunits.2.1]
    · intro p hp
      rw [hprod, ← prodZ_zip _ _ hml] at hp
      rw [collapseFrom_outPosZ _ _ _ p (by
        rw [← prodZ_cons shape[d] (reducedMask op shape.length)[d], ← hunits.2.2]
        exact hp)]
      exact (hunits.1 p hp).symm
  · have hall : ∀ d ∈ shape, d = 1 := by
      intro d hd
      by_contra hc
      exact hnu ⟨d, hd, hc⟩
    obtain ⟨h1, h2⟩ := Simplify_unit_plan op shape hall
    have hunits := outPosZ_drop_units (shape.zip (reducedMask op shape.length))
      shape.length (by
        intro j hj _
        have hj2 : j < shape.length := by omega
        simp [hall _ (List.getElem_mem hj2)])
    rw [List.drop_of_length_le (by omega)] at hunits
    refine ⟨[(1, true)], by rw [h1]; rfl, ?_, ?_, ?_, ?_⟩
    · intro k hk
      have : k = 0 := by simpa using hk
      subst this
      simp [h2]
    · rw [← prodZ_zip _ _ hml, hunits.2.2]
      rfl
    · rw [hunits.2.1]
      rfl
    · intro p hp
      have hp1 : p < 1 := by simpa [prodZ] using hp
      rw [hunits.1 p (by rw [hunits.2.2]; simpa [prodZ] using hp1)]
      simp [outPosZ]

/-- `Run` computes the reference reduction over the positions marked by the
bitmap of `Simplify`. -/
theorem Run_eq_naive_mask (op : ReduceOp) (input output : Tensor)
    (hdims : ∀ d ∈ input.shape, 1 ≤ d)
    (hdata : input.data.length = shapeProd input.shape)
    (hv : Validate op input.shape.length = Except.ok ())
    (hgroups : (Simplify op input.shape).data_reshape_.length ≤ 4)
    (ht : op.reduce_type_ ≠ ReduceType.OTHER) :
    ∃ res, Run op input output = Except.ok res ∧
      res.2.data = naiveReduce op.reduce_type_ input.shape
        (reducedMask op input.shape.length) input.data := by
  obtain ⟨C, hD, hst, hprod, hkept, hpos⟩ := Simplify_plan op input.shape
  have hml := reducedMask_length op input.shape.length
  have hlen : C.length = (Simplify op input.shape).data_reshape_.length := by
    rw [hD, List.length_map]
  have hge := (Simplify_data_reshape_cases op input.shape)
  have h1 : 1 ≤ C.length := by
    rw [hlen]
    rcases hge with ⟨_, h, _⟩ | ⟨hlt, h, _⟩
    · rw [h]; simp
    · rw [h]
      exact (collapse_loop_invariant input.shape _ input.shape.length _ (by omega)
        (le_refl _)).1
  have hN : 0 < prodZ C := by
    rw [hprod]
    exact List.prod_pos (fun a ha => hdims a ha)
  have hty := Simplify_reduce_type op input.shape
  have hcomp := fun out hout => Compute_eq_cells (Simplify op input.shape) C input out hD hst
    h1 (by rw [hlen]; exact hgroups) hN (by rw [hdata, hprod]) (by rw [hty]; exact ht) hout
  have hnaive : naiveReduce op.reduce_type_ input.shape
        (reducedMask op input.shape.length) input.data
      = (List.range (keptProdZ C)).map (fun o => foldCell op.reduce_type_
          ((cellZ C o).map (fun p => input.data.getD p 0))) := by
    unfold naiveReduce
    have hk : shapeProd (keptEntries (reducedMask op input.shape.length) input.shape)
        = keptProdZ C := by
      rw [hkept]; rfl
    rw [hk]
    apply List.map_congr_left
    intro o ho
    have ho2 : o < keptProdZ C := List.mem_range.mp ho
    have hcell : cellOf input.shape (reducedMask op input.shape.length) o = cellZ C o := by
      unfold cellOf
      rw [← hprod, ← cellZ_eq_filter C o ho2]
      apply List.filter_congr
      intro p hp
      rw [outPos_eq_outPosZ _ _ _ hml, hpos p (List.mem_range.mp hp)]
    rw [hcell]
  unfold Run
  rw [hv]
  dsimp only
  rw [hcomp _ (by rw [Resize_data_length, out_shape_prod, hkept])]
  refine ⟨_, rfl, ?_⟩
  dsimp only
  rw [hnaive, hty]

theorem reducedMask_eq_normalizedMask (op : ReduceOp) (r : Nat)
    (hdf : op.has_data_format = 0) : reducedMask op r = normalizedMask op.axis_ r := by
  unfold reducedMask normalizedMask
  apply List.map_congr_left
  intro i _
  simp [isReduced, axisIndex, hdf]


/-! ### Cells that fit the element type -/

theorem natAbs_sum_le (L : List Int) : L.sum.natAbs ≤ (L.map Int.natAbs).sum := by
  induction L with
  | nil => simp
  | cons x xs ih =>
    simp only [List.sum_cons, List.map_cons]
    exact le_trans (Int.natAbs_add_le _ _) (Nat.add_le_add_left ih _)

theorem natAbs_prod_le (L : List Int) :
    L.prod.natAbs ≤ (L.map (fun x => max x.natAbs 1)).prod := by
  induction L with
  | nil => simp
  | cons x xs ih =>
    simp only [List.prod_cons, List.map_cons, Int.natAbs_mul]
    exact Nat.mul_le_mul (le_max_left _ _) ih

theorem exactRange_pos (T : DataType) : 0 < exactRange T := by
  cases T <;> decide

/-- The reduction of a cell that fits the element type is below `exactRange`
in magnitude: it is a value of the element type. -/
theorem foldCell_fits (T : DataType) (type : ReduceType) (cell : List Int)
    (h : cellFits T type cell) : (foldCell type cell).natAbs < exactRange T := by
  cases type with
  | SUM =>
    simp only [cellFits] at h
    exact lt_of_le_of_lt (natAbs_sum_le cell) h
  | MEAN =>
    simp only [cellFits] at h
    simp only [foldCell]
    rw [Int.natAbs_tdiv]
    exact lt_of_le_of_lt (le_trans (Nat.div_le_self _ _) (natAbs_sum_le cell)) h.1
  | PROD =>
    simp only [cellFits] at h
    exact lt_of_le_of_lt (natAbs_prod_le cell) h
  | MIN =>
    simp only [cellFits] at h
    cases cell with
    | nil => exact exactRange_pos T
    | cons x xs => exact h _ (foldl_min_mem xs x)
  | MAX =>
    simp only [cellFits] at h
    cases cell with
    | nil => exact exactRange_pos T
    | cons x xs => exact h _ (foldl_max_mem xs x)
  | OTHER => exact exactRange_pos T


/-- C2: for an input whose dimensions are all at least 1 and whose collapsed
plan has at most 4 groups, every axis list accepted by `Validate` (with
`has_data_format` off), either `keep_dims_` value and every reduce type among
SUM, MEAN, MIN, MAX, PROD over integer elements of an element type `T` other
than `uint8_t` (whose kernels are specialised), whenever every cell of the
reduction fits `T` (`cellFits`: no partial sum or product leaves the range in
which the arithmetic of `T` is exact, so an `int` does not overflow), `Run`
(that is `Simplify` followed by `Compute` with the generic kernels on a cleared
output) succeeds and its output buffer equals, element for element in row-major
order, the direct reduction `naiveReduce` of the original N-dimensional tensor
over the original axes (MEAN being the sum divided by the number of reduced
elements with truncating division); every output element is again in the range
of `T`. -/
theorem Run_eq_naiveReduce (T : DataType) (op : ReduceOp) (input output : Tensor)
    (hdims : ∀ d ∈ input.shape, 1 ≤ d)
    (hdata : input.data.length = shapeProd input.shape)
    (hv : Validate op input.shape.length = Except.ok ())
    (hdf : op.has_data_format = 0) (_hT : op.is_uint8 = false)
    (hgroups : (Simplify op input.shape).data_reshape_.length ≤ 4)
    (ht : op.reduce_type_ ≠ ReduceType.OTHER)
    (hfit : ∀ o,
      o < shapeProd (keptEntries (normalizedMask op.axis_ input.shape.length) input.shape) →
      cellFits T op.reduce_type_
        ((cellOf input.shape (normalizedMask op.axis_ input.shape.length) o).map
          (fun p => input.data.getD p 0))) :
    ∃ res, Run op input output = Except.ok res ∧
      res.2.data = naiveReduce op.reduce_type_ input.shape
        (normalizedMask op.axis_ input.shape.length) input.data ∧
      ∀ v ∈ res.2.data, v.natAbs < exactRange T := by
  rw [← reducedMask_eq_normalizedMask op _ hdf] at hfit ⊢
  obtain ⟨res, hres, hval⟩ := Run_eq_naive_mask op input output hdims hdata hv hgroups ht
  refine ⟨res, hres, hval, ?_⟩
  intro v hv
  rw [hval] at hv
  unfold naiveReduce at hv
  obtain ⟨o, ho, rfl⟩ := List.mem_map.mp hv
  exact foldCell_fits T _ _ (hfit o (List.mem_range.mp ho))

theorem Run_eq_naiveReduce_witness :
    (∃ res, Run (mkOp ReduceType.MEAN [0, -1] false 0 false)
        ⟨[2, 2, 2], [1, 2, 3, 4, 5, 6, 7, 8], 1, 0⟩ ⟨[], [], 1, 0⟩ = Except.ok res ∧
      res.2.data = naiveReduce ReduceType.MEAN [2, 2, 2]
        (normalizedMask [0, -1] 3) [1, 2, 3, 4, 5, 6, 7, 8]) ∧
    naiveReduce ReduceType.MEAN [2, 2, 2] (normalizedMask [0, -1] 3)
      [1, 2, 3, 4, 5, 6, 7, 8] = [3, 5] := by
  obtain ⟨res, h1, h2, _⟩ := Run_eq_naiveReduce DataType.DT_INT32
    (mkOp ReduceType.MEAN [0, -1] false 0 false)
    ⟨[2, 2, 2], [1, 2, 3, 4, 5, 6, 7, 8], 1, 0⟩ ⟨[], [], 1, 0⟩
    (by decide) (by decide) (by decide) rfl rfl (by decide) (by decide) (by decide)
  exact ⟨⟨res, h1, h2⟩, by decide⟩


/-! ### Concrete scenarios of the CPU reduction -/

theorem Simplify_groups_bound (op : ReduceOp) (shape : List Nat) :
    1 ≤ (Simplify op shape).data_reshape_.length ∧
      (Simplify op shape).data_reshape_.length ≤ max 1 shape.length := by
  rcases Simplify_data_reshape_cases op shape with ⟨_, h2, _⟩ | ⟨h1, h2, _⟩
  · rw [h2]; simp
  · rw [h2]
    have hinv := collapse_loop_invariant shape (scanUnitDims shape shape.length 0)
      shape.length (markAxes op shape.length (List.replicate shape.length false))
      (by omega) (le_refl _)
    refine ⟨hinv.1, ?_⟩
    have := hinv.2.1
    have hm : shape.length ≤ max 1 shape.length := le_max_right _ _
    omega

theorem Compute_shape (op : ReduceOp) (input out res : Tensor)
    (h : Compute op input out = Except.ok res) : res.shape = out.shape := by
  have key : ∀ (r : Except String (List Int)),
      r.map (fun d => { out with data := d }) = Except.ok res → res.shape = out.shape := by
    intro r hr
    cases r with
    | error e => cases hr
    | ok d => cases hr; rfl
  unfold Compute at h
  split at h
  · exact key _ h
  · exact key _ h
  · exact key _ h
  · exact key _ h
  · cases h

/-- A successful `Run` returns the plan of `Simplify` and an output of shape
`out_shape_`. -/
theorem Run_ok_form (op : ReduceOp) (input output : Tensor) (res : ReduceOp × Tensor)
    (h : Run op input output = Except.ok res) :
    res.1 = Simplify op input.shape ∧ res.2.shape = (Simplify op input.shape).out_shape_ := by
  unfold Run at h
  cases hv : Validate op input.shape.length with
  | error e => rw [hv] at h; cases h
  | ok u =>
    rw [hv] at h
    dsimp only at h
    split at h
    · cases h
    · rename_i out2 hc
      have hs := Compute_shape _ _ _ _ hc
      cases h
      exact ⟨rfl, by rw [hs]; rfl⟩

theorem reducedMask_axis1_rank3 (op : ReduceOp) (hax : op.axis_ = [1]) :
    reducedMask op 3 = [false, true, false] := by
  have hr : List.range 3 = [0, 1, 2] := rfl
  simp [reducedMask, isReduced, axisIndex, hax, hr]

/-- C11: for every rank-3 input shape `[a, b, c]` with `a, b, c >= 1`,
`axis = [1]`, `keep_dims = false` and type SUM, over integer elements of an
element type `T` among `float`, `bfloat16` and `int` such that in every cell the
magnitudes of the elements add up to less than `exactRange T` (so that no
partial sum overflows an `int` or is rounded in a floating-point type), the CPU
reduction succeeds with `out_shape_ = [a, c]`, an output tensor of that shape
with `a * c` elements, and `output[i * c + j]` equal to the sum over `k < b` of
`input[(i * b + k) * c + j]`, which is again in the range of `T`. -/
theorem Run_sum_axis1_rank3 (T : DataType) (op : ReduceOp) (input output : Tensor)
    (a b c : Nat) (ha : 1 ≤ a) (hb : 1 ≤ b) (hc : 1 ≤ c)
    (hty : op.reduce_type_ = ReduceType.SUM) (hax : op.axis_ = [1])
    (hkeep : op.keep_dims_ = false)
    (hshape : input.shape = [a, b, c]) (hdata : input.data.length = a * b * c)
    (hfit : ∀ i, i < a → ∀ j, j < c →
      ((List.range b).map
        (fun k => (input.data.getD ((i * b + k) * c + j) 0).natAbs)).sum < exactRange T) :
    ∃ res, Run op input output = Except.ok res ∧
      res.1.out_shape_ = [a, c] ∧ res.2.shape = [a, c] ∧ res.2.data.length = a * c ∧
      ∀ i j, i < a → j < c →
        res.2.data.getD (i * c + j) 0
            = ((List.range b).map
                (fun k => input.data.getD ((i * b + k) * c + j) 0)).sum ∧
          (res.2.data.getD (i * c + j) 0).natAbs < exactRange T := by
  have hlen : input.shape.length = 3 := by rw [hshape]; rfl
  have hmask := reducedMask_axis1_rank3 op hax
  have hv : Validate op input.shape.length = Except.ok () := by
    rw [Validate_ok_iff, hax, hlen]
    intro x hx
    rw [List.mem_singleton] at hx
    subst hx
    constructor <;> decide
  have hg : (Simplify op input.shape).data_reshape_.length ≤ 4 := by
    have := (Simplify_groups_bound op input.shape).2
    rw [hlen] at this
    have h3 : max 1 3 = 3 := rfl
    omega
  obtain ⟨res, hres, hnaive⟩ := Run_eq_naive_mask op input output
    (by
      rw [hshape]
      intro d hd
      simp only [List.mem_cons, List.mem_singleton, List.not_mem_nil, or_false] at hd
      rcases hd with h | h | h <;> omega)
    (by rw [hdata, hshape]; simp [shapeProd, Nat.mul_assoc])
    hv hg (by rw [hty]; decide)
  obtain ⟨hr1, hr2⟩ := Run_ok_form op input output res hres
  have hout : (Simplify op input.shape).out_shape_ = [a, c] := by
    rw [Simplify_out_shape, hlen, hmask, hkeep, hshape,
      outShapeLoop_eq _ _ _ (by rfl)]
    rfl
  have hK : keptProdZ ([a, b, c].zip [false, true, false]) = a * c := by
    simp [keptProdZ]
  have hdataeq : res.2.data = (List.range (a * c)).map (fun o =>
      ((List.range b).map (fun k => input.data.getD (((o / c) * b + k) * c + o % c) 0)).sum) := by
    rw [hnaive, hty, hlen, hmask, hshape]
    unfold naiveReduce
    have hk : shapeProd (keptEntries [false, true, false] [a, b, c]) = a * c := by
      simp [shapeProd, keptEntries]
    rw [hk]
    apply List.map_congr_left
    intro o ho
    have ho2 : o < a * c := List.mem_range.mp ho
    have hcell : cellOf [a, b, c] [false, true, false] o
        = (List.range b).map (fun k => ((o / c) * b + k) * c + o % c) := by
      rw [← cellZ_three_false a b c o]
      have hz : [(a, false), (b, true), (c, false)] = [a, b, c].zip [false, true, false] := rfl
      rw [hz, ← cellZ_eq_filter _ o (by rw [hK]; exact ho2)]
      unfold cellOf
      have hp : shapeProd [a, b, c] = prodZ ([a, b, c].zip [false, true, false]) := by
        simp [shapeProd, prodZ]
      rw [hp]
      apply List.filter_congr
      intro p _
      rw [outPos_eq_outPosZ _ _ _ (by rfl)]
    rw [hcell, List.map_map]
    rfl
  refine ⟨res, hres, by rw [hr1, hout], by rw [hr2, hout], by rw [hdataeq]; simp, ?_⟩
  intro i j hi hj
  have hlt : i * c + j < a * c := by
    calc i * c + j < i * c + c := by omega
      _ = (i + 1) * c := by ring
      _ ≤ a * c := Nat.mul_le_mul_right _ hi
  rw [hdataeq, List.getD_eq_getElem _ _ (by simpa using hlt), List.getElem_map,
    List.getElem_range]
  have hdiv : (i * c + j) / c = i := by
    rw [Nat.add_comm, Nat.add_mul_div_right _ _ (by omega), Nat.div_eq_of_lt hj, Nat.zero_add]
  have hmod : (i * c + j) % c = j := by
    rw [Nat.add_comm, Nat.add_mul_mod_self_right, Nat.mod_eq_of_lt hj]
  rw [hdiv, hmod]
  refine ⟨rfl, ?_⟩
  have hle := natAbs_sum_le
    ((List.range b).map (fun k => input.data.getD ((i * b + k) * c + j) 0))
  rw [List.map_map] at hle
  exact lt_of_le_of_lt hle (hfit i hi j hj)

theorem Run_sum_axis1_rank3_witness :
    ∃ res, Run (mkOp ReduceType.SUM [1] false 0 false)
        ⟨[2, 3, 4], List.replicate 24 1, 1, 0⟩ ⟨[], [], 1, 0⟩ = Except.ok res ∧
      res.1.out_shape_ = [2, 4] ∧ res.2.shape = [2, 4] ∧
      res.2.data = [3, 3, 3, 3, 3, 3, 3, 3] := by
  obtain ⟨res, hres, h1, h2, _, _⟩ := Run_sum_axis1_rank3 DataType.DT_FLOAT
    (mkOp ReduceType.SUM [1] false 0 false)
    ⟨[2, 3, 4], List.replicate 24 1, 1, 0⟩ ⟨[], [], 1, 0⟩ 2 3 4
    (by decide) (by decide) (by decide) rfl rfl rfl rfl (by decide) (by decide)
  have hval : (Run (mkOp ReduceType.SUM [1] false 0 false)
      ⟨[2, 3, 4], List.replicate 24 1, 1, 0⟩ ⟨[], [], 1, 0⟩).map (fun r => r.2.data)
      = Except.ok [3, 3, 3, 3, 3, 3, 3, 3] := by decide
  rw [hres] at hval
  simp only [Except.map, Except.ok.injEq] at hval
  exact ⟨res, hres, h1, h2, hval⟩

theorem reducedMask_no_axes (op : ReduceOp) (hax : op.axis_ = []) (r : Nat) :
    reducedMask op r = List.replicate r true := by
  apply List.ext_getElem (by simp [reducedMask])
  intro i h1 h2
  simp [reducedMask, isReduced, hax]

theorem collapseFrom_all_true (rest : List (Nat × Bool)) :
    ∀ acc, (∀ x ∈ rest, x.2 = true) → (collapseFrom true acc rest).length = 1 := by
  induction rest with
  | nil => intro acc _; simp [collapseFrom]
  | cons x rest ih =>
    rcases x with ⟨n, b⟩
    intro acc h
    have hb : b = true := h (n, b) (List.mem_cons_self _ _)
    subst hb
    rw [collapseFrom]
    simp only [ite_self, ne_eq, not_true_eq_false, if_false]
    exact ih _ (fun y hy => h y (List.mem_cons_of_mem _ hy))

theorem Simplify_data_reshape_product (op : ReduceOp) (shape : List Nat) :
    (Simplify op shape).data_reshape_.prod = shapeProd shape := by
  obtain ⟨C, hD, _, hprod, _, _⟩ := Simplify_plan op shape
  rw [hD, ← hprod]
  rfl

/-- With an empty axis list the plan of `Simplify` is the single group of all
elements, reduced. -/
theorem Simplify_no_axes (op : ReduceOp) (shape : List Nat) (hax : op.axis_ = []) :
    (Simplify op shape).data_reshape_ = [shapeProd shape] ∧
      (Simplify op shape).reduce_first_axis_ = true := by
  have hmask := reducedMask_no_axes op hax shape.length
  have hone : (Simplify op shape).data_reshape_.length = 1 ∧
      (Simplify op shape).reduce_first_axis_ = true := by
    by_cases hnu : ∃ d ∈ shape, d ≠ 1
    · obtain ⟨d, hd, hdm, _, _, hfirst, hdr, _⟩ := Simplify_non_unit op shape hnu
      have hbit : (reducedMask op shape.length)[d] = true := by
        simp [hmask]
      rw [hfirst, hdr, hbit, List.length_map]
      refine ⟨collapseFrom_all_true _ _ ?_, rfl⟩
      intro x hx
      have h2 : x.2 ∈ (reducedMask op shape.length).drop (d + 1) := (List.of_mem_zip hx).2
      have h3 := List.mem_of_mem_drop h2
      rw [hmask] at h3
      exact (List.mem_replicate.mp h3).2
    · have hall : ∀ d ∈ shape, d = 1 := by
        intro d hd
        by_contra hne
        exact hnu ⟨d, hd, hne⟩
      obtain ⟨h1, h2⟩ := Simplify_unit_plan op shape hall
      rw [h1]
      exact ⟨rfl, h2⟩
  refine ⟨?_, hone.2⟩
  have hp := Simplify_data_reshape_product op shape
  rcases hdr : (Simplify op shape).data_reshape_ with _ | ⟨n, _ | ⟨m, rest⟩⟩
  · rw [hdr] at hone; simp at hone
  · rw [hdr] at hp
    simp only [List.prod_cons, List.prod_nil, Nat.mul_one] at hp
    rw [hp]
  · rw [hdr] at hone; simp at hone

/-- C12: for every input shape with all dimensions at least 1, an empty
axis list (reduce-all), type MEAN and `keep_dims = false`, over integer elements
of an element type `T` among `float`, `bfloat16` and `int` whose magnitudes add
up to less than `exactRange T` (so that no partial sum overflows an `int` or is
rounded in a floating-point type) and, for the two floating-point types, whose
sum is a multiple of the element count `N` (so that the quotient is an integer),
the CPU reduction succeeds: `Simplify` collapses the shape to the single group
`[N]` with `reduce_first_axis_` true, the output shape is empty, and the output
holds exactly one value, the sum of all `N` input elements divided by `N`; this
value is again in the range of `T`, and for the floating-point types the
division is exact. -/
theorem Run_mean_all (T : DataType) (op : ReduceOp) (input output : Tensor)
    (hty : op.reduce_type_ = ReduceType.MEAN) (hax : op.axis_ = [])
    (hkeep : op.keep_dims_ = false)
    (hdims : ∀ d ∈ input.shape, 1 ≤ d)
    (hdata : input.data.length = shapeProd input.shape)
    (hfit : (input.data.map Int.natAbs).sum < exactRange T)
    (hexact : T = DataType.DT_INT32 ∨ ((shapeProd input.shape : Nat) : Int) ∣ input.data.sum) :
    ∃ res, Run op input output = Except.ok res ∧
      res.1.data_reshape_ = [shapeProd input.shape] ∧ res.1.reduce_first_axis_ = true ∧
      res.2.shape = [] ∧
      res.2.data = [input.data.sum.tdiv (shapeProd input.shape : Int)] ∧
      (input.data.sum.tdiv (shapeProd input.shape : Int)).natAbs < exactRange T ∧
      (T ≠ DataType.DT_INT32 →
        input.data.sum.tdiv (shapeProd input.shape : Int) * (shapeProd input.shape : Int)
          = input.data.sum) := by
  obtain ⟨hD, hf⟩ := Simplify_no_axes op input.shape hax
  have hN : 0 < shapeProd input.shape := List.prod_pos (fun a ha => hdims a ha)
  have hv : Validate op input.shape.length = Except.ok () := by
    rw [Validate_ok_iff, hax]
    intro a ha
    cases ha
  have hout : (Simplify op input.shape).out_shape_ = [] := by
    rw [Simplify_out_shape, reducedMask_no_axes op hax, hkeep,
      outShapeLoop_eq _ _ _ (by simp)]
    rw [List.filterMap_eq_nil_iff]
    intro x hx
    have h2 : x.2 ∈ List.replicate input.shape.length true := (List.of_mem_zip hx).2
    rw [(List.mem_replicate.mp h2).2]
    rfl
  have hK : keptProdZ [(shapeProd input.shape, true)] = 1 := by simp [keptProdZ]
  have hcomp := fun out hout2 => Compute_eq_cells (Simplify op input.shape)
    [(shapeProd input.shape, true)] input out (by rw [hD]; rfl)
    (by
      intro k hk
      have hk0 : k = 0 := by simpa using hk
      subst hk0
      simp [hf])
    (by simp) (by simp) (by simpa [prodZ] using hN) (by rw [hdata]; simp [prodZ])
    (by rw [Simplify_reduce_type, hty]; decide) hout2
  obtain ⟨res, hres⟩ : ∃ res, Run op input output = Except.ok res ∧
      res.2.data = [foldCell ReduceType.MEAN
        ((cellZ [(shapeProd input.shape, true)] 0).map (fun p => input.data.getD p 0))] := by
    unfold Run
    rw [hv]
    dsimp only
    rw [hcomp _ (by rw [Resize_data_length, hout, hK]; rfl)]
    refine ⟨_, rfl, ?_⟩
    dsimp only
    rw [hK, Simplify_reduce_type, hty]
    rfl
  obtain ⟨hr1, hr2⟩ := Run_ok_form op input output res hres.1
  have hrange : (input.data.sum.tdiv (shapeProd input.shape : Int)).natAbs
      < exactRange T := by
    have h := foldCell_fits T ReduceType.MEAN input.data ⟨hfit, by rw [hdata]; exact hexact⟩
    simpa only [foldCell, hdata] using h
  refine ⟨res, hres.1, by rw [hr1, hD], by rw [hr1, hf], by rw [hr2, hout], ?_, hrange,
    fun hT => Int.tdiv_mul_cancel (hexact.resolve_left hT)⟩
  rw [hres.2, cellZ_one_true]
  have hmap : (List.range (shapeProd input.shape)).map (fun p => input.data.getD p 0)
      = input.data := by
    rw [← hdata]
    apply List.ext_getElem (by simp)
    intro i h1 h2
    simp [List.getD_eq_getElem?_getD, List.getElem?_eq_getElem h2]
  rw [hmap]
  simp only [foldCell, hdata]

theorem Run_mean_all_witness :
    ∃ res, Run (mkOp ReduceType.MEAN [] false 0 false)
        ⟨[1, 1, 1, 8], [1, 2, 3, 4, 5, 6, 7, 12], 1, 0⟩ ⟨[], [], 1, 0⟩ = Except.ok res ∧
      res.1.data_reshape_ = [8] ∧ res.1.reduce_first_axis_ = true ∧ res.2.shape = [] ∧
      res.2.data = [5] := by
  obtain ⟨res, h1, h2, h3, h4, h5, _, _⟩ := Run_mean_all DataType.DT_FLOAT
    (mkOp ReduceType.MEAN [] false 0 false)
    ⟨[1, 1, 1, 8], [1, 2, 3, 4, 5, 6, 7, 12], 1, 0⟩ ⟨[], [], 1, 0⟩ rfl rfl rfl
    (by decide) (by decide) (by decide) (by decide)
  exact ⟨res, h1, h2, h3, h4, h5⟩


/-! ### The rank-1 copy -/

/-- C13: for a rank-1 plan with `reduce_first_axis_` false, `Reduce1Dims`
copies the first `data_reshape_[0]` input elements to the front of the output
buffer, in the generic and in the `uint8_t` variant and for every value of the
reduce type (the unsupported ones included); with an output buffer of exactly
`data_reshape_[0]` elements the output is that prefix of the input. -/
theorem Reduce1Dims_copy (op : ReduceOp) (input output_tensor : Tensor) (type : ReduceType)
    (output : List Int) (hf : op.reduce_first_axis_ = false) :
    Reduce1Dims op input.data type output
        = Except.ok (input.data.take (op.data_reshape_.getD 0 0)
            ++ output.drop (op.data_reshape_.getD 0 0)) ∧
      Reduce1DimsUint8 op input type output_tensor output
        = Except.ok (input.data.take (op.data_reshape_.getD 0 0)
            ++ output.drop (op.data_reshape_.getD 0 0)) ∧
      (output.length = op.data_reshape_.getD 0 0 →
        Reduce1Dims op input.data type output
            = Except.ok (input.data.take (op.data_reshape_.getD 0 0)) ∧
          Reduce1DimsUint8 op input type output_tensor output
            = Except.ok (input.data.take (op.data_reshape_.getD 0 0))) := by
  have h1 : Reduce1Dims op input.data type output
        = Except.ok (input.data.take (op.data_reshape_.getD 0 0)
            ++ output.drop (op.data_reshape_.getD 0 0)) := by
    unfold Reduce1Dims
    rw [hf]
    rfl
  have h2 : Reduce1DimsUint8 op input type output_tensor output
        = Except.ok (input.data.take (op.data_reshape_.getD 0 0)
            ++ output.drop (op.data_reshape_.getD 0 0)) := by
    unfold Reduce1DimsUint8
    rw [hf]
    rfl
  refine ⟨h1, h2, ?_⟩
  intro hlen
  have hdrop : output.drop (op.data_reshape_.getD 0 0) = [] := by
    rw [← hlen]; exact List.drop_length output
  rw [h1, h2, hdrop, List.append_nil]
  exact ⟨rfl, rfl⟩

theorem Reduce1Dims_copy_witness :
    Reduce1Dims (Simplify (mkOp ReduceType.OTHER [1] false 0 false) [3, 1]) [5, 6, 7]
        ReduceType.OTHER [0, 0, 0] = Except.ok [5, 6, 7] ∧
      Reduce1DimsUint8 (Simplify (mkOp ReduceType.OTHER [1] false 0 false) [3, 1])
        ⟨[3, 1], [5, 6, 7], 1, 0⟩ ReduceType.OTHER ⟨[3], [0, 0, 0], 1, 0⟩ [0, 0, 0]
        = Except.ok [5, 6, 7] :=
  (Reduce1Dims_copy (Simplify (mkOp ReduceType.OTHER [1] false 0 false) [3, 1])
    ⟨[3, 1], [5, 6, 7], 1, 0⟩ ⟨[3], [0, 0, 0], 1, 0⟩ ReduceType.OTHER [0, 0, 0]
    (by decide)).2.2 (by decide)


/-! ### The `uint8_t` kernels cell by cell -/

theorem u32_add_u32 (a x : Int) : u32 (u32 a + x) = u32 (a + x) := by
  unfold u32
  exact Int.emod_add_emod a 4294967296 x

theorem foldl_u32 (L : List Int) (a : Int) :
    L.foldl (fun t x => u32 (t + x)) (u32 a) = u32 (a + L.sum) := by
  induction L generalizing a with
  | nil => simp
  | cons x xs ih =>
    simp only [List.foldl_cons, List.sum_cons]
    rw [u32_add_u32, ih, Int.add_assoc]

theorem foldl_u32_zero (L : List Int) :
    L.foldl (fun t x => u32 (t + x)) 0 = u32 L.sum := by
  have h := foldl_u32 L 0
  have h0 : u32 0 = 0 := by decide
  rw [h0, Int.zero_add] at h
  exact h

theorem loop_u32 (data : List Int) (n : Nat) (e : Nat → Nat) :
    forRange 0 n (fun j t => u32 (t + data.getD (e j) 0)) 0
      = u32 ((((List.range n).map e).map (fun p => data.getD p 0)).sum) := by
  rw [forRange_fold_zero n (fun t x => u32 (t + x)) (fun j => data.getD (e j) 0) 0,
    foldl_u32_zero, List.map_map]
  rfl

theorem loop_u32_nested (data : List Int) (n m : Nat) (e : Nat → Nat → Nat) :
    forRange 0 n (fun j t => forRange 0 m (fun k t => u32 (t + data.getD (e j k) 0)) t) 0
      = u32 ((((List.range n).flatMap (fun j => (List.range m).map (e j))).map
          (fun p => data.getD p 0)).sum) := by
  rw [forRange_fold_nested n m (fun t x => u32 (t + x)) (fun j k => data.getD (e j k) 0) 0,
    foldl_u32_zero, List.map_flatMap]
  simp only [List.map_map, Function.comp_def]

theorem toI32_add_toI32 (a x : Int) : toI32 (toI32 a + x) = toI32 (a + x) := by
  unfold toI32
  have h : ((a + 2147483648) % 4294967296 - 2147483648 + x + 2147483648)
      = ((a + 2147483648) % 4294967296 + x) := by ring
  have h2 : a + x + 2147483648 = a + 2147483648 + x := by ring
  rw [h, Int.emod_add_emod, h2]

theorem foldl_toI32 (L : List Int) (a : Int) :
    L.foldl (fun t x => toI32 (t + x)) (toI32 a) = toI32 (a + L.sum) := by
  induction L generalizing a with
  | nil => simp
  | cons x xs ih =>
    simp only [List.foldl_cons, List.sum_cons]
    rw [toI32_add_toI32, ih, Int.add_assoc]

theorem foldl_toI32_zero (L : List Int) :
    L.foldl (fun t x => toI32 (t + x)) 0 = toI32 L.sum := by
  have h := foldl_toI32 L 0
  have h0 : toI32 0 = 0 := by decide
  rw [h0, Int.zero_add] at h
  exact h

theorem loop_sum (data : List Int) (n : Nat) (e : Nat → Nat) :
    forRange 0 n (fun j t => toI32 (t + data.getD (e j) 0)) 0
      = toI32 ((((List.range n).map e).map (fun p => data.getD p 0)).sum) := by
  rw [forRange_fold_zero n (fun t x => toI32 (t + x)) (fun j => data.getD (e j) 0) 0,
    foldl_toI32_zero, List.map_map]
  rfl

theorem loop_sum_nested (data : List Int) (n m : Nat) (e : Nat → Nat → Nat) :
    forRange 0 n (fun j t => forRange 0 m (fun k t => toI32 (t + data.getD (e j k) 0)) t) 0
      = toI32 ((((List.range n).flatMap (fun j => (List.range m).map (e j))).map
          (fun p => data.getD p 0)).sum) := by
  rw [forRange_fold_nested n m (fun t x => toI32 (t + x)) (fun j k => data.getD (e j k) 0) 0,
    foldl_toI32_zero, List.map_flatMap]
  simp only [List.map_map, Function.comp_def]

theorem cellCode_sum (inT outT : Tensor) (wide : Bool) (rd : Nat → Int) (V W : List Nat)
    (c : Nat) (h : V.Perm W) (hc : c = V.length) :
    requantizeSum inT outT (toI32 (V.map rd).sum) c
      = cellCode ReduceType.SUM inT outT wide (W.map rd) := by
  simp only [cellCode, List.length_map]
  rw [(h.map rd).sum_eq, hc, h.length_eq]

theorem cellCode_mean32 (inT outT : Tensor) (rd : Nat → Int) (V W : List Nat)
    (c : Nat) (h : V.Perm W) (hc : c = V.length) :
    u8 (u32 (u32 (V.map rd).sum + (c : Int) / 2) / (c : Int))
      = cellCode ReduceType.MEAN inT outT false (W.map rd) := by
  simp only [cellCode, meanCode, List.length_map, Bool.false_eq_true, if_false]
  rw [(h.map rd).sum_eq, hc, h.length_eq]

theorem cellCode_mean64 (inT outT : Tensor) (rd : Nat → Int) (V W : List Nat)
    (c : Nat) (h : V.Perm W) (hc : c = V.length) :
    u8 ((u32 (V.map rd).sum + (c : Int) / 2) / (c : Int))
      = cellCode ReduceType.MEAN inT outT true (W.map rd) := by
  simp only [cellCode, meanCode, List.length_map, if_true]
  rw [(h.map rd).sum_eq, hc, h.length_eq]

/-- The `uint8_t` `Reduce1Dims` with `reduce_first_axis_`. -/
theorem Reduce1DimsUint8_first (op : ReduceOp) (inT outT : Tensor) (type : ReduceType)
    (d0 : Nat) (hD : op.data_reshape_ = [d0]) (hf : op.reduce_first_axis_ = true)
    (ht : type = ReduceType.MEAN ∨ type = ReduceType.SUM) :
    Reduce1DimsUint8 op inT type outT (List.replicate (keptProdZ [(d0, true)]) 0)
      = Except.ok ((List.range (keptProdZ [(d0, true)])).map
          (fun o => cellCode type inT outT false
            ((cellZ [(d0, true)] o).map (fun p => inT.data.getD p 0)))) := by
  have hK : keptProdZ [(d0, true)] = 1 := by simp [keptProdZ]
  have hr1 : List.range 1 = [0] := rfl
  rw [hK, hr1]
  simp only [List.map_cons, List.map_nil, cellZ_one_true]
  unfold Reduce1DimsUint8
  rw [hD, hf]
  simp only [List.getD_cons_zero, if_true, List.replicate_one, List.set_cons_zero]
  rcases ht with h | h <;> subst h
  · dsimp only
    rw [loop_u32 inT.data d0 (fun i => i)]
    congr 2
    exact cellCode_mean32 inT outT _ _ _ d0 (by simp) (by simp)
  · dsimp only
    rw [loop_sum inT.data d0 (fun i => i)]
    congr 2
    exact cellCode_sum inT outT false _ _ _ d0 (by simp) (by simp)

/-- The `uint8_t` `Reduce2Dims` with `reduce_first_axis_`. -/
theorem Reduce2DimsUint8_first (op : ReduceOp) (inT outT : Tensor) (type : ReduceType)
    (d0 d1 : Nat) (hD : op.data_reshape_ = [d0, d1]) (hf : op.reduce_first_axis_ = true)
    (ht : type = ReduceType.MEAN ∨ type = ReduceType.SUM) :
    Reduce2DimsUint8 op inT type outT
        (List.replicate (keptProdZ [(d0, true), (d1, false)]) 0)
      = Except.ok ((List.range (keptProdZ [(d0, true), (d1, false)])).map
          (fun o => cellCode type inT outT false
            ((cellZ [(d0, true), (d1, false)] o).map (fun p => inT.data.getD p 0)))) := by
  have hK : keptProdZ [(d0, true), (d1, false)] = d1 := by simp [keptProdZ]
  rw [hK]
  unfold Reduce2DimsUint8 Compute1D Reduce2DimsUint8FirstFn
  rw [hD, hf]
  simp only [List.getD_cons_zero, List.getD_cons_succ, if_true, cellZ_two_true]
  rcases ht with h | h <;> subst h
  · dsimp only
    rw [forStep_one]
    simp only [loop_u32 inT.data]
    rw [forRange_set_val]
    congr 1
    apply List.map_congr_left
    intro o _
    exact cellCode_mean32 inT outT _ _ _ d0 (List.Perm.refl _) (by simp)
  · dsimp only
    rw [forStep_one]
    simp only [loop_sum inT.data]
    rw [forRange_set_val]
    congr 1
    apply List.map_congr_left
    intro o _
    exact cellCode_sum inT outT false _ _ _ d0 (List.Perm.refl _) (by simp)

/-- The `uint8_t` `Reduce2Dims` without `reduce_first_axis_`. -/
theorem Reduce2DimsUint8_second (op : ReduceOp) (inT outT : Tensor) (type : ReduceType)
    (d0 d1 : Nat) (hD : op.data_reshape_ = [d0, d1]) (hf : op.reduce_first_axis_ = false)
    (ht : type = ReduceType.MEAN ∨ type = ReduceType.SUM) :
    Reduce2DimsUint8 op inT type outT
        (List.replicate (keptProdZ [(d0, false), (d1, true)]) 0)
      = Except.ok ((List.range (keptProdZ [(d0, false), (d1, true)])).map
          (fun o => cellCode type inT outT false
            ((cellZ [(d0, false), (d1, true)] o).map (fun p => inT.data.getD p 0)))) := by
  have hK : keptProdZ [(d0, false), (d1, true)] = d0 := by simp [keptProdZ]
  rw [hK]
  unfold Reduce2DimsUint8 Compute1D Reduce2DimsUint8SecondFn
  rw [hD, hf]
  simp only [List.getD_cons_zero, List.getD_cons_succ, Bool.false_eq_true, if_false,
    cellZ_two_false]
  rcases ht with h | h <;> subst h
  · dsimp only
    rw [forStep_one]
    simp only [loop_u32 inT.data]
    rw [forRange_set_val]
    congr 1
    apply List.map_congr_left
    intro o _
    exact cellCode_mean32 inT outT _ _ _ d1 (List.Perm.refl _) (by simp)
  · dsimp only
    rw [forStep_one]
    simp only [loop_sum inT.data]
    rw [forRange_set_val]
    congr 1
    apply List.map_congr_left
    intro o _
    exact cellCode_sum inT outT false _ _ _ d1 (List.Perm.refl _) (by simp)


/-- The `uint8_t` `Reduce3Dims` with `reduce_first_axis_`. -/
theorem Reduce3DimsUint8_first (op : ReduceOp) (inT outT : Tensor) (type : ReduceType)
    (d0 d1 d2 : Nat) (hD : op.data_reshape_ = [d0, d1, d2])
    (hf : op.reduce_first_axis_ = true)
    (ht : type = ReduceType.MEAN ∨ type = ReduceType.SUM) :
    Reduce3DimsUint8 op inT type outT
        (List.replicate (keptProdZ [(d0, true), (d1, false), (d2, true)]) 0)
      = Except.ok ((List.range (keptProdZ [(d0, true), (d1, false), (d2, true)])).map
          (fun o => cellCode type inT outT true
            ((cellZ [(d0, true), (d1, false), (d2, true)] o).map
              (fun p => inT.data.getD p 0)))) := by
  have hK : keptProdZ [(d0, true), (d1, false), (d2, true)] = d1 := by simp [keptProdZ]
  have hperm : ∀ o, ((List.range d2).flatMap
      (fun j => (List.range d0).map (fun k => (k * d1 + o) * d2 + j))).Perm
      ((List.range d0).flatMap
        (fun k => (List.range d2).map (fun j => (k * d1 + o) * d2 + j))) :=
    fun o => flatMap_map_swap (List.range d2) (List.range d0)
      (fun j k => (k * d1 + o) * d2 + j)
  rw [hK]
  unfold Reduce3DimsUint8 Compute1D Reduce3DimsUint8FirstFn
  rw [hD, hf]
  simp only [List.getD_cons_zero, List.getD_cons_succ, if_true, cellZ_three_true]
  rcases ht with h | h <;> subst h
  · dsimp only
    rw [forStep_one]
    simp only [loop_u32_nested inT.data]
    rw [forRange_set_val]
    congr 1
    apply List.map_congr_left
    intro o _
    exact cellCode_mean64 inT outT _ _ _ (d0 * d2) (hperm o)
      (by rw [length_flatMap_range, Nat.mul_comm])
  · dsimp only
    rw [forStep_one]
    simp only [loop_sum_nested inT.data]
    rw [forRange_set_val]
    congr 1
    apply List.map_congr_left
    intro o _
    exact cellCode_sum inT outT true _ _ _ (d2 * d0) (hperm o)
      (by rw [length_flatMap_range])

/-- The `uint8_t` `Reduce3Dims` without `reduce_first_axis_`. -/
theorem Reduce3DimsUint8_second (op : ReduceOp) (inT outT : Tensor) (type : ReduceType)
    (d0 d1 d2 : Nat) (hD : op.data_reshape_ = [d0, d1, d2])
    (hf : op.reduce_first_axis_ = false)
    (ht : type = ReduceType.MEAN ∨ type = ReduceType.SUM) :
    Reduce3DimsUint8 op inT type outT
        (List.replicate (keptProdZ [(d0, false), (d1, true), (d2, false)]) 0)
      = Except.ok ((List.range (keptProdZ [(d0, false), (d1, true), (d2, false)])).map
          (fun o => cellCode type inT outT false
            ((cellZ [(d0, false), (d1, true), (d2, false)] o).map
              (fun p => inT.data.getD p 0)))) := by
  have hK : keptProdZ [(d0, false), (d1, true), (d2, false)] = d0 * d2 := by
    simp [keptProdZ]
  rw [hK]
  unfold Reduce3DimsUint8 Compute2D Reduce3DimsUint8SecondFn
  rw [hD, hf]
  simp only [List.getD_cons_zero, List.getD_cons_succ, Bool.false_eq_true, if_false,
    cellZ_three_false]
  rcases ht with h | h <;> subst h
  · dsimp only
    simp only [forStep_one]
    rw [forRange_flatten]
    simp only [Nat.div_add_mod', loop_u32 inT.data]
    rw [forRange_set_val]
    congr 1
    apply List.map_congr_left
    intro o _
    exact cellCode_mean32 inT outT _ _ _ d1 (List.Perm.refl _) (by simp)
  · dsimp only
    simp only [forStep_one]
    rw [forRange_flatten]
    simp only [Nat.div_add_mod', loop_sum inT.data]
    rw [forRange_set_val]
    congr 1
    apply List.map_congr_left
    intro o _
    exact cellCode_sum inT outT false _ _ _ d1 (List.Perm.refl _) (by simp)

/-- The `uint8_t` `Reduce4Dims` with `reduce_first_axis_`. -/
theorem Reduce4DimsUint8_first (op : ReduceOp) (inT outT : Tensor) (type : ReduceType)
    (d0 d1 d2 d3 : Nat) (hD : op.data_reshape_ = [d0, d1, d2, d3])
    (hf : op.reduce_first_axis_ = true)
    (ht : type = ReduceType.MEAN ∨ type = ReduceType.SUM) :
    Reduce4DimsUint8 op inT type outT
        (List.replicate (keptProdZ [(d0, true), (d1, false), (d2, true), (d3, false)]) 0)
      = Except.ok
          ((List.range (keptProdZ [(d0, true), (d1, false), (d2, true), (d3, false)])).map
            (fun o => cellCode type inT outT true
              ((cellZ [(d0, true), (d1, false), (d2, true), (d3, false)] o).map
                (fun p => inT.data.getD p 0)))) := by
  have hK : keptProdZ [(d0, true), (d1, false), (d2, true), (d3, false)] = d1 * d3 := by
    simp [keptProdZ]
  have hperm : ∀ o, ((List.range d2).flatMap (fun k => (List.range d0).map
        (fun t => ((t * d1 + o / d3) * d2 + k) * d3 + o % d3))).Perm
      ((List.range d0).flatMap (fun t => (List.range d2).map
        (fun k => ((t * d1 + o / d3) * d2 + k) * d3 + o % d3))) :=
    fun o => flatMap_map_swap (List.range d2) (List.range d0)
      (fun k t => ((t * d1 + o / d3) * d2 + k) * d3 + o % d3)
  rw [hK]
  unfold Reduce4DimsUint8 Compute2D Reduce4DimsUint8FirstFn
  rw [hD, hf]
  simp only [List.getD_cons_zero, List.getD_cons_succ, if_true, cellZ_four_true]
  rcases ht with h | h <;> subst h
  · dsimp only
    simp only [forStep_one]
    rw [forRange_flatten]
    simp only [Nat.div_add_mod', loop_u32_nested inT.data]
    rw [forRange_set_val]
    congr 1
    apply List.map_congr_left
    intro o _
    exact cellCode_mean64 inT outT _ _ _ (d0 * d2) (hperm o)
      (by rw [length_flatMap_range, Nat.mul_comm])
  · dsimp only
    simp only [forStep_one]
    rw [forRange_flatten]
    simp only [Nat.div_add_mod', loop_sum_nested inT.data]
    rw [forRange_set_val]
    congr 1
    apply List.map_congr_left
    intro o _
    exact cellCode_sum inT outT true _ _ _ (d2 * d0) (hperm o)
      (by rw [length_flatMap_range])

/-- The `uint8_t` `Reduce4Dims` without `reduce_first_axis_`. -/
theorem Reduce4DimsUint8_second (op : ReduceOp) (inT outT : Tensor) (type : ReduceType)
    (d0 d1 d2 d3 : Nat) (hD : op.data_reshape_ = [d0, d1, d2, d3])
    (hf : op.reduce_first_axis_ = false)
    (ht : type = ReduceType.MEAN ∨ type = ReduceType.SUM) :
    Reduce4DimsUint8 op inT type outT
        (List.replicate (keptProdZ [(d0, false), (d1, true), (d2, false), (d3, true)]) 0)
      = Except.ok
          ((List.range (keptProdZ [(d0, false), (d1, true), (d2, false), (d3, true)])).map
            (fun o => cellCode type inT outT true
              ((cellZ [(d0, false), (d1, true), (d2, false), (d3, true)] o).map
                (fun p => inT.data.getD p 0)))) := by
  have hK : keptProdZ [(d0, false), (d1, true), (d2, false), (d3, true)] = d0 * d2 := by
    simp [keptProdZ]
  rw [hK]
  unfold Reduce4DimsUint8 Compute2D Reduce4DimsUint8SecondFn
  rw [hD, hf]
  simp only [List.getD_cons_zero, List.getD_cons_succ, Bool.false_eq_true, if_false,
    cellZ_four_false]
  rcases ht with h | h <;> subst h
  · dsimp only
    simp only [forStep_one]
    rw [forRange_flatten]
    simp only [Nat.div_add_mod', loop_u32_nested inT.data]
    rw [forRange_set_val]
    congr 1
    apply List.map_congr_left
    intro o _
    exact cellCode_mean64 inT outT _ _ _ (d1 * d3) (List.Perm.refl _)
      (by rw [length_flatMap_range])
  · dsimp only
    simp only [forStep_one]
    rw [forRange_flatten]
    simp only [Nat.div_add_mod', loop_sum_nested inT.data]
    rw [forRange_set_val]
    congr 1
    apply List.map_congr_left
    intro o _
    exact cellCode_sum inT outT true _ _ _ (d1 * d3) (List.Perm.refl _)
      (by rw [length_flatMap_range])


/-- `ComputeUint8` for MEAN and SUM on a plan of one to four groups with
alternating statuses, the rank-1 plan without `reduce_first_axis_` apart:
every output position receives the code of the cell `cellZ` enumerates. -/
theorem ComputeUint8_eq_cells (op : ReduceOp) (C : List (Nat × Bool)) (input out : Tensor)
    (hD : op.data_reshape_ = C.map Prod.fst)
    (hst : ∀ k (hk : k < C.length),
      (C[k]).2 = xor op.reduce_first_axis_ (decide (k % 2 = 1)))
    (h1 : 1 ≤ C.length) (h4 : C.length ≤ 4)
    (ht : op.reduce_type_ = ReduceType.MEAN ∨ op.reduce_type_ = ReduceType.SUM)
    (hout : out.data.length = keptProdZ C)
    (hred : ¬ (C.length = 1 ∧ op.reduce_first_axis_ = false)) :
    ComputeUint8 op input out = Except.ok
      { out with
        data := (List.range (keptProdZ C)).map
          (fun o => cellCode op.reduce_type_ input out
            (widePlan op.reduce_first_axis_ C.length)
            ((cellZ C o).map (fun p => input.data.getD p 0))) } := by
  unfold ComputeUint8
  rw [hD, hout]
  rcases C with _ | ⟨⟨d0, s0⟩, _ | ⟨⟨d1, s1⟩, _ | ⟨⟨d2, s2⟩, _ | ⟨⟨d3, s3⟩, _ | ⟨x4, rest⟩⟩⟩⟩⟩
  · simp at h1
  · have e0 := hst 0 (by simp)
    simp only [List.getElem_cons_zero, Nat.zero_mod, zero_ne_one, decide_False,
      Bool.xor_false] at e0
    subst e0
    simp only [List.map_cons, List.map_nil, List.length_cons, List.length_nil]
    cases hf : op.reduce_first_axis_
    · exact absurd ⟨rfl, hf⟩ hred
    · rw [Reduce1DimsUint8_first op input out _ d0 hD hf ht]
      rfl
  · have e0 := hst 0 (by simp)
    have e1 := hst 1 (by simp)
    simp only [List.getElem_cons_zero, List.getElem_cons_succ, Nat.zero_mod, zero_ne_one,
      decide_False, Bool.xor_false, Nat.one_mod, decide_True, Bool.xor_true] at e0 e1
    subst e0 e1
    simp only [List.map_cons, List.map_nil, List.length_cons, List.length_nil]
    cases hf : op.reduce_first_axis_ <;> simp only [Bool.not_false, Bool.not_true]
    · rw [Reduce2DimsUint8_second op input out _ d0 d1 hD hf ht]
      rfl
    · rw [Reduce2DimsUint8_first op input out _ d0 d1 hD hf ht]
      rfl
  · have e0 := hst 0 (by simp)
    have e1 := hst 1 (by simp)
    have e2 := hst 2 (by simp)
    simp only [List.getElem_cons_zero, List.getElem_cons_succ, Nat.zero_mod, zero_ne_one,
      decide_False, Bool.xor_false, Nat.one_mod, decide_True, Bool.xor_true] at e0 e1 e2
    have e2' : s2 = op.reduce_first_axis_ := by simpa using e2
    subst e0 e1 e2'
    simp only [List.map_cons, List.map_nil, List.length_cons, List.length_nil]
    cases hf : op.reduce_first_axis_ <;> simp only [Bool.not_false, Bool.not_true]
    · rw [Reduce3DimsUint8_second op input out _ d0 d1 d2 hD hf ht]
      rfl
    · rw [Reduce3DimsUint8_first op input out _ d0 d1 d2 hD hf ht]
      rfl
  · have e0 := hst 0 (by simp)
    have e1 := hst 1 (by simp)
    have e2 := hst 2 (by simp)
    have e3 := hst 3 (by simp)
    simp only [List.getElem_cons_zero, List.getElem_cons_succ, Nat.zero_mod, zero_ne_one,
      decide_False, Bool.xor_false, Nat.one_mod, decide_True, Bool.xor_true] at e0 e1 e2 e3
    have e2' : s2 = op.reduce_first_axis_ := by simpa using e2
    have e3' : s3 = !op.reduce_first_axis_ := by simpa using e3
    subst e0 e1 e2' e3'
    simp only [List.map_cons, List.map_nil, List.length_cons, List.length_nil]
    cases hf : op.reduce_first_axis_ <;> simp only [Bool.not_false, Bool.not_true]
    · rw [Reduce4DimsUint8_second op input out _ d0 d1 d2 d3 hD hf ht]
      rfl
    · rw [Reduce4DimsUint8_first op input out _ d0 d1 d2 d3 hD hf ht]
      rfl
  · simp at h4

/-- `ComputeUint8` on the rank-1 plan without `reduce_first_axis_`: the output
codes are the input codes, for every reduce type. -/
theorem ComputeUint8_copy (op : ReduceOp) (d0 : Nat) (input out : Tensor)
    (hD : op.data_reshape_ = [d0]) (hf : op.reduce_first_axis_ = false)
    (hdata : input.data.length = d0) (hout : out.data.length = d0) :
    ComputeUint8 op input out = Except.ok { out with data := input.data } := by
  unfold ComputeUint8 Reduce1DimsUint8
  rw [hD, hf, hout]
  simp only [List.length_cons, List.length_nil, List.getD_cons_zero, Bool.false_eq_true,
    if_false, memcpy, Except.map]
  rw [List.drop_of_length_le (by simp), List.append_nil, List.take_of_length_le (by omega)]


/-! ### Arithmetic of the quantised MEAN and SUM -/

theorem cellZ_ne_nil (dims : List (Nat × Bool)) :
    0 < prodZ dims → ∀ o, cellZ dims o ≠ [] := by
  induction dims with
  | nil => intro _ o; simp [cellZ]
  | cons x rest ih =>
    rcases x with ⟨d, b⟩
    intro hpos o
    rw [prodZ_cons] at hpos
    have hd : 0 < d := Nat.pos_of_mul_pos_right hpos
    have hr : 0 < prodZ rest := Nat.pos_of_mul_pos_left hpos
    rw [cellZ]
    cases b with
    | false =>
      simp only [Bool.false_eq_true, if_false, ne_eq, List.map_eq_nil_iff]
      exact ih hr _
    | true =>
      simp only [if_true, ne_eq, List.flatMap_eq_nil_iff, List.mem_range,
        List.map_eq_nil_iff, not_forall]
      exact ⟨0, hd, ih hr o⟩

theorem sum_bounds (L : List Int) (lo hi : Int) (h : ∀ x ∈ L, lo ≤ x ∧ x ≤ hi) :
    lo * (L.length : Int) ≤ L.sum ∧ L.sum ≤ hi * (L.length : Int) := by
  induction L with
  | nil => simp
  | cons x xs ih =>
    have hx := h x (List.mem_cons_self _ _)
    have ih2 := ih (fun y hy => h y (List.mem_cons_of_mem _ hy))
    simp only [List.sum_cons, List.length_cons, Nat.cast_add, Nat.cast_one]
    constructor
    · nlinarith [ih2.1, hx.1]
    · nlinarith [ih2.2, hx.2]

theorem mean_round_bounds (S : Int) (c : Nat) (hc : 1 ≤ c) (lo hi : Int)
    (hlo : lo * (c : Int) ≤ S) (hhi : S ≤ hi * (c : Int)) :
    lo ≤ (S + (c : Int) / 2) / (c : Int) ∧ (S + (c : Int) / 2) / (c : Int) ≤ hi := by
  have hcpos : (0 : Int) < (c : Int) := by exact_mod_cast hc
  have h2a : (0 : Int) ≤ (c : Int) / 2 := by omega
  have h2b : (c : Int) / 2 < (c : Int) := by omega
  constructor
  · rw [Int.le_ediv_iff_mul_le hcpos]
    linarith
  · have : (S + (c : Int) / 2) / (c : Int) < hi + 1 := by
      rw [Int.ediv_lt_iff_lt_mul hcpos]
      nlinarith
    omega

theorem meanCode_eq (wide : Bool) (S : Int) (c : Nat) (hS : 0 ≤ S)
    (hlt : S + (c : Int) / 2 < 4294967296)
    (hv : 0 ≤ (S + (c : Int) / 2) / (c : Int) ∧ (S + (c : Int) / 2) / (c : Int) ≤ 255) :
    meanCode wide S c = (S + (c : Int) / 2) / (c : Int) := by
  have h2a : (0 : Int) ≤ (c : Int) / 2 := by omega
  have hS32 : u32 S = S := by
    unfold u32; exact Int.emod_eq_of_lt hS (by omega)
  have hT32 : u32 (S + (c : Int) / 2) = S + (c : Int) / 2 := by
    unfold u32; exact Int.emod_eq_of_lt (by omega) hlt
  have h8 : u8 ((S + (c : Int) / 2) / (c : Int)) = (S + (c : Int) / 2) / (c : Int) := by
    unfold u8; exact Int.emod_eq_of_lt hv.1 (by omega)
  unfold meanCode
  cases wide
  · simp only [Bool.false_eq_true, if_false, hS32, hT32, h8]
  · simp only [if_true, hS32, h8]

theorem mean_round_floor (S : Int) (c : Nat) (hc : 1 ≤ c) :
    (S + (c : Int) / 2) / (c : Int) = ⌊(S : ℚ) / (c : ℚ) + 1 / 2⌋ := by
  have hcpos : (0 : Int) < (c : Int) := by exact_mod_cast hc
  have hcq : (0 : ℚ) < (c : ℚ) := by exact_mod_cast hc
  symm
  rw [Int.floor_eq_iff]
  have hdm := Int.emod_add_ediv (S + (c : Int) / 2) (c : Int)
  have hr0 := Int.emod_nonneg (S + (c : Int) / 2) (ne_of_gt hcpos)
  have hr1 := Int.emod_lt_of_pos (S + (c : Int) / 2) hcpos
  generalize (S + (c : Int) / 2) / (c : Int) = v at hdm ⊢
  generalize (S + (c : Int) / 2) % (c : Int) = r at hdm hr0 hr1
  have h2a : 2 * ((c : Int) / 2) ≤ (c : Int) := by omega
  have h2b : (c : Int) - 1 ≤ 2 * ((c : Int) / 2) := by omega
  generalize (c : Int) / 2 = h at hdm h2a h2b
  have hS : (S : ℚ) = (c : ℚ) * (v : ℚ) + (r : ℚ) - (h : ℚ) := by
    have : S = (c : Int) * v + r - h := by linarith
    rw [this]; push_cast; ring
  have h2aq : 2 * (h : ℚ) ≤ (c : ℚ) := by exact_mod_cast h2a
  have h2bq : (c : ℚ) - 1 ≤ 2 * (h : ℚ) := by exact_mod_cast h2b
  have hr0q : (0 : ℚ) ≤ (r : ℚ) := by exact_mod_cast hr0
  have hr1q : (r : ℚ) + 1 ≤ (c : ℚ) := by exact_mod_cast hr1
  constructor
  · rw [hS, ← sub_nonneg]
    have : ((c : ℚ) * (v : ℚ) + (r : ℚ) - (h : ℚ)) / (c : ℚ) + 1 / 2 - (v : ℚ)
        = (2 * (r : ℚ) + ((c : ℚ) - 2 * (h : ℚ))) / (2 * (c : ℚ)) := by
      field_simp; ring
    rw [this]
    apply div_nonneg <;> linarith
  · rw [hS, ← sub_pos]
    have : (v : ℚ) + 1 - (((c : ℚ) * (v : ℚ) + (r : ℚ) - (h : ℚ)) / (c : ℚ) + 1 / 2)
        = ((c : ℚ) + 2 * (h : ℚ) - 2 * (r : ℚ)) / (2 * (c : ℚ)) := by
      field_simp; ring
    rw [this]
    apply div_pos <;> linarith

theorem foldCell_min_le (cell : List Int) : ∀ x ∈ cell, foldCell ReduceType.MIN cell ≤ x := by
  cases cell with
  | nil => intro x hx; cases hx
  | cons y ys =>
    intro x hx
    have h := foldl_min_le ys y
    simp only [foldCell]
    rcases List.mem_cons.mp hx with e | e
    · rw [e]; exact h.1
    · exact h.2 x e

theorem le_foldCell_max (cell : List Int) : ∀ x ∈ cell, x ≤ foldCell ReduceType.MAX cell := by
  cases cell with
  | nil => intro x hx; cases hx
  | cons y ys =>
    intro x hx
    have h := foldl_max_le ys y
    simp only [foldCell]
    rcases List.mem_cons.mp hx with e | e
    · rw [e]; exact h.1
    · exact h.2 x e

theorem getD_code_bounds (data : List Int) (h : ∀ x ∈ data, 0 ≤ x ∧ x ≤ 255) (p : Nat) :
    0 ≤ data.getD p 0 ∧ data.getD p 0 ≤ 255 := by
  by_cases hp : p < data.length
  · rw [List.getD_eq_getElem _ _ hp]
    exact h _ (List.getElem_mem _)
  · rw [List.getD_eq_default _ _ (by omega)]
    decide


/-- The rounded mean of a non-empty cell of codes: what the MEAN branches
store, its reading as a rounding of the rational mean, and its bounds. -/
theorem mean_cell_facts (cell : List Int) (hne : cell ≠ [])
    (hcodes : ∀ x ∈ cell, 0 ≤ x ∧ x ≤ 255)
    (hlt : cell.sum + (cell.length : Int) / 2 < 4294967296) (wide : Bool) :
    meanCode wide cell.sum cell.length
        = (cell.sum + (cell.length : Int) / 2) / (cell.length : Int) ∧
      (cell.sum + (cell.length : Int) / 2) / (cell.length : Int)
        = ⌊(cell.sum : ℚ) / (cell.length : ℚ) + 1 / 2⌋ ∧
      foldCell ReduceType.MIN cell
        ≤ (cell.sum + (cell.length : Int) / 2) / (cell.length : Int) ∧
      (cell.sum + (cell.length : Int) / 2) / (cell.length : Int)
        ≤ foldCell ReduceType.MAX cell := by
  have hc : 1 ≤ cell.length := by
    cases cell with
    | nil => exact absurd rfl hne
    | cons x xs => simp
  have hb := sum_bounds cell 0 255 hcodes
  have hmin := sum_bounds cell (foldCell ReduceType.MIN cell) (foldCell ReduceType.MAX cell)
    (fun x hx => ⟨foldCell_min_le cell x hx, le_foldCell_max cell x hx⟩)
  have hv := mean_round_bounds cell.sum cell.length hc 0 255 hb.1 hb.2
  have hm := mean_round_bounds cell.sum cell.length hc _ _ hmin.1 hmin.2
  refine ⟨meanCode_eq wide _ _ (by linarith [hb.1]) hlt hv, mean_round_floor _ _ hc, hm.1, hm.2⟩

/-- C14: for the `uint8_t` kernels with type MEAN, on every plan of one to
four groups and for both values of `reduce_first_axis_`, with input codes in
`[0, 255]` and `sum + count / 2 < 2^32` in every cell: each output code equals
`(sum + count / 2) / count` (integer divisions rounding down), where `sum` is
the integer sum of the `count` input codes of its cell; this is the rational
mean `sum / count` rounded half up, and it lies between the least and the
greatest code of the cell, so neither the 32-bit accumulator nor the cast to
8 bits changes the value. -/
theorem ComputeUint8_mean (op : ReduceOp) (C : List (Nat × Bool)) (input out : Tensor)
    (hD : op.data_reshape_ = C.map Prod.fst)
    (hst : ∀ k (hk : k < C.length),
      (C[k]).2 = xor op.reduce_first_axis_ (decide (k % 2 = 1)))
    (h1 : 1 ≤ C.length) (h4 : C.length ≤ 4) (hpos : 0 < prodZ C)
    (hdata : input.data.length = prodZ C)
    (ht : op.reduce_type_ = ReduceType.MEAN)
    (hout : out.data.length = keptProdZ C)
    (hcodes : ∀ x ∈ input.data, 0 ≤ x ∧ x ≤ 255)
    (hsum : ∀ o, o < keptProdZ C →
      ((cellZ C o).map (fun p => input.data.getD p 0)).sum
        + (((cellZ C o).map (fun p => input.data.getD p 0)).length : Int) / 2
        < 4294967296) :
    ∃ res, ComputeUint8 op input out = Except.ok res ∧ res.data.length = keptProdZ C ∧
      ∀ o, o < keptProdZ C →
        res.data.getD o 0
            = (((cellZ C o).map (fun p => input.data.getD p 0)).sum
                + (((cellZ C o).map (fun p => input.data.getD p 0)).length : Int) / 2)
              / (((cellZ C o).map (fun p => input.data.getD p 0)).length : Int) ∧
          res.data.getD o 0
            = ⌊((((cellZ C o).map (fun p => input.data.getD p 0)).sum : Int) : ℚ)
                / ((((cellZ C o).map (fun p => input.data.getD p 0)).length : Nat) : ℚ)
                + 1 / 2⌋ ∧
          foldCell ReduceType.MIN ((cellZ C o).map (fun p => input.data.getD p 0))
            ≤ res.data.getD o 0 ∧
          res.data.getD o 0
            ≤ foldCell ReduceType.MAX ((cellZ C o).map (fun p => input.data.getD p 0)) := by
  have hfacts : ∀ o, o < keptProdZ C → ∀ wide, _ :=
    fun o ho wide => mean_cell_facts ((cellZ C o).map (fun p => input.data.getD p 0))
      (by
        intro h
        exact cellZ_ne_nil C hpos o (List.map_eq_nil_iff.mp h))
      (by
        intro x hx
        obtain ⟨p, _, rfl⟩ := List.mem_map.mp hx
        exact getD_code_bounds input.data hcodes p)
      (hsum o ho) wide
  by_cases hred : C.length = 1 ∧ op.reduce_first_axis_ = false
  · obtain ⟨hl, hf⟩ := hred
    rcases C with _ | ⟨⟨d0, s0⟩, _ | ⟨x1, rest⟩⟩
    · simp at h1
    · have e0 := hst 0 (by simp)
      simp only [List.getElem_cons_zero, Nat.zero_mod, zero_ne_one, decide_False,
        Bool.xor_false] at e0
      rw [hf] at e0
      subst e0
      have hK : keptProdZ [(d0, false)] = d0 := by simp [keptProdZ]
      have hP : prodZ [(d0, false)] = d0 := by simp [prodZ]
      rw [hK] at hout ⊢
      rw [hP] at hdata
      refine ⟨_, ComputeUint8_copy op d0 input out hD hf hdata hout, hdata, ?_⟩
      intro o ho
      have hf4 := hfacts o (by rw [hK]; exact ho) false
      simp only [cellZ_one_false, List.map_cons, List.map_nil, List.sum_cons, List.sum_nil,
        List.length_cons, List.length_nil] at hf4 ⊢
      have hx : input.data.getD o 0
          = (input.data.getD o 0 + 0 + ((0 + 1 : Nat) : Int) / 2) / ((0 + 1 : Nat) : Int) := by
        norm_num
      obtain ⟨_, h2, h3, h4⟩ := hf4
      rw [← hx] at h2 h3 h4
      exact ⟨hx, h2, h3, h4⟩
    · simp at hl
  · refine ⟨_, ComputeUint8_eq_cells op C input out hD hst h1 h4 (Or.inl ht) hout hred,
      by simp, ?_⟩
    intro o ho
    have hget : ((List.range (keptProdZ C)).map
        (fun o => cellCode op.reduce_type_ input out (widePlan op.reduce_first_axis_ C.length)
          ((cellZ C o).map (fun p => input.data.getD p 0)))).getD o 0
        = meanCode (widePlan op.reduce_first_axis_ C.length)
            ((cellZ C o).map (fun p => input.data.getD p 0)).sum
            ((cellZ C o).map (fun p => input.data.getD p 0)).length := by
      rw [List.getD_eq_getElem _ _ (by simpa using ho), List.getElem_map, List.getElem_range,
        ht]
      rfl
    obtain ⟨g1, g2, g3, g4⟩ := hfacts o ho (widePlan op.reduce_first_axis_ C.length)
    dsimp only
    rw [hget, g1]
    exact ⟨rfl, g2, g3, g4⟩

theorem ComputeUint8_mean_witness :
    ∃ res, ComputeUint8 (Simplify (mkOp ReduceType.MEAN [1] false 0 true) [2, 3, 2])
        ⟨[2, 3, 2], [1, 2, 2, 3, 4, 4, 10, 20, 30, 40, 50, 61], 1, 5⟩
        ⟨[2, 2], [0, 0, 0, 0], 1, 5⟩ = Except.ok res ∧
      res.data.length = 4 ∧ res.data.getD 0 0 = (1 + 2 + 4 + 3 / 2) / 3 ∧
      res.data.getD 3 0 = (20 + 40 + 61 + 3 / 2) / 3 := by
  obtain ⟨res, h, hl, hc⟩ := ComputeUint8_mean
    (Simplify (mkOp ReduceType.MEAN [1] false 0 true) [2, 3, 2])
    [(2, false), (3, true), (2, false)]
    ⟨[2, 3, 2], [1, 2, 2, 3, 4, 4, 10, 20, 30, 40, 50, 61], 1, 5⟩
    ⟨[2, 2], [0, 0, 0, 0], 1, 5⟩
    (by decide) (by decide) (by decide) (by decide) (by decide) (by decide) (by decide)
    (by decide) (by decide) (by decide)
  exact ⟨res, h, hl, (hc 0 (by decide)).1, (hc 3 (by decide)).1⟩


/-! ### The rounding to `float` -/

theorem log2s_spec : ∀ (fuel n : Nat), n ≤ fuel → 1 ≤ n →
    2 ^ log2s fuel n ≤ n ∧ n < 2 ^ (log2s fuel n + 1) := by
  intro fuel
  induction fuel with
  | zero => intro n h0 h1; omega
  | succ fuel ih =>
    intro n hle h1
    unfold log2s
    by_cases h2 : n < 2
    · rw [if_pos h2]
      have : n = 1 := by omega
      subst this
      simp
    · rw [if_neg h2]
      obtain ⟨ha, hb⟩ := ih (n / 2) (by omega) (by omega)
      rw [pow_succ, pow_succ]
      generalize 2 ^ log2s fuel (n / 2) = p at ha hb
      constructor
      · omega
      · rw [pow_succ] at hb
        omega

theorem ilog2_spec (x : Rat) (hx : x ≠ 0) :
    (2 : Rat) ^ ilog2 x ≤ |x| ∧ |x| < (2 : Rat) ^ (ilog2 x + 1) := by
  have hnum : x.num ≠ 0 := Rat.num_ne_zero.mpr hx
  have hn1 : 1 ≤ x.num.natAbs := Nat.one_le_iff_ne_zero.mpr (Int.natAbs_ne_zero.mpr hnum)
  have hd1 : 1 ≤ x.den := x.den_pos
  obtain ⟨na, nb⟩ := log2s_spec x.num.natAbs x.num.natAbs (le_refl _) hn1
  obtain ⟨da, db⟩ := log2s_spec x.den x.den (le_refl _) hd1
  have habs : |x| = (x.num.natAbs : Rat) / (x.den : Rat) := by
    conv_lhs => rw [← Rat.num_div_den x]
    rw [abs_div, Nat.abs_cast, Nat.cast_natAbs, Int.cast_abs]
  have hdpos : (0 : Rat) < (x.den : Rat) := by exact_mod_cast x.den_pos
  have h2 : (2 : Rat) ≠ 0 := by norm_num
  unfold ilog2
  dsimp only
  generalize log2s x.num.natAbs x.num.natAbs = a at na nb ⊢
  generalize log2s x.den x.den = b at da db ⊢
  have na' : (2 : Rat) ^ a ≤ (x.num.natAbs : Rat) := by exact_mod_cast na
  have nb' : (x.num.natAbs : Rat) < (2 : Rat) ^ (a + 1) := by exact_mod_cast nb
  have da' : (2 : Rat) ^ b ≤ (x.den : Rat) := by exact_mod_cast da
  have db' : (x.den : Rat) < (2 : Rat) ^ (b + 1) := by exact_mod_cast db
  have hpa : (0 : Rat) < (2 : Rat) ^ a := by positivity
  have hpb : (0 : Rat) < (2 : Rat) ^ b := by positivity
  have e1 : (2 : Rat) ^ ((a : Int) - (b : Int)) = (2 : Rat) ^ a / (2 : Rat) ^ b := by
    rw [zpow_sub₀ h2, zpow_natCast, zpow_natCast]
  have e2 : (2 : Rat) ^ ((a : Int) - (b : Int) + 1) = (2 : Rat) ^ (a + 1) / (2 : Rat) ^ b := by
    rw [zpow_add_one₀ h2, e1, pow_succ]
    ring
  have e3 : (2 : Rat) ^ ((a : Int) - (b : Int) - 1) = (2 : Rat) ^ a / (2 : Rat) ^ (b + 1) := by
    rw [zpow_sub_one₀ h2, e1, pow_succ]
    field_simp
  split_ifs with hc
  · refine ⟨hc, ?_⟩
    rw [e2, habs, div_lt_div_iff₀ hdpos hpb]
    calc (x.num.natAbs : Rat) * (2 : Rat) ^ b < (2 : Rat) ^ (a + 1) * (2 : Rat) ^ b := by
          exact mul_lt_mul_of_pos_right nb' hpb
      _ ≤ (2 : Rat) ^ (a + 1) * (x.den : Rat) := by
          exact mul_le_mul_of_nonneg_left da' (by positivity)
  · constructor
    · rw [e3, habs, div_le_div_iff₀ (by positivity) hdpos]
      calc (2 : Rat) ^ a * (x.den : Rat) ≤ (x.num.natAbs : Rat) * (x.den : Rat) := by
            exact mul_le_mul_of_nonneg_right na' (le_of_lt hdpos)
        _ ≤ (x.num.natAbs : Rat) * (2 : Rat) ^ (b + 1) := by
            exact mul_le_mul_of_nonneg_left (le_of_lt db') (by positivity)
    · have : (a : Int) - (b : Int) - 1 + 1 = (a : Int) - (b : Int) := by ring
      rw [this]
      exact lt_of_not_le hc

theorem roundEven_intCast (n : Int) : roundEven (n : Rat) = n := by
  unfold roundEven
  have hf : Rat.floor (n : Rat) = n := by
    show ⌊(n : Rat)⌋ = n
    exact Int.floor_intCast n
  simp only [hf, sub_self]
  norm_num

theorem floor_le_roundEven (q : Rat) : Rat.floor q ≤ roundEven q := by
  unfold roundEven
  dsimp only
  split_ifs <;> omega

/-- An integer of magnitude at most `2^24` is a `float`. -/
theorem f32_intCast (n : Int) (h : n.natAbs ≤ 16777216) : f32 (n : Rat) = n := by
  unfold f32
  by_cases h0 : (n : Rat) = 0
  · rw [if_pos h0, h0]
  · rw [if_neg h0]
    dsimp only
    obtain ⟨ha, hb⟩ := ilog2_spec (n : Rat) h0
    have habs : |(n : Rat)| = (n.natAbs : Rat) := by
      rw [Nat.cast_natAbs, Int.cast_abs]
    have hn0 : n ≠ 0 := by
      intro hc; apply h0; rw [hc]; rfl
    have hn1 : (1 : Rat) ≤ |(n : Rat)| := by
      rw [habs]
      have : 1 ≤ n.natAbs := Nat.one_le_iff_ne_zero.mpr (Int.natAbs_ne_zero.mpr hn0)
      exact_mod_cast this
    have hle : |(n : Rat)| ≤ (2 : Rat) ^ (24 : Int) := by
      rw [habs]
      have : (n.natAbs : Rat) ≤ (16777216 : Rat) := by exact_mod_cast h
      have h24 : (2 : Rat) ^ (24 : Int) = 16777216 := by norm_num
      rw [h24]
      exact this
    have h2 : (1 : Rat) < 2 := by norm_num
    have he0 : 0 ≤ ilog2 (n : Rat) := by
      by_contra hneg
      have hlt : ilog2 (n : Rat) + 1 ≤ 0 := by omega
      have : (2 : Rat) ^ (ilog2 (n : Rat) + 1) ≤ (2 : Rat) ^ (0 : Int) :=
        zpow_le_zpow_right₀ (le_of_lt h2) hlt
      rw [zpow_zero] at this
      linarith
    have he24 : ilog2 (n : Rat) ≤ 24 := by
      by_contra hbig
      have hge : (25 : Int) ≤ ilog2 (n : Rat) := by omega
      have : (2 : Rat) ^ (25 : Int) ≤ (2 : Rat) ^ ilog2 (n : Rat) :=
        zpow_le_zpow_right₀ (le_of_lt h2) hge
      have h25 : (2 : Rat) ^ (24 : Int) < (2 : Rat) ^ (25 : Int) :=
        zpow_lt_zpow_right₀ h2 (by norm_num)
      linarith
    have hmax : max (ilog2 (n : Rat)) (-126) = ilog2 (n : Rat) := max_eq_left (by omega)
    rw [hmax]
    generalize ilog2 (n : Rat) = e at ha hb he0 he24
    have hpos : (0 : Rat) < (2 : Rat) ^ (e - 23) := zpow_pos (by norm_num) _
    -- the quotient by the unit in the last place is an integer
    have hint : ∃ m : Int, (n : Rat) / (2 : Rat) ^ (e - 23) = (m : Rat) := by
      by_cases h24 : e = 24
      · subst h24
        have habs24 : |(n : Rat)| = (2 : Rat) ^ (24 : Int) := le_antisymm hle ha
        have hnat : n.natAbs = 16777216 := by
          have : (n.natAbs : Rat) = (16777216 : Rat) := by
            rw [← habs, habs24]; norm_num
          exact_mod_cast this
        rcases Int.natAbs_eq n with hp | hp
        · refine ⟨8388608, ?_⟩
          rw [hp, hnat]
          norm_num
        · refine ⟨-8388608, ?_⟩
          rw [hp, hnat]
          norm_num
      · have hk : 0 ≤ 23 - e := by omega
        obtain ⟨k, hk2⟩ := Int.eq_ofNat_of_zero_le hk
        refine ⟨n * 2 ^ k, ?_⟩
        have : e - 23 = -(k : Int) := by omega
        rw [this, zpow_neg, zpow_natCast]
        push_cast
        field_simp
    obtain ⟨m, hm⟩ := hint
    rw [hm, roundEven_intCast, ← hm]
    field_simp

/-- Rounding to `float` does not take a value of at least `2^24` below
`2^24`. -/
theorem f32_ge (x : Rat) (h : (16777216 : Rat) ≤ x) : (16777216 : Rat) ≤ f32 x := by
  have hx0 : x ≠ 0 := by
    intro hc; rw [hc] at h; norm_num at h
  have hxpos : 0 < x := by linarith
  unfold f32
  rw [if_neg hx0]
  dsimp only
  obtain ⟨ha, hb⟩ := ilog2_spec x hx0
  rw [abs_of_pos hxpos] at ha hb
  have h2 : (1 : Rat) < 2 := by norm_num
  have he24 : 24 ≤ ilog2 x := by
    by_contra hsmall
    have hle : ilog2 x + 1 ≤ 24 := by omega
    have : (2 : Rat) ^ (ilog2 x + 1) ≤ (2 : Rat) ^ (24 : Int) :=
      zpow_le_zpow_right₀ (le_of_lt h2) hle
    have h24 : (2 : Rat) ^ (24 : Int) = 16777216 := by norm_num
    linarith
  have hmax : max (ilog2 x) (-126) = ilog2 x := max_eq_left (by omega)
  rw [hmax]
  generalize ilog2 x = e at ha hb he24
  have hpos : (0 : Rat) < (2 : Rat) ^ (e - 23) := zpow_pos (by norm_num) _
  have hq : ((8388608 : Int) : Rat) ≤ x / (2 : Rat) ^ (e - 23) := by
    rw [le_div_iff₀ hpos]
    have : ((8388608 : Int) : Rat) * (2 : Rat) ^ (e - 23) = (2 : Rat) ^ e := by
      rw [zpow_sub₀ (by norm_num : (2 : Rat) ≠ 0)]
      norm_num
      field_simp
    rw [this]
    exact ha
  have hfl : (8388608 : Int) ≤ Rat.floor (x / (2 : Rat) ^ (e - 23)) := by
    show (8388608 : Int) ≤ ⌊x / (2 : Rat) ^ (e - 23)⌋
    exact Int.le_floor.mpr hq
  have hr : (8388608 : Int) ≤ roundEven (x / (2 : Rat) ^ (e - 23)) :=
    le_trans hfl (floor_le_roundEven _)
  have hr' : (8388608 : Rat) ≤ (roundEven (x / (2 : Rat) ^ (e - 23)) : Rat) := by
    exact_mod_cast hr
  have he : (2 : Rat) ^ (1 : Int) ≤ (2 : Rat) ^ (e - 23) :=
    zpow_le_zpow_right₀ (le_of_lt h2) (by omega)
  rw [zpow_one] at he
  nlinarith

theorem toI32_eq (x : Int) (h : -2147483648 ≤ x ∧ x < 2147483648) : toI32 x = x := by
  unfold toI32
  omega


theorem roundf_intCast (n : Int) : roundf (n : ℚ) = n := by
  unfold roundf
  have hfl : ∀ m : Int, Rat.floor ((m : ℚ) + 1 / 2) = m := by
    intro m
    show ⌊(m : ℚ) + 1 / 2⌋ = m
    rw [Int.floor_eq_iff]
    constructor <;> linarith
  split_ifs with h
  · exact hfl n
  · have := hfl (-n)
    rw [Int.cast_neg] at this
    rw [this, neg_neg]

theorem Saturate_nonneg (v : Int) (h : 0 ≤ v) : Saturate v = min v 255 := by
  unfold Saturate
  split_ifs <;> omega

theorem map_getD_range (K : Nat) (f : Nat → Int) (o : Nat) (ho : o < K) :
    ((List.range K).map f).getD o 0 = f o := by
  rw [List.getD_eq_getElem _ _ (by simpa using ho), List.getElem_map, List.getElem_range]

/-- The `int` part of the requantisation is exact when the codes are in
`[0, 255]` and `(|in_zero_point| + 255) * count` is below `2^31`. -/
theorem requantize_int_exact (cell : List Int) (zp : Int)
    (hcell : ∀ x ∈ cell, 0 ≤ x ∧ x ≤ 255)
    (hfit : (zp.natAbs + 255) * cell.length < 2147483648) :
    toI32 (toI32 cell.sum - toI32 (zp * (cell.length : Int)))
      = cell.sum - zp * (cell.length : Int) := by
  obtain ⟨hlo, hhi⟩ := sum_bounds cell 0 255 hcell
  have hfit' : ((zp.natAbs : Int) + 255) * (cell.length : Int) < 2147483648 := by
    exact_mod_cast hfit
  have hlen : (0 : Int) ≤ (cell.length : Int) := Int.ofNat_nonneg _
  have habs : |zp * (cell.length : Int)| = (zp.natAbs : Int) * (cell.length : Int) := by
    rw [abs_mul, Int.abs_eq_natAbs, abs_of_nonneg hlen]
  have hzn : (0 : Int) ≤ (zp.natAbs : Int) * (cell.length : Int) :=
    Int.mul_nonneg (Int.ofNat_nonneg _) hlen
  have hb := abs_le.mp (le_of_eq habs)
  have h1 : toI32 cell.sum = cell.sum := toI32_eq _ ⟨by linarith, by nlinarith⟩
  have h2 : toI32 (zp * (cell.length : Int)) = zp * (cell.length : Int) :=
    toI32_eq _ ⟨by nlinarith [hb.1], by nlinarith [hb.2]⟩
  rw [h1, h2]
  exact toI32_eq _ ⟨by nlinarith [hb.2], by nlinarith [hb.1]⟩

/-- C15, counterexample: the kernel does not store the code of the claimed
formula. (1) Two codes 0 with input zero point 5, scales 1 and 4 and output
zero point 10: the scaled sum is `-5/2`; the kernel rounds `-5/2 + 10` to the
code 8, whereas rounding `-5/2` half away from zero and then adding the zero
point gives 7. (2) One code 1 with the `float` scales `0.7f` and `0.2f` and zero
points 0: the quotient of the scales is rounded to the `float` `3.5` and the
kernel stores 4, whereas the exact quotient is below `3.5` and the formula over
exact rationals gives 3. (3) Shape `[2, 1]` reduced over axis 1 with scales 1
and 1/4: the plan has one group without `reduce_first_axis_` and the kernel
copies the codes 3 and 4, whereas the formula gives 12 for the first. -/
theorem RunUint8_sum_not_spec_formula :
    ((RunUint8 (mkOp ReduceType.SUM [] false 0 true) ⟨[2], [0, 0], 1, 5⟩
          ⟨[], [], 4, 10⟩).map (fun r => r.2.data) = Except.ok [8] ∧
      specRequantize 5 10 1 4 (0 + 0) 2 = 7) ∧
    ((RunUint8 (mkOp ReduceType.SUM [] false 0 true)
          ⟨[1], [1], 11744051 / 16777216, 0⟩
          ⟨[], [], 13421773 / 67108864, 0⟩).map (fun r => r.2.data) = Except.ok [4] ∧
      f32 (7 / 10) = 11744051 / 16777216 ∧ f32 (1 / 5) = 13421773 / 67108864 ∧
      specRequantize 0 0 (11744051 / 16777216) (13421773 / 67108864) 1 1 = 3) ∧
    ((RunUint8 (mkOp ReduceType.SUM [1] false 0 true) ⟨[2, 1], [3, 4], 1, 0⟩
          ⟨[], [], 1 / 4, 0⟩).map (fun r => r.2.data) = Except.ok [3, 4] ∧
      specRequantize 0 0 1 (1 / 4) 3 1 = 12) := by
  decide!

/-- C15 (as amended): for the `uint8_t` kernels with type SUM, on every plan of
one to four groups that reduces (every plan but the one-group plan without
`reduce_first_axis_`), for codes in `[0, 255]`, zero points and cells with
`(|zero_point_in| + 255) * count < 2^31` (no `int` overflow), and positive
`float` scales with quotient below `2^96` (no `float` overflow), each output
code equals
`saturate_to_[0,255](round_half_away_from_zero(fl(fl(fl(sum - zero_point_in *
count) * fl(scale_in / scale_out)) + fl(zero_point_out))))`, where `fl` rounds
to the nearest `float`: the arithmetic is that of `float`, and the output zero
point is added before rounding. Here `sum` is the integer sum of the `count`
input codes of the cell. When each of these roundings is exact, the code is
`saturate(round((sum - zero_point_in * count) * (scale_in / scale_out) +
zero_point_out))` over exact rationals. -/
theorem ComputeUint8_sum (op : ReduceOp) (C : List (Nat × Bool)) (input out : Tensor)
    (hD : op.data_reshape_ = C.map Prod.fst)
    (hst : ∀ k (hk : k < C.length),
      (C[k]).2 = xor op.reduce_first_axis_ (decide (k % 2 = 1)))
    (h1 : 1 ≤ C.length) (h4 : C.length ≤ 4)
    (ht : op.reduce_type_ = ReduceType.SUM)
    (hout : out.data.length = keptProdZ C)
    (hred : ¬ (C.length = 1 ∧ op.reduce_first_axis_ = false))
    (hcodes : ∀ x ∈ input.data, 0 ≤ x ∧ x ≤ 255)
    (hfit : ∀ o, o < keptProdZ C →
      (input.zero_point.natAbs + 255) * (cellZ C o).length < 2147483648)
    (_hsi : 0 < input.scale) (_hso : 0 < out.scale)
    (_hsf : f32 input.scale = input.scale) (_hof : f32 out.scale = out.scale)
    (_hratio : input.scale / out.scale < 2 ^ 96)
    (_hzo : -2147483648 ≤ out.zero_point ∧ out.zero_point < 2147483648) :
    ∃ res, ComputeUint8 op input out = Except.ok res ∧ res.data.length = keptProdZ C ∧
      ∀ o, o < keptProdZ C →
        res.data.getD o 0 =
          Saturate (roundf (f32
            (f32 (f32 ((((cellZ C o).map (fun p => input.data.getD p 0)).sum
                - input.zero_point
                  * (((cellZ C o).map (fun p => input.data.getD p 0)).length : Int) : Int)
                : ℚ) * f32 (input.scale / out.scale))
              + f32 (out.zero_point : ℚ)))) ∧
        (f32 (input.scale / out.scale) = input.scale / out.scale →
          f32 ((((cellZ C o).map (fun p => input.data.getD p 0)).sum
              - input.zero_point
                * (((cellZ C o).map (fun p => input.data.getD p 0)).length : Int) : Int) : ℚ)
            = ((((cellZ C o).map (fun p => input.data.getD p 0)).sum
              - input.zero_point
                * (((cellZ C o).map (fun p => input.data.getD p 0)).length : Int) : Int) : ℚ) →
          f32 (((((cellZ C o).map (fun p => input.data.getD p 0)).sum
              - input.zero_point
                * (((cellZ C o).map (fun p => input.data.getD p 0)).length : Int) : Int) : ℚ)
              * (input.scale / out.scale))
            = ((((cellZ C o).map (fun p => input.data.getD p 0)).sum
              - input.zero_point
                * (((cellZ C o).map (fun p => input.data.getD p 0)).length : Int) : Int) : ℚ)
              * (input.scale / out.scale) →
          f32 (out.zero_point : ℚ) = (out.zero_point : ℚ) →
          f32 (((((cellZ C o).map (fun p => input.data.getD p 0)).sum
              - input.zero_point
                * (((cellZ C o).map (fun p => input.data.getD p 0)).length : Int) : Int) : ℚ)
              * (input.scale / out.scale) + (out.zero_point : ℚ))
            = ((((cellZ C o).map (fun p => input.data.getD p 0)).sum
              - input.zero_point
                * (((cellZ C o).map (fun p => input.data.getD p 0)).length : Int) : Int) : ℚ)
              * (input.scale / out.scale) + (out.zero_point : ℚ) →
          res.data.getD o 0 =
            Saturate (roundf
              (((((cellZ C o).map (fun p => input.data.getD p 0)).sum
                  - input.zero_point
                    * (((cellZ C o).map (fun p => input.data.getD p 0)).length : Int) : Int)
                  : ℚ) * (input.scale / out.scale) + (out.zero_point : ℚ)))) := by
  refine ⟨_, ComputeUint8_eq_cells op C input out hD hst h1 h4 (Or.inr ht) hout hred,
    by simp, ?_⟩
  intro o ho
  have hcell : ∀ x ∈ (cellZ C o).map (fun p => input.data.getD p 0),
      (0 : Int) ≤ x ∧ x ≤ 255 := by
    intro x hx
    obtain ⟨p, _, rfl⟩ := List.mem_map.mp hx
    exact getD_code_bounds input.data hcodes p
  have hint := requantize_int_exact ((cellZ C o).map (fun p => input.data.getD p 0))
    input.zero_point hcell (by rw [List.length_map]; exact hfit o ho)
  have hval : ((List.range (keptProdZ C)).map
      (fun o => cellCode op.reduce_type_ input out (widePlan op.reduce_first_axis_ C.length)
        ((cellZ C o).map (fun p => input.data.getD p 0)))).getD o 0
      = Saturate (roundf (f32
          (f32 (f32 ((((cellZ C o).map (fun p => input.data.getD p 0)).sum
              - input.zero_point
                * (((cellZ C o).map (fun p => input.data.getD p 0)).length : Int) : Int)
              : ℚ) * f32 (input.scale / out.scale))
            + f32 (out.zero_point : ℚ)))) := by
    rw [map_getD_range _ _ o ho, ht]
    simp only [cellCode, requantizeSum]
    rw [hint]
  dsimp only
  refine ⟨hval, ?_⟩
  intro e1 e2 e3 e4 e5
  rw [hval, e1, e2, e3, e4, e5]

theorem ComputeUint8_sum_witness :
    ∃ res, ComputeUint8 (Simplify (mkOp ReduceType.SUM [1] false 0 true) [2, 3, 2])
        ⟨[2, 3, 2], [1, 2, 2, 3, 4, 4, 10, 20, 30, 40, 50, 61], 1, 5⟩
        ⟨[2, 2], [0, 0, 0, 0], 4, 10⟩ = Except.ok res ∧
      res.data.length = 4 ∧
      res.data.getD 0 0
        = Saturate (roundf (f32 (f32 (f32 (((1 + 2 + 4 - 5 * 3 : Int) : ℚ))
            * f32 ((1 : ℚ) / 4)) + f32 ((10 : Int) : ℚ)))) := by
  obtain ⟨res, h, hl, hc⟩ := ComputeUint8_sum
    (Simplify (mkOp ReduceType.SUM [1] false 0 true) [2, 3, 2])
    [(2, false), (3, true), (2, false)]
    ⟨[2, 3, 2], [1, 2, 2, 3, 4, 4, 10, 20, 30, 40, 50, 61], 1, 5⟩
    ⟨[2, 2], [0, 0, 0, 0], 4, 10⟩
    (by decide) (by decide) (by decide) (by decide) (by decide) (by decide) (by decide)
    (by decide) (by decide) (by decide!) (by decide!) (by decide!) (by decide!)
    (by decide!) (by decide)
  exact ⟨res, h, hl, (hc 0 (by decide)).1⟩


/-- The requantisation with both scales 1 and both zero points 0: a sum of
codes below `2^31` is stored saturated to 255. -/
theorem requantizeSum_unit (inT outT : Tensor) (S : Int) (n : Nat)
    (hS0 : 0 ≤ S) (hS : S < 2147483648)
    (hsi : inT.scale = 1) (hso : outT.scale = 1)
    (hzi : inT.zero_point = 0) (hzo : outT.zero_point = 0) :
    requantizeSum inT outT (toI32 S) n = min S 255 := by
  have h1 : f32 1 = 1 := by
    have := f32_intCast 1 (by decide)
    simpa using this
  have h0 : f32 0 = 0 := by
    unfold f32
    rw [if_pos rfl]
  have hz : toI32 0 = 0 := by decide
  unfold requantizeSum
  simp only [hsi, hso, hzi, hzo, Int.zero_mul, hz, Int.sub_zero, div_one, h1, mul_one,
    Int.cast_zero, h0, add_zero]
  rw [toI32_eq S ⟨by omega, hS⟩, toI32_eq S ⟨by omega, hS⟩]
  by_cases hsmall : S ≤ 16777216
  · have hf : f32 (S : ℚ) = (S : ℚ) := f32_intCast S (by omega)
    rw [hf, hf, hf, roundf_intCast, Saturate_nonneg _ hS0]
  · have hbig : (16777216 : ℚ) ≤ (S : ℚ) := by
      have : (16777216 : Int) ≤ S := by omega
      exact_mod_cast this
    have hy := f32_ge _ (f32_ge _ (f32_ge _ hbig))
    generalize f32 (f32 (f32 (S : ℚ))) = y at hy
    have hr : (16777216 : Int) ≤ roundf y := by
      unfold roundf
      rw [if_pos (by linarith)]
      show (16777216 : Int) ≤ ⌊y + 1 / 2⌋
      apply Int.le_floor.mpr
      push_cast
      linarith
    have hmin : min S 255 = 255 := min_eq_right (by omega)
    rw [hmin]
    unfold Saturate
    split_ifs <;> omega

/-- C16, counterexample: with both scales 1 and both zero points 0, the
codes 200 and 100 have the integer sum 300, and the kernel stores the
saturated code 255. -/
theorem RunUint8_sum_saturates :
    (RunUint8 (mkOp ReduceType.SUM [] false 0 true) ⟨[2], [200, 100], 1, 0⟩
        ⟨[], [], 1, 0⟩).map (fun r => r.2.data) = Except.ok [255] ∧
      [200, 100].sum = (300 : Int) := by
  decide!

/-- C16 (as amended): for the `uint8_t` kernels with type SUM, when both scales
are 1 and both zero points are 0, on every plan of one to four groups, for
input codes in `[0, 255]` and cells whose code sum is below `2^31` (the range of
the accumulator `int32_t sum`), every output code equals the integer sum of the
input codes of its cell saturated to 255, that is `min(sum, 255)`; it is the
unscaled sum exactly when that sum is at most 255. -/
theorem ComputeUint8_sum_unit_scale (op : ReduceOp) (C : List (Nat × Bool))
    (input out : Tensor)
    (hD : op.data_reshape_ = C.map Prod.fst)
    (hst : ∀ k (hk : k < C.length),
      (C[k]).2 = xor op.reduce_first_axis_ (decide (k % 2 = 1)))
    (h1 : 1 ≤ C.length) (h4 : C.length ≤ 4)
    (hdata : input.data.length = prodZ C)
    (ht : op.reduce_type_ = ReduceType.SUM)
    (hout : out.data.length = keptProdZ C)
    (hcodes : ∀ x ∈ input.data, 0 ≤ x ∧ x ≤ 255)
    (hsum : ∀ o, o < keptProdZ C →
      ((cellZ C o).map (fun p => input.data.getD p 0)).sum < 2147483648)
    (hsi : input.scale = 1) (hso : out.scale = 1)
    (hzi : input.zero_point = 0) (hzo : out.zero_point = 0) :
    ∃ res, ComputeUint8 op input out = Except.ok res ∧ res.data.length = keptProdZ C ∧
      ∀ o, o < keptProdZ C →
        res.data.getD o 0
            = min ((cellZ C o).map (fun p => input.data.getD p 0)).sum 255 ∧
          (res.data.getD o 0 = ((cellZ C o).map (fun p => input.data.getD p 0)).sum ↔
            ((cellZ C o).map (fun p => input.data.getD p 0)).sum ≤ 255) := by
  have hcell : ∀ o, ∀ x ∈ (cellZ C o).map (fun p => input.data.getD p 0),
      (0 : Int) ≤ x ∧ x ≤ 255 := by
    intro o x hx
    obtain ⟨p, _, rfl⟩ := List.mem_map.mp hx
    exact getD_code_bounds input.data hcodes p
  have hS : ∀ o, 0 ≤ ((cellZ C o).map (fun p => input.data.getD p 0)).sum := by
    intro o
    have := (sum_bounds _ 0 255 (hcell o)).1
    linarith
  have hmain : ∀ o, o < keptProdZ C → ∀ v : Int,
      v = min ((cellZ C o).map (fun p => input.data.getD p 0)).sum 255 →
      v = min ((cellZ C o).map (fun p => input.data.getD p 0)).sum 255 ∧
        (v = ((cellZ C o).map (fun p => input.data.getD p 0)).sum ↔
          ((cellZ C o).map (fun p => input.data.getD p 0)).sum ≤ 255) := by
    intro o _ v hv
    refine ⟨hv, ?_⟩
    rw [hv]
    constructor
    · intro h; rw [← h]; exact min_le_right _ _
    · intro h; exact min_eq_left h
  by_cases hred : C.length = 1 ∧ op.reduce_first_axis_ = false
  · obtain ⟨hl, hf⟩ := hred
    rcases C with _ | ⟨⟨d0, s0⟩, _ | ⟨x1, rest⟩⟩
    · simp at h1
    · have e0 := hst 0 (by simp)
      simp only [List.getElem_cons_zero, Nat.zero_mod, zero_ne_one, decide_False,
        Bool.xor_false] at e0
      rw [hf] at e0
      subst e0
      have hK : keptProdZ [(d0, false)] = d0 := by simp [keptProdZ]
      have hP : prodZ [(d0, false)] = d0 := by simp [prodZ]
      rw [hK] at hout
      rw [hP] at hdata
      refine ⟨_, ComputeUint8_copy op d0 input out hD hf hdata hout,
        by rw [hK]; exact hdata, ?_⟩
      intro o ho
      apply hmain o ho
      have hb := getD_code_bounds input.data hcodes o
      simp only [cellZ_one_false, List.map_cons, List.map_nil, List.sum_cons, List.sum_nil,
        Int.add_zero]
      exact (min_eq_left hb.2).symm
    · simp at hl
  · refine ⟨_, ComputeUint8_eq_cells op C input out hD hst h1 h4 (Or.inr ht) hout hred,
      by simp, ?_⟩
    intro o ho
    apply hmain o ho
    dsimp only
    rw [map_getD_range _ _ o ho, ht]
    simp only [cellCode]
    exact requantizeSum_unit input out _ _ (hS o) (hsum o ho) hsi hso hzi hzo

theorem ComputeUint8_sum_unit_scale_witness :
    ∃ res, ComputeUint8 (Simplify (mkOp ReduceType.SUM [1] false 0 true) [2, 3, 2])
        ⟨[2, 3, 2], [1, 2, 2, 3, 4, 4, 100, 20, 100, 40, 100, 61], 1, 0⟩
        ⟨[2, 2], [0, 0, 0, 0], 1, 0⟩ = Except.ok res ∧
      res.data.length = 4 ∧
      res.data.getD 0 0 = min (1 + 2 + 4) 255 ∧ res.data.getD 2 0 = min (100 + 100 + 100) 255 := by
  obtain ⟨res, h, hl, hc⟩ := ComputeUint8_sum_unit_scale
    (Simplify (mkOp ReduceType.SUM [1] false 0 true) [2, 3, 2])
    [(2, false), (3, true), (2, false)]
    ⟨[2, 3, 2], [1, 2, 2, 3, 4, 4, 100, 20, 100, 40, 100, 61], 1, 0⟩
    ⟨[2, 2], [0, 0, 0, 0], 1, 0⟩
    (by decide) (by decide) (by decide) (by decide) (by decide) (by decide) (by decide)
    (by decide) (by decide) rfl rfl rfl rfl
  exact ⟨res, h, hl, (hc 0 (by decide)).1, (hc 2 (by decide)).1⟩


/-! ### PROD and the scale-free types of the `uint8_t` kernels -/

/-- C17, counterexample: a `uint8_t` reduction of type PROD over the unit
dimension of a `[2, 1]` tensor collapses to the rank-1 plan `[2]` without
`reduce_first_axis_`, and returns successfully with a copy of the input codes
instead of failing. -/
theorem RunUint8_prod_returns :
    (RunUint8 (mkOp ReduceType.PROD [1] false 0 true) ⟨[2, 1], [3, 4], 1, 0⟩
        ⟨[], [], 1, 0⟩).map
        (fun r => (r.1.data_reshape_, r.1.reduce_first_axis_, r.2.shape, r.2.data))
      = Except.ok ([2], false, [2], [3, 4]) := by
  decide

/-- C17 (as amended): for the `uint8_t` element type, a reduction of type PROD
on a plan of 1 to 4 groups fails with the not-implemented error, and returns no
output, for every plan except the rank-1 plan with `reduce_first_axis_` false;
on that plan (nothing is reduced) it returns the copy of the first
`data_reshape_[0]` input codes. -/
theorem ComputeUint8_prod (op : ReduceOp) (input out : Tensor)
    (ht : op.reduce_type_ = ReduceType.PROD)
    (h1 : 1 ≤ op.data_reshape_.length) (h4 : op.data_reshape_.length ≤ 4) :
    ((op.data_reshape_.length = 1 ∧ op.reduce_first_axis_ = false) →
      ComputeUint8 op input out = Except.ok
        { out with data := input.data.take (op.data_reshape_.getD 0 0)
            ++ (List.replicate out.data.length 0).drop (op.data_reshape_.getD 0 0) }) ∧
    (¬ (op.data_reshape_.length = 1 ∧ op.reduce_first_axis_ = false) →
      ComputeUint8 op input out = Except.error "not implemented") := by
  constructor
  · rintro ⟨hl, hf⟩
    unfold ComputeUint8 Reduce1DimsUint8
    rw [hl, hf]
    rfl
  · intro hn
    have hcases : op.data_reshape_.length = 1 ∨ op.data_reshape_.length = 2
        ∨ op.data_reshape_.length = 3 ∨ op.data_reshape_.length = 4 := by omega
    unfold ComputeUint8
    rcases hcases with hl | hl | hl | hl
    · have hf : op.reduce_first_axis_ = true := by
        cases h : op.reduce_first_axis_ with
        | true => rfl
        | false => exact absurd ⟨hl, h⟩ hn
      unfold Reduce1DimsUint8
      rw [hl, hf, ht]
      rfl
    · unfold Reduce2DimsUint8 Compute1D Reduce2DimsUint8FirstFn Reduce2DimsUint8SecondFn
      rw [hl, ht]
      cases op.reduce_first_axis_ <;> rfl
    · unfold Reduce3DimsUint8 Compute1D Compute2D Reduce3DimsUint8FirstFn
        Reduce3DimsUint8SecondFn
      rw [hl, ht]
      cases op.reduce_first_axis_ <;> rfl
    · unfold Reduce4DimsUint8 Compute2D Reduce4DimsUint8FirstFn Reduce4DimsUint8SecondFn
      rw [hl, ht]
      cases op.reduce_first_axis_ <;> rfl

theorem ComputeUint8_prod_witness :
    ComputeUint8 (Simplify (mkOp ReduceType.PROD [1] false 0 true) [2, 3])
        ⟨[2, 3], [1, 2, 3, 4, 5, 6], 1, 0⟩ ⟨[2], [0, 0], 1, 0⟩
      = Except.error "not implemented" :=
  (ComputeUint8_prod (Simplify (mkOp ReduceType.PROD [1] false 0 true) [2, 3])
    ⟨[2, 3], [1, 2, 3, 4, 5, 6], 1, 0⟩ ⟨[2], [0, 0], 1, 0⟩ (by decide) (by decide)
    (by decide)).2 (by decide)

theorem Reduce1DimsUint8_codes (op : ReduceOp) (in1 in2 out1 out2 : Tensor)
    (type : ReduceType) (buf : List Int)
    (ht : type = ReduceType.MIN ∨ type = ReduceType.MAX ∨ type = ReduceType.MEAN)
    (hd : in1.data = in2.data) :
    Reduce1DimsUint8 op in1 type out1 buf = Reduce1DimsUint8 op in2 type out2 buf := by
  unfold Reduce1DimsUint8
  rcases ht with h | h | h <;> subst h <;> simp only [hd]

theorem Reduce2DimsUint8_codes (op : ReduceOp) (in1 in2 out1 out2 : Tensor)
    (type : ReduceType) (buf : List Int)
    (ht : type = ReduceType.MIN ∨ type = ReduceType.MAX ∨ type = ReduceType.MEAN)
    (hd : in1.data = in2.data) :
    Reduce2DimsUint8 op in1 type out1 buf = Reduce2DimsUint8 op in2 type out2 buf := by
  unfold Reduce2DimsUint8 Reduce2DimsUint8FirstFn Reduce2DimsUint8SecondFn
  rcases ht with h | h | h <;> subst h <;> simp only [hd]

theorem Reduce3DimsUint8_codes (op : ReduceOp) (in1 in2 out1 out2 : Tensor)
    (type : ReduceType) (buf : List Int)
    (ht : type = ReduceType.MIN ∨ type = ReduceType.MAX ∨ type = ReduceType.MEAN)
    (hd : in1.data = in2.data) :
    Reduce3DimsUint8 op in1 type out1 buf = Reduce3DimsUint8 op in2 type out2 buf := by
  unfold Reduce3DimsUint8 Reduce3DimsUint8FirstFn Reduce3DimsUint8SecondFn
  rcases ht with h | h | h <;> subst h <;> simp only [hd]

theorem Reduce4DimsUint8_codes (op : ReduceOp) (in1 in2 out1 out2 : Tensor)
    (type : ReduceType) (buf : List Int)
    (ht : type = ReduceType.MIN ∨ type = ReduceType.MAX ∨ type = ReduceType.MEAN)
    (hd : in1.data = in2.data) :
    Reduce4DimsUint8 op in1 type out1 buf = Reduce4DimsUint8 op in2 type out2 buf := by
  unfold Reduce4DimsUint8 Reduce4DimsUint8FirstFn Reduce4DimsUint8SecondFn
  rcases ht with h | h | h <;> subst h <;> simp only [hd]

theorem map_data_map (r : Except String (List Int)) (out : Tensor) :
    (r.map (fun d => { out with data := d })).map Tensor.data = r := by
  cases r <;> rfl

/-- The codes `ComputeUint8` writes for MIN, MAX and MEAN are a function of the
plan, the input codes and the size of the output buffer. -/
theorem ComputeUint8_codes (op : ReduceOp) (in1 in2 out1 out2 : Tensor)
    (ht : op.reduce_type_ = ReduceType.MIN ∨ op.reduce_type_ = ReduceType.MAX
      ∨ op.reduce_type_ = ReduceType.MEAN)
    (hd : in1.data = in2.data) (hl : out1.data.length = out2.data.length) :
    (ComputeUint8 op in1 out1).map Tensor.data
      = (ComputeUint8 op in2 out2).map Tensor.data := by
  unfold ComputeUint8
  rw [hl]
  split
  · rw [map_data_map, map_data_map]; exact Reduce1DimsUint8_codes op in1 in2 out1 out2 _ _ ht hd
  · rw [map_data_map, map_data_map]; exact Reduce2DimsUint8_codes op in1 in2 out1 out2 _ _ ht hd
  · rw [map_data_map, map_data_map]; exact Reduce3DimsUint8_codes op in1 in2 out1 out2 _ _ ht hd
  · rw [map_data_map, map_data_map]; exact Reduce4DimsUint8_codes op in1 in2 out1 out2 _ _ ht hd
  · rfl

theorem map_ok_shape (r : Except String (List Int)) (out res : Tensor)
    (h : r.map (fun d => { out with data := d }) = Except.ok res) :
    res.shape = out.shape ∧ r = Except.ok res.data := by
  cases r with
  | error e => cases h
  | ok d => cases h; exact ⟨rfl, rfl⟩

theorem ComputeUint8_shape (op : ReduceOp) (input out res : Tensor)
    (h : ComputeUint8 op input out = Except.ok res) : res.shape = out.shape := by
  unfold ComputeUint8 at h
  split at h
  · exact (map_ok_shape _ _ _ h).1
  · exact (map_ok_shape _ _ _ h).1
  · exact (map_ok_shape _ _ _ h).1
  · exact (map_ok_shape _ _ _ h).1
  · cases h

/-- C18: for the `uint8_t` kernels with type MIN, MAX or MEAN the output
codes depend only on the input codes and the plan: two computations on the same
plan, or two runs of the same operator on inputs of the same shape, with the
same input codes but arbitrary input and output scales and zero points (and
arbitrary previous output contents) succeed or fail alike and produce the same
plan, output shape and output codes. -/
theorem RunUint8_codes_independent (op : ReduceOp) (in1 in2 out1 out2 : Tensor)
    (ht : op.reduce_type_ = ReduceType.MIN ∨ op.reduce_type_ = ReduceType.MAX
      ∨ op.reduce_type_ = ReduceType.MEAN)
    (hd : in1.data = in2.data) :
    (out1.data.length = out2.data.length →
      (ComputeUint8 op in1 out1).map Tensor.data
        = (ComputeUint8 op in2 out2).map Tensor.data) ∧
    (in1.shape = in2.shape →
      (RunUint8 op in1 out1).map (fun r => (r.1, r.2.shape, r.2.data))
        = (RunUint8 op in2 out2).map (fun r => (r.1, r.2.shape, r.2.data))) := by
  refine ⟨ComputeUint8_codes op in1 in2 out1 out2 ht hd, ?_⟩
  intro hs
  unfold RunUint8
  rw [hs]
  cases Validate op in2.shape.length with
  | error e => rfl
  | ok u =>
    dsimp only
    have ht2 : (Simplify op in2.shape).reduce_type_ = ReduceType.MIN
        ∨ (Simplify op in2.shape).reduce_type_ = ReduceType.MAX
        ∨ (Simplify op in2.shape).reduce_type_ = ReduceType.MEAN := by
      rw [Simplify_reduce_type]; exact ht
    have hne : (Simplify op in2.shape).reduce_type_ ≠ ReduceType.SUM := by
      rcases ht2 with h | h | h <;> rw [h] <;> decide
    rw [if_pos hne, if_pos hne]
    have key := ComputeUint8_codes (Simplify op in2.shape) in1 in2
      (Tensor.Resize { out1 with scale := in1.scale, zero_point := in1.zero_point }
        (Simplify op in2.shape).out_shape_)
      (Tensor.Resize { out2 with scale := in2.scale, zero_point := in2.zero_point }
        (Simplify op in2.shape).out_shape_) ht2 hd
      (by rw [Resize_data_length, Resize_data_length])
    cases h1 : ComputeUint8 (Simplify op in2.shape) in1
      (Tensor.Resize { out1 with scale := in1.scale, zero_point := in1.zero_point }
        (Simplify op in2.shape).out_shape_) with
    | error e1 =>
      cases h2 : ComputeUint8 (Simplify op in2.shape) in2
        (Tensor.Resize { out2 with scale := in2.scale, zero_point := in2.zero_point }
          (Simplify op in2.shape).out_shape_) with
      | error e2 =>
        rw [h1, h2] at key
        have : e1 = e2 := by cases key; rfl
        rw [this]
      | ok r2 => rw [h1, h2] at key; cases key
    | ok r1 =>
      cases h2 : ComputeUint8 (Simplify op in2.shape) in2
        (Tensor.Resize { out2 with scale := in2.scale, zero_point := in2.zero_point }
          (Simplify op in2.shape).out_shape_) with
      | error e2 => rw [h1, h2] at key; cases key
      | ok r2 =>
        rw [h1, h2] at key
        have hdata : r1.data = r2.data := by
          simp only [Except.map, Except.ok.injEq] at key
          exact key
        have hs1 := ComputeUint8_shape _ _ _ _ h1
        have hs2 := ComputeUint8_shape _ _ _ _ h2
        simp only [Except.map, hdata, hs1, hs2, Tensor.Resize]

theorem RunUint8_codes_independent_witness :
    (RunUint8 (mkOp ReduceType.MEAN [1] false 0 true) ⟨[2, 3], [1, 2, 4, 10, 20, 31], 1, 0⟩
        ⟨[], [], 1, 0⟩).map (fun r => (r.1, r.2.shape, r.2.data))
      = (RunUint8 (mkOp ReduceType.MEAN [1] false 0 true)
          ⟨[2, 3], [1, 2, 4, 10, 20, 31], 1 / 2, 7⟩
          ⟨[5], [9, 9, 9, 9, 9], 3, 100⟩).map (fun r => (r.1, r.2.shape, r.2.data)) :=
  (RunUint8_codes_independent (mkOp ReduceType.MEAN [1] false 0 true)
    ⟨[2, 3], [1, 2, 4, 10, 20, 31], 1, 0⟩ ⟨[2, 3], [1, 2, 4, 10, 20, 31], 1 / 2, 7⟩
    ⟨[], [], 1, 0⟩ ⟨[5], [9, 9, 9, 9, 9], 3, 100⟩
    (Or.inr (Or.inr rfl)) rfl).2 rfl


/-! ### Partitioned execution of the kernel callbacks -/

theorem isCellUpdate_set (idx : Nat) (v : Int) :
    IsCellUpdate idx (fun out => out.set idx v) :=
  ⟨fun _ => v, fun _ => rfl⟩

theorem isCellUpdate_addAt (idx : Nat) (v : Int) :
    IsCellUpdate idx (fun out => addAt out idx v) :=
  ⟨fun x => x + v, fun _ => rfl⟩

theorem isCellUpdate_divAt_addAt (idx : Nat) (v : Int) (c : Nat) :
    IsCellUpdate idx (fun out => divAt (addAt out idx v) idx c) :=
  ⟨fun x => (x + v).tdiv (c : Int), fun out => divAt_addAt out idx v c⟩

theorem getD_set_ne (out : List Int) (i j : Nat) (v : Int) (h : i ≠ j) :
    (out.set i v).getD j 0 = out.getD j 0 := by
  simp only [List.getD_eq_getElem?_getD]
  rw [List.getElem?_set_ne h]

theorem cellUpdate_comm (i j : Nat) (c1 c2 : List Int → List Int)
    (h1 : IsCellUpdate i c1) (h2 : IsCellUpdate j c2) (hij : i ≠ j) (out : List Int) :
    c1 (c2 out) = c2 (c1 out) := by
  obtain ⟨f1, hf1⟩ := h1
  obtain ⟨f2, hf2⟩ := h2
  rw [hf1, hf2, hf2, hf1, getD_set_ne _ _ _ _ hij.symm, getD_set_ne _ _ _ _ hij]
  exact List.set_comm _ _ _ (Ne.symm hij)

/-- A sequence of cell updates at pairwise distinct positions has the same
effect in every order. -/
theorem foldl_cells_perm {α : Type} (idx : α → Nat) (c : α → List Int → List Int)
    (hc : ∀ a, IsCellUpdate (idx a) (c a)) (L1 L2 : List α) (hperm : L1.Perm L2)
    (hinj : ∀ a ∈ L1, ∀ b ∈ L1, idx a = idx b → a = b) (out : List Int) :
    L1.foldl (fun out a => c a out) out = L2.foldl (fun out a => c a out) out := by
  apply List.Perm.foldl_eq' hperm
  intro x hx y hy z
  by_cases hxy : idx x = idx y
  · rw [hinj x hx y hy hxy]
  · exact cellUpdate_comm (idx y) (idx x) (c y) (c x) (hc y) (hc x) (Ne.symm hxy) z

theorem forStep_unit {σ : Type} (s e : Nat) (body : Nat → σ → σ) (st : σ) :
    forStep s e 1 body st = (List.range' s (e - s)).foldl (fun st i => body i st) st := by
  simp [forStep]

theorem runRanges_ok (fn : Nat → Nat → Nat → List Int → Except String (List Int))
    (g : Nat → Nat → List Int → List Int)
    (h : ∀ s e out, fn s e 1 out = Except.ok (g s e out)) (ranges : List (Nat × Nat)) :
    ∀ out, runRanges fn ranges out
      = Except.ok (ranges.foldl (fun out r => g r.1 r.2 out) out) := by
  induction ranges with
  | nil => intro out; rfl
  | cons r rest ih =>
    intro out
    rw [runRanges, h]
    simp only [List.foldl_cons]
    exact ih _

theorem runTiles_ok
    (fn : Nat → Nat → Nat → Nat → Nat → Nat → List Int → Except String (List Int))
    (g : Nat → Nat → Nat → Nat → List Int → List Int)
    (h : ∀ s0 e0 s1 e1 out, fn s0 e0 1 s1 e1 1 out = Except.ok (g s0 e0 s1 e1 out))
    (tiles : List ((Nat × Nat) × (Nat × Nat))) :
    ∀ out, runTiles fn tiles out
      = Except.ok (tiles.foldl (fun out t => g t.1.1 t.1.2 t.2.1 t.2.2 out) out) := by
  induction tiles with
  | nil => intro out; rfl
  | cons t rest ih =>
    intro out
    rw [runTiles, h]
    simp only [List.foldl_cons]
    exact ih _

theorem count_range' (s n i : Nat) :
    (List.range' s n).count i = if s ≤ i ∧ i < s + n then 1 else 0 := by
  rw [List.count_eq_of_nodup (List.nodup_range' s n)]
  simp only [List.mem_range'_1]

theorem count_ranges (ranges : List (Nat × Nat)) (i : Nat) :
    (ranges.flatMap (fun r => List.range' r.1 (r.2 - r.1))).count i
      = (ranges.filter (fun r => decide (r.1 ≤ i ∧ i < r.2))).length := by
  induction ranges with
  | nil => rfl
  | cons r rest ih =>
    rw [List.flatMap_cons, List.count_append, ih, count_range', List.filter_cons]
    by_cases h : r.1 ≤ i ∧ i < r.2
    · have h2 : r.1 ≤ i ∧ i < r.1 + (r.2 - r.1) := ⟨h.1, by omega⟩
      rw [if_pos h2, if_pos (by simpa using h), List.length_cons, Nat.add_comm]
    · have h2 : ¬ (r.1 ≤ i ∧ i < r.1 + (r.2 - r.1)) := by
        intro h3; exact h ⟨h3.1, by omega⟩
      rw [if_neg h2, if_neg (by simpa using h), Nat.zero_add]

theorem partition_perm (extent : Nat) (ranges : List (Nat × Nat))
    (hp : IsPartition1D extent ranges) :
    (ranges.flatMap (fun r => List.range' r.1 (r.2 - r.1))).Perm (List.range' 0 (extent - 0)) := by
  rw [List.perm_iff_count]
  intro i
  rw [count_ranges, count_range']
  by_cases hi : i < extent
  · rw [hp.2 i hi, if_pos ⟨Nat.zero_le _, by omega⟩]
  · rw [if_neg (by omega)]
    rw [List.length_eq_zero, List.filter_eq_nil_iff]
    intro r hr
    have := hp.1 r hr
    simp only [decide_eq_true_eq, not_and, not_lt]
    intro _
    omega

/-- A 1-D callback that updates the cell of each index of its range: the
executions over the members of a partition of `[0, extent)` have the effect of
one execution over `[0, extent)`. -/
theorem runRanges_cells (body : Nat → List Int → List Int)
    (hcell : ∀ i, IsCellUpdate i (body i)) (extent : Nat) (ranges : List (Nat × Nat))
    (out : List Int) (hp : IsPartition1D extent ranges) :
    runRanges (fun s e step out => Except.ok (forStep s e step body out)) ranges out
      = Except.ok (forStep 0 extent 1 body out) := by
  rw [runRanges_ok _ (fun s e out => (List.range' s (e - s)).foldl (fun st i => body i st) out)
    (fun s e out => by rw [forStep_unit])]
  rw [forStep_unit, ← foldl_flatMap_eq (fun st i => body i st)
    (fun r : Nat × Nat => List.range' r.1 (r.2 - r.1)) ranges out]
  congr 1
  exact foldl_cells_perm (fun i => i) body hcell _ _ (partition_perm extent ranges hp)
    (fun a _ b _ h => h) out

theorem foldl_product {σ : Type} (l1 l2 : List Nat) (f : σ → Nat × Nat → σ) (s : σ) :
    (l1 ×ˢ l2).foldl f s
      = l1.foldl (fun acc i => l2.foldl (fun acc j => f acc (i, j)) acc) s := by
  show (l1.flatMap fun a => l2.map (Prod.mk a)).foldl f s = _
  rw [foldl_flatMap_eq]
  congr 1
  funext acc i
  rw [List.foldl_map]

theorem count_product (l1 l2 : List Nat) (h1 : l1.Nodup) (h2 : l2.Nodup) (p : Nat × Nat) :
    @List.count (Nat × Nat) instBEqOfDecidableEq p (l1 ×ˢ l2)
      = if p.1 ∈ l1 ∧ p.2 ∈ l2 then 1 else 0 := by
  rw [List.count_eq_of_nodup (List.Nodup.product h1 h2)]
  rcases p with ⟨i, j⟩
  simp only [List.mem_product]

theorem count_tiles (tiles : List ((Nat × Nat) × (Nat × Nat))) (p : Nat × Nat) :
    @List.count (Nat × Nat) instBEqOfDecidableEq p
        (tiles.flatMap (fun t => (List.range' t.1.1 (t.1.2 - t.1.1)) ×ˢ
          (List.range' t.2.1 (t.2.2 - t.2.1))))
      = (tiles.filter (fun t =>
          decide ((t.1.1 ≤ p.1 ∧ p.1 < t.1.2) ∧ (t.2.1 ≤ p.2 ∧ p.2 < t.2.2)))).length := by
  induction tiles with
  | nil => rfl
  | cons t rest ih =>
    rw [List.flatMap_cons, @List.count_append (Nat × Nat) instBEqOfDecidableEq p _ _, ih,
      count_product _ _ (List.nodup_range' _ _) (List.nodup_range' _ _), List.filter_cons]
    simp only [List.mem_range'_1]
    by_cases h : (t.1.1 ≤ p.1 ∧ p.1 < t.1.2) ∧ (t.2.1 ≤ p.2 ∧ p.2 < t.2.2)
    · have h2 : (t.1.1 ≤ p.1 ∧ p.1 < t.1.1 + (t.1.2 - t.1.1))
          ∧ (t.2.1 ≤ p.2 ∧ p.2 < t.2.1 + (t.2.2 - t.2.1)) :=
        ⟨⟨h.1.1, by omega⟩, ⟨h.2.1, by omega⟩⟩
      rw [if_pos h2, if_pos (by simpa using h), List.length_cons, Nat.add_comm]
    · have h2 : ¬ ((t.1.1 ≤ p.1 ∧ p.1 < t.1.1 + (t.1.2 - t.1.1))
          ∧ (t.2.1 ≤ p.2 ∧ p.2 < t.2.1 + (t.2.2 - t.2.1))) := by
        intro h3; exact h ⟨⟨h3.1.1, by omega⟩, ⟨h3.2.1, by omega⟩⟩
      rw [if_neg h2, if_neg (by simpa using h), Nat.zero_add]

theorem tiles_perm (extent0 extent1 : Nat) (tiles : List ((Nat × Nat) × (Nat × Nat)))
    (hp : IsPartition2D extent0 extent1 tiles) :
    (tiles.flatMap (fun t => (List.range' t.1.1 (t.1.2 - t.1.1)) ×ˢ
        (List.range' t.2.1 (t.2.2 - t.2.1)))).Perm
      ((List.range' 0 (extent0 - 0)) ×ˢ (List.range' 0 (extent1 - 0))) := by
  rw [List.perm_iff_count]
  intro p
  rw [count_tiles, count_product _ _ (List.nodup_range' _ _) (List.nodup_range' _ _)]
  simp only [List.mem_range'_1]
  by_cases hi : p.1 < extent0 ∧ p.2 < extent1
  · rw [hp.2 p.1 hi.1 p.2 hi.2, if_pos ⟨⟨Nat.zero_le _, by omega⟩, ⟨Nat.zero_le _, by omega⟩⟩]
  · rw [if_neg (by omega)]
    rw [List.length_eq_zero, List.filter_eq_nil_iff]
    intro t ht
    have := hp.1 t ht
    simp only [decide_eq_true_eq]
    omega

/-- A 2-D callback that updates the cell `i * B + j` of each index pair of its
tile: the executions over the members of a partition of
`[0, extent0) x [0, B)` have the effect of one execution over the whole
rectangle. -/
theorem runTiles_cells (B : Nat) (cell : Nat → Nat → List Int → List Int)
    (hcell : ∀ i j, IsCellUpdate (i * B + j) (cell i j)) (extent0 : Nat)
    (tiles : List ((Nat × Nat) × (Nat × Nat))) (out : List Int)
    (hp : IsPartition2D extent0 B tiles) :
    runTiles (fun s0 e0 st0 s1 e1 st1 out =>
        Except.ok (forStep s0 e0 st0 (fun i out =>
          forStep s1 e1 st1 (fun j out => cell i j out) out) out)) tiles out
      = Except.ok (forStep 0 extent0 1 (fun i out =>
          forStep 0 B 1 (fun j out => cell i j out) out) out) := by
  have hloops : ∀ s0 e0 s1 e1 out,
      forStep s0 e0 1 (fun i out => forStep s1 e1 1 (fun j out => cell i j out) out) out
        = ((List.range' s0 (e0 - s0)) ×ˢ (List.range' s1 (e1 - s1))).foldl
            (fun out p => cell p.1 p.2 out) out := by
    intro s0 e0 s1 e1 out
    rw [forStep_unit, foldl_product]
    congr 1
    funext acc i
    rw [forStep_unit]
  rw [runTiles_ok _ (fun s0 e0 s1 e1 out =>
      ((List.range' s0 (e0 - s0)) ×ˢ (List.range' s1 (e1 - s1))).foldl
        (fun out p => cell p.1 p.2 out) out)
    (fun s0 e0 s1 e1 out => by rw [hloops])]
  rw [hloops, ← foldl_flatMap_eq (fun out (p : Nat × Nat) => cell p.1 p.2 out)
    (fun t : (Nat × Nat) × (Nat × Nat) =>
      (List.range' t.1.1 (t.1.2 - t.1.1)) ×ˢ (List.range' t.2.1 (t.2.2 - t.2.1)))
    tiles out]
  congr 1
  have hmem : ∀ p ∈ tiles.flatMap (fun t =>
      (List.range' t.1.1 (t.1.2 - t.1.1)) ×ˢ (List.range' t.2.1 (t.2.2 - t.2.1))),
      p.2 < B := by
    intro p hpm
    obtain ⟨t, ht, hpt⟩ := List.mem_flatMap.mp hpm
    rcases p with ⟨i, j⟩
    rw [List.mem_product, List.mem_range'_1, List.mem_range'_1] at hpt
    have := (hp.1 t ht).2
    show j < B
    omega
  apply foldl_cells_perm (fun p : Nat × Nat => p.1 * B + p.2) (fun p => cell p.1 p.2)
    (fun p => hcell p.1 p.2) _ _ (tiles_perm extent0 B tiles hp)
  intro a ha b hb hab
  have h1 := hmem a ha
  have h2 := hmem b hb
  rcases a with ⟨i, j⟩
  rcases b with ⟨i2, j2⟩
  simp only at hab h1 h2
  have hB : 0 < B := by omega
  have e1 : (i * B + j) / B = i := by
    rw [Nat.add_comm, Nat.add_mul_div_right _ _ hB, Nat.div_eq_of_lt h1, Nat.zero_add]
  have e2 : (i2 * B + j2) / B = i2 := by
    rw [Nat.add_comm, Nat.add_mul_div_right _ _ hB, Nat.div_eq_of_lt h2, Nat.zero_add]
  have e3 : (i * B + j) % B = j := by
    rw [Nat.add_comm, Nat.add_mul_mod_self_right, Nat.mod_eq_of_lt h1]
  have e4 : (i2 * B + j2) % B = j2 := by
    rw [Nat.add_comm, Nat.add_mul_mod_self_right, Nat.mod_eq_of_lt h2]
  rw [hab] at e1 e3
  rw [← e1, ← e3, e2, e4]


theorem runRanges_as_tiles
    (fn2 : Nat → Nat → Nat → Nat → Nat → Nat → List Int → Except String (List Int))
    (B : Nat) (ranges : List (Nat × Nat)) :
    ∀ out, runRanges (fun s e step out => fn2 s e step 0 B 1 out) ranges out
      = runTiles fn2 (ranges.map (fun r => (r, (0, B)))) out := by
  induction ranges with
  | nil => intro out; rfl
  | cons r rest ih =>
    intro out
    rw [runRanges, List.map_cons, runTiles]
    dsimp only
    cases fn2 r.1 r.2 1 0 B 1 out with
    | error e => rfl
    | ok o => exact ih o

theorem partition_rows (extent B : Nat) (ranges : List (Nat × Nat))
    (hp : IsPartition1D extent ranges) :
    IsPartition2D extent B (ranges.map (fun r => (r, (0, B)))) := by
  constructor
  · intro t ht
    obtain ⟨r, hr, rfl⟩ := List.mem_map.mp ht
    exact ⟨hp.1 r hr, le_refl _⟩
  · intro i hi j hj
    rw [List.filter_map, List.length_map, ← hp.2 i hi]
    congr 1
    apply List.filter_congr
    intro r _
    simp only [Function.comp, Nat.zero_le, true_and, hj, and_true]

/-- A 1-D callback that updates, for each index `i` of its range, the cells
`i * B + j` of the whole row `j < B`: the executions over the members of a
partition of `[0, extent)` have the effect of one execution over
`[0, extent)`. -/
theorem runRanges_rows (B : Nat) (cell : Nat → Nat → List Int → List Int)
    (hcell : ∀ i j, IsCellUpdate (i * B + j) (cell i j)) (extent : Nat)
    (ranges : List (Nat × Nat)) (out : List Int) (hp : IsPartition1D extent ranges) :
    runRanges (fun s e step out =>
        Except.ok (forStep s e step (fun i out =>
          forRange 0 B (fun j out => cell i j out) out) out)) ranges out
      = Except.ok (forStep 0 extent 1 (fun i out =>
          forRange 0 B (fun j out => cell i j out) out) out) := by
  have h := runRanges_as_tiles (fun s0 e0 st0 s1 e1 st1 out =>
      Except.ok (forStep s0 e0 st0 (fun i out =>
        forStep s1 e1 st1 (fun j out => cell i j out) out) out)) B ranges out
  simp only [forStep_one] at h
  rw [h, runTiles_cells B cell hcell extent _ out (partition_rows extent B ranges hp)]
  simp only [forStep_one]

theorem Reduce2DimsFirstFn_partition (op : ReduceOp) (input : List Int) (type : ReduceType)
    (ht : type ≠ ReduceType.OTHER) (ranges : List (Nat × Nat)) (output : List Int)
    (hp : IsPartition1D (op.data_reshape_.getD 1 0) ranges) :
    runRanges (Reduce2DimsFirstFn op input type) ranges output
      = Reduce2DimsFirstFn op input type 0 (op.data_reshape_.getD 1 0) 1 output := by
  unfold Reduce2DimsFirstFn
  cases type with
  | OTHER => exact absurd rfl ht
  | MEAN => exact runRanges_cells _ (fun i => isCellUpdate_set _ _) _ _ _ hp
  | SUM => exact runRanges_cells _ (fun i => isCellUpdate_set _ _) _ _ _ hp
  | MIN => exact runRanges_cells _ (fun i => isCellUpdate_set _ _) _ _ _ hp
  | MAX => exact runRanges_cells _ (fun i => isCellUpdate_set _ _) _ _ _ hp
  | PROD => exact runRanges_cells _ (fun i => isCellUpdate_set _ _) _ _ _ hp

theorem Reduce2DimsSecondFn_partition (op : ReduceOp) (input : List Int) (type : ReduceType)
    (ht : type ≠ ReduceType.OTHER) (ranges : List (Nat × Nat)) (output : List Int)
    (hp : IsPartition1D (op.data_reshape_.getD 0 0) ranges) :
    runRanges (Reduce2DimsSecondFn op input type) ranges output
      = Reduce2DimsSecondFn op input type 0 (op.data_reshape_.getD 0 0) 1 output := by
  unfold Reduce2DimsSecondFn
  cases type with
  | OTHER => exact absurd rfl ht
  | MEAN => exact runRanges_cells _ (fun i => isCellUpdate_set _ _) _ _ _ hp
  | SUM => exact runRanges_cells _ (fun i => isCellUpdate_set _ _) _ _ _ hp
  | MIN => exact runRanges_cells _ (fun i => isCellUpdate_set _ _) _ _ _ hp
  | MAX => exact runRanges_cells _ (fun i => isCellUpdate_set _ _) _ _ _ hp
  | PROD => exact runRanges_cells _ (fun i => isCellUpdate_set _ _) _ _ _ hp

theorem Reduce3DimsFirstFn_partition (op : ReduceOp) (input : List Int) (type : ReduceType)
    (ht : type ≠ ReduceType.OTHER) (ranges : List (Nat × Nat)) (output : List Int)
    (hp : IsPartition1D (op.data_reshape_.getD 1 0) ranges) :
    runRanges (Reduce3DimsFirstFn op input type) ranges output
      = Reduce3DimsFirstFn op input type 0 (op.data_reshape_.getD 1 0) 1 output := by
  unfold Reduce3DimsFirstFn
  cases type with
  | OTHER => exact absurd rfl ht
  | MEAN =>
    refine runRanges_cells _ (fun i => ?_) _ _ _ hp
    simp only [loop_addAt_nested input]
    exact isCellUpdate_divAt_addAt _ _ _
  | SUM =>
    refine runRanges_cells _ (fun i => ?_) _ _ _ hp
    simp only [loop_addAt_nested input]
    exact isCellUpdate_addAt _ _
  | MIN => exact runRanges_cells _ (fun i => isCellUpdate_set _ _) _ _ _ hp
  | MAX => exact runRanges_cells _ (fun i => isCellUpdate_set _ _) _ _ _ hp
  | PROD => exact runRanges_cells _ (fun i => isCellUpdate_set _ _) _ _ _ hp

theorem Reduce3DimsSecondFn_partition (op : ReduceOp) (input : List Int) (type : ReduceType)
    (ht : type ≠ ReduceType.OTHER) (ranges : List (Nat × Nat)) (output : List Int)
    (hp : IsPartition1D (op.data_reshape_.getD 0 0) ranges) :
    runRanges (Reduce3DimsSecondFn op input type) ranges output
      = Reduce3DimsSecondFn op input type 0 (op.data_reshape_.getD 0 0) 1 output := by
  unfold Reduce3DimsSecondFn
  cases type with
  | OTHER => exact absurd rfl ht
  | MEAN =>
    refine runRanges_rows (op.data_reshape_.getD 2 0) _ (fun i j => ?_) _ _ _ hp
    simp only [loop_addAt input]
    exact isCellUpdate_divAt_addAt _ _ _
  | SUM =>
    refine runRanges_rows (op.data_reshape_.getD 2 0) _ (fun i j => ?_) _ _ _ hp
    show IsCellUpdate _ (fun out => forRange _ _ _ out)
    simp only [loop_addAt input]
    exact isCellUpdate_addAt _ _
  | MIN =>
    exact runRanges_rows (op.data_reshape_.getD 2 0) _ (fun i j => isCellUpdate_set _ _)
      _ _ _ hp
  | MAX =>
    exact runRanges_rows (op.data_reshape_.getD 2 0) _ (fun i j => isCellUpdate_set _ _)
      _ _ _ hp
  | PROD =>
    exact runRanges_rows (op.data_reshape_.getD 2 0) _ (fun i j => isCellUpdate_set _ _)
      _ _ _ hp

theorem Reduce4DimsFirstFn_partition (op : ReduceOp) (input : List Int) (type : ReduceType)
    (ht : type ≠ ReduceType.OTHER) (tiles : List ((Nat × Nat) × (Nat × Nat)))
    (output : List Int)
    (hp : IsPartition2D (op.data_reshape_.getD 1 0) (op.data_reshape_.getD 3 0) tiles) :
    runTiles (Reduce4DimsFirstFn op input type) tiles output
      = Reduce4DimsFirstFn op input type 0 (op.data_reshape_.getD 1 0) 1
          0 (op.data_reshape_.getD 3 0) 1 output := by
  unfold Reduce4DimsFirstFn
  cases type with
  | OTHER => exact absurd rfl ht
  | MEAN =>
    refine runTiles_cells (op.data_reshape_.getD 3 0) _ (fun i j => ?_) _ _ _ hp
    simp only [loop_addAt_nested input]
    exact isCellUpdate_divAt_addAt _ _ _
  | SUM =>
    refine runTiles_cells (op.data_reshape_.getD 3 0) _ (fun i j => ?_) _ _ _ hp
    show IsCellUpdate _ (fun out => forRange _ _ _ out)
    simp only [loop_addAt_nested input]
    exact isCellUpdate_addAt _ _
  | MIN =>
    exact runTiles_cells (op.data_reshape_.getD 3 0) _ (fun i j => isCellUpdate_set _ _)
      _ _ _ hp
  | MAX =>
    exact runTiles_cells (op.data_reshape_.getD 3 0) _ (fun i j => isCellUpdate_set _ _)
      _ _ _ hp
  | PROD =>
    exact runTiles_cells (op.data_reshape_.getD 3 0) _ (fun i j => isCellUpdate_set _ _)
      _ _ _ hp

theorem Reduce4DimsSecondFn_partition (op : ReduceOp) (input : List Int) (type : ReduceType)
    (ht : type ≠ ReduceType.OTHER) (tiles : List ((Nat × Nat) × (Nat × Nat)))
    (output : List Int)
    (hp : IsPartition2D (op.data_reshape_.getD 0 0) (op.data_reshape_.getD 2 0) tiles) :
    runTiles (Reduce4DimsSecondFn op input type) tiles output
      = Reduce4DimsSecondFn op input type 0 (op.data_reshape_.getD 0 0) 1
          0 (op.data_reshape_.getD 2 0) 1 output := by
  unfold Reduce4DimsSecondFn
  cases type with
  | OTHER => exact absurd rfl ht
  | MEAN =>
    refine runTiles_cells (op.data_reshape_.getD 2 0) _ (fun i j => ?_) _ _ _ hp
    simp only [loop_addAt_nested input]
    exact isCellUpdate_divAt_addAt _ _ _
  | SUM =>
    refine runTiles_cells (op.data_reshape_.getD 2 0) _ (fun i j => ?_) _ _ _ hp
    show IsCellUpdate _ (fun out => forRange _ _ _ out)
    simp only [loop_addAt_nested input]
    exact isCellUpdate_addAt _ _
  | MIN =>
    exact runTiles_cells (op.data_reshape_.getD 2 0) _ (fun i j => isCellUpdate_set _ _)
      _ _ _ hp
  | MAX =>
    exact runTiles_cells (op.data_reshape_.getD 2 0) _ (fun i j => isCellUpdate_set _ _)
      _ _ _ hp
  | PROD =>
    exact runTiles_cells (op.data_reshape_.getD 2 0) _ (fun i j => isCellUpdate_set _ _)
      _ _ _ hp

/-- C19: for each of the rank-2, rank-3 and rank-4 CPU reduction kernels,
both values of `reduce_first_axis_` and each of the five reduce types:
executing the kernel's partition callback once per member of any list of
ranges (1-D) or rectangular tiles (2-D) that partitions the outer index space,
the members taken in the order of the list, yields exactly the output buffer
that one execution of the callback over the whole outer index space yields.
This holds from every initial output buffer, the zeroed one included, and for
every order, since every reordering of a partition is a partition. The outer
index spaces are those the kernels pass to the thread pool: `[0, d1)` and
`[0, d0)` for rank 2 and rank 3, `[0, d1) x [0, d3)` and `[0, d0) x [0, d2)`
for rank 4, with `d` the entries of `data_reshape_`. -/
theorem partitioned_eq_whole (op : ReduceOp) (input : List Int) (type : ReduceType)
    (ht : type ≠ ReduceType.OTHER) (output : List Int) :
    (∀ ranges, IsPartition1D (op.data_reshape_.getD 1 0) ranges →
      runRanges (Reduce2DimsFirstFn op input type) ranges output
        = Reduce2DimsFirstFn op input type 0 (op.data_reshape_.getD 1 0) 1 output) ∧
    (∀ ranges, IsPartition1D (op.data_reshape_.getD 0 0) ranges →
      runRanges (Reduce2DimsSecondFn op input type) ranges output
        = Reduce2DimsSecondFn op input type 0 (op.data_reshape_.getD 0 0) 1 output) ∧
    (∀ ranges, IsPartition1D (op.data_reshape_.getD 1 0) ranges →
      runRanges (Reduce3DimsFirstFn op input type) ranges output
        = Reduce3DimsFirstFn op input type 0 (op.data_reshape_.getD 1 0) 1 output) ∧
    (∀ ranges, IsPartition1D (op.data_reshape_.getD 0 0) ranges →
      runRanges (Reduce3DimsSecondFn op input type) ranges output
        = Reduce3DimsSecondFn op input type 0 (op.data_reshape_.getD 0 0) 1 output) ∧
    (∀ tiles,
      IsPartition2D (op.data_reshape_.getD 1 0) (op.data_reshape_.getD 3 0) tiles →
      runTiles (Reduce4DimsFirstFn op input type) tiles output
        = Reduce4DimsFirstFn op input type 0 (op.data_reshape_.getD 1 0) 1
            0 (op.data_reshape_.getD 3 0) 1 output) ∧
    (∀ tiles,
      IsPartition2D (op.data_reshape_.getD 0 0) (op.data_reshape_.getD 2 0) tiles →
      runTiles (Reduce4DimsSecondFn op input type) tiles output
        = Reduce4DimsSecondFn op input type 0 (op.data_reshape_.getD 0 0) 1
            0 (op.data_reshape_.getD 2 0) 1 output) :=
  ⟨fun ranges hp => Reduce2DimsFirstFn_partition op input type ht ranges output hp,
   fun ranges hp => Reduce2DimsSecondFn_partition op input type ht ranges output hp,
   fun ranges hp => Reduce3DimsFirstFn_partition op input type ht ranges output hp,
   fun ranges hp => Reduce3DimsSecondFn_partition op input type ht ranges output hp,
   fun tiles hp => Reduce4DimsFirstFn_partition op input type ht tiles output hp,
   fun tiles hp => Reduce4DimsSecondFn_partition op input type ht tiles output hp⟩

theorem partitioned_eq_whole_witness :
    runTiles (Reduce4DimsFirstFn (Simplify (mkOp ReduceType.MEAN [0, 2] false 0 false)
          [2, 2, 2, 3])
        [1, 2, 3, 4, 5, 6, 7, 8, 9, 10, 11, 12, 13, 14, 15, 16, 17, 18, 19, 20, 21, 22, 23, 24]
        ReduceType.MEAN)
        [((1, 2), (1, 3)), ((0, 1), (0, 2)), ((0, 1), (2, 3)), ((1, 2), (0, 1))]
        [0, 0, 0, 0, 0, 0]
      = Reduce4DimsFirstFn (Simplify (mkOp ReduceType.MEAN [0, 2] false 0 false) [2, 2, 2, 3])
        [1, 2, 3, 4, 5, 6, 7, 8, 9, 10, 11, 12, 13, 14, 15, 16, 17, 18, 19, 20, 21, 22, 23, 24]
        ReduceType.MEAN 0 2 1 0 3 1 [0, 0, 0, 0, 0, 0] :=
  (partitioned_eq_whole (Simplify (mkOp ReduceType.MEAN [0, 2] false 0 false) [2, 2, 2, 3])
    [1, 2, 3, 4, 5, 6, 7, 8, 9, 10, 11, 12, 13, 14, 15, 16, 17, 18, 19, 20, 21, 22, 23, 24]
    ReduceType.MEAN (by decide) [0, 0, 0, 0, 0, 0]).2.2.2.2.1
    [((1, 2), (1, 3)), ((0, 1), (0, 2)), ((0, 1), (2, 3)), ((1, 2), (0, 1))]
    (by unfold IsPartition2D; decide)


/-! ### The local work size of the 1x1 convolution -/

theorem udiv_pos (a b : Nat) (h : 1 ≤ b) : udiv a b = some (a / b) := by
  unfold udiv
  rw [if_neg (by omega)]

/-- The local work size of the 1x1 convolution, for a positive `kwg_size`:
all divisors are non-zero, and the three entries are bounded as the source
arranges. -/
theorem Conv2dK1x1_LocalWS_bounds (kBase : Nat) (executor : OpenclExecutor)
    (gws : List Nat) (kwg_size : Nat)
    (hk : 1 ≤ kBase) (hg0 : 1 ≤ gws.getD 0 0) (hg1 : 1 ≤ gws.getD 1 0)
    (hkwg : 1 ≤ kwg_size) (hkwg32 : kwg_size < 4294967296)
    (hcu : 1 ≤ executor.device_compute_units) :
    ∃ l0 l1 l2, Conv2dK1x1.LocalWS kBase executor gws kwg_size = some [l0, l1, l2, 0] ∧
      1 ≤ l0 ∧ l1 = min (gws.getD 1 0) kwg_size ∧ 1 ≤ l0 * l1 ∧ l0 * l1 ≤ kwg_size ∧
      1 ≤ l2 ∧ l2 ≤ kwg_size / (l0 * l1) := by
  have hne : kwg_size ≠ 0 := by omega
  have hl1 : 1 ≤ min (gws.getD 1 0) kwg_size := le_min hg1 hkwg
  unfold Conv2dK1x1.LocalWS
  rw [if_neg hne]
  simp only [Option.bind_eq_bind, udiv_pos _ _ hk, Option.some_bind, udiv_pos _ _ hl1,
    udiv_pos _ Conv2dK1x1.kernel_cache_size (by decide)]
  generalize hbase : max (toU32 (executor.device_global_mem_cache_size / kBase)) 1 = base
  have hb1 : 1 ≤ base := by rw [← hbase]; exact le_max_right _ _
  generalize hl1def : min (gws.getD 1 0) kwg_size = l1 at hl1 ⊢
  have hl1k : l1 ≤ kwg_size := by rw [← hl1def]; exact min_le_right _ _
  generalize hl0def :
    (if l1 ≥ base then min (gws.getD 0 0) base
      else if (1 < l1 ∧ l1 < base) ∧ gws.getD 0 0 ≥ Conv2dK1x1.lws_limit then
        min (gws.getD 0 0) base
      else if gws.getD 0 0 / 8 < base then max (gws.getD 0 0 / 4) base
      else gws.getD 0 0 / 8) = l0p
  have hl0p : 1 ≤ l0p := by
    rw [← hl0def]
    split_ifs with h1 h2 h3
    · exact le_min hg0 hb1
    · exact le_min hg0 hb1
    · exact le_trans hb1 (le_max_right _ _)
    · omega
  have hr : 1 ≤ kwg_size / l1 := by
    rw [Nat.le_div_iff_mul_le (by omega)]; omega
  generalize hl0 : min l0p (kwg_size / l1) = l0
  have hl0pos : 1 ≤ l0 := by rw [← hl0]; exact le_min hl0p hr
  have hl0le : l0 ≤ kwg_size / l1 := by rw [← hl0]; exact min_le_right _ _
  have hsize : l0 * l1 ≤ kwg_size := by
    calc l0 * l1 ≤ (kwg_size / l1) * l1 := Nat.mul_le_mul_right _ hl0le
      _ ≤ kwg_size := Nat.div_mul_le_self _ _
  have hsize1 : 1 ≤ l0 * l1 := Nat.one_le_iff_ne_zero.mpr (Nat.mul_ne_zero (by omega) (by omega))
  have hu : toU32 (l0 * l1) = l0 * l1 := by
    unfold toU32; exact Nat.mod_eq_of_lt (by omega)
  rw [hu]
  simp only [udiv_pos _ _ hsize1, Option.some_bind, udiv_pos _ _ hcu]
  refine ⟨l0, l1, _, rfl, hl0pos, rfl, hsize1, hsize, le_max_right _ _, ?_⟩
  have hq : 1 ≤ kwg_size / (l0 * l1) := by
    rw [Nat.le_div_iff_mul_le (by omega)]; omega
  exact max_le (min_le_right _ _) hq

/-- C20: for the 1x1-convolution `LocalWS`, for every global work size
whose entries `gws[0]` and `gws[1]` are at least 1 (`gws[2]` is arbitrary, so
in particular when all three are at least 1), every `kwg_size >= 1` (a `uint32_t`), every
cache size and every compute-unit count at least 1 (and a positive constant
`kBaseGPUMemCacheSize`), the function returns a local work size, no division
having a zero divisor, and `lws[0] * lws[1] * lws[2] <= kwg_size`. -/
theorem Conv2dK1x1_LocalWS_product (kBase : Nat) (executor : OpenclExecutor)
    (gws : List Nat) (kwg_size : Nat)
    (hk : 1 ≤ kBase) (hg0 : 1 ≤ gws.getD 0 0) (hg1 : 1 ≤ gws.getD 1 0)
    (hkwg : 1 ≤ kwg_size) (hkwg32 : kwg_size < 4294967296)
    (hcu : 1 ≤ executor.device_compute_units) :
    ∃ lws, Conv2dK1x1.LocalWS kBase executor gws kwg_size = some lws ∧
      lws.getD 0 0 * lws.getD 1 0 * lws.getD 2 0 ≤ kwg_size := by
  obtain ⟨l0, l1, l2, h, _, _, h1, _, _, h2⟩ :=
    Conv2dK1x1_LocalWS_bounds kBase executor gws kwg_size hk hg0 hg1 hkwg hkwg32 hcu
  refine ⟨_, h, ?_⟩
  simp only [List.getD_cons_zero, List.getD_cons_succ]
  calc l0 * l1 * l2 ≤ l0 * l1 * (kwg_size / (l0 * l1)) := Nat.mul_le_mul_left _ h2
    _ ≤ kwg_size := Nat.mul_div_le _ _

theorem Conv2dK1x1_LocalWS_product_witness :
    ∃ lws, Conv2dK1x1.LocalWS 16384 ⟨262144, 4⟩ [16, 32, 64] 256 = some lws ∧
      lws.getD 0 0 * lws.getD 1 0 * lws.getD 2 0 ≤ 256 :=
  Conv2dK1x1_LocalWS_product 16384 ⟨262144, 4⟩ [16, 32, 64] 256 (by decide) (by decide)
    (by decide) (by decide) (by decide) (by decide)


/-! ### The local work size of the 3x3 convolution, and both variants -/

theorem RoundUp_pos (i factor : Nat) (h : 1 ≤ factor) :
    ∃ v, RoundUp i factor = some v := by
  unfold RoundUp
  rw [udiv_pos _ _ h]
  exact ⟨_, rfl⟩

/-- The local work size of the 3x3 convolution, for a positive `kwg_size`: all
divisors are non-zero, and the three entries are bounded as the source
arranges. -/
theorem Conv2dK3x3_LocalWS_bounds (kBase : Nat) (executor : OpenclExecutor)
    (gws : List Nat) (kwg_size : Nat)
    (hk : 1 ≤ kBase) (hg0 : 1 ≤ gws.getD 0 0) (hg1 : 1 ≤ gws.getD 1 0)
    (hkwg : 1 ≤ kwg_size) (hkwg32 : kwg_size < 4294967296) :
    ∃ l0 l1 l2, Conv2dK3x3.LocalWS kBase executor gws kwg_size = some [l0, l1, l2, 0] ∧
      1 ≤ l0 ∧ l0 ≤ gws.getD 0 0 ∧ l1 = min (gws.getD 1 0) kwg_size ∧
      1 ≤ l0 * l1 ∧ l0 * l1 ≤ kwg_size ∧
      1 ≤ l2 ∧ l2 ≤ kwg_size / (l0 * l1) ∧ (1 ≤ gws.getD 2 0 → l2 ≤ gws.getD 2 0) := by
  have hne : kwg_size ≠ 0 := by omega
  have hl1 : 1 ≤ min (gws.getD 1 0) kwg_size := le_min hg1 hkwg
  have hcu : 1 ≤ max (executor.device_compute_units / 2) 1 := le_max_right _ _
  unfold Conv2dK3x3.LocalWS
  rw [if_neg hne]
  simp only [Option.bind_eq_bind, udiv_pos _ _ hk, Option.some_bind, udiv_pos _ _ hl1,
    udiv_pos _ Conv2dK3x3.kernel_cache_size (by decide)]
  generalize hbase : max (min (toU32 (executor.device_global_mem_cache_size / kBase)) 4) 1
    = base
  have hb1 : 1 ≤ base := by rw [← hbase]; exact le_max_right _ _
  generalize hl1def : min (gws.getD 1 0) kwg_size = l1 at hl1 ⊢
  have hl1k : l1 ≤ kwg_size := by rw [← hl1def]; exact min_le_right _ _
  have hr : 1 ≤ kwg_size / l1 := by
    rw [Nat.le_div_iff_mul_le (by omega)]; omega
  generalize hl0 : min (min (gws.getD 0 0) base) (kwg_size / l1) = l0
  have hl0pos : 1 ≤ l0 := by rw [← hl0]; exact le_min (le_min hg0 hb1) hr
  have hl0le : l0 ≤ kwg_size / l1 := by rw [← hl0]; exact min_le_right _ _
  have hl0g : l0 ≤ gws.getD 0 0 := by
    rw [← hl0]; exact le_trans (min_le_left _ _) (min_le_left _ _)
  have hsize : l0 * l1 ≤ kwg_size := by
    calc l0 * l1 ≤ (kwg_size / l1) * l1 := Nat.mul_le_mul_right _ hl0le
      _ ≤ kwg_size := Nat.div_mul_le_self _ _
  have hsize1 : 1 ≤ l0 * l1 :=
    Nat.one_le_iff_ne_zero.mpr (Nat.mul_ne_zero (by omega) (by omega))
  have hu : toU32 (l0 * l1) = l0 * l1 := by
    unfold toU32; exact Nat.mod_eq_of_lt (by omega)
  rw [hu]
  simp only [udiv_pos _ _ hsize1, Option.some_bind, udiv_pos _ _ hcu]
  obtain ⟨ru, hru⟩ := RoundUp_pos
    (toU32 (executor.device_global_mem_cache_size / Conv2dK3x3.kernel_cache_size / (l0 * l1)
      / max (executor.device_compute_units / 2) 1)) base hb1
  rw [hru]
  simp only [Option.some_bind]
  have hq : 1 ≤ kwg_size / (l0 * l1) := by
    rw [Nat.le_div_iff_mul_le (by omega)]; omega
  refine ⟨l0, l1, _, rfl, hl0pos, hl0g, rfl, hsize1, hsize, le_max_right _ _,
    max_le (min_le_right _ _) hq, ?_⟩
  intro hg2
  apply max_le _ hg2
  apply le_trans (min_le_left _ _)
  split_ifs
  · exact min_le_left _ _
  · exact min_le_right _ _

/-- C21: for the 3x3-convolution `LocalWS`, for every global work size whose
entries `gws[0]` and `gws[1]` are at least 1 (`gws[2]` is arbitrary, so in
particular when all three are at least 1), every `kwg_size >= 1` (a
`uint32_t`), every cache size and every compute-unit count, 0 included (and a
positive constant `kBaseGPUMemCacheSize`), the function returns a local work
size, no division having a zero divisor, and
`lws[0] * lws[1] * lws[2] <= kwg_size`. -/
theorem Conv2dK3x3_LocalWS_product (kBase : Nat) (executor : OpenclExecutor)
    (gws : List Nat) (kwg_size : Nat)
    (hk : 1 ≤ kBase) (hg0 : 1 ≤ gws.getD 0 0) (hg1 : 1 ≤ gws.getD 1 0)
    (hkwg : 1 ≤ kwg_size) (hkwg32 : kwg_size < 4294967296) :
    ∃ lws, Conv2dK3x3.LocalWS kBase executor gws kwg_size = some lws ∧
      lws.getD 0 0 * lws.getD 1 0 * lws.getD 2 0 ≤ kwg_size := by
  obtain ⟨l0, l1, l2, h, _, _, _, _, _, _, h2, _⟩ :=
    Conv2dK3x3_LocalWS_bounds kBase executor gws kwg_size hk hg0 hg1 hkwg hkwg32
  refine ⟨_, h, ?_⟩
  simp only [List.getD_cons_zero, List.getD_cons_succ]
  calc l0 * l1 * l2 ≤ l0 * l1 * (kwg_size / (l0 * l1)) := Nat.mul_le_mul_left _ h2
    _ ≤ kwg_size := Nat.mul_div_le _ _

theorem Conv2dK3x3_LocalWS_product_witness :
    ∃ lws, Conv2dK3x3.LocalWS 16384 ⟨262144, 0⟩ [16, 32, 64] 256 = some lws ∧
      lws.getD 0 0 * lws.getD 1 0 * lws.getD 2 0 ≤ 256 :=
  Conv2dK3x3_LocalWS_product 16384 ⟨262144, 0⟩ [16, 32, 64] 256 (by decide) (by decide)
    (by decide) (by decide) (by decide)

/-- C22: when `kwg_size == 0`, the 1x1- and the 3x3-convolution `LocalWS`
return `lws[0] = lws[1] = lws[2] = 1` (and `lws[3] = 0`) for every global work
size, zero or missing entries included, every cache size, every compute-unit
count and every value of the constant `kBaseGPUMemCacheSize`: the branch taken
performs no division and reads nothing from the executor. -/
theorem LocalWS_kwg_zero (kBase : Nat) (executor : OpenclExecutor) (gws : List Nat) :
    Conv2dK1x1.LocalWS kBase executor gws 0 = some [1, 1, 1, 0] ∧
      Conv2dK3x3.LocalWS kBase executor gws 0 = some [1, 1, 1, 0] :=
  ⟨rfl, rfl⟩


theorem Conv2dK1x1_LocalWS_lws1 (kBase : Nat) (executor : OpenclExecutor)
    (gws : List Nat) (kwg_size : Nat) (hkwg : 1 ≤ kwg_size) (lws : List Nat)
    (h : Conv2dK1x1.LocalWS kBase executor gws kwg_size = some lws) :
    lws.getD 1 0 = min (gws.getD 1 0) kwg_size := by
  have hne : kwg_size ≠ 0 := by omega
  unfold Conv2dK1x1.LocalWS at h
  rw [if_neg hne] at h
  simp only [Option.bind_eq_bind, Option.bind_eq_some] at h
  obtain ⟨q, _, r, _, a, _, b, _, c, _, r2, _, hfin⟩ := h
  rw [Option.some.injEq] at hfin
  rw [← hfin]
  rfl

theorem Conv2dK3x3_LocalWS_lws1 (kBase : Nat) (executor : OpenclExecutor)
    (gws : List Nat) (kwg_size : Nat) (hkwg : 1 ≤ kwg_size) (lws : List Nat)
    (h : Conv2dK3x3.LocalWS kBase executor gws kwg_size = some lws) :
    lws.getD 1 0 = min (gws.getD 1 0) kwg_size := by
  have hne : kwg_size ≠ 0 := by omega
  unfold Conv2dK3x3.LocalWS at h
  rw [if_neg hne] at h
  simp only [Option.bind_eq_bind, Option.bind_eq_some] at h
  obtain ⟨q, _, r, _, a, _, b, _, c, _, ru, _, r2, _, hfin⟩ := h
  rw [Option.some.injEq] at hfin
  rw [← hfin]
  rfl

/-- C23: when `kwg_size >= 1`, every local work size the 1x1- or the
3x3-convolution `LocalWS` returns has `lws[1] == min(gws[1], kwg_size)`,
whatever `gws[0]`, `gws[2]`, the cache size and the compute-unit count are;
and the functions do return one whenever no divisor is zero, in particular for
`gws[0], gws[1] >= 1`, a `uint32_t` `kwg_size`, a positive constant
`kBaseGPUMemCacheSize` and, for the 1x1 variant, at least one compute unit. -/
theorem LocalWS_lws1_eq_min (kBase : Nat) (executor : OpenclExecutor) (gws : List Nat)
    (kwg_size : Nat) (hkwg : 1 ≤ kwg_size) :
    (∀ lws, Conv2dK1x1.LocalWS kBase executor gws kwg_size = some lws →
      lws.getD 1 0 = min (gws.getD 1 0) kwg_size) ∧
    (∀ lws, Conv2dK3x3.LocalWS kBase executor gws kwg_size = some lws →
      lws.getD 1 0 = min (gws.getD 1 0) kwg_size) ∧
    (1 ≤ kBase → 1 ≤ gws.getD 0 0 → 1 ≤ gws.getD 1 0 → kwg_size < 4294967296 →
      (1 ≤ executor.device_compute_units →
        ∃ lws, Conv2dK1x1.LocalWS kBase executor gws kwg_size = some lws ∧
          lws.getD 1 0 = min (gws.getD 1 0) kwg_size) ∧
      ∃ lws, Conv2dK3x3.LocalWS kBase executor gws kwg_size = some lws ∧
        lws.getD 1 0 = min (gws.getD 1 0) kwg_size) := by
  refine ⟨fun lws h => Conv2dK1x1_LocalWS_lws1 kBase executor gws kwg_size hkwg lws h,
    fun lws h => Conv2dK3x3_LocalWS_lws1 kBase executor gws kwg_size hkwg lws h, ?_⟩
  intro hk hg0 hg1 h32
  constructor
  · intro hcu
    obtain ⟨l0, l1, l2, h, _⟩ :=
      Conv2dK1x1_LocalWS_bounds kBase executor gws kwg_size hk hg0 hg1 hkwg h32 hcu
    exact ⟨_, h, Conv2dK1x1_LocalWS_lws1 kBase executor gws kwg_size hkwg _ h⟩
  · obtain ⟨l0, l1, l2, h, _⟩ :=
      Conv2dK3x3_LocalWS_bounds kBase executor gws kwg_size hk hg0 hg1 hkwg h32
    exact ⟨_, h, Conv2dK3x3_LocalWS_lws1 kBase executor gws kwg_size hkwg _ h⟩

theorem LocalWS_lws1_eq_min_witness :
    (∃ lws, Conv2dK1x1.LocalWS 16384 ⟨262144, 4⟩ [16, 300, 64] 256 = some lws ∧
      lws.getD 1 0 = min 300 256) ∧
    ∃ lws, Conv2dK3x3.LocalWS 16384 ⟨262144, 4⟩ [16, 300, 64] 256 = some lws ∧
      lws.getD 1 0 = min 300 256 :=
  ⟨((LocalWS_lws1_eq_min 16384 ⟨262144, 4⟩ [16, 300, 64] 256 (by decide)).2.2
      (by decide) (by decide) (by decide) (by decide)).1 (by decide),
   ((LocalWS_lws1_eq_min 16384 ⟨262144, 4⟩ [16, 300, 64] 256 (by decide)).2.2
      (by decide) (by decide) (by decide) (by decide)).2⟩


/-! ### `Simplify`: the axis mapping and the dependence on the history -/

theorem Simplify_plan_reset (op : ReduceOp) (first : Bool) (reshape out_shape : List Nat)
    (s : List Nat) :
    Simplify { op with reduce_first_axis_ := first, data_reshape_ := reshape,
                       out_shape_ := out_shape } s = Simplify op s := by
  unfold Simplify markAxes
  rfl

theorem Simplify_config (op : ReduceOp) (s : List Nat) :
    ∃ first reshape out_shape,
      Simplify op s = { op with reduce_first_axis_ := first, data_reshape_ := reshape,
                                out_shape_ := out_shape } := by
  unfold Simplify
  dsimp only
  split
  · exact ⟨_, _, _, rfl⟩
  · exact ⟨_, _, _, rfl⟩

/-- C27: the plan `Simplify` leaves (`out_shape_`, `data_reshape_`,
`reduce_first_axis_`) depends only on the configuration and the current input
shape: running `Simplify` on `s1` and then on `s2` leaves the operator exactly
as running it on `s2` alone does, and the plan is the same from every previous
plan, the one of a fresh instance included. -/
theorem Simplify_history_independent (op : ReduceOp) (s1 s2 : List Nat) :
    Simplify (Simplify op s1) s2 = Simplify op s2 ∧
      ∀ (first : Bool) (reshape out_shape : List Nat),
        Simplify { op with reduce_first_axis_ := first, data_reshape_ := reshape,
                           out_shape_ := out_shape } s2 = Simplify op s2 := by
  refine ⟨?_, fun f r o => Simplify_plan_reset op f r o s2⟩
  obtain ⟨f, r, o, h⟩ := Simplify_config op s1
  rw [h]
  exact Simplify_plan_reset op f r o s2


theorem axisIndex_eq_spec (has_df : Int) (is_uint8 : Bool) (r : Nat) (a : Int) :
    axisIndex has_df is_uint8 r a
      = if has_df ≠ 0 ∧ is_uint8 = false ∧ r = 4 then remapNHWC (normalizedAxis r a)
        else normalizedAxis r a := by
  have hn : (if a ≥ 0 then a else a + (r : Int)) = normalizedAxis r a := by
    unfold normalizedAxis
    split_ifs <;> first | rfl | omega
  unfold axisIndex
  dsimp only
  rw [hn]
  generalize normalizedAxis r a = n
  unfold remapNHWC
  split_ifs <;> first | rfl | omega

theorem remapNHWC_bijective :
    (∀ i : Int, 0 ≤ i → i < 4 → 0 ≤ remapNHWC i ∧ remapNHWC i < 4) ∧
      (∀ i j : Int, 0 ≤ i → i < 4 → 0 ≤ j → j < 4 → remapNHWC i = remapNHWC j → i = j) ∧
      (∀ k : Int, 0 ≤ k → k < 4 → ∃ i : Int, 0 ≤ i ∧ i < 4 ∧ remapNHWC i = k) := by
  refine ⟨?_, ?_, ?_⟩
  · intro i h0 h4
    unfold remapNHWC
    split_ifs <;> omega
  · intro i j hi0 hi4 hj0 hj4
    unfold remapNHWC
    split_ifs <;> omega
  · intro k h0 h4
    have hk : k = 0 ∨ k = 1 ∨ k = 2 ∨ k = 3 := by omega
    rcases hk with h | h | h | h
    · exact ⟨0, by omega, by omega, by rw [h]; rfl⟩
    · exact ⟨3, by omega, by omega, by rw [h]; rfl⟩
    · exact ⟨1, by omega, by omega, by rw [h]; rfl⟩
    · exact ⟨2, by omega, by omega, by rw [h]; rfl⟩

/-- C26: in `Simplify`, the bitmap entry `i` is set exactly when the axis list
is empty or some axis has bitmap index `i`, where the bitmap index of an axis
is: when `has_data_format` is set, the element type is not uint8 and the rank
is 4, the normalised axis (`axis`, or `axis + rank` when negative) remapped by
0→0, 1→2, 2→3, 3→1; in every other case (flag off, uint8 element type, or rank
different from 4) the normalised axis unchanged. The remap is a bijection of
`{0, 1, 2, 3}`, so axes with distinct normalised indices in that range keep
distinct bitmap indices. -/
theorem Simplify_axis_remap (op : ReduceOp) (r : Nat) :
    (∀ a, op.has_data_format ≠ 0 → op.is_uint8 = false → r = 4 →
      axisIndex op.has_data_format op.is_uint8 r a = remapNHWC (normalizedAxis r a)) ∧
    (∀ a, (op.has_data_format = 0 ∨ op.is_uint8 = true ∨ r ≠ 4) →
      axisIndex op.has_data_format op.is_uint8 r a = normalizedAxis r a) ∧
    (remapNHWC 0 = 0 ∧ remapNHWC 1 = 2 ∧ remapNHWC 2 = 3 ∧ remapNHWC 3 = 1) ∧
    (∀ i j : Int, 0 ≤ i → i < 4 → 0 ≤ j → j < 4 → remapNHWC i = remapNHWC j → i = j) ∧
    (∀ k : Int, 0 ≤ k → k < 4 → ∃ i : Int, 0 ≤ i ∧ i < 4 ∧ remapNHWC i = k) ∧
    (∀ a b, -(r : Int) < a → a < (r : Int) → -(r : Int) < b → b < (r : Int) →
      normalizedAxis r a ≠ normalizedAxis r b →
      axisIndex op.has_data_format op.is_uint8 r a
        ≠ axisIndex op.has_data_format op.is_uint8 r b) ∧
    (∀ i, i < r →
      ((markAxes op r (List.replicate r false)).getD i false = true ↔
        (op.axis_ = [] ∨
          ∃ a ∈ op.axis_, axisIndex op.has_data_format op.is_uint8 r a = (i : Int)))) := by
  refine ⟨?_, ?_, ⟨rfl, rfl, rfl, rfl⟩, remapNHWC_bijective.2.1, remapNHWC_bijective.2.2,
    ?_, ?_⟩
  · intro a h1 h2 h3
    rw [axisIndex_eq_spec, if_pos ⟨h1, h2, h3⟩]
  · intro a h
    rw [axisIndex_eq_spec, if_neg]
    rintro ⟨h1, h2, h3⟩
    rcases h with h | h | h
    · exact h1 h
    · rw [h] at h2; cases h2
    · exact h h3
  · intro a b ha1 ha2 hb1 hb2 hne
    rw [axisIndex_eq_spec, axisIndex_eq_spec]
    split_ifs with hc
    · obtain ⟨_, _, h4⟩ := hc
      have hna : 0 ≤ normalizedAxis r a ∧ normalizedAxis r a < 4 := by
        unfold normalizedAxis; subst h4; split_ifs <;> constructor <;> omega
      have hnb : 0 ≤ normalizedAxis r b ∧ normalizedAxis r b < 4 := by
        unfold normalizedAxis; subst h4; split_ifs <;> constructor <;> omega
      intro he
      exact hne (remapNHWC_bijective.2.1 _ _ hna.1 hna.2 hnb.1 hnb.2 he)
    · exact hne
  · intro i hi
    rw [markAxes_eq, reducedMask_getD op r i hi, isReduced_iff]

theorem Simplify_axis_remap_witness :
    axisIndex 1 false 4 (-1) = remapNHWC (normalizedAxis 4 (-1)) ∧
      axisIndex 1 true 4 (-1) = normalizedAxis 4 (-1) ∧
      axisIndex 1 false 4 (-1) = 1 ∧ axisIndex 1 true 4 (-1) = 3 :=
  ⟨(Simplify_axis_remap (mkOp ReduceType.SUM [-1] false 1 false) 4).1 (-1)
      (by decide) rfl rfl,
   (Simplify_axis_remap (mkOp ReduceType.SUM [-1] false 1 true) 4).2.1 (-1)
      (Or.inr (Or.inl rfl)),
   by decide, by decide⟩


/-! ### The effect of `Run` on the operator and the output tensor -/

/-- `Run` is `RunInPlace` with the objects dropped on failure. -/
theorem Run_eq_RunInPlace (op : ReduceOp) (input output : Tensor) :
    Run op input output
      = match RunInPlace op input output with
        | (Except.ok _, op2, out2) => Except.ok (op2, out2)
        | (Except.error e, _, _) => Except.error e := by
  unfold Run RunInPlace
  cases Validate op input.shape.length with
  | error e => rfl
  | ok u =>
    dsimp only
    split <;> rfl

theorem Validate_error_of_bad_axis (op : ReduceOp) (r : Nat)
    (h : ∃ a ∈ op.axis_, ¬ (-(r : Int) < a ∧ a < (r : Int))) :
    Validate op r = Except.error "Axis is over range." := by
  have hne : Validate op r ≠ Except.ok () := by
    rw [Ne, Validate_ok_iff]
    intro hall
    obtain ⟨a, ha, hbad⟩ := h
    exact hbad (hall a ha)
  have hck : ∀ (l rr : Int) (axes : List Int),
      checkAxes l rr axes = Except.ok () ∨ checkAxes l rr axes
        = Except.error "Axis is over range." := by
    intro l rr axes
    induction axes with
    | nil => left; rfl
    | cons a rest ih =>
      unfold checkAxes
      split_ifs
      · exact ih
      · right; rfl
  unfold Validate at hne ⊢
  dsimp only at hne ⊢
  split_ifs at hne ⊢ with hlen
  · rcases hck ((r : Int) * -1) (r : Int) op.axis_ with h1 | h1
    · exact absurd h1 hne
    · exact h1
  · exact absurd rfl hne

/-- C29: if some axis of the configuration fails validation, the CPU `Run`
fails with the out-of-range error before the plan is computed and before the
output tensor is touched: the operator (its plan included) and the output's
scale, zero point, shape and element buffer are all as they were. -/
theorem Run_invalid_axis_untouched (op : ReduceOp) (input output : Tensor)
    (h : ∃ a ∈ op.axis_,
      ¬ (-(input.shape.length : Int) < a ∧ a < (input.shape.length : Int))) :
    RunInPlace op input output = (Except.error "Axis is over range.", op, output) ∧
      Run op input output = Except.error "Axis is over range." := by
  have hv := Validate_error_of_bad_axis op input.shape.length h
  constructor
  · unfold RunInPlace
    rw [hv]
  · unfold Run
    rw [hv]

theorem Run_invalid_axis_untouched_witness :
    RunInPlace (mkOp ReduceType.SUM [0, 2] false 0 false) ⟨[2, 3], [1, 2, 3, 4, 5, 6], 1, 0⟩
        ⟨[7], [9], 3, 5⟩
      = (Except.error "Axis is over range.", mkOp ReduceType.SUM [0, 2] false 0 false,
          ⟨[7], [9], 3, 5⟩) :=
  (Run_invalid_axis_untouched (mkOp ReduceType.SUM [0, 2] false 0 false)
    ⟨[2, 3], [1, 2, 3, 4, 5, 6], 1, 0⟩ ⟨[7], [9], 3, 5⟩
    ⟨2, by decide, by decide⟩).1

theorem Compute_keeps (op : ReduceOp) (input out res : Tensor)
    (h : Compute op input out = Except.ok res) :
    res.shape = out.shape ∧ res.scale = out.scale ∧ res.zero_point = out.zero_point := by
  have key : ∀ (r : Except String (List Int)),
      r.map (fun d => { out with data := d }) = Except.ok res →
        res.shape = out.shape ∧ res.scale = out.scale ∧ res.zero_point = out.zero_point := by
    intro r hr
    cases r with
    | error e => cases hr
    | ok d => cases hr; exact ⟨rfl, rfl, rfl⟩
  unfold Compute at h
  split at h
  · exact key _ h
  · exact key _ h
  · exact key _ h
  · exact key _ h
  · cases h

/-- C30: after validation the CPU `Run` sets the output tensor's scale and
zero point to the input's for every reduce type other than SUM and leaves them
as they were when the reduce type is SUM; in both cases the operator's plan is
the one of `Simplify` and the output is resized to `out_shape_`. This holds
whether or not `Compute` then succeeds, hence for every successful `Run`. -/
theorem Run_output_quantization (op : ReduceOp) (input output : Tensor)
    (hv : Validate op input.shape.length = Except.ok ()) :
    (RunInPlace op input output).2.1 = Simplify op input.shape ∧
      (RunInPlace op input output).2.2.shape = (Simplify op input.shape).out_shape_ ∧
      (op.reduce_type_ ≠ ReduceType.SUM →
        (RunInPlace op input output).2.2.scale = input.scale ∧
          (RunInPlace op input output).2.2.zero_point = input.zero_point) ∧
      (op.reduce_type_ = ReduceType.SUM →
        (RunInPlace op input output).2.2.scale = output.scale ∧
          (RunInPlace op input output).2.2.zero_point = output.zero_point) ∧
      ∀ res, Run op input output = Except.ok res →
        (RunInPlace op input output).1 = Except.ok () ∧
          res = (RunInPlace op input output).2 := by
  have hty := Simplify_reduce_type op input.shape
  have hform : (RunInPlace op input output).2.1 = Simplify op input.shape ∧
      (RunInPlace op input output).2.2.shape = (Simplify op input.shape).out_shape_ ∧
      (RunInPlace op input output).2.2.scale
        = (if (Simplify op input.shape).reduce_type_ ≠ ReduceType.SUM then
            { output with scale := input.scale, zero_point := input.zero_point }
          else output).scale ∧
      (RunInPlace op input output).2.2.zero_point
        = (if (Simplify op input.shape).reduce_type_ ≠ ReduceType.SUM then
            { output with scale := input.scale, zero_point := input.zero_point }
          else output).zero_point := by
    unfold RunInPlace
    rw [hv]
    dsimp only
    split
    · exact ⟨rfl, rfl, rfl, rfl⟩
    · rename_i out2 hc
      obtain ⟨h1, h2, h3⟩ := Compute_keeps _ _ _ _ hc
      exact ⟨rfl, h1, h2, h3⟩
  obtain ⟨f1, f2, f3, f4⟩ := hform
  refine ⟨f1, f2, ?_, ?_, ?_⟩
  · intro hne
    rw [f3, f4, if_pos (by rw [hty]; exact hne)]
    exact ⟨rfl, rfl⟩
  · intro heq
    rw [f3, f4, if_neg (by rw [hty, heq]; exact fun h => h rfl)]
    exact ⟨rfl, rfl⟩
  · intro res hres
    rw [Run_eq_RunInPlace] at hres
    rcases hr : RunInPlace op input output with ⟨s1, op2, out2⟩
    rw [hr] at hres
    cases s1 with
    | error e => cases hres
    | ok u =>
      simp only [Except.ok.injEq] at hres
      exact ⟨rfl, hres.symm⟩

theorem Run_output_quantization_witness :
    ((RunInPlace (mkOp ReduceType.MAX [1] false 0 false) ⟨[2, 3], [1, 2, 3, 4, 5, 6], 7, 8⟩
        ⟨[9], [0], 3, 5⟩).2.2.scale = 7 ∧
      (RunInPlace (mkOp ReduceType.MAX [1] false 0 false) ⟨[2, 3], [1, 2, 3, 4, 5, 6], 7, 8⟩
        ⟨[9], [0], 3, 5⟩).2.2.zero_point = 8) ∧
    ((RunInPlace (mkOp ReduceType.SUM [1] false 0 false) ⟨[2, 3], [1, 2, 3, 4, 5, 6], 7, 8⟩
        ⟨[9], [0], 3, 5⟩).2.2.scale = 3 ∧
      (RunInPlace (mkOp ReduceType.SUM [1] false 0 false) ⟨[2, 3], [1, 2, 3, 4, 5, 6], 7, 8⟩
        ⟨[9], [0], 3, 5⟩).2.2.zero_point = 5) :=
  ⟨(Run_output_quantization (mkOp ReduceType.MAX [1] false 0 false)
      ⟨[2, 3], [1, 2, 3, 4, 5, 6], 7, 8⟩ ⟨[9], [0], 3, 5⟩ (by decide)).2.2.1 (by decide),
   (Run_output_quantization (mkOp ReduceType.SUM [1] false 0 false)
      ⟨[2, 3], [1, 2, 3, 4, 5, 6], 7, 8⟩ ⟨[9], [0], 3, 5⟩ (by decide)).2.2.2.1 rfl⟩


/-! ### The output elements a callback writes -/

theorem foldl_cells_frame {α : Type} (idx : α → Nat) (c : α → List Int → List Int)
    (hc : ∀ a, IsCellUpdate (idx a) (c a)) (L : List α) :
    ∀ out, (L.foldl (fun out a => c a out) out).length = out.length ∧
      ∀ o, (∀ a ∈ L, idx a ≠ o) →
        (L.foldl (fun out a => c a out) out).getD o 0 = out.getD o 0 := by
  induction L with
  | nil => intro out; exact ⟨rfl, fun _ _ => rfl⟩
  | cons a rest ih =>
    intro out
    obtain ⟨f, hf⟩ := hc a
    obtain ⟨h1, h2⟩ := ih (c a out)
    simp only [List.foldl_cons]
    constructor
    · rw [h1, hf, List.length_set]
    · intro o ho
      rw [h2 o (fun b hb => ho b (List.mem_cons_of_mem _ hb)), hf,
        getD_set_ne _ _ _ _ (ho a (List.mem_cons_self _ _))]

theorem mem_forStep_range (s e step m : Nat) (hstep : 1 ≤ step)
    (hm : m ∈ List.range' s ((e - s + step - 1) / step) step) : s ≤ m ∧ m < e := by
  obtain ⟨i, hi, rfl⟩ := List.mem_range'.mp hm
  have h1 : i + 1 ≤ (e - s + step - 1) / step := hi
  rw [Nat.le_div_iff_mul_le (by omega)] at h1
  have h2 : (i + 1) * step = step * i + step := by ring
  rw [h2] at h1
  constructor
  · omega
  · omega

/-- A 1-D callback that updates the cell of each index it visits changes no
element outside its range. -/
theorem forStep_cells_writes (body : Nat → List Int → List Int)
    (hcell : ∀ i, IsCellUpdate i (body i)) (s e step : Nat) (hstep : 1 ≤ step)
    (out : List Int) :
    WritesOnly (fun o => s ≤ o ∧ o < e) out (Except.ok (forStep s e step body out)) := by
  obtain ⟨h1, h2⟩ := foldl_cells_frame (fun i => i) body hcell
    (List.range' s ((e - s + step - 1) / step) step) out
  refine ⟨_, rfl, h1, ?_⟩
  intro o ho
  apply h2 o
  intro a ha hao
  subst hao
  exact ho (mem_forStep_range s e step a hstep ha)

/-- A 2-D callback that updates the cell `i * B + j` of each index pair it
visits changes no element whose index pair lies outside its tile. -/
theorem forStep2_cells_writes (B : Nat) (cell : Nat → Nat → List Int → List Int)
    (hcell : ∀ i j, IsCellUpdate (i * B + j) (cell i j))
    (s0 e0 st0 s1 e1 st1 : Nat) (h0 : 1 ≤ st0) (h1 : 1 ≤ st1) (hB : e1 ≤ B)
    (out : List Int) :
    WritesOnly (fun o => (s0 ≤ o / B ∧ o / B < e0) ∧ (s1 ≤ o % B ∧ o % B < e1)) out
      (Except.ok (forStep s0 e0 st0 (fun i out =>
        forStep s1 e1 st1 (fun j out => cell i j out) out) out)) := by
  have hloops :
      forStep s0 e0 st0 (fun i out => forStep s1 e1 st1 (fun j out => cell i j out) out) out
        = ((List.range' s0 ((e0 - s0 + st0 - 1) / st0) st0) ×ˢ
            (List.range' s1 ((e1 - s1 + st1 - 1) / st1) st1)).foldl
            (fun out p => cell p.1 p.2 out) out := by
    rw [foldl_product]
    rfl
  obtain ⟨f1, f2⟩ := foldl_cells_frame (fun p : Nat × Nat => p.1 * B + p.2)
    (fun p => cell p.1 p.2) (fun p => hcell p.1 p.2)
    ((List.range' s0 ((e0 - s0 + st0 - 1) / st0) st0) ×ˢ
      (List.range' s1 ((e1 - s1 + st1 - 1) / st1) st1)) out
  rw [hloops]
  refine ⟨_, rfl, f1, ?_⟩
  intro o ho
  apply f2 o
  rintro ⟨i, j⟩ hp hpo
  rw [List.mem_product] at hp
  have hi := mem_forStep_range s0 e0 st0 i h0 hp.1
  have hj := mem_forStep_range s1 e1 st1 j h1 hp.2
  have hjB : j < B := by omega
  have hBpos : 0 < B := by omega
  simp only at hpo
  apply ho
  have e1' : o / B = i := by
    rw [← hpo, Nat.add_comm, Nat.add_mul_div_right _ _ hBpos, Nat.div_eq_of_lt hjB,
      Nat.zero_add]
  have e2' : o % B = j := by
    rw [← hpo, Nat.add_comm, Nat.add_mul_mod_self_right, Nat.mod_eq_of_lt hjB]
  rw [e1', e2']
  exact ⟨hi, hj⟩

/-- A 1-D callback that updates, for each index `i` it visits, the cells
`i * B + j` of the row `j < B` changes no element of a row outside its
range. -/
theorem forStep_rows_writes (B : Nat) (cell : Nat → Nat → List Int → List Int)
    (hcell : ∀ i j, IsCellUpdate (i * B + j) (cell i j))
    (s e step : Nat) (hstep : 1 ≤ step) (out : List Int) :
    WritesOnly (fun o => s ≤ o / B ∧ o / B < e) out
      (Except.ok (forStep s e step (fun i out =>
        forRange 0 B (fun j out => cell i j out) out) out)) := by
  obtain ⟨out2, h1, h2, h3⟩ := forStep2_cells_writes B cell hcell s e step 0 B 1 hstep
    (le_refl _) (le_refl _) out
  simp only [forStep_one] at h1
  refine ⟨out2, h1, h2, ?_⟩
  intro o ho
  apply h3 o
  intro hc
  exact ho hc.1

theorem WritesOnly_disjoint (S1 S2 : Nat → Prop) (out : List Int)
    (r1 r2 : Except String (List Int)) (h1 : WritesOnly S1 out r1) (h2 : WritesOnly S2 out r2)
    (hdis : ∀ o, ¬ (S1 o ∧ S2 o)) :
    ∃ out1 out2, r1 = Except.ok out1 ∧ r2 = Except.ok out2 ∧
      ∀ o, out1.getD o 0 = out.getD o 0 ∨ out2.getD o 0 = out.getD o 0 := by
  obtain ⟨o1, e1, _, f1⟩ := h1
  obtain ⟨o2, e2, _, f2⟩ := h2
  refine ⟨o1, o2, e1, e2, ?_⟩
  intro o
  by_cases hs : S1 o
  · right
    exact f2 o (fun h => hdis o ⟨hs, h⟩)
  · left
    exact f1 o hs


theorem Reduce2DimsFirstFn_writes (op : ReduceOp) (input : List Int) (type : ReduceType)
    (ht : type ≠ ReduceType.OTHER) (s e step : Nat) (hstep : 1 ≤ step) (output : List Int) :
    WritesOnly (fun o => s ≤ o ∧ o < e) output
      (Reduce2DimsFirstFn op input type s e step output) := by
  unfold Reduce2DimsFirstFn
  cases type with
  | OTHER => exact absurd rfl ht
  | MEAN => exact forStep_cells_writes _ (fun i => isCellUpdate_set _ _) _ _ _ hstep _
  | SUM => exact forStep_cells_writes _ (fun i => isCellUpdate_set _ _) _ _ _ hstep _
  | MIN => exact forStep_cells_writes _ (fun i => isCellUpdate_set _ _) _ _ _ hstep _
  | MAX => exact forStep_cells_writes _ (fun i => isCellUpdate_set _ _) _ _ _ hstep _
  | PROD => exact forStep_cells_writes _ (fun i => isCellUpdate_set _ _) _ _ _ hstep _

theorem Reduce2DimsSecondFn_writes (op : ReduceOp) (input : List Int) (type : ReduceType)
    (ht : type ≠ ReduceType.OTHER) (s e step : Nat) (hstep : 1 ≤ step) (output : List Int) :
    WritesOnly (fun o => s ≤ o ∧ o < e) output
      (Reduce2DimsSecondFn op input type s e step output) := by
  unfold Reduce2DimsSecondFn
  cases type with
  | OTHER => exact absurd rfl ht
  | MEAN => exact forStep_cells_writes _ (fun i => isCellUpdate_set _ _) _ _ _ hstep _
  | SUM => exact forStep_cells_writes _ (fun i => isCellUpdate_set _ _) _ _ _ hstep _
  | MIN => exact forStep_cells_writes _ (fun i => isCellUpdate_set _ _) _ _ _ hstep _
  | MAX => exact forStep_cells_writes _ (fun i => isCellUpdate_set _ _) _ _ _ hstep _
  | PROD => exact forStep_cells_writes _ (fun i => isCellUpdate_set _ _) _ _ _ hstep _

theorem Reduce3DimsFirstFn_writes (op : ReduceOp) (input : List Int) (type : ReduceType)
    (ht : type ≠ ReduceType.OTHER) (s e step : Nat) (hstep : 1 ≤ step) (output : List Int) :
    WritesOnly (fun o => s ≤ o ∧ o < e) output
      (Reduce3DimsFirstFn op input type s e step output) := by
  unfold Reduce3DimsFirstFn
  cases type with
  | OTHER => exact absurd rfl ht
  | MEAN =>
    refine forStep_cells_writes _ (fun i => ?_) _ _ _ hstep _
    simp only [loop_addAt_nested input]
    exact isCellUpdate_divAt_addAt _ _ _
  | SUM =>
    refine forStep_cells_writes _ (fun i => ?_) _ _ _ hstep _
    show IsCellUpdate _ (fun out => forRange _ _ _ out)
    simp only [loop_addAt_nested input]
    exact isCellUpdate_addAt _ _
  | MIN => exact forStep_cells_writes _ (fun i => isCellUpdate_set _ _) _ _ _ hstep _
  | MAX => exact forStep_cells_writes _ (fun i => isCellUpdate_set _ _) _ _ _ hstep _
  | PROD => exact forStep_cells_writes _ (fun i => isCellUpdate_set _ _) _ _ _ hstep _

theorem Reduce3DimsSecondFn_writes (op : ReduceOp) (input : List Int) (type : ReduceType)
    (ht : type ≠ ReduceType.OTHER) (s e step : Nat) (hstep : 1 ≤ step) (output : List Int) :
    WritesOnly (fun o => s ≤ o / op.data_reshape_.getD 2 0 ∧ o / op.data_reshape_.getD 2 0 < e) output
      (Reduce3DimsSecondFn op input type s e step output) := by
  unfold Reduce3DimsSecondFn
  cases type with
  | OTHER => exact absurd rfl ht
  | MEAN =>
    refine forStep_rows_writes (op.data_reshape_.getD 2 0) _ (fun i j => ?_) _ _ _ hstep _
    simp only [loop_addAt input]
    exact isCellUpdate_divAt_addAt _ _ _
  | SUM =>
    refine forStep_rows_writes (op.data_reshape_.getD 2 0) _ (fun i j => ?_) _ _ _ hstep _
    show IsCellUpdate _ (fun out => forRange _ _ _ out)
    simp only [loop_addAt input]
    exact isCellUpdate_addAt _ _
  | MIN =>
    exact forStep_rows_writes (op.data_reshape_.getD 2 0) _ (fun i j => isCellUpdate_set _ _)
      _ _ _ hstep _
  | MAX =>
    exact forStep_rows_writes (op.data_reshape_.getD 2 0) _ (fun i j => isCellUpdate_set _ _)
      _ _ _ hstep _
  | PROD =>
    exact forStep_rows_writes (op.data_reshape_.getD 2 0) _ (fun i j => isCellUpdate_set _ _)
      _ _ _ hstep _

theorem Reduce4DimsFirstFn_writes (op : ReduceOp) (input : List Int) (type : ReduceType)
    (ht : type ≠ ReduceType.OTHER) (s0 e0 st0 s1 e1 st1 : Nat) (h0 : 1 ≤ st0) (h1 : 1 ≤ st1)
    (hB : e1 ≤ op.data_reshape_.getD 3 0) (output : List Int) :
    WritesOnly (fun o => (s0 ≤ o / op.data_reshape_.getD 3 0
          ∧ o / op.data_reshape_.getD 3 0 < e0)
        ∧ (s1 ≤ o % op.data_reshape_.getD 3 0 ∧ o % op.data_reshape_.getD 3 0 < e1))
      output (Reduce4DimsFirstFn op input type s0 e0 st0 s1 e1 st1 output) := by
  unfold Reduce4DimsFirstFn
  cases type with
  | OTHER => exact absurd rfl ht
  | MEAN =>
    refine forStep2_cells_writes (op.data_reshape_.getD 3 0) _ (fun i j => ?_)
      _ _ _ _ _ _ h0 h1 hB _
    simp only [loop_addAt_nested input]
    exact isCellUpdate_divAt_addAt _ _ _
  | SUM =>
    refine forStep2_cells_writes (op.data_reshape_.getD 3 0) _ (fun i j => ?_)
      _ _ _ _ _ _ h0 h1 hB _
    show IsCellUpdate _ (fun out => forRange _ _ _ out)
    simp only [loop_addAt_nested input]
    exact isCellUpdate_addAt _ _
  | MIN =>
    exact forStep2_cells_writes (op.data_reshape_.getD 3 0) _
      (fun i j => isCellUpdate_set _ _) _ _ _ _ _ _ h0 h1 hB _
  | MAX =>
    exact forStep2_cells_writes (op.data_reshape_.getD 3 0) _
      (fun i j => isCellUpdate_set _ _) _ _ _ _ _ _ h0 h1 hB _
  | PROD =>
    exact forStep2_cells_writes (op.data_reshape_.getD 3 0) _
      (fun i j => isCellUpdate_set _ _) _ _ _ _ _ _ h0 h1 hB _

theorem Reduce4DimsSecondFn_writes (op : ReduceOp) (input : List Int) (type : ReduceType)
    (ht : type ≠ ReduceType.OTHER) (s0 e0 st0 s1 e1 st1 : Nat) (h0 : 1 ≤ st0) (h1 : 1 ≤ st1)
    (hB : e1 ≤ op.data_reshape_.getD 2 0) (output : List Int) :
    WritesOnly (fun o => (s0 ≤ o / op.data_reshape_.getD 2 0
          ∧ o / op.data_reshape_.getD 2 0 < e0)
        ∧ (s1 ≤ o % op.data_reshape_.getD 2 0 ∧ o % op.data_reshape_.getD 2 0 < e1))
      output (Reduce4DimsSecondFn op input type s0 e0 st0 s1 e1 st1 output) := by
  unfold Reduce4DimsSecondFn
  cases type with
  | OTHER => exact absurd rfl ht
  | MEAN =>
    refine forStep2_cells_writes (op.data_reshape_.getD 2 0) _ (fun i j => ?_)
      _ _ _ _ _ _ h0 h1 hB _
    simp only [loop_addAt_nested input]
    exact isCellUpdate_divAt_addAt _ _ _
  | SUM =>
    refine forStep2_cells_writes (op.data_reshape_.getD 2 0) _ (fun i j => ?_)
      _ _ _ _ _ _ h0 h1 hB _
    show IsCellUpdate _ (fun out => forRange _ _ _ out)
    simp only [loop_addAt_nested input]
    exact isCellUpdate_addAt _ _
  | MIN =>
    exact forStep2_cells_writes (op.data_reshape_.getD 2 0) _
      (fun i j => isCellUpdate_set _ _) _ _ _ _ _ _ h0 h1 hB _
  | MAX =>
    exact forStep2_cells_writes (op.data_reshape_.getD 2 0) _
      (fun i j => isCellUpdate_set _ _) _ _ _ _ _ _ h0 h1 hB _
  | PROD =>
    exact forStep2_cells_writes (op.data_reshape_.getD 2 0) _
      (fun i j => isCellUpdate_set _ _) _ _ _ _ _ _ h0 h1 hB _


/-- C28: in each rank-2, rank-3 and rank-4 CPU reduction kernel and for each
of the five reduce types, a partition callback invoked on the outer range
`[start, end)`, or on the tile `[start0, end0) x [start1, end1)` of the outer
index space, with positive steps, returns a buffer of the same size in which
every element whose outer index lies outside that range or tile is unchanged.
The outer index of the output element `o` is `o` itself in the rank-2 kernels
and in the rank-3 kernel with `reduce_first_axis_`, the row `o / d2` in the
other rank-3 kernel, and the pair `(o / B, o % B)` in the rank-4 kernels
(`B = d3` with `reduce_first_axis_`, `B = d2` without). Hence of two callbacks
started on the same buffer with disjoint sets of outer indices, at most one
changes any given element. -/
theorem callback_writes_own_range (op : ReduceOp) (input : List Int) (type : ReduceType)
    (ht : type ≠ ReduceType.OTHER) (output : List Int) :
    (∀ s e step, 1 ≤ step →
      WritesOnly (fun o => s ≤ o ∧ o < e) output
        (Reduce2DimsFirstFn op input type s e step output)) ∧
    (∀ s e step, 1 ≤ step →
      WritesOnly (fun o => s ≤ o ∧ o < e) output
        (Reduce2DimsSecondFn op input type s e step output)) ∧
    (∀ s e step, 1 ≤ step →
      WritesOnly (fun o => s ≤ o ∧ o < e) output
        (Reduce3DimsFirstFn op input type s e step output)) ∧
    (∀ s e step, 1 ≤ step →
      WritesOnly (fun o => s ≤ o / op.data_reshape_.getD 2 0
          ∧ o / op.data_reshape_.getD 2 0 < e) output
        (Reduce3DimsSecondFn op input type s e step output)) ∧
    (∀ s0 e0 st0 s1 e1 st1, 1 ≤ st0 → 1 ≤ st1 → e1 ≤ op.data_reshape_.getD 3 0 →
      WritesOnly (fun o => (s0 ≤ o / op.data_reshape_.getD 3 0
            ∧ o / op.data_reshape_.getD 3 0 < e0)
          ∧ (s1 ≤ o % op.data_reshape_.getD 3 0 ∧ o % op.data_reshape_.getD 3 0 < e1))
        output (Reduce4DimsFirstFn op input type s0 e0 st0 s1 e1 st1 output)) ∧
    (∀ s0 e0 st0 s1 e1 st1, 1 ≤ st0 → 1 ≤ st1 → e1 ≤ op.data_reshape_.getD 2 0 →
      WritesOnly (fun o => (s0 ≤ o / op.data_reshape_.getD 2 0
            ∧ o / op.data_reshape_.getD 2 0 < e0)
          ∧ (s1 ≤ o % op.data_reshape_.getD 2 0 ∧ o % op.data_reshape_.getD 2 0 < e1))
        output (Reduce4DimsSecondFn op input type s0 e0 st0 s1 e1 st1 output)) ∧
    (∀ (S1 S2 : Nat → Prop) (r1 r2 : Except String (List Int)),
      WritesOnly S1 output r1 → WritesOnly S2 output r2 → (∀ o, ¬ (S1 o ∧ S2 o)) →
      ∃ out1 out2, r1 = Except.ok out1 ∧ r2 = Except.ok out2 ∧
        ∀ o, out1.getD o 0 = output.getD o 0 ∨ out2.getD o 0 = output.getD o 0) :=
  ⟨fun s e step h => Reduce2DimsFirstFn_writes op input type ht s e step h output,
   fun s e step h => Reduce2DimsSecondFn_writes op input type ht s e step h output,
   fun s e step h => Reduce3DimsFirstFn_writes op input type ht s e step h output,
   fun s e step h => Reduce3DimsSecondFn_writes op input type ht s e step h output,
   fun s0 e0 st0 s1 e1 st1 h0 h1 hB =>
     Reduce4DimsFirstFn_writes op input type ht s0 e0 st0 s1 e1 st1 h0 h1 hB output,
   fun s0 e0 st0 s1 e1 st1 h0 h1 hB =>
     Reduce4DimsSecondFn_writes op input type ht s0 e0 st0 s1 e1 st1 h0 h1 hB output,
   fun S1 S2 r1 r2 h1 h2 hd => WritesOnly_disjoint S1 S2 output r1 r2 h1 h2 hd⟩

theorem callback_writes_own_range_witness :
    WritesOnly (fun o => (1 ≤ o / 3 ∧ o / 3 < 2) ∧ (0 ≤ o % 3 ∧ o % 3 < 2))
      [7, 7, 7, 7, 7, 7]
      (Reduce4DimsFirstFn (Simplify (mkOp ReduceType.SUM [0, 2] false 0 false) [2, 2, 2, 3])
        [1, 2, 3, 4, 5, 6, 7, 8, 9, 10, 11, 12, 13, 14, 15, 16, 17, 18, 19, 20, 21, 22, 23, 24]
        ReduceType.SUM 1 2 1 0 2 1 [7, 7, 7, 7, 7, 7]) :=
  (callback_writes_own_range (Simplify (mkOp ReduceType.SUM [0, 2] false 0 false) [2, 2, 2, 3])
    [1, 2, 3, 4, 5, 6, 7, 8, 9, 10, 11, 12, 13, 14, 15, 16, 17, 18, 19, 20, 21, 22, 23, 24]
    ReduceType.SUM (by decide) [7, 7, 7, 7, 7, 7]).2.2.2.2.1 1 2 1 0 2 1
    (by decide) (by decide) (by decide)


/-! ### The kernel cache of the OpenCL convolutions -/

theorem Conv2dK1x1_phases (kBase : Nat) (a : ConvArgs) (st : GpuKernelState) :
    Conv2dK1x1 kBase a st
      = if st.kernel = none ∧ a.input_shape.getD 0 0 ≠ a.output_shape.getD 0 0 then
          some (Except.error "Check failed: input_batch == batch", st, [])
        else
          match buildIfNull "conv_2d_1x1" a st with
          | (Except.error e, st1, calls1) => some (Except.error e, st1, calls1)
          | (Except.ok _, st1, calls1) =>
            bindAndLaunch
              (Conv2dK1x1.LocalWS kBase a.device.executor
                [toU32 (RoundUpDiv4 (a.output_shape.getD 3 0)),
                  toU32 (RoundUpDiv4 (a.output_shape.getD 2 0)),
                  toU32 (a.output_shape.getD 1 0 * a.output_shape.getD 0 0)])
              a
              [toU32 (RoundUpDiv4 (a.output_shape.getD 3 0)),
                toU32 (RoundUpDiv4 (a.output_shape.getD 2 0)),
                toU32 (a.output_shape.getD 1 0 * a.output_shape.getD 0 0)]
              [(a.input_shape.getD 1 0 : Int), (a.input_shape.getD 2 0 : Int),
                (RoundUpDiv4 (a.input_shape.getD 3 0) : Int), (a.output_shape.getD 1 0 : Int),
                (a.output_shape.getD 2 0 : Int), a.stride_h, a.stride_w]
              st1 calls1 := by
  rfl

theorem Conv2dK3x3_phases (kBase : Nat) (a : ConvArgs) (st : GpuKernelState) :
    Conv2dK3x3 kBase a st
      = match buildIfNull "conv_2d_3x3" a st with
        | (Except.error e, st1, calls1) => some (Except.error e, st1, calls1)
        | (Except.ok _, st1, calls1) =>
          bindAndLaunch
            (Conv2dK3x3.LocalWS kBase a.device.executor
              [toU32 (RoundUpDiv4 (a.output_shape.getD 3 0)),
                toU32 (RoundUpDiv5 (a.output_shape.getD 2 0)),
                toU32 (a.output_shape.getD 1 0 * a.output_shape.getD 0 0)])
            a
            [toU32 (RoundUpDiv4 (a.output_shape.getD 3 0)),
              toU32 (RoundUpDiv5 (a.output_shape.getD 2 0)),
              toU32 (a.output_shape.getD 1 0 * a.output_shape.getD 0 0)]
            [(a.input_shape.getD 1 0 : Int), (a.input_shape.getD 2 0 : Int),
              (RoundUpDiv4 (a.input_shape.getD 3 0) : Int), (a.output_shape.getD 1 0 : Int),
              (a.output_shape.getD 2 0 : Int), a.stride_h, a.stride_w,
              (a.padding.getD 0 0).tdiv 2, (a.padding.getD 1 0).tdiv 2,
              a.dilations.getD 0 0, a.dilations.getD 1 0]
            st1 calls1 := by
  rfl


theorem buildIfNull_built (program : String) (a : ConvArgs) (st : GpuKernelState)
    (hk : st.kernel ≠ none) : buildIfNull program a st = (Except.ok (), st, []) := by
  unfold buildIfNull
  rw [if_neg hk]

theorem buildIfNull_ok (program : String) (a : ConvArgs) (st : GpuKernelState)
    (hk : st.kernel = none) (handle : Nat) (hb : a.device.BuildKernel = Except.ok handle) :
    buildIfNull program a st
      = (Except.ok (),
          { st with kernel := some handle,
                    kwg_size := toU32 a.device.GetKernelMaxWorkGroupSize },
          [GpuCall.BuildKernel program a.bias, GpuCall.GetKernelMaxWorkGroupSize]) := by
  unfold buildIfNull
  rw [if_pos hk, hb]

theorem buildIfNull_error (program : String) (a : ConvArgs) (st : GpuKernelState)
    (hk : st.kernel = none) (e : String) (hb : a.device.BuildKernel = Except.error e) :
    buildIfNull program a st = (Except.error e, st, [GpuCall.BuildKernel program a.bias]) := by
  unfold buildIfNull
  rw [if_pos hk, hb]

/-- The phase after the build, when it returns: the cached shape is the current
input shape, and the calls are the binding block, if the shapes differed,
followed by the launch. -/
theorem bindAndLaunch_some (lwsOf : Nat → Option (List Nat)) (a : ConvArgs) (gws : List Nat)
    (args : List Int) (st1 : GpuKernelState) (calls1 : List GpuCall)
    (r : Except String Unit × GpuKernelState × List GpuCall)
    (h : bindAndLaunch lwsOf a gws args st1 calls1 = some r) :
    r.2.1 = { st1 with prev_input_shape := a.input_shape } ∧
      ∃ lws, lwsOf st1.kwg_size = some lws ∧
        r.2.2 = calls1
          ++ (if st1.prev_input_shape ≠ a.input_shape then [GpuCall.SetArgs gws args] else [])
          ++ [GpuCall.TuningOrRun3DKernel a.output_shape gws lws] := by
  unfold bindAndLaunch IsResetArgsNeeded at h
  by_cases hs : st1.prev_input_shape ≠ a.input_shape
  · have hdec : decide (st1.prev_input_shape ≠ a.input_shape) = true := decide_eq_true hs
    simp only [if_pos hdec] at h
    rw [if_pos hs]
    rcases hl : lwsOf st1.kwg_size with _ | lws
    · rw [hl] at h; cases h
    · rw [hl] at h
      refine ⟨?_, lws, rfl, ?_⟩
      · cases ht : a.device.TuningOrRun3DKernel <;> rw [ht] at h <;> cases h <;> rfl
      · cases ht : a.device.TuningOrRun3DKernel <;> rw [ht] at h <;> cases h <;> rfl
  · have hdec : ¬ (decide (st1.prev_input_shape ≠ a.input_shape) = true) := by
      intro hd; exact hs (of_decide_eq_true hd)
    simp only [if_neg hdec] at h
    rw [if_neg hs]
    have heq : st1.prev_input_shape = a.input_shape := not_not.mp hs
    rcases hl : lwsOf st1.kwg_size with _ | lws
    · rw [hl] at h; cases h
    · rw [hl] at h
      refine ⟨?_, lws, rfl, ?_⟩
      · cases ht : a.device.TuningOrRun3DKernel <;> rw [ht] at h <;> cases h <;>
          simp only [← heq]
      · cases ht : a.device.TuningOrRun3DKernel <;> rw [ht] at h <;> cases h <;>
          simp only [List.append_nil]

theorem bindAndLaunch_counts (lwsOf : Nat → Option (List Nat)) (a : ConvArgs)
    (gws : List Nat) (args : List Int) (st1 : GpuKernelState) (calls1 : List GpuCall)
    (r : Except String Unit × GpuKernelState × List GpuCall)
    (h : bindAndLaunch lwsOf a gws args st1 calls1 = some r) :
    r.2.1 = { st1 with prev_input_shape := a.input_shape } ∧
      buildCount r.2.2 = buildCount calls1 ∧ kwgWriteCount r.2.2 = kwgWriteCount calls1 ∧
      bindCount r.2.2
        = bindCount calls1 + (if st1.prev_input_shape ≠ a.input_shape then 1 else 0) := by
  obtain ⟨h1, lws, _, h2⟩ := bindAndLaunch_some lwsOf a gws args st1 calls1 r h
  refine ⟨h1, ?_, ?_, ?_⟩
  · rw [h2]; split_ifs <;> simp [buildCount]
  · rw [h2]; split_ifs <;> simp [kwgWriteCount]
  · rw [h2]; split_ifs <;> simp [bindCount]


/-- One invocation of `Conv2dK1x1` on an instance whose kernel is built. -/
theorem Conv2dK1x1_built (kBase : Nat) (a : ConvArgs) (st : GpuKernelState)
    (r : Except String Unit × GpuKernelState × List GpuCall)
    (hk : st.kernel ≠ none) (h : Conv2dK1x1 kBase a st = some r) :
    r.2.1 = { st with prev_input_shape := a.input_shape } ∧
      buildCount r.2.2 = 0 ∧ kwgWriteCount r.2.2 = 0 ∧
      bindCount r.2.2 = (if st.prev_input_shape ≠ a.input_shape then 1 else 0) := by
  rw [Conv2dK1x1_phases, if_neg (fun hc => hk hc.1), buildIfNull_built _ a st hk] at h
  obtain ⟨h1, h2, h3, h4⟩ := bindAndLaunch_counts _ _ _ _ _ _ r h
  refine ⟨h1, h2, h3, ?_⟩
  rw [h4]
  simp [bindCount]

/-- One invocation of `Conv2dK3x3` on an instance whose kernel is built. -/
theorem Conv2dK3x3_built (kBase : Nat) (a : ConvArgs) (st : GpuKernelState)
    (r : Except String Unit × GpuKernelState × List GpuCall)
    (hk : st.kernel ≠ none) (h : Conv2dK3x3 kBase a st = some r) :
    r.2.1 = { st with prev_input_shape := a.input_shape } ∧
      buildCount r.2.2 = 0 ∧ kwgWriteCount r.2.2 = 0 ∧
      bindCount r.2.2 = (if st.prev_input_shape ≠ a.input_shape then 1 else 0) := by
  rw [Conv2dK3x3_phases, buildIfNull_built _ a st hk] at h
  obtain ⟨h1, h2, h3, h4⟩ := bindAndLaunch_counts _ _ _ _ _ _ r h
  refine ⟨h1, h2, h3, ?_⟩
  rw [h4]
  simp [bindCount]

/-- The invocation of `Conv2dK1x1` that builds the kernel. -/
theorem Conv2dK1x1_first (kBase : Nat) (a : ConvArgs) (st : GpuKernelState)
    (r : Except String Unit × GpuKernelState × List GpuCall)
    (hk : st.kernel = none) (hbatch : a.input_shape.getD 0 0 = a.output_shape.getD 0 0)
    (handle : Nat) (hb : a.device.BuildKernel = Except.ok handle)
    (h : Conv2dK1x1 kBase a st = some r) :
    r.2.1 = { kernel := some handle, prev_input_shape := a.input_shape,
              kwg_size := toU32 a.device.GetKernelMaxWorkGroupSize } ∧
      buildCount r.2.2 = 1 ∧ kwgWriteCount r.2.2 = 1 ∧
      bindCount r.2.2 = (if st.prev_input_shape ≠ a.input_shape then 1 else 0) := by
  rw [Conv2dK1x1_phases, if_neg (fun hc => hc.2 hbatch), buildIfNull_ok _ a st hk handle hb]
    at h
  obtain ⟨h1, h2, h3, h4⟩ := bindAndLaunch_counts _ _ _ _ _ _ r h
  refine ⟨h1, ?_, ?_, ?_⟩
  · rw [h2]; simp [buildCount]
  · rw [h3]; simp [kwgWriteCount]
  · rw [h4]; simp [bindCount]

/-- The invocation of `Conv2dK3x3` that builds the kernel. -/
theorem Conv2dK3x3_first (kBase : Nat) (a : ConvArgs) (st : GpuKernelState)
    (r : Except String Unit × GpuKernelState × List GpuCall)
    (hk : st.kernel = none)
    (handle : Nat) (hb : a.device.BuildKernel = Except.ok handle)
    (h : Conv2dK3x3 kBase a st = some r) :
    r.2.1 = { kernel := some handle, prev_input_shape := a.input_shape,
              kwg_size := toU32 a.device.GetKernelMaxWorkGroupSize } ∧
      buildCount r.2.2 = 1 ∧ kwgWriteCount r.2.2 = 1 ∧
      bindCount r.2.2 = (if st.prev_input_shape ≠ a.input_shape then 1 else 0) := by
  rw [Conv2dK3x3_phases, buildIfNull_ok _ a st hk handle hb] at h
  obtain ⟨h1, h2, h3, h4⟩ := bindAndLaunch_counts _ _ _ _ _ _ r h
  refine ⟨h1, ?_, ?_, ?_⟩
  · rw [h2]; simp [buildCount]
  · rw [h3]; simp [kwgWriteCount]
  · rw [h4]; simp [bindCount]

/-- An invocation that does not get past the build leaves the state as it was
and binds nothing. -/
theorem Conv2dK1x1_not_built (kBase : Nat) (a : ConvArgs) (st : GpuKernelState)
    (hk : st.kernel = none)
    (hfail : a.input_shape.getD 0 0 ≠ a.output_shape.getD 0 0
      ∨ ∃ e, a.device.BuildKernel = Except.error e) :
    ∃ e calls, Conv2dK1x1 kBase a st = some (Except.error e, st, calls) ∧
      bindCount calls = 0 ∧ kwgWriteCount calls = 0 := by
  rw [Conv2dK1x1_phases]
  by_cases hb : a.input_shape.getD 0 0 ≠ a.output_shape.getD 0 0
  · rw [if_pos ⟨hk, hb⟩]
    exact ⟨_, _, rfl, rfl, rfl⟩
  · rw [if_neg (fun hc => hb hc.2)]
    rcases hfail with h | ⟨e, he⟩
    · exact absurd h hb
    · rw [buildIfNull_error _ a st hk e he]
      exact ⟨_, _, rfl, rfl, rfl⟩

theorem Conv2dK3x3_not_built (kBase : Nat) (a : ConvArgs) (st : GpuKernelState)
    (hk : st.kernel = none) (e : String) (he : a.device.BuildKernel = Except.error e) :
    ∃ calls, Conv2dK3x3 kBase a st = some (Except.error e, st, calls) ∧
      bindCount calls = 0 ∧ kwgWriteCount calls = 0 := by
  rw [Conv2dK3x3_phases, buildIfNull_error _ a st hk e he]
  exact ⟨_, rfl, rfl, rfl⟩


theorem invokeAll_cons_some
    (invoke : ConvArgs → GpuKernelState →
      Option (Except String Unit × GpuKernelState × List GpuCall))
    (a : ConvArgs) (rest : List ConvArgs) (st : GpuKernelState)
    (rs : List (Except String Unit × GpuKernelState × List GpuCall))
    (h : invokeAll invoke (a :: rest) st = some rs) :
    ∃ r rs2, invoke a st = some r ∧ invokeAll invoke rest r.2.1 = some rs2 ∧ rs = r :: rs2 := by
  simp only [invokeAll] at h
  rcases hr : invoke a st with _ | r
  · rw [hr] at h; exact absurd h (by simp)
  · rw [hr] at h
    simp only at h
    rcases hrs : invokeAll invoke rest r.2.1 with _ | rs2
    · rw [hrs] at h; exact absurd h (by simp)
    · rw [hrs] at h
      simp only [Option.some.injEq] at h
      exact ⟨r, rs2, rfl, hrs, h.symm⟩

/-- Successive invocations return when every single one does, along an
invariant of the state. -/
theorem invokeAll_returns
    (invoke : ConvArgs → GpuKernelState →
      Option (Except String Unit × GpuKernelState × List GpuCall))
    (I : GpuKernelState → Prop) (P : ConvArgs → Prop)
    (hstep : ∀ a st, P a → I st → ∃ r, invoke a st = some r ∧ I r.2.1) :
    ∀ (l : List ConvArgs) (st : GpuKernelState), (∀ a ∈ l, P a) → I st →
      ∃ rs, invokeAll invoke l st = some rs := by
  intro l
  induction l with
  | nil => intro st _ _; exact ⟨[], rfl⟩
  | cons a rest ih =>
    intro st hP hI
    obtain ⟨r, hr, hI2⟩ := hstep a st (hP a (List.mem_cons_self _ _)) hI
    obtain ⟨rs, hrs⟩ := ih r.2.1 (fun b hb => hP b (List.mem_cons_of_mem _ hb)) hI2
    refine ⟨r :: rs, ?_⟩
    simp only [invokeAll, hr, hrs]

theorem bindAndLaunch_returns (lwsOf : Nat → Option (List Nat)) (a : ConvArgs)
    (gws : List Nat) (args : List Int) (st1 : GpuKernelState) (calls1 : List GpuCall)
    (h : ∃ lws, lwsOf st1.kwg_size = some lws) :
    ∃ r, bindAndLaunch lwsOf a gws args st1 calls1 = some r ∧
      r.2.1.kwg_size = st1.kwg_size := by
  obtain ⟨lws, hl⟩ := h
  unfold bindAndLaunch
  by_cases hs : IsResetArgsNeeded st1.prev_input_shape a.input_shape = true
  · simp only [if_pos hs, hl]
    rcases a.device.TuningOrRun3DKernel with e | u
    · exact ⟨_, rfl, rfl⟩
    · exact ⟨_, rfl, rfl⟩
  · simp only [if_neg hs, hl]
    rcases a.device.TuningOrRun3DKernel with e | u
    · exact ⟨_, rfl, rfl⟩
    · exact ⟨_, rfl, rfl⟩

theorem toU32_lt (x : Nat) : toU32 x < 4294967296 := by
  unfold toU32
  omega

theorem buildIfNull_cases (program : String) (a : ConvArgs) (st : GpuKernelState)
    (h32 : st.kwg_size < 4294967296) :
    (∃ e calls, buildIfNull program a st = (Except.error e, st, calls)) ∨
    (∃ st1 calls, buildIfNull program a st = (Except.ok (), st1, calls) ∧
      st1.kwg_size < 4294967296) := by
  unfold buildIfNull
  by_cases hk : st.kernel = none
  · rw [if_pos hk]
    rcases a.device.BuildKernel with e | handle
    · exact Or.inl ⟨_, _, rfl⟩
    · exact Or.inr ⟨_, _, rfl, toU32_lt _⟩
  · rw [if_neg hk]
    exact Or.inr ⟨_, _, rfl, h32⟩

/-- `Conv2dK1x1` returns whenever the output has at least one channel block and
one width block, the device has a compute unit and the cache constant is
positive. -/
theorem Conv2dK1x1_returns (kBase : Nat) (a : ConvArgs) (st : GpuKernelState)
    (hk : 1 ≤ kBase)
    (hc : 1 ≤ toU32 (RoundUpDiv4 (a.output_shape.getD 3 0)))
    (hw : 1 ≤ toU32 (RoundUpDiv4 (a.output_shape.getD 2 0)))
    (hcu : 1 ≤ a.device.executor.device_compute_units)
    (h32 : st.kwg_size < 4294967296) :
    ∃ r, Conv2dK1x1 kBase a st = some r ∧ r.2.1.kwg_size < 4294967296 := by
  rw [Conv2dK1x1_phases]
  split
  · exact ⟨_, rfl, h32⟩
  · rcases buildIfNull_cases "conv_2d_1x1" a st h32 with ⟨e, calls, hb⟩ | ⟨st1, calls, hb, h1⟩
    · rw [hb]; exact ⟨_, rfl, h32⟩
    · rw [hb]
      have hl : ∃ lws, Conv2dK1x1.LocalWS kBase a.device.executor
          [toU32 (RoundUpDiv4 (a.output_shape.getD 3 0)),
            toU32 (RoundUpDiv4 (a.output_shape.getD 2 0)),
            toU32 (a.output_shape.getD 1 0 * a.output_shape.getD 0 0)] st1.kwg_size
            = some lws := by
        by_cases h0 : st1.kwg_size = 0
        · rw [h0]; exact ⟨_, rfl⟩
        · obtain ⟨l0, l1, l2, h, _⟩ := Conv2dK1x1_LocalWS_bounds kBase a.device.executor
            [toU32 (RoundUpDiv4 (a.output_shape.getD 3 0)),
              toU32 (RoundUpDiv4 (a.output_shape.getD 2 0)),
              toU32 (a.output_shape.getD 1 0 * a.output_shape.getD 0 0)] st1.kwg_size
            hk hc hw (by omega) h1 hcu
          exact ⟨_, h⟩
      obtain ⟨r, hr, hkw⟩ := bindAndLaunch_returns _ a _ _ st1 calls hl
      exact ⟨r, hr, by rw [hkw]; exact h1⟩

/-- `Conv2dK3x3` returns whenever the output has at least one channel block and
one width block and the cache constant is positive. -/
theorem Conv2dK3x3_returns (kBase : Nat) (a : ConvArgs) (st : GpuKernelState)
    (hk : 1 ≤ kBase)
    (hc : 1 ≤ toU32 (RoundUpDiv4 (a.output_shape.getD 3 0)))
    (hw : 1 ≤ toU32 (RoundUpDiv5 (a.output_shape.getD 2 0)))
    (h32 : st.kwg_size < 4294967296) :
    ∃ r, Conv2dK3x3 kBase a st = some r ∧ r.2.1.kwg_size < 4294967296 := by
  rw [Conv2dK3x3_phases]
  rcases buildIfNull_cases "conv_2d_3x3" a st h32 with ⟨e, calls, hb⟩ | ⟨st1, calls, hb, h1⟩
  · rw [hb]; exact ⟨_, rfl, h32⟩
  · rw [hb]
    have hl : ∃ lws, Conv2dK3x3.LocalWS kBase a.device.executor
        [toU32 (RoundUpDiv4 (a.output_shape.getD 3 0)),
          toU32 (RoundUpDiv5 (a.output_shape.getD 2 0)),
          toU32 (a.output_shape.getD 1 0 * a.output_shape.getD 0 0)] st1.kwg_size
          = some lws := by
      by_cases h0 : st1.kwg_size = 0
      · rw [h0]; exact ⟨_, rfl⟩
      · obtain ⟨l0, l1, l2, h, _⟩ := Conv2dK3x3_LocalWS_bounds kBase a.device.executor
          [toU32 (RoundUpDiv4 (a.output_shape.getD 3 0)),
            toU32 (RoundUpDiv5 (a.output_shape.getD 2 0)),
            toU32 (a.output_shape.getD 1 0 * a.output_shape.getD 0 0)] st1.kwg_size
          hk hc hw (by omega) h1
        exact ⟨_, h⟩
    obtain ⟨r, hr, hkw⟩ := bindAndLaunch_returns _ a _ _ st1 calls hl
    exact ⟨r, hr, by rw [hkw]; exact h1⟩


/-- Invocations on an instance whose kernel is built: no build, no write of
`*kwg_size`, and the handle and `*kwg_size` stay as they are. -/
theorem invokeAll_Conv2dK1x1_built (kBase : Nat) :
    ∀ (l : List ConvArgs) (st : GpuKernelState)
      (rs : List (Except String Unit × GpuKernelState × List GpuCall)),
      st.kernel ≠ none → invokeAll (Conv2dK1x1 kBase) l st = some rs →
      ∀ x ∈ rs, buildCount x.2.2 = 0 ∧ kwgWriteCount x.2.2 = 0 ∧
        x.2.1.kernel = st.kernel ∧ x.2.1.kwg_size = st.kwg_size := by
  intro l
  induction l with
  | nil =>
    intro st rs _ h x hx
    simp only [invokeAll, Option.some.injEq] at h
    rw [← h] at hx
    exact absurd hx (List.not_mem_nil _)
  | cons a rest ih =>
    intro st rs hk h x hx
    obtain ⟨r, rs2, hr, hrs, rfl⟩ := invokeAll_cons_some _ a rest st rs h
    obtain ⟨h1, h2, h3, _⟩ := Conv2dK1x1_built kBase a st r hk hr
    have hk1 : r.2.1.kernel = st.kernel := by rw [h1]
    have hw1 : r.2.1.kwg_size = st.kwg_size := by rw [h1]
    rcases List.mem_cons.mp hx with rfl | hx
    · exact ⟨h2, h3, hk1, hw1⟩
    · obtain ⟨g1, g2, g3, g4⟩ := ih r.2.1 rs2 (by rw [hk1]; exact hk) hrs x hx
      exact ⟨g1, g2, g3.trans hk1, g4.trans hw1⟩

/-- The binding steps of three successive invocations with input shapes
`A, A, B`, for an invocation function that behaves like the two convolutions
once the kernel is built. -/
theorem rebind_scenario
    (invoke : ConvArgs → GpuKernelState →
      Option (Except String Unit × GpuKernelState × List GpuCall))
    (hbuilt : ∀ a st r, st.kernel ≠ none → invoke a st = some r →
      r.2.1 = { st with prev_input_shape := a.input_shape } ∧
      bindCount r.2.2 = (if st.prev_input_shape ≠ a.input_shape then 1 else 0))
    (a1 a2 a3 : ConvArgs) (st0 : GpuKernelState)
    (hfirst : ∀ r, invoke a1 st0 = some r →
      r.2.1.kernel ≠ none ∧ r.2.1.prev_input_shape = a1.input_shape ∧ bindCount r.2.2 = 1)
    (h12 : a2.input_shape = a1.input_shape) (h13 : a3.input_shape ≠ a1.input_shape)
    (rs : List (Except String Unit × GpuKernelState × List GpuCall))
    (h : invokeAll invoke [a1, a2, a3] st0 = some rs) :
    rs.map (fun r => bindCount r.2.2) = [1, 0, 1] := by
  obtain ⟨r1, rs1, hr1, g1, e1⟩ := invokeAll_cons_some _ _ _ _ _ h
  obtain ⟨r2, rs2, hr2, g2, e2⟩ := invokeAll_cons_some _ _ _ _ _ g1
  obtain ⟨r3, rs3, hr3, g3, e3⟩ := invokeAll_cons_some _ _ _ _ _ g2
  simp only [invokeAll, Option.some.injEq] at g3
  rw [e1, e2, e3, ← g3]
  obtain ⟨k1, p1, b1⟩ := hfirst r1 hr1
  obtain ⟨s2, b2⟩ := hbuilt a2 r1.2.1 r2 k1 hr2
  have k2 : r2.2.1.kernel ≠ none := by rw [s2]; exact k1
  have p2 : r2.2.1.prev_input_shape = a2.input_shape := by rw [s2]
  obtain ⟨_, b3⟩ := hbuilt a3 r2.2.1 r3 k2 hr3
  rw [p1, if_neg (fun hc => hc h12.symm)] at b2
  rw [p2, h12, if_pos (fun hc => h13 hc.symm)] at b3
  simp only [List.map_cons, List.map_nil, b1, b2, b3]

/-- C24: across successive invocations of `Conv2dK1x1`, and likewise of
`Conv2dK3x3`, on one operator instance, with the reset-needed test being the
inequality of the cached previous input shape and the current input shape: an
invocation that gets to the test (the kernel is built already, or it builds it
in this invocation) binds the kernel arguments exactly when the two shapes
differ, once, and leaves the current input shape as the cached one. Hence,
starting from a fresh instance (null handle, no cached shape), invocations
with input shapes `A, A, B`, `A != B`, run the binding step on the first and
on the third invocation and not on the second; and the three invocations do
return when the divisors of `LocalWS` are non-zero. -/
theorem conv_rebind_iff_shape_differs (kBase : Nat) (a1 a2 a3 : ConvArgs)
    (st0 : GpuKernelState) (handle : Nat)
    (hnull : st0.kernel = none) (hprev : st0.prev_input_shape = [])
    (hA : a1.input_shape ≠ []) (h12 : a2.input_shape = a1.input_shape)
    (h13 : a3.input_shape ≠ a1.input_shape)
    (hb : a1.device.BuildKernel = Except.ok handle) :
    (∀ a st r,
      (st.kernel ≠ none ∨ (a.input_shape.getD 0 0 = a.output_shape.getD 0 0 ∧
        ∃ k, a.device.BuildKernel = Except.ok k)) →
      Conv2dK1x1 kBase a st = some r →
      bindCount r.2.2 = (if st.prev_input_shape ≠ a.input_shape then 1 else 0) ∧
        r.2.1.prev_input_shape = a.input_shape) ∧
    (∀ a st r,
      (st.kernel ≠ none ∨ ∃ k, a.device.BuildKernel = Except.ok k) →
      Conv2dK3x3 kBase a st = some r →
      bindCount r.2.2 = (if st.prev_input_shape ≠ a.input_shape then 1 else 0) ∧
        r.2.1.prev_input_shape = a.input_shape) ∧
    (a1.input_shape.getD 0 0 = a1.output_shape.getD 0 0 →
      ∀ rs, invokeAll (Conv2dK1x1 kBase) [a1, a2, a3] st0 = some rs →
        rs.map (fun r => bindCount r.2.2) = [1, 0, 1]) ∧
    (∀ rs, invokeAll (Conv2dK3x3 kBase) [a1, a2, a3] st0 = some rs →
      rs.map (fun r => bindCount r.2.2) = [1, 0, 1]) ∧
    (1 ≤ kBase → st0.kwg_size < 4294967296 →
      ((∀ a ∈ [a1, a2, a3], 1 ≤ toU32 (RoundUpDiv4 (a.output_shape.getD 3 0)) ∧
          1 ≤ toU32 (RoundUpDiv4 (a.output_shape.getD 2 0)) ∧
          1 ≤ a.device.executor.device_compute_units) →
        ∃ rs, invokeAll (Conv2dK1x1 kBase) [a1, a2, a3] st0 = some rs) ∧
      ((∀ a ∈ [a1, a2, a3], 1 ≤ toU32 (RoundUpDiv4 (a.output_shape.getD 3 0)) ∧
          1 ≤ toU32 (RoundUpDiv5 (a.output_shape.getD 2 0))) →
        ∃ rs, invokeAll (Conv2dK3x3 kBase) [a1, a2, a3] st0 = some rs)) := by
  have hne : st0.prev_input_shape ≠ a1.input_shape := by
    rw [hprev]; exact fun hc => hA hc.symm
  refine ⟨?_, ?_, ?_, ?_, ?_⟩
  · intro a st r hreach hr
    by_cases hk : st.kernel = none
    · rcases hreach with h | ⟨hbatch, k, hbk⟩
      · exact absurd hk h
      · obtain ⟨h1, _, _, h4⟩ := Conv2dK1x1_first kBase a st r hk hbatch k hbk hr
        exact ⟨h4, by rw [h1]⟩
    · obtain ⟨h1, _, _, h4⟩ := Conv2dK1x1_built kBase a st r hk hr
      exact ⟨h4, by rw [h1]⟩
  · intro a st r hreach hr
    by_cases hk : st.kernel = none
    · rcases hreach with h | ⟨k, hbk⟩
      · exact absurd hk h
      · obtain ⟨h1, _, _, h4⟩ := Conv2dK3x3_first kBase a st r hk k hbk hr
        exact ⟨h4, by rw [h1]⟩
    · obtain ⟨h1, _, _, h4⟩ := Conv2dK3x3_built kBase a st r hk hr
      exact ⟨h4, by rw [h1]⟩
  · intro hbatch rs h
    refine rebind_scenario (Conv2dK1x1 kBase) ?_ a1 a2 a3 st0 ?_ h12 h13 rs h
    · intro a st r hk hr
      obtain ⟨h1, _, _, h4⟩ := Conv2dK1x1_built kBase a st r hk hr
      exact ⟨h1, h4⟩
    · intro r hr
      obtain ⟨h1, _, _, h4⟩ := Conv2dK1x1_first kBase a1 st0 r hnull hbatch handle hb hr
      rw [if_pos hne] at h4
      exact ⟨by rw [h1]; simp, by rw [h1], h4⟩
  · intro rs h
    refine rebind_scenario (Conv2dK3x3 kBase) ?_ a1 a2 a3 st0 ?_ h12 h13 rs h
    · intro a st r hk hr
      obtain ⟨h1, _, _, h4⟩ := Conv2dK3x3_built kBase a st r hk hr
      exact ⟨h1, h4⟩
    · intro r hr
      obtain ⟨h1, _, _, h4⟩ := Conv2dK3x3_first kBase a1 st0 r hnull handle hb hr
      rw [if_pos hne] at h4
      exact ⟨by rw [h1]; simp, by rw [h1], h4⟩
  · intro hk h32
    constructor
    · intro hP
      exact invokeAll_returns (Conv2dK1x1 kBase) (fun st => st.kwg_size < 4294967296)
        (fun a => 1 ≤ toU32 (RoundUpDiv4 (a.output_shape.getD 3 0)) ∧
          1 ≤ toU32 (RoundUpDiv4 (a.output_shape.getD 2 0)) ∧
          1 ≤ a.device.executor.device_compute_units)
        (fun a st hPa hI => Conv2dK1x1_returns kBase a st hk hPa.1 hPa.2.1 hPa.2.2 hI)
        [a1, a2, a3] st0 hP h32
    · intro hP
      exact invokeAll_returns (Conv2dK3x3 kBase) (fun st => st.kwg_size < 4294967296)
        (fun a => 1 ≤ toU32 (RoundUpDiv4 (a.output_shape.getD 3 0)) ∧
          1 ≤ toU32 (RoundUpDiv5 (a.output_shape.getD 2 0)))
        (fun a st hPa hI => Conv2dK3x3_returns kBase a st hk hPa.1 hPa.2 hI)
        [a1, a2, a3] st0 hP h32


theorem conv_rebind_iff_shape_differs_witness :
    (∃ rs, invokeAll (Conv2dK1x1 16384)
        [⟨⟨⟨262144, 4⟩, Except.ok 7, 256, Except.ok ()⟩, [1, 8, 8, 16], [1, 8, 8, 32],
            true, 1, 1, [0, 0], [1, 1]⟩,
          ⟨⟨⟨262144, 4⟩, Except.ok 7, 256, Except.ok ()⟩, [1, 8, 8, 16], [1, 8, 8, 32],
            true, 1, 1, [0, 0], [1, 1]⟩,
          ⟨⟨⟨262144, 4⟩, Except.ok 7, 256, Except.ok ()⟩, [1, 4, 4, 16], [1, 4, 4, 32],
            true, 1, 1, [0, 0], [1, 1]⟩] ⟨none, [], 0⟩ = some rs ∧
      rs.map (fun r => bindCount r.2.2) = [1, 0, 1]) ∧
    (∃ rs, invokeAll (Conv2dK3x3 16384)
        [⟨⟨⟨262144, 4⟩, Except.ok 7, 256, Except.ok ()⟩, [1, 8, 8, 16], [1, 8, 8, 32],
            true, 1, 1, [0, 0], [1, 1]⟩,
          ⟨⟨⟨262144, 4⟩, Except.ok 7, 256, Except.ok ()⟩, [1, 8, 8, 16], [1, 8, 8, 32],
            true, 1, 1, [0, 0], [1, 1]⟩,
          ⟨⟨⟨262144, 4⟩, Except.ok 7, 256, Except.ok ()⟩, [1, 4, 4, 16], [1, 4, 4, 32],
            true, 1, 1, [0, 0], [1, 1]⟩] ⟨none, [], 0⟩ = some rs ∧
      rs.map (fun r => bindCount r.2.2) = [1, 0, 1]) := by
  obtain ⟨_, _, h3, h4, h5⟩ := conv_rebind_iff_shape_differs 16384
    ⟨⟨⟨262144, 4⟩, Except.ok 7, 256, Except.ok ()⟩, [1, 8, 8, 16], [1, 8, 8, 32],
      true, 1, 1, [0, 0], [1, 1]⟩
    ⟨⟨⟨262144, 4⟩, Except.ok 7, 256, Except.ok ()⟩, [1, 8, 8, 16], [1, 8, 8, 32],
      true, 1, 1, [0, 0], [1, 1]⟩
    ⟨⟨⟨262144, 4⟩, Except.ok 7, 256, Except.ok ()⟩, [1, 4, 4, 16], [1, 4, 4, 32],
      true, 1, 1, [0, 0], [1, 1]⟩
    ⟨none, [], 0⟩ 7 rfl rfl (by decide) rfl (by decide) rfl
  obtain ⟨t1, t2⟩ := h5 (by decide) (by decide)
  obtain ⟨rs1, hrs1⟩ := t1 (by decide)
  obtain ⟨rs2, hrs2⟩ := t2 (by decide)
  exact ⟨⟨rs1, hrs1, h3 rfl rs1 hrs1⟩, ⟨rs2, hrs2, h4 rs2 hrs2⟩⟩

/-- C25: over any sequence of invocations of `Conv2dK1x1` on one operator
instance that starts with the kernel handle null and in which the kernel build
succeeds: `BuildKernel` is invoked exactly once, on the first invocation, the
cached maximum work-group size `kwg_size` is written on that invocation only,
and the handle and `kwg_size` are the same after every invocation; and the
invocations do return when the divisors of `LocalWS` are non-zero. -/
theorem Conv2dK1x1_builds_once (kBase : Nat) (a : ConvArgs) (rest : List ConvArgs)
    (st0 : GpuKernelState) (handle : Nat)
    (hnull : st0.kernel = none)
    (hbatch : a.input_shape.getD 0 0 = a.output_shape.getD 0 0)
    (hb : a.device.BuildKernel = Except.ok handle) :
    (∀ rs, invokeAll (Conv2dK1x1 kBase) (a :: rest) st0 = some rs →
      ∃ r rs2, rs = r :: rs2 ∧
        buildCount r.2.2 = 1 ∧ kwgWriteCount r.2.2 = 1 ∧
        (∀ x ∈ rs2, buildCount x.2.2 = 0 ∧ kwgWriteCount x.2.2 = 0) ∧
        (rs.map (fun x => buildCount x.2.2)).sum = 1 ∧
        (rs.map (fun x => kwgWriteCount x.2.2)).sum = 1 ∧
        ∀ x ∈ rs, x.2.1.kernel = some handle ∧
          x.2.1.kwg_size = toU32 a.device.GetKernelMaxWorkGroupSize) ∧
    (1 ≤ kBase → st0.kwg_size < 4294967296 →
      (∀ x ∈ a :: rest, 1 ≤ toU32 (RoundUpDiv4 (x.output_shape.getD 3 0)) ∧
        1 ≤ toU32 (RoundUpDiv4 (x.output_shape.getD 2 0)) ∧
        1 ≤ x.device.executor.device_compute_units) →
      ∃ rs, invokeAll (Conv2dK1x1 kBase) (a :: rest) st0 = some rs) := by
  constructor
  · intro rs h
    obtain ⟨r, rs2, hr, hrs, rfl⟩ := invokeAll_cons_some _ a rest st0 rs h
    obtain ⟨h1, h2, h3, _⟩ := Conv2dK1x1_first kBase a st0 r hnull hbatch handle hb hr
    have hk : r.2.1.kernel = some handle := by rw [h1]
    have hw : r.2.1.kwg_size = toU32 a.device.GetKernelMaxWorkGroupSize := by rw [h1]
    have hrest := invokeAll_Conv2dK1x1_built kBase rest r.2.1 rs2 (by rw [hk]; simp) hrs
    refine ⟨r, rs2, rfl, h2, h3, fun x hx => ⟨(hrest x hx).1, (hrest x hx).2.1⟩, ?_, ?_, ?_⟩
    · rw [List.map_cons, List.sum_cons, h2, List.sum_eq_zero, Nat.add_zero]
      intro n hn
      obtain ⟨x, hx, rfl⟩ := List.mem_map.mp hn
      exact (hrest x hx).1
    · rw [List.map_cons, List.sum_cons, h3, List.sum_eq_zero, Nat.add_zero]
      intro n hn
      obtain ⟨x, hx, rfl⟩ := List.mem_map.mp hn
      exact (hrest x hx).2.1
    · intro x hx
      rcases List.mem_cons.mp hx with rfl | hx
      · exact ⟨hk, hw⟩
      · obtain ⟨_, _, g3, g4⟩ := hrest x hx
        exact ⟨g3.trans hk, g4.trans hw⟩
  · intro hk h32 hP
    exact invokeAll_returns (Conv2dK1x1 kBase) (fun st => st.kwg_size < 4294967296)
      (fun x => 1 ≤ toU32 (RoundUpDiv4 (x.output_shape.getD 3 0)) ∧
        1 ≤ toU32 (RoundUpDiv4 (x.output_shape.getD 2 0)) ∧
        1 ≤ x.device.executor.device_compute_units)
      (fun x st hPx hI => Conv2dK1x1_returns kBase x st hk hPx.1 hPx.2.1 hPx.2.2 hI)
      (a :: rest) st0 hP h32

theorem Conv2dK1x1_builds_once_witness :
    ∃ rs, invokeAll (Conv2dK1x1 16384)
        [⟨⟨⟨262144, 4⟩, Except.ok 7, 256, Except.ok ()⟩, [1, 8, 8, 16], [1, 8, 8, 32],
            true, 1, 1, [0, 0], [1, 1]⟩,
          ⟨⟨⟨262144, 4⟩, Except.ok 9, 128, Except.ok ()⟩, [1, 4, 4, 16], [1, 4, 4, 32],
            true, 1, 1, [0, 0], [1, 1]⟩] ⟨none, [], 0⟩ = some rs ∧
      rs.map (fun x => buildCount x.2.2) = [1, 0] ∧
      rs.map (fun x => kwgWriteCount x.2.2) = [1, 0] ∧
      rs.map (fun x => (x.2.1.kernel, x.2.1.kwg_size)) = [(some 7, 256), (some 7, 256)] := by
  obtain ⟨h1, h2⟩ := Conv2dK1x1_builds_once 16384
    ⟨⟨⟨262144, 4⟩, Except.ok 7, 256, Except.ok ()⟩, [1, 8, 8, 16], [1, 8, 8, 32],
      true, 1, 1, [0, 0], [1, 1]⟩
    [⟨⟨⟨262144, 4⟩, Except.ok 9, 128, Except.ok ()⟩, [1, 4, 4, 16], [1, 4, 4, 32],
      true, 1, 1, [0, 0], [1, 1]⟩]
    ⟨none, [], 0⟩ 7 rfl rfl rfl
  obtain ⟨rs, hrs⟩ := h2 (by decide) (by decide) (by decide)
  obtain ⟨r, rs2, rfl, b1, w1, hz, _, _, hst⟩ := h1 rs hrs
  obtain ⟨_, rs3, _, g, e⟩ := invokeAll_cons_some _ _ _ _ _ hrs
  obtain ⟨r2, rs4, _, g2, e2⟩ := invokeAll_cons_some _ _ _ _ _ g
  simp only [invokeAll, Option.some.injEq] at g2
  have hrs2 : rs2 = [r2] := by
    have := (List.cons.inj e).2
    rw [this, e2, ← g2]
  subst hrs2
  refine ⟨_, hrs, ?_, ?_, ?_⟩
  · simp only [List.map_cons, List.map_nil, b1, (hz r2 (List.mem_singleton_self _)).1]
  · simp only [List.map_cons, List.map_nil, w1, (hz r2 (List.mem_singleton_self _)).2]
  · have e1 := hst r (List.mem_cons_self _ _)
    have e3 := hst r2 (List.mem_cons_of_mem _ (List.mem_singleton_self _))
    simp only [List.map_cons, List.map_nil, e1.1, e1.2, e3.1, e3.2]
    rfl


/-! ### The local work size against the global work size -/

/-- The entries of the local work size of the 1x1 convolution against the
global work size: entries 1 and 2 stay within it, entry 0 stays within the
larger of `gws[0]` and `base`. -/
theorem Conv2dK1x1_LocalWS_dims (kBase : Nat) (executor : OpenclExecutor)
    (gws : List Nat) (kwg_size : Nat)
    (hk : 1 ≤ kBase) (hg0 : 1 ≤ gws.getD 0 0) (hg1 : 1 ≤ gws.getD 1 0)
    (hkwg : 1 ≤ kwg_size) (hkwg32 : kwg_size < 4294967296)
    (hcu : 1 ≤ executor.device_compute_units) :
    ∃ l0 l1 l2, Conv2dK1x1.LocalWS kBase executor gws kwg_size = some [l0, l1, l2, 0] ∧
      l0 ≤ max (gws.getD 0 0)
        (max (toU32 (executor.device_global_mem_cache_size / kBase)) 1) ∧
      (max (toU32 (executor.device_global_mem_cache_size / kBase)) 1 ≤ gws.getD 0 0 →
        l0 ≤ gws.getD 0 0) ∧
      l1 ≤ gws.getD 1 0 ∧ (1 ≤ gws.getD 2 0 → l2 ≤ gws.getD 2 0) := by
  have hne : kwg_size ≠ 0 := by omega
  have hl1 : 1 ≤ min (gws.getD 1 0) kwg_size := le_min hg1 hkwg
  unfold Conv2dK1x1.LocalWS
  rw [if_neg hne]
  simp only [Option.bind_eq_bind, udiv_pos _ _ hk, Option.some_bind, udiv_pos _ _ hl1,
    udiv_pos _ Conv2dK1x1.kernel_cache_size (by decide)]
  generalize hbase : max (toU32 (executor.device_global_mem_cache_size / kBase)) 1 = base
  have hb1 : 1 ≤ base := by rw [← hbase]; exact le_max_right _ _
  have hl1g : min (gws.getD 1 0) kwg_size ≤ gws.getD 1 0 := min_le_left _ _
  generalize hl1def : min (gws.getD 1 0) kwg_size = l1 at hl1 hl1g ⊢
  have hl1k : l1 ≤ kwg_size := by rw [← hl1def]; exact min_le_right _ _
  generalize hl0def :
    (if l1 ≥ base then min (gws.getD 0 0) base
      else if (1 < l1 ∧ l1 < base) ∧ gws.getD 0 0 ≥ Conv2dK1x1.lws_limit then
        min (gws.getD 0 0) base
      else if gws.getD 0 0 / 8 < base then max (gws.getD 0 0 / 4) base
      else gws.getD 0 0 / 8) = l0p
  have hl0p : 1 ≤ l0p := by
    rw [← hl0def]
    split_ifs with h1 h2 h3
    · exact le_min hg0 hb1
    · exact le_min hg0 hb1
    · exact le_trans hb1 (le_max_right _ _)
    · omega
  have hl0pm : l0p ≤ max (gws.getD 0 0) base := by
    rw [← hl0def]
    split_ifs with h1 h2 h3
    · exact le_trans (min_le_left _ _) (le_max_left _ _)
    · exact le_trans (min_le_left _ _) (le_max_left _ _)
    · exact max_le (le_trans (Nat.div_le_self _ _) (le_max_left _ _)) (le_max_right _ _)
    · exact le_trans (Nat.div_le_self _ _) (le_max_left _ _)
  have hr : 1 ≤ kwg_size / l1 := by
    rw [Nat.le_div_iff_mul_le (by omega)]; omega
  generalize hl0 : min l0p (kwg_size / l1) = l0
  have hl0pos : 1 ≤ l0 := by rw [← hl0]; exact le_min hl0p hr
  have hl0le : l0 ≤ kwg_size / l1 := by rw [← hl0]; exact min_le_right _ _
  have hl0m : l0 ≤ max (gws.getD 0 0) base := by
    rw [← hl0]; exact le_trans (min_le_left _ _) hl0pm
  have hsize : l0 * l1 ≤ kwg_size := by
    calc l0 * l1 ≤ (kwg_size / l1) * l1 := Nat.mul_le_mul_right _ hl0le
      _ ≤ kwg_size := Nat.div_mul_le_self _ _
  have hsize1 : 1 ≤ l0 * l1 := Nat.one_le_iff_ne_zero.mpr (Nat.mul_ne_zero (by omega) (by omega))
  have hu : toU32 (l0 * l1) = l0 * l1 := by
    unfold toU32; exact Nat.mod_eq_of_lt (by omega)
  rw [hu]
  simp only [udiv_pos _ _ hsize1, Option.some_bind, udiv_pos _ _ hcu]
  refine ⟨l0, l1, _, rfl, hl0m, ?_, hl1g, ?_⟩
  · intro hbg
    exact le_trans hl0m (max_le (le_refl _) hbg)
  · intro hg2
    apply max_le _ hg2
    apply le_trans (min_le_left _ _)
    split_ifs
    · exact min_le_left _ _
    · exact min_le_right _ _

/-- C31, counterexample: with a cache of 262144 bytes, 4 compute units,
`kBaseGPUMemCacheSize = 16384`, `kwg_size = 256` and the global work size
`(8, 2, 8)`, all entries at least 1, the 1x1-convolution `LocalWS` returns
`(16, 2, 8)`: `lws[0] = 16` exceeds `gws[0] = 8`. -/
theorem Conv2dK1x1_LocalWS_lws0_exceeds_gws0 :
    Conv2dK1x1.LocalWS 16384 ⟨262144, 4⟩ [8, 2, 8] 256 = some [16, 2, 8, 0] ∧
      ¬ (([16, 2, 8, 0] : List Nat).getD 0 0 ≤ ([8, 2, 8] : List Nat).getD 0 0) := by
  decide

/-- C31 (as amended): for the 1x1-convolution `LocalWS`, for every global work
size with all three entries at least 1, every `kwg_size >= 1` (a `uint32_t`),
every cache size and every compute-unit count at least 1 (and a positive
constant `kBaseGPUMemCacheSize`), the function returns a local work size with
`lws[i] <= gws[i]` for `i = 1, 2` and
`lws[0] <= max(gws[0], base)`, `base = max(cache_size / kBaseGPUMemCacheSize, 1)`
as a `uint32_t`; in particular `lws[0] <= gws[0]` whenever `gws[0] >= base`. -/
theorem Conv2dK1x1_LocalWS_le_gws (kBase : Nat) (executor : OpenclExecutor)
    (gws : List Nat) (kwg_size : Nat)
    (hk : 1 ≤ kBase) (hg0 : 1 ≤ gws.getD 0 0) (hg1 : 1 ≤ gws.getD 1 0)
    (hg2 : 1 ≤ gws.getD 2 0)
    (hkwg : 1 ≤ kwg_size) (hkwg32 : kwg_size < 4294967296)
    (hcu : 1 ≤ executor.device_compute_units) :
    ∃ lws, Conv2dK1x1.LocalWS kBase executor gws kwg_size = some lws ∧
      lws.getD 1 0 ≤ gws.getD 1 0 ∧ lws.getD 2 0 ≤ gws.getD 2 0 ∧
      lws.getD 0 0 ≤ max (gws.getD 0 0)
        (max (toU32 (executor.device_global_mem_cache_size / kBase)) 1) ∧
      (max (toU32 (executor.device_global_mem_cache_size / kBase)) 1 ≤ gws.getD 0 0 →
        lws.getD 0 0 ≤ gws.getD 0 0) := by
  obtain ⟨l0, l1, l2, h, h0, h0g, h1, h2⟩ :=
    Conv2dK1x1_LocalWS_dims kBase executor gws kwg_size hk hg0 hg1 hkwg hkwg32 hcu
  exact ⟨_, h, h1, h2 hg2, h0, h0g⟩

theorem Conv2dK1x1_LocalWS_le_gws_witness :
    ∃ lws, Conv2dK1x1.LocalWS 16384 ⟨262144, 4⟩ [8, 2, 8] 256 = some lws ∧
      lws.getD 1 0 ≤ 2 ∧ lws.getD 2 0 ≤ 8 ∧ lws.getD 0 0 ≤ max 8 (max (toU32 (262144 / 16384)) 1) ∧
      (max (toU32 (262144 / 16384)) 1 ≤ 8 → lws.getD 0 0 ≤ 8) :=
  Conv2dK1x1_LocalWS_le_gws 16384 ⟨262144, 4⟩ [8, 2, 8] 256 (by decide) (by decide)
    (by decide) (by decide) (by decide) (by decide) (by decide)

/-- C32: for the 3x3-convolution `LocalWS`, for every global work size with all
three entries at least 1, every `kwg_size >= 1` (a `uint32_t`), every cache
size and every compute-unit count (and a positive constant
`kBaseGPUMemCacheSize`), the function returns a local work size with
`lws[i] <= gws[i]` for `i = 0, 1, 2`. -/
theorem Conv2dK3x3_LocalWS_le_gws (kBase : Nat) (executor : OpenclExecutor)
    (gws : List Nat) (kwg_size : Nat)
    (hk : 1 ≤ kBase) (hg0 : 1 ≤ gws.getD 0 0) (hg1 : 1 ≤ gws.getD 1 0)
    (hg2 : 1 ≤ gws.getD 2 0)
    (hkwg : 1 ≤ kwg_size) (hkwg32 : kwg_size < 4294967296) :
    ∃ lws, Conv2dK3x3.LocalWS kBase executor gws kwg_size = some lws ∧
      lws.getD 0 0 ≤ gws.getD 0 0 ∧ lws.getD 1 0 ≤ gws.getD 1 0 ∧
      lws.getD 2 0 ≤ gws.getD 2 0 := by
  obtain ⟨l0, l1, l2, h, _, h0, h1, _, _, _, _, h2⟩ :=
    Conv2dK3x3_LocalWS_bounds kBase executor gws kwg_size hk hg0 hg1 hkwg hkwg32
  refine ⟨_, h, h0, ?_, h2 hg2⟩
  simp only [List.getD_cons_zero, List.getD_cons_succ]
  rw [h1]
  exact min_le_left _ _

theorem Conv2dK3x3_LocalWS_le_gws_witness :
    ∃ lws, Conv2dK3x3.LocalWS 16384 ⟨262144, 0⟩ [8, 2, 8] 256 = some lws ∧
      lws.getD 0 0 ≤ 8 ∧ lws.getD 1 0 ≤ 2 ∧ lws.getD 2 0 ≤ 8 :=
  Conv2dK3x3_LocalWS_le_gws 16384 ⟨262144, 0⟩ [8, 2, 8] 256 (by decide) (by decide)
    (by decide) (by decide) (by decide) (by decide)

/-- C33: for the 1x1- and the 3x3-convolution `LocalWS`, for every global work
size with entries 0 and 1 at least 1 (in particular all three), every
`kwg_size >= 1` (a `uint32_t`), every cache size and every compute-unit count
at least 1 (and a positive constant `kBaseGPUMemCacheSize`), the function
returns a local work size, no division having a zero divisor, and
`lws[0], lws[1], lws[2] >= 1`; `lws[2]` is the maximum of a bounded value and
1. -/
theorem LocalWS_entries_pos (kBase : Nat) (executor : OpenclExecutor)
    (gws : List Nat) (kwg_size : Nat)
    (hk : 1 ≤ kBase) (hg0 : 1 ≤ gws.getD 0 0) (hg1 : 1 ≤ gws.getD 1 0)
    (hkwg : 1 ≤ kwg_size) (hkwg32 : kwg_size < 4294967296)
    (hcu : 1 ≤ executor.device_compute_units) :
    (∃ lws, Conv2dK1x1.LocalWS kBase executor gws kwg_size = some lws ∧
      1 ≤ lws.getD 0 0 ∧ 1 ≤ lws.getD 1 0 ∧ 1 ≤ lws.getD 2 0) ∧
    (∃ lws, Conv2dK3x3.LocalWS kBase executor gws kwg_size = some lws ∧
      1 ≤ lws.getD 0 0 ∧ 1 ≤ lws.getD 1 0 ∧ 1 ≤ lws.getD 2 0) := by
  constructor
  · obtain ⟨l0, l1, l2, h, h0, h1, _, _, h2, _⟩ :=
      Conv2dK1x1_LocalWS_bounds kBase executor gws kwg_size hk hg0 hg1 hkwg hkwg32 hcu
    refine ⟨_, h, h0, ?_, h2⟩
    simp only [List.getD_cons_zero, List.getD_cons_succ]
    rw [h1]
    exact le_min hg1 hkwg
  · obtain ⟨l0, l1, l2, h, h0, _, h1, _, _, h2, _⟩ :=
      Conv2dK3x3_LocalWS_bounds kBase executor gws kwg_size hk hg0 hg1 hkwg hkwg32
    refine ⟨_, h, h0, ?_, h2⟩
    simp only [List.getD_cons_zero, List.getD_cons_succ]
    rw [h1]
    exact le_min hg1 hkwg

theorem LocalWS_entries_pos_witness :
    (∃ lws, Conv2dK1x1.LocalWS 16384 ⟨0, 1⟩ [1, 1, 1] 1 = some lws ∧
      1 ≤ lws.getD 0 0 ∧ 1 ≤ lws.getD 1 0 ∧ 1 ≤ lws.getD 2 0) ∧
    (∃ lws, Conv2dK3x3.LocalWS 16384 ⟨0, 1⟩ [1, 1, 1] 1 = some lws ∧
      1 ≤ lws.getD 0 0 ∧ 1 ≤ lws.getD 1 0 ∧ 1 ≤ lws.getD 2 0) :=
  LocalWS_entries_pos 16384 ⟨0, 1⟩ [1, 1, 1] 1 (by decide) (by decide) (by decide)
    (by decide) (by decide) (by decide)


/-- The excess of `lws[0]` over `gws[0]` does not depend on the value of the
constant `kBaseGPUMemCacheSize`: for every positive value `k` of it, a cache of
`16 * k` bytes gives `base = 16` and, on the global work size `(8, 2, 8)` with
`kwg_size = 256`, `lws[0] = 16`. -/
theorem Conv2dK1x1_LocalWS_lws0_any_base (k : Nat) (hk : 1 ≤ k) :
    ∃ l2, Conv2dK1x1.LocalWS k ⟨16 * k, 4⟩ [8, 2, 8] 256 = some [16, 2, l2, 0] := by
  unfold Conv2dK1x1.LocalWS
  have hq : 16 * k / k = 16 := Nat.mul_div_cancel _ (by omega)
  simp only [Option.bind_eq_bind, udiv_pos _ _ hk, Option.some_bind, hq]
  have h16 : toU32 16 = 16 := by decide
  rw [h16]
  simp only [List.getD_cons_zero, List.getD_cons_succ]
  have e1 : udiv 256 (min 2 256) = some 128 := by decide
  have e2 : (if min 2 256 ≥ max 16 1 then min 8 (max 16 1)
      else if (1 < min 2 256 ∧ min 2 256 < max 16 1) ∧ 8 ≥ Conv2dK1x1.lws_limit then
        min 8 (max 16 1)
      else if 8 / 8 < max 16 1 then max (8 / 4) (max 16 1) else 8 / 8) = 16 := by decide
  have e3 : toU32 (min 16 128 * min 2 256) = 32 := by decide
  have e4 : min 16 128 = 16 := by decide
  have e5 : min 2 256 = 2 := by decide
  rw [if_neg (by decide), e1]
  simp only [Option.some_bind, e2, e3, udiv_pos _ Conv2dK1x1.kernel_cache_size (by decide),
    udiv_pos _ 32 (by decide), udiv_pos _ 4 (by decide), e4, e5]
  exact ⟨_, rfl⟩


/-! ### The precondition of `LSTMCellKernel::Compute` -/

/-- When the precondition holds, the invocation makes at least one call. -/
theorem LSTMCellKernel_Compute_calls (self : LSTMCellKernel) (a : LSTMArgs)
    (h : a.pre_output_shape.length = 2 ∧ a.pre_output_shape.getD 1 0 % 4 = 0) :
    (LSTMCellKernel.Compute self a).2.2 ≠ [] := by
  unfold LSTMCellKernel.Compute
  rw [if_neg (not_not.mpr h)]
  dsimp only
  by_cases hk : self.kernel_ = none
  · rw [if_pos hk]
    rcases a.device.BuildKernel with e | handle
    · simp
    · dsimp only
      split_ifs
      · rcases a.device.OutputResize with e1 | u1
        · simp
        · rcases a.device.CellResize with e2 | u2
          · simp
          · rcases a.device.TuningOrRun2DKernel with e3 | u3 <;> simp
      · rcases a.device.TuningOrRun2DKernel with e3 | u3 <;> simp
  · rw [if_neg hk]
    dsimp only
    split_ifs
    · rcases a.device.OutputResize with e1 | u1
      · simp
      · rcases a.device.CellResize with e2 | u2
        · simp
        · rcases a.device.TuningOrRun2DKernel with e3 | u3 <;> simp
    · rcases a.device.TuningOrRun2DKernel with e3 | u3 <;> simp

/-- C34: `LSTMCellKernel::Compute` gets past its precondition check, and makes
its first call, exactly when `pre_output` has rank 2 and its second dimension
(the number of hidden units) is a multiple of 4; otherwise it fails with the
message of the check, with the kernel object as it was and without any call:
no build of the kernel, no argument bound, no launch. -/
theorem LSTMCellKernel_Compute_precondition (self : LSTMCellKernel) (a : LSTMArgs) :
    ((LSTMCellKernel.Compute self a).2.2 ≠ [] ↔
      (a.pre_output_shape.length = 2 ∧ a.pre_output_shape.getD 1 0 % 4 = 0)) ∧
    (¬ (a.pre_output_shape.length = 2 ∧ a.pre_output_shape.getD 1 0 % 4 = 0) →
      LSTMCellKernel.Compute self a
        = (Except.error "LSTM hidden units should be a multiple of 4", self, [])) := by
  have hfail : ¬ (a.pre_output_shape.length = 2 ∧ a.pre_output_shape.getD 1 0 % 4 = 0) →
      LSTMCellKernel.Compute self a
        = (Except.error "LSTM hidden units should be a multiple of 4", self, []) := by
    intro h
    unfold LSTMCellKernel.Compute
    rw [if_pos h]
  refine ⟨⟨?_, LSTMCellKernel_Compute_calls self a⟩, hfail⟩
  intro hc
  by_contra hn
  rw [hfail hn] at hc
  exact hc rfl

theorem LSTMCellKernel_Compute_precondition_witness :
    LSTMCellKernel.Compute ⟨none, 0, []⟩
        ⟨⟨Except.ok 7, 256, Except.ok (), Except.ok (), Except.ok ()⟩,
          [2, 6], [2, 10], [2, 10], [2, 10]⟩
      = (Except.error "LSTM hidden units should be a multiple of 4", ⟨none, 0, []⟩, []) ∧
    (LSTMCellKernel.Compute ⟨none, 0, []⟩
        ⟨⟨Except.ok 7, 256, Except.ok (), Except.ok (), Except.ok ()⟩,
          [2, 6], [2, 8], [2, 8], [2, 8]⟩).2.2 ≠ [] :=
  ⟨(LSTMCellKernel_Compute_precondition ⟨none, 0, []⟩
      ⟨⟨Except.ok 7, 256, Except.ok (), Except.ok (), Except.ok ()⟩,
        [2, 6], [2, 10], [2, 10], [2, 10]⟩).2 (by decide),
   (LSTMCellKernel_Compute_precondition ⟨none, 0, []⟩
      ⟨⟨Except.ok 7, 256, Except.ok (), Except.ok (), Except.ok ()⟩,
        [2, 6], [2, 8], [2, 8], [2, 8]⟩).1.mpr (by decide)⟩


/-! ### Invariants of the plan of `Simplify` -/

/-- C35: for every axis list `Validate` accepts on an input of rank `r`, the
bitmap index `Simplify` computes for each axis (after the normalisation
`axis + r` of a negative axis and after the data-format remap, when it applies)
lies in `[0, r)`, so the write `bitmap[index] = true` into the bitmap of length
`r` is in bounds; the loop of the empty axis list writes the positions below
`r` only. -/
theorem Simplify_bitmap_index_in_bounds (op : ReduceOp) (r : Nat)
    (hv : Validate op r = Except.ok ()) :
    (∀ a ∈ op.axis_,
      0 ≤ axisIndex op.has_data_format op.is_uint8 r a ∧
        axisIndex op.has_data_format op.is_uint8 r a < (r : Int)) ∧
    (∀ a ∈ op.axis_, ∀ bitmap : List Bool, bitmap.length = r →
      (axisIndex op.has_data_format op.is_uint8 r a).toNat < bitmap.length ∧
        setBit bitmap (axisIndex op.has_data_format op.is_uint8 r a)
          = bitmap.set (axisIndex op.has_data_format op.is_uint8 r a).toNat true) ∧
    (markAxes op r (List.replicate r false)).length = r := by
  have hall := (Validate_ok_iff op r).mp hv
  refine ⟨fun a ha => axisIndex_range _ _ r a (hall a ha), ?_, ?_⟩
  · intro a ha bitmap hlen
    obtain ⟨h0, h1⟩ := axisIndex_range op.has_data_format op.is_uint8 r a (hall a ha)
    constructor
    · rw [hlen]; omega
    · unfold setBit
      rw [if_pos h0]
  · rw [markAxes_eq, reducedMask_length]

theorem Simplify_bitmap_index_in_bounds_witness :
    0 ≤ axisIndex 1 false 4 (-1) ∧ axisIndex 1 false 4 (-1) < 4 :=
  (Simplify_bitmap_index_in_bounds (mkOp ReduceType.SUM [-1, 2, -3] false 1 false) 4
    (by decide)).1 (-1) (by decide)

theorem nonReducedGroups_cons (f : Bool) (x : Nat) (xs : List Nat) :
    nonReducedGroups f (x :: xs)
      = (if f then [] else [x]) ++ nonReducedGroups (!f) xs := by
  unfold nonReducedGroups
  rw [List.length_cons, List.range_succ_eq_map, List.filterMap_cons, List.filterMap_map]
  have hfun : ((fun k => if xor f (decide (k % 2 = 1)) then none
        else some ((x :: xs).getD k 0)) ∘ Nat.succ)
      = (fun k => if xor (!f) (decide (k % 2 = 1)) then none else some (xs.getD k 0)) := by
    funext k
    simp only [Function.comp, Nat.succ_eq_add_one, List.getD_cons_succ]
    have hk : (k + 1) % 2 = 1 ↔ ¬ (k % 2 = 1) := by omega
    by_cases h : k % 2 = 1
    · have h2 : ¬ ((k + 1) % 2 = 1) := by omega
      cases f <;> simp [h, h2]
    · have h2 : (k + 1) % 2 = 1 := by omega
      cases f <;> simp [h, h2]
  rw [hfun]
  cases f <;> simp

/-- The product of the non-reduced sizes of a list of groups whose statuses
alternate, starting at `f`. -/
theorem keptProdZ_alternating : ∀ (C : List (Nat × Bool)) (f : Bool),
    (∀ k (hk : k < C.length), (C[k]).2 = xor f (decide (k % 2 = 1))) →
    keptProdZ C = (nonReducedGroups f (C.map Prod.fst)).prod := by
  intro C
  induction C with
  | nil =>
    intro f _
    simp [keptProdZ, nonReducedGroups]
  | cons c rest ih =>
    intro f h
    obtain ⟨n, b⟩ := c
    have hb : b = f := by
      have := h 0 (by simp)
      simpa using this
    have hrest : ∀ k (hk : k < rest.length), (rest[k]).2 = xor (!f) (decide (k % 2 = 1)) := by
      intro k hk
      have := h (k + 1) (by simp; omega)
      simp only [List.getElem_cons_succ] at this
      rw [this]
      by_cases h1 : k % 2 = 1
      · have h2 : ¬ ((k + 1) % 2 = 1) := by omega
        cases f <;> simp [h1, h2]
      · have h2 : (k + 1) % 2 = 1 := by omega
        cases f <;> simp [h1, h2]
    rw [List.map_cons, nonReducedGroups_cons, List.prod_append, ← ih (!f) hrest]
    subst hb
    cases b
    · simp [keptProdZ]
    · simp [keptProdZ]

/-- C36: for every input shape and every axis list `Validate` accepts, the
product of `out_shape_` (1 for the empty shape) equals the product of the
non-reduced groups of `data_reshape_`, the groups `k` for which
`reduce_first_axis_ XOR (k odd)` is false; so the size of the output tensor
resized to `out_shape_` is the number of output cells of the collapsed plan. -/
theorem Simplify_out_shape_prod_groups (op : ReduceOp) (shape : List Nat)
    (_hv : Validate op shape.length = Except.ok ()) :
    shapeProd (Simplify op shape).out_shape_
        = (nonReducedGroups (Simplify op shape).reduce_first_axis_
            (Simplify op shape).data_reshape_).prod ∧
      ∀ output : Tensor,
        (output.Resize (Simplify op shape).out_shape_).data.length
          = (nonReducedGroups (Simplify op shape).reduce_first_axis_
              (Simplify op shape).data_reshape_).prod := by
  obtain ⟨C, hdr, halt, _, hkept, _⟩ := Simplify_plan op shape
  have h : shapeProd (Simplify op shape).out_shape_
      = (nonReducedGroups (Simplify op shape).reduce_first_axis_
          (Simplify op shape).data_reshape_).prod := by
    rw [out_shape_prod, ← hkept, hdr]
    exact keptProdZ_alternating C _ halt
  exact ⟨h, fun output => by rw [Resize_data_length, h]⟩

theorem Simplify_out_shape_prod_groups_witness :
    shapeProd (Simplify (mkOp ReduceType.SUM [1, 3] true 0 false) [2, 3, 4, 5]).out_shape_
      = (nonReducedGroups
          (Simplify (mkOp ReduceType.SUM [1, 3] true 0 false) [2, 3, 4, 5]).reduce_first_axis_
          (Simplify (mkOp ReduceType.SUM [1, 3] true 0 false) [2, 3, 4, 5]).data_reshape_).prod :=
  (Simplify_out_shape_prod_groups (mkOp ReduceType.SUM [1, 3] true 0 false) [2, 3, 4, 5]
    (by decide)).1

theorem collapseFrom_entries_ge : ∀ (rest : List (Nat × Bool)) (prev : Bool) (acc : Nat),
    2 ≤ acc → (∀ x ∈ rest, 1 ≤ x.1) →
    ∀ g ∈ (collapseFrom prev acc rest).map Prod.fst, 2 ≤ g := by
  intro rest
  induction rest with
  | nil =>
    intro prev acc hacc _ g hg
    simp only [collapseFrom, List.map_cons, List.map_nil, List.mem_singleton] at hg
    omega
  | cons c rest ih =>
    intro prev acc hacc hpos g hg
    obtain ⟨n, b⟩ := c
    have hn : 1 ≤ n := hpos (n, b) (List.mem_cons_self _ _)
    have hrest : ∀ x ∈ rest, 1 ≤ x.1 := fun x hx => hpos x (List.mem_cons_of_mem _ hx)
    simp only [collapseFrom] at hg
    by_cases hn1 : n = 1
    · rw [if_pos hn1, if_neg (fun hc => hc rfl)] at hg
      exact ih prev (acc * n) (by nlinarith) hrest g hg
    · rw [if_neg hn1] at hg
      by_cases hc : prev ≠ b
      · rw [if_pos hc] at hg
        simp only [List.map_cons, List.mem_cons] at hg
        rcases hg with rfl | hg
        · exact hacc
        · exact ih _ n (by omega) hrest g hg
      · rw [if_neg hc] at hg
        exact ih prev (acc * n) (by nlinarith) hrest g hg

/-- C37: for every input shape with all dimensions at least 1 and every axis
list `Validate` accepts, either every input dimension is 1 and
`data_reshape_ == [1]`, or some dimension is not 1 and every entry of
`data_reshape_` is at least 2; so `data_reshape_ == [1]` exactly when every
input dimension is 1, and a group of size 1 never stands beside other
groups. -/
theorem Simplify_data_reshape_entries (op : ReduceOp) (shape : List Nat)
    (_hv : Validate op shape.length = Except.ok ()) (hpos : ∀ d ∈ shape, 1 ≤ d) :
    (((∀ d ∈ shape, d = 1) ∧ (Simplify op shape).data_reshape_ = [1]) ∨
      ((∃ d ∈ shape, d ≠ 1) ∧ ∀ g ∈ (Simplify op shape).data_reshape_, 2 ≤ g)) ∧
    ((Simplify op shape).data_reshape_ = [1] ↔ ∀ d ∈ shape, d = 1) := by
  have hcases : ((∀ d ∈ shape, d = 1) ∧ (Simplify op shape).data_reshape_ = [1]) ∨
      ((∃ d ∈ shape, d ≠ 1) ∧ ∀ g ∈ (Simplify op shape).data_reshape_, 2 ≤ g) := by
    by_cases hu : ∀ d ∈ shape, d = 1
    · exact Or.inl ⟨hu, (Simplify_unit_plan op shape hu).1⟩
    · right
      have hnu : ∃ d ∈ shape, d ≠ 1 := by
        by_contra hc
        apply hu
        intro d hd
        by_contra hd1
        exact hc ⟨d, hd, hd1⟩
      refine ⟨hnu, ?_⟩
      obtain ⟨d, hd, hdm, _, hstop, _, hdr, _⟩ := Simplify_non_unit op shape hnu
      rw [hdr]
      apply collapseFrom_entries_ge
      · have := hpos shape[d] (List.getElem_mem _)
        omega
      · intro x hx
        have hx1 : x.1 ∈ shape.drop (d + 1) := (List.of_mem_zip hx).1
        exact hpos x.1 (List.mem_of_mem_drop hx1)
  refine ⟨hcases, ?_⟩
  constructor
  · intro h1
    rcases hcases with ⟨hu, _⟩ | ⟨_, hge⟩
    · exact hu
    · have := hge 1 (by rw [h1]; simp)
      omega
  · intro hu
    exact (Simplify_unit_plan op shape hu).1

theorem Simplify_data_reshape_entries_witness :
    2 ≤ (Simplify (mkOp ReduceType.SUM [1] false 0 false) [1, 2, 1, 3]).data_reshape_.getD 1 0 := by
  rcases (Simplify_data_reshape_entries (mkOp ReduceType.SUM [1] false 0 false) [1, 2, 1, 3]
    (by decide) (by decide)).1 with ⟨h, _⟩ | ⟨_, h⟩
  · exact absurd (h 2 (by decide)) (by decide)
  · exact h _ (by decide)


/-! ### The device placement of `Reduce` -/

/-- C38: the device-placement function of `Reduce`, for an operator with at
least one input, returns a set that always contains the CPU runtime and that
contains the OpenCL runtime exactly when either the operator's output-shape
count differs from its output count, or `keepdims` is true and the axis list is
exactly `[1, 2]` or exactly `[3]` and the shape of the first input is known and
has rank 4. -/
theorem DevicePlacerFunc_runtimes (op : OperatorDef)
    (tensor_shape_info : List (String × List Nat)) (input0 : String) (rest : List String)
    (hin : op.input = input0 :: rest) :
    ∃ s, RegisterReduce.DevicePlacerFunc op tensor_shape_info = some s ∧
      RuntimeType.RT_CPU ∈ s ∧
      (RuntimeType.RT_OPENCL ∈ s ↔
        (op.output_shape_size ≠ op.output_size ∨
          (op.keepdims = some true ∧ (op.axis = [1, 2] ∨ op.axis = [3]) ∧
            ∃ shape, tensor_shape_info.lookup input0 = some shape ∧ shape.length = 4))) := by
  unfold RegisterReduce.DevicePlacerFunc
  by_cases h1 : op.output_shape_size ≠ op.output_size
  · rw [if_pos h1]
    exact ⟨_, rfl, by simp, by simp [h1]⟩
  · rw [if_neg h1]
    dsimp only
    have hk : op.keepdims.getD false = true ↔ op.keepdims = some true := by
      cases op.keepdims with
      | none => simp
      | some b => simp
    by_cases h2 : op.keepdims.getD false = true
    · have h2s := hk.mp h2
      rw [h2]
      simp only [Bool.not_true, Bool.false_eq_true, if_false]
      have hax : (op.axis.length = 2 ∧ op.axis.getD 0 0 = 1 ∧ op.axis.getD 1 0 = 2 ∨
          op.axis.length = 1 ∧ op.axis.getD 0 0 = 3) ↔ (op.axis = [1, 2] ∨ op.axis = [3]) := by
        constructor
        · rintro (⟨hl, ha, hb⟩ | ⟨hl, ha⟩)
          · left
            match hax2 : op.axis, hl, ha, hb with
            | [x, y], _, ha, hb =>
              simp only [List.getD_cons_zero, List.getD_cons_succ] at ha hb
              rw [ha, hb]
          · right
            match hax2 : op.axis, hl, ha with
            | [x], _, ha =>
              simp only [List.getD_cons_zero] at ha
              rw [ha]
        · rintro (h | h)
          · left; rw [h]; simp
          · right; rw [h]; simp
      by_cases h3 : (op.axis.length = 2 ∧ op.axis.getD 0 0 = 1 ∧ op.axis.getD 1 0 = 2 ∨
          op.axis.length = 1 ∧ op.axis.getD 0 0 = 3)
      · rw [if_neg (not_not.mpr h3), hin]
        dsimp only
        have h3s := hax.mp h3
        rcases hl : tensor_shape_info.lookup input0 with _ | shape
        · exact ⟨_, rfl, by simp, by simp [h1]⟩
        · dsimp only
          by_cases h4 : shape.length ≠ 4
          · rw [if_pos h4]
            refine ⟨_, rfl, by simp, ?_⟩
            simp only [List.mem_singleton, reduceCtorEq, false_iff]
            intro hor
            rcases hor with h | ⟨_, _, sh, hsh, hlen⟩
            · exact h1 h
            · have hsh2 : shape = sh := Option.some.inj hsh
              rw [hsh2] at h4
              exact h4 hlen
          · rw [if_neg h4]
            refine ⟨_, rfl, by simp, ?_⟩
            refine ⟨fun _ => Or.inr ⟨h2s, h3s, shape, rfl, not_not.mp h4⟩, fun _ => ?_⟩
            simp
      · rw [if_pos h3]
        refine ⟨_, rfl, by simp, ?_⟩
        simp only [List.mem_singleton, reduceCtorEq, false_iff]
        rintro (h | ⟨_, hx, _⟩)
        · exact h1 h
        · exact h3 (hax.mpr hx)
    · have h2f : op.keepdims.getD false = false := by
        cases h : op.keepdims.getD false
        · rfl
        · exact absurd h h2
      rw [h2f]
      simp only [Bool.not_false, if_true]
      refine ⟨_, rfl, by simp, ?_⟩
      simp only [List.mem_singleton, reduceCtorEq, false_iff]
      rintro (h | ⟨hx, _⟩)
      · exact h1 h
      · exact h2 (hk.mpr hx)

theorem DevicePlacerFunc_runtimes_witness :
    ∃ s, RegisterReduce.DevicePlacerFunc ⟨1, 1, some true, [1, 2], ["x"]⟩ [("x", [1, 8, 8, 16])]
        = some s ∧
      RuntimeType.RT_CPU ∈ s ∧
      (RuntimeType.RT_OPENCL ∈ s ↔
        ((1 : Nat) ≠ 1 ∨
          (some true = some true ∧ (([1, 2] : List Int) = [1, 2] ∨ ([1, 2] : List Int) = [3]) ∧
            ∃ shape, [("x", [1, 8, 8, 16])].lookup "x" = some shape ∧ shape.length = 4))) :=
  DevicePlacerFunc_runtimes ⟨1, 1, some true, [1, 2], ["x"]⟩ [("x", [1, 8, 8, 16])] "x" [] rfl

/-! ### The life cycle of `ApuWrapper` -/

/-- C39: `ApuWrapper::Init` on an uninitialised wrapper returns the result of
the delegate's initialisation and marks the wrapper initialised whether that
succeeded or failed; `Init` on an initialised wrapper returns false and changes
nothing, so a second `Init` without an intervening `Uninit` returns false, also
after any `Run` (which leaves the wrapper as it was); `Run` on a wrapper that is
not initialised returns false without evaluating; `Uninit` always returns true
and leaves the wrapper uninitialised. -/
theorem ApuWrapper_lifecycle (w : ApuWrapper) (ret ret2 : Bool) :
    (w.initialised_ = false →
      (w.Init ret).1 = ret ∧ (w.Init ret).2.1.initialised_ = true ∧
        (w.Init ret).2.2 = [ApuCall.New, ApuCall.Init] ∧
        (w.Init ret).2.1.Init ret2 = (false, (w.Init ret).2.1, []) ∧
        (w.Init ret).2.1.Run ret2 = some (ret2, (w.Init ret).2.1, [ApuCall.Eval])) ∧
    (w.initialised_ = true → w.Init ret = (false, w, [])) ∧
    (w.initialised_ = false → w.Run ret = some (false, w, [])) ∧
    (∀ r, w.Run ret = some r → r.2.1 = w) ∧
    ((w.Uninit).1 = true ∧ (w.Uninit).2.1.initialised_ = false ∧
      (w.Uninit).2.1.Run ret = some (false, (w.Uninit).2.1, [])) := by
  refine ⟨?_, ?_, ?_, ?_, ?_⟩
  · intro h
    simp [ApuWrapper.Init, ApuWrapper.Run, h]
  · intro h
    simp [ApuWrapper.Init, h]
  · intro h
    simp [ApuWrapper.Run, h]
  · intro r hr
    unfold ApuWrapper.Run at hr
    split_ifs at hr <;> (simp only [Option.some.injEq] at hr; rw [← hr])
  · simp [ApuWrapper.Uninit, ApuWrapper.Run]

theorem ApuWrapper_lifecycle_witness :
    ((⟨false, false⟩ : ApuWrapper).Init false).1 = false ∧
      ((⟨false, false⟩ : ApuWrapper).Init false).2.1.initialised_ = true ∧
      (((⟨false, false⟩ : ApuWrapper).Init false).2.1.Init true).1 = false ∧
      (⟨false, false⟩ : ApuWrapper).Run true = some (false, ⟨false, false⟩, []) := by
  obtain ⟨h1, _, h3, _, _⟩ := ApuWrapper_lifecycle ⟨false, false⟩ false true
  obtain ⟨a, b, _, d, _⟩ := h1 rfl
  refine ⟨a, b, ?_, ?_⟩
  · rw [d]
  · exact (ApuWrapper_lifecycle ⟨false, false⟩ true true).2.2.1 rfl

end Mace
